import Mathlib

/-! # Intersection kernel of the simple-features geometry library

A shallow embedding of `geom/alg_intersection.go` and `geom/canonicalise.go`,
of the constructor, the accessors, the simplicity test, the reversal and the
text form of `geom/type_line_string.go`, of the constructors, the area, the
centroid and the text form of `geom/type_polygon.go` and of the text parser
`geom/wkt_parser.go`, and theorems about the embedded functions.

Coordinates are rationals: every statement below is about exact arithmetic,
unless it names a function of the section on binary floating point, which
computes as a float64 does. A Go function that can panic returns an
`Outcome`, which keeps a panic apart from an error value handed back to the
caller.
-/

namespace Geom

/-! ## Primitives -/

/-- Planar coordinate pair, the `XY` of the sources, over exact rationals. -/
structure XY where
  X : ℚ
  Y : ℚ
deriving DecidableEq

namespace XY

/-- Modelled from the spec: `XY.Equals` is not among the sources; equality of
coordinates is equality of the two components. -/
def Equals (a b : XY) : Bool := decide (a = b)

/-- Modelled from the spec: `XY.Less` is not among the sources; the strict
order is `a.x < b.x`, or `a.x = b.x` and `a.y < b.y`. -/
def Less (a b : XY) : Bool :=
  decide (a.X < b.X) || (decide (a.X = b.X) && decide (a.Y < b.Y))

/-- Modelled from the spec: `XY.Sub` is not among the sources; componentwise
difference, as used in `a + t * (b - a)`. -/
def Sub (a b : XY) : XY := ⟨a.X - b.X, a.Y - b.Y⟩

/-- Modelled from the spec: `XY.Add` is not among the sources; componentwise
sum. -/
def Add (a b : XY) : XY := ⟨a.X + b.X, a.Y + b.Y⟩

/-- Modelled from the spec: `XY.Scale` is not among the sources; both
components multiplied by the scalar. -/
def Scale (a : XY) (s : ℚ) : XY := ⟨a.X * s, a.Y * s⟩

end XY

/-- Coordinates of a control point: `Coordinates{XY{x, y}}` in the parser. Only
the XY part is read by the kernel. -/
structure Coordinates where
  XY : XY
deriving DecidableEq

/-- Result of the orientation predicate. -/
inductive threePointOrientation where
  | rightTurn
  | collinear
  | leftTurn
deriving DecidableEq

open threePointOrientation

/-- Modelled from the spec: `orientation` is called by the kernel but is not
among the sources. With `s = (q.x - p.x)(r.y - p.y) - (q.y - p.y)(r.x - p.x)`
it is LEFT for `s > 0`, RIGHT for `s < 0` and COLLINEAR for `s = 0`. -/
def orientation (p q s : XY) : threePointOrientation :=
  let cp := (q.X - p.X) * (s.Y - p.Y) - (q.Y - p.Y) * (s.X - p.X)
  if 0 < cp then leftTurn
  else if cp < 0 then rightTurn
  else collinear

/-- Modelled from the spec: the `Envelope` type is not among the sources; it is
an axis-aligned box given by its two extreme corners. -/
structure Envelope where
  min : XY
  max : XY
deriving DecidableEq

/-- Modelled from the spec: `Envelope.Contains` is not among the sources;
membership is inclusive on all four edges. -/
def Envelope.Contains (e : Envelope) (p : XY) : Bool :=
  decide (e.min.X ≤ p.X) && decide (p.X ≤ e.max.X) &&
  decide (e.min.Y ≤ p.Y) && decide (p.Y ≤ e.max.Y)

/-! ## Geometry model -/

/-- Modelled from the spec: the declaration of `Point` is not among the
sources. The spec gives a Point an optional XY (empty is permitted), and the
kernel reads `point.coords.XY` without any check, so the coordinates are a
plain field and emptiness is a flag next to it. -/
structure Point where
  coords : Coordinates
  empty : Bool
deriving DecidableEq

/-- Line segment between two control points `a` and `b`. -/
structure Line where
  a : Coordinates
  b : Coordinates
deriving DecidableEq

/-- LineString of `type_line_string.go`: `coords` holds the control points
with consecutive repeats removed, `points` indexes into `coords`. -/
structure LineString where
  coords : List Coordinates
  points : List Nat
deriving DecidableEq

/-- LinearRing of the kernel: a wrapper around its line string `ls`. -/
structure LinearRing where
  ls : LineString
deriving DecidableEq

/-- Polygon of `type_polygon.go`: one outer ring and the holes. -/
structure Polygon where
  outer : LineString
  holes : List LineString
deriving DecidableEq

/-- MultiPoint: the list `pts` of its (possibly empty) points. -/
structure MultiPoint where
  pts : List Point
deriving DecidableEq

/-- MultiLineString: the list `lines` of its line strings. -/
structure MultiLineString where
  lines : List LineString
deriving DecidableEq

/-- MultiPolygon: the list of its polygons. -/
structure MultiPolygon where
  polys : List Polygon
deriving DecidableEq

/-- Geometry is the tagged union of the variants. `emptyLineString` and
`emptyPolygon` are the values built by `NewEmptyLineString` and
`NewEmptyPolygon` in the parser: `LineString.IsEmpty` and `Polygon.IsEmpty`
are constantly false in the sources, so the empty values are separate. -/
inductive Geometry where
  | point (p : Point)
  | line (l : Line)
  | lineString (ls : LineString)
  | linearRing (lr : LinearRing)
  | polygon (p : Polygon)
  | multiPoint (mp : MultiPoint)
  | multiLineString (mls : MultiLineString)
  | multiPolygon (mp : MultiPolygon)
  | geometryCollection (geoms : List Geometry)
  | emptyLineString
  | emptyPolygon

/-- Why a call panicked. `fuelExhausted` is no panic of the sources: it marks
a run of the embedded text parser that used up its recursion budget, and
`UnmarshalWKT_no_panic` shows that `UnmarshalWKT` never ends with it. -/
inductive PanicReason where
  | notImplemented
  | mustFailed
  | indexOutOfRange
  | fuelExhausted
  | reverseFailed
deriving DecidableEq

/-- Modelled from the spec: the tokeniser `wktLexer` is not among the sources.
It emits string tokens: identifiers, punctuation, the sign `-` and numeric
literals. A token is kept as its text, in the letter case it is written in
(the parser upper-cases the geometry tag itself), except for the numeric
literals, which are kept as what `strconv.ParseFloat` makes of them:
`number v` is a literal within the range of a float64, kept as the number `v`
it denotes, and `overflow` is a literal whose value is beyond the range of a
float64, such as `1e999`. -/
inductive Token where
  | text (s : String)
  | number (v : ℚ)
  | overflow
deriving DecidableEq

/-- Error values handed back to the caller. The errors of the text parser
carry the offending token. -/
inductive GeomError where
  | lineStringTooShort
  | lineCoincidentEndpoints
  | polygonRingEmpty
  | polygonRingNotClosed
  | polygonRingNotSimple
  | polygonNestedRings
  | polygonRingsMeetInMultiplePoints
  | polygonHoleOutside
  | polygonNotConnected
  | polygonNoOuterRing
  | wktUnexpectedEOF
  | wktExpectedEOF (tok : Token)
  | wktUnexpectedToken (tok : Token)
  | wktExpectedEmptyOrLeftParen (tok : Token)
  | wktExpectedRightParen (tok : Token)
  | wktExpectedCommaOrRightParen (tok : Token)
  | wktParseFloat (tok : Token)
  | wktParseFloatRange (tok : Token)
  | wktInvalidSignedNumericLiteral (tok : Token)
deriving DecidableEq

/-- Outcome of a Go call: a returned value, an error value returned to the
caller, or a panic that unwinds the caller. -/
inductive Outcome (α : Type) where
  | ok (v : α)
  | error (e : GeomError)
  | panic (r : PanicReason)
deriving DecidableEq

/-- Apply a function to the returned value, if there is one. -/
def Outcome.map {α β : Type} (f : α → β) : Outcome α → Outcome β
  | .ok v => .ok (f v)
  | .error e => .error e
  | .panic r => .panic r

/-- The helper `must` of the kernel: unwrap a value, panic on an error. -/
def must {α : Type} : Outcome α → Outcome α
  | .ok v => .ok v
  | .error _ => .panic .mustFailed
  | .panic r => .panic r

/-- NewPointXY builds a non-empty point. -/
def NewPointXY (xy : XY) : Point := ⟨⟨xy⟩, false⟩

/-- NewEmptyPoint builds the empty point; its coordinates are Go's zero value,
as in `OptionalCoordinates{Empty: true}` of the parser. -/
def NewEmptyPoint : Point := ⟨⟨⟨0, 0⟩⟩, true⟩

/-- NewMultiPoint wraps a list of points. -/
def NewMultiPoint (pts : List Point) : MultiPoint := ⟨pts⟩

/-- NewMultiLineString wraps a list of line strings. -/
def NewMultiLineString (lines : List LineString) : MultiLineString := ⟨lines⟩

/-- NewGeometryCollection wraps a list of geometries; `nil` gives
GEOMETRYCOLLECTION EMPTY. -/
def NewGeometryCollection (geoms : List Geometry) : Geometry :=
  .geometryCollection geoms

/-- Modelled from the spec: `NewLineC` is not among the sources; a Line must
have two distinct endpoints, otherwise the constructor returns an error. -/
def NewLineC (a b : Coordinates) : Outcome Line :=
  if a.XY = b.XY then .error .lineCoincidentEndpoints else .ok ⟨a, b⟩

/-- The accessor `Point.XY` of the sources. -/
def Point.XY (p : Point) : XY := p.coords.XY

/-- Modelled from the spec: `Point.Equals` is not among the sources; predicates
read only the XY projection, compared componentwise. -/
def Point.Equals (p q : Point) : Bool := p.coords.XY.Equals q.coords.XY

/-- The coordinates of the two control points of a line. -/
def Line.Coordinates (ln : Line) : List Coordinates := [ln.a, ln.b]

/-! ## Line strings -/

/-- Modelled from the spec: `ConstructorOption` is not among the sources;
construction accepts a flag set that can disable the cheap or the expensive
checks. -/
inductive ConstructorOption where
  | disableCheapValidations
  | disableExpensiveValidations
deriving DecidableEq

/-- Modelled from the spec: `doCheapValidations` is not among the sources; the
cheap checks run unless the flag set disables them. -/
def doCheapValidations (opts : List ConstructorOption) : Bool :=
  !opts.contains .disableCheapValidations

/-- Modelled from the spec: `doExpensiveValidations` is not among the sources;
the expensive checks run unless the flag set disables them. -/
def doExpensiveValidations (opts : List ConstructorOption) : Bool :=
  !opts.contains .disableExpensiveValidations

/-- One iteration of the loop of `NewLineStringC`: append `pt` to `coords`
unless it repeats the last kept coordinate, then record its index. -/
def NewLineStringC.step (st : List Coordinates × List Nat) (pt : Coordinates) :
    List Coordinates × List Nat :=
  let coords :=
    match st.1.getLast? with
    | none => st.1 ++ [pt]
    | some last => if pt.XY ≠ last.XY then st.1 ++ [pt] else st.1
  (coords, st.2 ++ [coords.length - 1])

/-- NewLineStringC creates a line string from the coordinates of its points. -/
def NewLineStringC (pts : List Coordinates) (opts : List ConstructorOption) :
    Outcome LineString :=
  let st := pts.foldl NewLineStringC.step ([], [])
  if doCheapValidations opts && decide (st.1.length ≤ 1) then
    .error .lineStringTooShort
  else .ok ⟨st.1, st.2⟩

/-- NumLines is `len(s.coords) - 1`, the number of segments. -/
def LineString.NumLines (s : LineString) : Nat := s.coords.length - 1

/-- LineN is the segment from `coords[n]` to `coords[n+1]`. -/
def LineString.LineN (s : LineString) (n : Nat) : Line :=
  ⟨s.coords.getD n ⟨⟨0, 0⟩⟩, s.coords.getD (n + 1) ⟨⟨0, 0⟩⟩⟩

/-- The segments of a line string in order: `ls.lines` of the kernel, that is
`LineN(0) .. LineN(NumLines()-1)`. -/
def LineString.lines (s : LineString) : List Line :=
  (List.range s.NumLines).map s.LineN

/-! ## Emptiness and rank -/

/-- Modelled from the spec: `MultiPoint.IsEmpty` is not among the sources; a
MultiPoint holds possibly empty points and is empty when it has no non-empty
point. -/
def MultiPoint.IsEmpty (mp : MultiPoint) : Bool := mp.pts.all (fun pt => pt.empty)

mutual
/-- IsEmpty of a geometry. `LineString.IsEmpty` and `Polygon.IsEmpty` return
false in the sources; a Line has two endpoints. The remaining cases are
modelled from the spec (the methods are not among the sources): a collection
is empty when it has no non-empty member. -/
def Geometry.IsEmpty : Geometry → Bool
  | .point p => p.empty
  | .line _ => false
  | .lineString _ => false
  | .linearRing _ => false
  | .polygon _ => false
  | .multiPoint mp => mp.IsEmpty
  | .multiLineString mls => mls.lines.isEmpty
  | .multiPolygon mp => mp.polys.isEmpty
  | .geometryCollection geoms => Geometry.allEmpty geoms
  | .emptyLineString => true
  | .emptyPolygon => true
/-- All members of a list of geometries are empty. -/
def Geometry.allEmpty : List Geometry → Bool
  | [] => true
  | g :: gs => g.IsEmpty && Geometry.allEmpty gs
end

/-- Modelled from the spec: `rank` is not among the sources; the dispatch order
is Point < Line < LineString < LinearRing < Polygon < MultiPoint <
MultiLineString < MultiPolygon < GeometryCollection. -/
def rank : Geometry → Nat
  | .point _ => 1
  | .line _ => 2
  | .lineString _ => 3
  | .linearRing _ => 4
  | .polygon _ => 5
  | .multiPoint _ => 6
  | .multiLineString _ => 7
  | .multiPolygon _ => 8
  | .geometryCollection _ => 9
  | .emptyLineString => 3
  | .emptyPolygon => 5

/-! ## Primitives of the kernel -/

/-- Modelled from the spec: `mustEnvelope` is not among the sources; the
envelope of a Line is the bounding box of its two endpoints. -/
def mustEnvelope (line : Line) : Envelope :=
  ⟨⟨min line.a.XY.X line.b.XY.X, min line.a.XY.Y line.b.XY.Y⟩,
   ⟨max line.a.XY.X line.b.XY.X, max line.a.XY.Y line.b.XY.Y⟩⟩

/-- onSegment checks if point r is on the segment formed by p and q, for
collinear p, q and r. -/
def onSegment (p q r : XY) : Bool :=
  decide (r.X ≤ max p.X q.X) && decide (r.X ≥ min p.X q.X) &&
  decide (r.Y ≤ max p.Y q.Y) && decide (r.Y ≥ min p.Y q.Y)

/-- Loop of `rightmostThenHighestIndex`: `rest` are the entries from index `i`
on, `rpi` is the best index so far. -/
def rightmostThenHighestIndex.loop (ps : List XY) : List XY → Nat → Nat → Nat
  | [], _, rpi => rpi
  | p :: rest, i, rpi =>
    let cur := ps.getD rpi ⟨0, 0⟩
    if p.X > cur.X ∨ (p.X = cur.X ∧ p.Y > cur.Y) then
      rightmostThenHighestIndex.loop ps rest (i + 1) i
    else rightmostThenHighestIndex.loop ps rest (i + 1) rpi

/-- rightmostThenHighestIndex finds the index of the rightmost-then-highest
point. -/
def rightmostThenHighestIndex (ps : List XY) : Nat :=
  rightmostThenHighestIndex.loop ps (ps.drop 1) 1 0

/-- Loop of `leftmostThenLowestIndex`. -/
def leftmostThenLowestIndex.loop (ps : List XY) : List XY → Nat → Nat → Nat
  | [], _, rpi => rpi
  | p :: rest, i, rpi =>
    let cur := ps.getD rpi ⟨0, 0⟩
    if p.X < cur.X ∨ (p.X = cur.X ∧ p.Y < cur.Y) then
      leftmostThenLowestIndex.loop ps rest (i + 1) i
    else leftmostThenLowestIndex.loop ps rest (i + 1) rpi

/-- leftmostThenLowestIndex finds the index of the leftmost-then-lowest
point. -/
def leftmostThenLowestIndex (ps : List XY) : Nat :=
  leftmostThenLowestIndex.loop ps (ps.drop 1) 1 0

/-! ## Pairwise algorithms: Intersects -/

/-- hasIntersectionPointWithLine: bounding box check, then point-on-line
check. -/
def hasIntersectionPointWithLine (point : Point) (line : Line) : Bool × Nat :=
  let env := mustEnvelope line
  if !env.Contains point.coords.XY then (false, 0)
  else
    let lhs := (point.coords.XY.X - line.a.XY.X) * (line.b.XY.Y - line.a.XY.Y)
    let rhs := (point.coords.XY.Y - line.a.XY.Y) * (line.b.XY.X - line.a.XY.X)
    if lhs = rhs then (true, 0) else (false, 0)

/-- Side of a point with respect to a ring. -/
inductive side where
  | interior
  | boundary
  | exterior
deriving DecidableEq

/-- Whether the horizontal ray from `pt` towards larger x crosses the segment,
with the half-open convention: the lower endpoint counts, the upper one does
not, and horizontal segments never count. -/
def rayCrosses (pt : XY) (ln : Line) : Bool :=
  let p := ln.a.XY
  let q := ln.b.XY
  (decide (p.Y ≤ pt.Y ∧ pt.Y < q.Y) || decide (q.Y ≤ pt.Y ∧ pt.Y < p.Y)) &&
  decide (pt.X < p.X + (pt.Y - p.Y) * (q.X - p.X) / (q.Y - p.Y))

/-- Modelled from the spec: `pointRingSide` is called by the kernel but is not
among the sources. A point exactly on a ring segment is BOUNDARY; otherwise
the parity of the crossings of a horizontal ray decides INTERIOR or
EXTERIOR. -/
def pointRingSide (pt : XY) (ring : LineString) : side :=
  if ring.lines.any (fun ln => (hasIntersectionPointWithLine (NewPointXY pt) ln).1) then
    side.boundary
  else if (ring.lines.countP (rayCrosses pt)) % 2 = 1 then side.interior
  else side.exterior

/-- hasIntersectionLineWithLine: the four orientations, then the crossing and
the collinear case. Two of the four points are removed, so `pts[0]` and
`pts[1]` always exist; the last branch of the match is never taken. -/
def hasIntersectionLineWithLine (n1 n2 : Line) : Bool × Nat :=
  let a := n1.a.XY
  let b := n1.b.XY
  let c := n2.a.XY
  let d := n2.b.XY
  let o1 := orientation a b c
  let o2 := orientation a b d
  let o3 := orientation c d a
  let o4 := orientation c d b
  if o1 ≠ o2 ∧ o3 ≠ o4 then (true, 0)
  else if o1 = collinear ∧ o2 = collinear then
    if (!onSegment a b c && !onSegment a b d) && (!onSegment c d a && !onSegment c d b) then
      (false, 0)
    else
      let pts := [a, b, c, d]
      let rth := rightmostThenHighestIndex pts
      let pts := pts.eraseIdx rth
      let ltl := leftmostThenLowestIndex pts
      let pts := pts.eraseIdx ltl
      match pts with
      | p0 :: p1 :: _ => if p0.Equals p1 then (true, 0) else (true, 1)
      | _ => (true, 1)
  else (false, 0)

/-- hasIntersectionLineWithMultiPoint: true at the first point of the
MultiPoint that is on the line. -/
def hasIntersectionLineWithMultiPoint (ln : Line) (mp : MultiPoint) : Bool × Nat :=
  if mp.pts.any (fun pt => (hasIntersectionPointWithLine pt ln).1) then (true, 0)
  else (false, 0)

/-- All pairs of segments in the order of the four nested loops of the
MultiLineString algorithms. -/
def segmentPairs (mls1 mls2 : MultiLineString) : List (Line × Line) :=
  mls1.lines.flatMap fun ls1 =>
    ls1.lines.flatMap fun ln1 =>
      mls2.lines.flatMap fun ls2 =>
        ls2.lines.map fun ln2 => (ln1, ln2)

/-- hasIntersectionMultiLineStringWithMultiLineString visits every pair of
segments and keeps the largest dimension seen. -/
def hasIntersectionMultiLineStringWithMultiLineString (mls1 mls2 : MultiLineString) :
    Bool × Nat :=
  (segmentPairs mls1 mls2).foldl
    (fun acc pr =>
      let r := hasIntersectionLineWithLine pr.1 pr.2
      if r.1 then (true, if r.2 > acc.2 then r.2 else acc.2) else acc)
    (false, 0)

/-- hasIntersectionPointWithLineString: true at the first segment holding the
point. -/
def hasIntersectionPointWithLineString (pt : Point) (ls : LineString) : Bool × Nat :=
  if ls.lines.any (fun ln => (hasIntersectionPointWithLine pt ln).1) then (true, 0)
  else (false, 0)

/-- hasIntersectionPointWithMultiPoint: linear search for an equal point. -/
def hasIntersectionPointWithMultiPoint (point : Point) (mp : MultiPoint) : Bool × Nat :=
  if mp.pts.any (fun pt => pt.Equals point) then (true, 0) else (false, 0)

/-- hasIntersectionMultiPointWithMultiPoint: true at the first point of `mp1`
found in `mp2`. -/
def hasIntersectionMultiPointWithMultiPoint (mp1 mp2 : MultiPoint) : Bool × Nat :=
  if mp1.pts.any (fun pt => (hasIntersectionPointWithMultiPoint pt mp2).1) then (true, 0)
  else (false, 0)

/-- hasIntersectionPointWithPoint: equal points intersect. -/
def hasIntersectionPointWithPoint (pt1 pt2 : Point) : Bool × Nat :=
  if pt1.Equals pt2 then (true, 0) else (false, 0)

/-- hasIntersectionPointWithPolygon: not outside the exterior ring and not
inside a hole. -/
def hasIntersectionPointWithPolygon (pt : Point) (p : Polygon) : Bool × Nat :=
  if pointRingSide pt.XY p.outer = side.exterior then (false, 0)
  else if p.holes.any (fun ring => decide (pointRingSide pt.XY ring = side.interior)) then
    (false, 0)
  else (true, 0)

/-- hasIntersectionMultiPointWithPolygon: true at the first point of the
MultiPoint that meets the polygon. -/
def hasIntersectionMultiPointWithPolygon (mp : MultiPoint) (p : Polygon) : Bool × Nat :=
  if mp.pts.any (fun pt => (hasIntersectionPointWithPolygon pt p).1) then (true, 0)
  else (false, 0)

/-! ## Pairwise algorithms: Intersection -/

/-- intersectLineWithLine: the crossing case returns an endpoint or the
solved crossing point, the collinear case the middle two of the four points.
Two of the four points are removed, so `pts[0]` and `pts[1]` always exist. -/
def intersectLineWithLine (n1 n2 : Line) : Outcome Geometry :=
  let a := n1.a.XY
  let b := n1.b.XY
  let c := n2.a.XY
  let d := n2.b.XY
  let o1 := orientation a b c
  let o2 := orientation a b d
  let o3 := orientation c d a
  let o4 := orientation c d b
  if o1 ≠ o2 ∧ o3 ≠ o4 then
    if o1 = collinear then .ok (.point (NewPointXY c))
    else if o2 = collinear then .ok (.point (NewPointXY d))
    else if o3 = collinear then .ok (.point (NewPointXY a))
    else if o4 = collinear then .ok (.point (NewPointXY b))
    else
      let e := (c.Y - d.Y) * (a.X - c.X) + (d.X - c.X) * (a.Y - c.Y)
      let f := (d.X - c.X) * (a.Y - b.Y) - (a.X - b.X) * (d.Y - c.Y)
      let p := e / f
      .ok (.point (NewPointXY (((b.Sub a).Scale p).Add a)))
  else if o1 = collinear ∧ o2 = collinear then
    if (!onSegment a b c && !onSegment a b d) && (!onSegment c d a && !onSegment c d b) then
      .ok (NewGeometryCollection [])
    else
      let pts := [a, b, c, d]
      let rth := rightmostThenHighestIndex pts
      let pts := pts.eraseIdx rth
      let ltl := leftmostThenLowestIndex pts
      let pts := pts.eraseIdx ltl
      match pts with
      | p0 :: p1 :: _ =>
        if p0.Equals p1 then .ok (.point (NewPointXY p0))
        else
          (must (NewLineC ⟨p0⟩ ⟨p1⟩)).map Geometry.line
      | _ => .panic .indexOutOfRange
  else .ok (NewGeometryCollection [])

/-- intersectPointWithLine: the point itself when it is on the line, the empty
point otherwise. -/
def intersectPointWithLine (point : Point) (line : Line) : Geometry :=
  let env := mustEnvelope line
  if !env.Contains point.coords.XY then .point NewEmptyPoint
  else
    let lhs := (point.coords.XY.X - line.a.XY.X) * (line.b.XY.Y - line.a.XY.Y)
    let rhs := (point.coords.XY.Y - line.a.XY.Y) * (line.b.XY.X - line.a.XY.X)
    if lhs = rhs then .point point else .point NewEmptyPoint

/-- The call `pt.Intersection(ln)` of `intersectLineWithMultiPoint`, that is
`intersection(pt, ln)` for a Line `ln`: a Line is never empty, an empty point
is returned as it is, and Point ranks below Line, so the dispatch reaches
`intersectPointWithLine` (see `intersection_point_line`). -/
def Point.IntersectionLine (pt : Point) (ln : Line) : Geometry :=
  if pt.empty then .point pt else intersectPointWithLine pt ln

/-- The common tail of `intersectLineWithMultiPoint` and
`intersectMultiPointWithMultiPoint`: `pts[0]` when `len(pts) == 1`, else
`NewMultiPoint(pts)`. -/
def pointOrMultiPoint : List Point → Geometry
  | [pt] => .point pt
  | pts => .multiPoint (NewMultiPoint pts)

/-- intersectLineWithMultiPoint keeps the points whose intersection with the
line is not empty. -/
def intersectLineWithMultiPoint (ln : Line) (mp : MultiPoint) : Geometry :=
  let pts := mp.pts.filter (fun pt => !(pt.IntersectionLine ln).IsEmpty)
  pointOrMultiPoint pts

/-- Loop of `intersectPointWithLineString` over the segments. -/
def intersectPointWithLineString.loop (pt : Point) : List Line → Geometry
  | [] => .point NewEmptyPoint
  | ln :: rest =>
    let g := intersectPointWithLine pt ln
    if !g.IsEmpty then g else intersectPointWithLineString.loop pt rest

/-- intersectPointWithLineString returns the first non-empty intersection with
a segment. -/
def intersectPointWithLineString (pt : Point) (ls : LineString) : Geometry :=
  intersectPointWithLineString.loop pt ls.lines

/-- Insertion into a Go `map[XY]struct{}`, kept as a duplicate-free list in
some iteration order. -/
def xySetInsert (set : List XY) (xy : XY) : List XY :=
  if xy ∈ set then set else set ++ [xy]

/-- The weak order used to sort by `XY.Less`. -/
def XY.notGreater (a b : XY) : Prop := b.Less a = false

instance : DecidableRel XY.notGreater := fun a b =>
  inferInstanceAs (Decidable (b.Less a = false))

/-- intersectMultiPointWithMultiPoint: the XYs present in both inputs, sorted
by `XY.Less`. -/
def intersectMultiPointWithMultiPoint (mp1 mp2 : MultiPoint) : Geometry :=
  let mp1Set := (mp1.pts.map fun pt => pt.coords.XY).foldl xySetInsert []
  let mp2Set := (mp2.pts.map fun pt => pt.coords.XY).foldl xySetInsert []
  let interSet := (mp1Set.filter fun pt => decide (pt ∈ mp2Set)).foldl xySetInsert []
  let interSet := (mp2Set.filter fun pt => decide (pt ∈ mp1Set)).foldl xySetInsert interSet
  let intersection := (interSet.map NewPointXY).insertionSort
    (fun p q => XY.notGreater p.coords.XY q.coords.XY)
  pointOrMultiPoint intersection

/-- intersectPointWithMultiPoint: linear search for an equal point. -/
def intersectPointWithMultiPoint (point : Point) (mp : MultiPoint) : Geometry :=
  if mp.IsEmpty then .multiPoint mp
  else if mp.pts.any (fun pt => pt.Equals point) then .point (NewPointXY point.coords.XY)
  else NewGeometryCollection []

/-- intersectPointWithPoint: the point when both are equal. -/
def intersectPointWithPoint (pt1 pt2 : Point) : Geometry :=
  if pt1.Equals pt2 then .point (NewPointXY pt1.coords.XY)
  else NewGeometryCollection []

/-- The test of the loop body of `intersectMultiPointWithPolygon`: the point
is not outside the exterior ring and not inside any hole. -/
def keptByPolygon (p : Polygon) (pt : Point) : Bool :=
  if pointRingSide pt.XY p.outer = side.exterior then false
  else !p.holes.any (fun ring => decide (pointRingSide pt.XY ring = side.interior))

/-- intersectMultiPointWithPolygon keeps the points that pass the test, in
order. -/
def intersectMultiPointWithPolygon (mp : MultiPoint) (p : Polygon) : Geometry :=
  let pts := mp.pts.filter (keptByPolygon p)
  match pts with
  | [] => NewGeometryCollection []
  | [pt] => .point pt
  | _ => .multiPoint (NewMultiPoint pts)

/-! ## Canonicalisation -/

/-- Loop of `dedupPoints`: `seen` holds the XYs met so far. -/
def dedupPoints.loop : List XY → List Point → List Point
  | _, [] => []
  | seen, pt :: rest =>
    if pt.XY ∈ seen then dedupPoints.loop seen rest
    else pt :: dedupPoints.loop (pt.XY :: seen) rest

/-- dedupPoints keeps the first point of each XY. -/
def dedupPoints (pts : List Point) : List Point := dedupPoints.loop [] pts

/-- The key of a line in `dedupLines`: its two endpoints with the smaller one
first. -/
def xyxyKey (ln : Line) : XY × XY :=
  if !ln.a.XY.Less ln.b.XY then (ln.b.XY, ln.a.XY) else (ln.a.XY, ln.b.XY)

/-- Loop of `dedupLines`: `seen` holds the keys met so far. -/
def dedupLines.loop : List (XY × XY) → List Line → List Line
  | _, [] => []
  | seen, ln :: rest =>
    if xyxyKey ln ∈ seen then dedupLines.loop seen rest
    else ln :: dedupLines.loop (xyxyKey ln :: seen) rest

/-- dedupLines keeps the first line of each unordered pair of endpoints. -/
def dedupLines (lines : List Line) : List Line := dedupLines.loop [] lines

/-- The call `pt.Intersects(ln.AsGeometry())` of `canonicalPointsAndLines`,
that is `hasIntersection(pt, ln)` for a Line `ln`: an empty point intersects
nothing, otherwise the dispatch reaches `hasIntersectionPointWithLine` (see
`hasIntersection_point_line`). -/
def Point.IntersectsLine (pt : Point) (ln : Line) : Bool :=
  if pt.empty then false else (hasIntersectionPointWithLine pt ln).1

/-- The line strings built from the lines in the lines-only case; the first
constructor error is returned. -/
def lineStringsOfLines : List Line → Outcome (List LineString)
  | [] => .ok []
  | ln :: rest =>
    match NewLineStringC ln.Coordinates [] with
    | .ok lnStr =>
      (match lineStringsOfLines rest with
       | .ok lineStrings => .ok (lnStr :: lineStrings)
       | .error e => .error e
       | .panic r => .panic r)
    | .error e => .error e
    | .panic r => .panic r

/-- The second step of `canonicalPointsAndLines`: remove any points that are
covered by lines. -/
def removeCovered (points : List Point) (lines : List Line) : List Point :=
  points.filter fun pt => !lines.any (fun ln => pt.IntersectsLine ln)

/-- The switch at the end of `canonicalPointsAndLines`, on the points and
lines that are left: nothing, lines only (one, several), points only (one,
several), both. -/
def canonicalPointsAndLines.switch : List Point → List Line → Outcome Geometry
  | [], [] => .ok (NewGeometryCollection [])
  | [], [ln] => .ok (.line ln)
  | [], lines => (lineStringsOfLines lines).map fun lineStrings =>
      .multiLineString (NewMultiLineString lineStrings)
  | [pt], [] => .ok (.point pt)
  | points, [] => .ok (.multiPoint (NewMultiPoint points))
  | points, lines =>
    .ok (NewGeometryCollection (points.map Geometry.point ++ lines.map Geometry.line))

/-- canonicalPointsAndLines: deduplicate, drop covered points and return the
narrowest geometry holding what is left. -/
def canonicalPointsAndLines (points : List Point) (lines : List Line) : Outcome Geometry :=
  let lines := dedupLines lines
  let points := removeCovered (dedupPoints points) lines
  canonicalPointsAndLines.switch points lines

/-- The Point held by a geometry, when it is a Point. -/
def Geometry.asPoint : Geometry → Option Point
  | .point p => some p
  | _ => none

/-- The Line held by a geometry, when it is a Line. -/
def Geometry.asLine : Geometry → Option Line
  | .line l => some l
  | _ => none

/-- Modelled from the spec: `canonicalise` is called by the kernel but is not
among the sources. A collection of points and segments is canonicalised by
deduplicating, dropping covered points and projecting to the smallest form,
which is `canonicalPointsAndLines`; the kernel receives a bare Geometry, so an
error of the constructor has to be a panic. -/
def canonicalise (collection : List Geometry) : Outcome Geometry :=
  let points := collection.filterMap Geometry.asPoint
  let lines := collection.filterMap Geometry.asLine
  must (canonicalPointsAndLines points lines)

/-- The collection built by the four nested loops of
`intersectMultiLineStringWithMultiLineString`: every non-empty
`ln1.Intersection(ln2)`, which for two Lines is `intersectLineWithLine`. -/
def collectIntersections : List (Line × Line) → Outcome (List Geometry)
  | [] => .ok []
  | pr :: rest =>
    match intersectLineWithLine pr.1 pr.2 with
    | .ok inter =>
      (collectIntersections rest).map fun collection =>
        if !inter.IsEmpty then inter :: collection else collection
    | .error e => .error e
    | .panic r => .panic r

/-- intersectMultiLineStringWithMultiLineString: pairwise segment
intersections, canonicalised. -/
def intersectMultiLineStringWithMultiLineString (mls1 mls2 : MultiLineString) :
    Outcome Geometry :=
  match collectIntersections (segmentPairs mls1 mls2) with
  | .ok collection => canonicalise collection
  | .error e => .error e
  | .panic r => .panic r

/-! ## Dispatch -/

/-- The type switch of `intersection` on the ordered pair; a pair without a
case falls through to the panic. -/
def intersectionDispatch : Geometry → Geometry → Outcome Geometry
  | .point g1, .point g2 => .ok (intersectPointWithPoint g1 g2)
  | .point g1, .line g2 => .ok (intersectPointWithLine g1 g2)
  | .point g1, .lineString g2 => .ok (intersectPointWithLineString g1 g2)
  | .point g1, .polygon g2 => .ok (intersectMultiPointWithPolygon (NewMultiPoint [g1]) g2)
  | .point g1, .multiPoint g2 => .ok (intersectPointWithMultiPoint g1 g2)
  | .line g1, .line g2 => intersectLineWithLine g1 g2
  | .line g1, .multiPoint g2 => .ok (intersectLineWithMultiPoint g1 g2)
  | .lineString g1, .lineString g2 =>
    intersectMultiLineStringWithMultiLineString
      (NewMultiLineString [g1]) (NewMultiLineString [g2])
  | .lineString g1, .linearRing g2 =>
    intersectMultiLineStringWithMultiLineString
      (NewMultiLineString [g1]) (NewMultiLineString [g2.ls])
  | .lineString g1, .multiLineString g2 =>
    intersectMultiLineStringWithMultiLineString (NewMultiLineString [g1]) g2
  | .linearRing g1, .linearRing g2 =>
    intersectMultiLineStringWithMultiLineString
      (NewMultiLineString [g1.ls]) (NewMultiLineString [g2.ls])
  | .linearRing g1, .multiLineString g2 =>
    intersectMultiLineStringWithMultiLineString (NewMultiLineString [g1.ls]) g2
  | .polygon g1, .multiPoint g2 => .ok (intersectMultiPointWithPolygon g2 g1)
  | .multiPoint g1, .multiPoint g2 => .ok (intersectMultiPointWithMultiPoint g1 g2)
  | .multiLineString g1, .multiLineString g2 =>
    intersectMultiLineStringWithMultiLineString g1 g2
  | _, _ => .panic .notImplemented

/-- intersection of two geometries: an empty input is returned as it is, the
pair is ordered by rank and dispatched on. -/
def intersection (g1 g2 : Geometry) : Outcome Geometry :=
  if g2.IsEmpty then .ok g2
  else if g1.IsEmpty then .ok g1
  else if rank g1 > rank g2 then intersectionDispatch g2 g1
  else intersectionDispatch g1 g2

/-- The type switch of `hasIntersection` on the ordered pair. -/
def hasIntersectionDispatch : Geometry → Geometry → Outcome (Bool × Nat)
  | .point g1, .point g2 => .ok (hasIntersectionPointWithPoint g1 g2)
  | .point g1, .line g2 => .ok (hasIntersectionPointWithLine g1 g2)
  | .point g1, .lineString g2 => .ok (hasIntersectionPointWithLineString g1 g2)
  | .point g1, .polygon g2 => .ok (hasIntersectionPointWithPolygon g1 g2)
  | .point g1, .multiPoint g2 => .ok (hasIntersectionPointWithMultiPoint g1 g2)
  | .line g1, .line g2 => .ok (hasIntersectionLineWithLine g1 g2)
  | .line g1, .multiPoint g2 => .ok (hasIntersectionLineWithMultiPoint g1 g2)
  | .lineString g1, .lineString g2 =>
    .ok (hasIntersectionMultiLineStringWithMultiLineString
      (NewMultiLineString [g1]) (NewMultiLineString [g2]))
  | .lineString g1, .linearRing g2 =>
    .ok (hasIntersectionMultiLineStringWithMultiLineString
      (NewMultiLineString [g1]) (NewMultiLineString [g2.ls]))
  | .lineString g1, .multiLineString g2 =>
    .ok (hasIntersectionMultiLineStringWithMultiLineString (NewMultiLineString [g1]) g2)
  | .linearRing g1, .linearRing g2 =>
    .ok (hasIntersectionMultiLineStringWithMultiLineString
      (NewMultiLineString [g1.ls]) (NewMultiLineString [g2.ls]))
  | .linearRing g1, .multiLineString g2 =>
    .ok (hasIntersectionMultiLineStringWithMultiLineString (NewMultiLineString [g1.ls]) g2)
  | .polygon g1, .multiPoint g2 => .ok (hasIntersectionMultiPointWithPolygon g2 g1)
  | .multiPoint g1, .multiPoint g2 => .ok (hasIntersectionMultiPointWithMultiPoint g1 g2)
  | .multiLineString g1, .multiLineString g2 =>
    .ok (hasIntersectionMultiLineStringWithMultiLineString g1 g2)
  | _, _ => .panic .notImplemented

/-- hasIntersection of two geometries: false when an input is empty, otherwise
the pair is ordered by rank and dispatched on. -/
def hasIntersection (g1 g2 : Geometry) : Outcome (Bool × Nat) :=
  if g2.IsEmpty then .ok (false, 0)
  else if g1.IsEmpty then .ok (false, 0)
  else if rank g1 > rank g2 then hasIntersectionDispatch g2 g1
  else hasIntersectionDispatch g1 g2

/-! ## Definitions used to state the theorems -/

/-- The line string built by `NewLineStringC` from the two endpoints of a
line. -/
def twoPointLineString (ln : Line) : LineString := ⟨[ln.a, ln.b], [0, 1]⟩

/-- The points that make up a result of the kernel. -/
def pointsOf : Geometry → List Point
  | .point p => [p]
  | .multiPoint mp => mp.pts
  | .geometryCollection geoms => geoms.filterMap Geometry.asPoint
  | _ => []

/-- The segments that make up a result of the kernel. -/
def linesOf : Geometry → List Line
  | .line l => [l]
  | .multiLineString mls => mls.lines.flatMap LineString.lines
  | .geometryCollection geoms => geoms.filterMap Geometry.asLine
  | _ => []

/-- The common shape of the loops of `dedupPoints` and `dedupLines`: keep an
element when its key has not been seen yet. -/
def dedupByKey {α κ : Type} [DecidableEq κ] (key : α → κ) : List κ → List α → List α
  | _, [] => []
  | seen, x :: rest =>
    if key x ∈ seen then dedupByKey key seen rest
    else x :: dedupByKey key (key x :: seen) rest

/-- The two points left by the collinear-overlap reducer of the Line/Line
algorithms: `[a, b, c, d]` without its rightmost-then-highest and then without
its leftmost-then-lowest entry. -/
def reducedPair (a b c d : XY) : List XY :=
  let pts := [a, b, c, d]
  let pts := pts.eraseIdx (rightmostThenHighestIndex pts)
  pts.eraseIdx (leftmostThenLowestIndex pts)

/-- The shapes a canonical result can take: a Point, a Line, a MultiPoint that
does not hold exactly one point, a MultiLineString of at least two two-point
line strings, or a GeometryCollection of points followed by lines that does
not hold exactly one member. -/
def CanonicalShape (r : Geometry) : Prop :=
  (∃ p, r = .point p) ∨ (∃ l, r = .line l) ∨
  (∃ ps : List Point, r = .multiPoint (NewMultiPoint ps) ∧ ps.length ≠ 1) ∨
  (∃ ls : List Line, r = .multiLineString (NewMultiLineString (ls.map twoPointLineString)) ∧
    2 ≤ ls.length) ∨
  (∃ (ps : List Point) (ls : List Line), r = NewGeometryCollection (ps.map Geometry.point ++ ls.map Geometry.line) ∧
    ps.length + ls.length ≠ 1)

/-- The triangle with a triangular hole of the fuzz test cases:
POLYGON((0 0,4 0,0 4,0 0),(1 1,2 1,1 2,1 1)). -/
def fuzzPolygon : Polygon :=
  ⟨⟨[⟨⟨0, 0⟩⟩, ⟨⟨4, 0⟩⟩, ⟨⟨0, 4⟩⟩, ⟨⟨0, 0⟩⟩], [0, 1, 2, 3]⟩,
   [⟨[⟨⟨1, 1⟩⟩, ⟨⟨2, 1⟩⟩, ⟨⟨1, 2⟩⟩, ⟨⟨1, 1⟩⟩], [0, 1, 2, 3]⟩]⟩

/-- The cross product `(b - a) × (c - a)` whose sign is the orientation. -/
def cross (a b c : XY) : ℚ := (b.X - a.X) * (c.Y - a.Y) - (b.Y - a.Y) * (c.X - a.X)

/-- The point `a + t * (b - a)` on the line through `a` and `b`. -/
def pointAt (a b : XY) (t : ℚ) : XY := ⟨a.X + t * (b.X - a.X), a.Y + t * (b.Y - a.Y)⟩

/-- The closed segment from `p` to `q` as a set of points: `r` is
`p + t * (q - p)` for some `0 ≤ t ≤ 1`. -/
def onClosedSegment (p q r : XY) : Prop := ∃ t : ℚ, 0 ≤ t ∧ t ≤ 1 ∧ r = pointAt p q t

/-- The point `r` lies on both closed segments. -/
def commonPoint (n1 n2 : Line) (r : XY) : Prop :=
  onClosedSegment n1.a.XY n1.b.XY r ∧ onClosedSegment n2.a.XY n2.b.XY r

/-- What the collinear-overlap reducer leaves, in terms of parameters along
the common line: `hi` is above and `lo` is below all four parameters, both are
among them, and together with the two survivors `s0`, `s1` they have the sum
and the sum of squares of the four. -/
def extremesRemoved (t0 t1 t2 t3 s0 s1 hi lo : ℚ) : Prop :=
  (t0 ≤ hi ∧ t1 ≤ hi ∧ t2 ≤ hi ∧ t3 ≤ hi) ∧ (lo ≤ t0 ∧ lo ≤ t1 ∧ lo ≤ t2 ∧ lo ≤ t3) ∧
  (hi = t0 ∨ hi = t1 ∨ hi = t2 ∨ hi = t3) ∧ (lo = t0 ∨ lo = t1 ∨ lo = t2 ∨ lo = t3) ∧
  s0 + s1 + hi + lo = t0 + t1 + t2 + t3 ∧
  s0 ^ 2 + s1 ^ 2 + hi ^ 2 + lo ^ 2 = t0 ^ 2 + t1 ^ 2 + t2 ^ 2 + t3 ^ 2

/-- The test of the collinear branch of the Line/Line algorithms: no endpoint
of one segment is inside the bounding box of the other. -/
def noEndpointOnOther (a b c d : XY) : Bool :=
  (!onSegment a b c && !onSegment a b d) && (!onSegment c d a && !onSegment c d b)

/-- The invariant of a LineString that the kernel relies on: `coords` has no
two consecutive equal entries, so every segment has two distinct endpoints. -/
def LineString.Valid (ls : LineString) : Prop := ∀ ln ∈ ls.lines, ln.a.XY ≠ ln.b.XY

/-- The invariants the kernel assumes on its inputs: a Line has two distinct
endpoints and the coordinates of a line string are deduplicated. -/
def Geometry.Valid : Geometry → Prop
  | .line l => l.a.XY ≠ l.b.XY
  | .lineString ls => ls.Valid
  | .linearRing lr => lr.ls.Valid
  | .multiLineString mls => ∀ ls ∈ mls.lines, ls.Valid
  | _ => True

/-- Modelled from the spec: `EqualsExact` with `IgnoreOrder` is not among the
sources. Two results of the kernel are equal up to the order of vertices and
members when they are of the same variant, hold the same points up to order,
and hold the same segments up to order and direction (a segment is identified
by its key, the pair of its endpoints with the smaller one first). -/
def sameUpToOrder (g h : Geometry) : Prop :=
  rank g = rank h ∧ (pointsOf g).Perm (pointsOf h) ∧
    ((linesOf g).map xyxyKey).Perm ((linesOf h).map xyxyKey)

/-- All segments of a MultiLineString, in order. -/
def MultiLineString.segments (mls : MultiLineString) : List Line :=
  mls.lines.flatMap LineString.lines

/-- The rank of the result of the switch of `canonicalPointsAndLines`, from
the number of points and of lines left. -/
def switchRank (np nl : Nat) : Nat :=
  if np = 0 then (if nl = 0 then 9 else if nl = 1 then 2 else 7)
  else if nl = 0 then (if np = 1 then 1 else 6)
  else 9

/-! ## Accessors of a line string -/

/-- Modelled from the spec: `NewPointC` is not among the sources; it builds the
non-empty point with the given coordinates. -/
def NewPointC (c : Coordinates) : Point := ⟨c, false⟩

/-- Modelled from the spec: `Point.Coordinates` is not among the sources; it
gives the coordinates stored in the point. -/
def Point.Coordinates (p : Point) : Coordinates := p.coords

/-- NumPoints gives the number of control points in the line string. -/
def LineString.NumPoints (s : LineString) : Nat := s.points.length

/-- PointN gives the nth (zero indexed) point in the line string,
`NewPointC(s.coords[s.points[n]])`. Go panics when an index is out of range;
here the zero value is read, and the theorems about `PointN` are stated for
line strings and indices for which both lookups are in range. -/
def LineString.PointN (s : LineString) (n : Nat) : Point :=
  NewPointC (s.coords.getD (s.points.getD n 0) ⟨⟨0, 0⟩⟩)

/-- StartPoint gives the first point of the line string. -/
def LineString.StartPoint (s : LineString) : Point :=
  NewPointC (s.coords.getD (s.points.getD 0 0) ⟨⟨0, 0⟩⟩)

/-- EndPoint gives the last point of the line string. -/
def LineString.EndPoint (s : LineString) : Point :=
  NewPointC (s.coords.getD (s.points.getD (s.points.length - 1) 0) ⟨⟨0, 0⟩⟩)

/-- Coordinates returns the coordinates of each point along the LineString. -/
def LineString.Coordinates (s : LineString) : List Coordinates :=
  (List.range s.NumPoints).map fun i => (s.PointN i).Coordinates

/-- IsClosed: the start point and the end point have the same XY. -/
def LineString.IsClosed (s : LineString) : Bool :=
  decide (s.StartPoint.XY = s.EndPoint.XY)

/-! ## Sorting, the heap and the sweep line -/

/-- Modelled from the spec: `seq` is not among the sources; `seq(n)` is the
slice `0, 1, .., n-1` of the indices that the sweep visits. -/
def seq (n : Nat) : List Nat := List.range n

/-- Modelled from the spec: `minX` is not among the sources; the smaller x of
the two endpoints of a segment. -/
def minX (ln : Line) : ℚ := min ln.a.XY.X ln.b.XY.X

/-- Modelled from the spec: `maxX` is not among the sources; the larger x of
the two endpoints of a segment. -/
def maxX (ln : Line) : ℚ := max ln.a.XY.X ln.b.XY.X

/-- Modelled from the spec: `abs` is not among the sources; the absolute value
of an integer. -/
def abs (x : Int) : Int := if x < 0 then -x else x

/-- The inner loop of the insertion sort that `sort.Slice` of the Go library
runs on a short slice (of at most 6 elements in every release):
`for j := i; j > 0 && less(j, j-1); j-- { swap(j, j-1) }`.
The slice is `left.reverse ++ x :: right` and `x` is at position `j`; `less`
is handed the slice as it is at that moment. -/
def sortSlice.inner {α : Type} (less : List α → Nat → Nat → Bool) :
    List α → α → List α → List α
  | [], x, right => x :: right
  | y :: left, x, right =>
    if less ((y :: left).reverse ++ x :: right) (left.length + 1) left.length then
      sortSlice.inner less left x (y :: right)
    else (y :: left).reverse ++ x :: right

/-- One round `i` of the outer loop of the insertion sort. -/
def sortSlice.round {α : Type} (less : List α → Nat → Nat → Bool) (data : List α) (i : Nat) :
    List α :=
  match data.drop i with
  | [] => data
  | x :: right => sortSlice.inner less (data.take i).reverse x right

/-- The call `sort.Slice(data, less)` on a short slice:
`for i := 1; i < len(data); i++` run the inner loop. The comparison `less`
takes two positions of the slice, as in Go. (A longer slice is sorted by
another algorithm with the same contract.) -/
def sortSlice {α : Type} (less : List α → Nat → Nat → Bool) (data : List α) : List α :=
  (List.range' 1 (data.length - 1)).foldl (sortSlice.round less) data

/-- Modelled from the spec: `intHeap` is not among the sources; the active set
is a min-heap under `less`, kept here as a vector sorted by `less` whose first
entry `data[0]` is a minimum. `push` inserts an entry. -/
def intHeap.push (less : Nat → Nat → Bool) : List Nat → Nat → List Nat
  | [], x => [x]
  | y :: data, x => if less x y then x :: y :: data else y :: intHeap.push less data x

/-- Modelled from the spec: `pop` removes the minimum `data[0]` of the
heap. -/
def intHeap.pop (data : List Nat) : List Nat := data.tail

/-- The loop `for len(h.data) != 0 && p(h.data[0]) { h.pop() }` of the two
sweeps; after a pop the loop goes on with `pop (o :: data)`, that is with
`data`. -/
def intHeap.popWhile (p : Nat → Bool) : List Nat → List Nat
  | [] => []
  | o :: data => if p o then intHeap.popWhile p data else o :: data

/-- The body of the inner loop of `IsSimple` for the segments `current` and
`other` of a line string with `n` segments: `true` when the loop continues,
`false` when it returns false. -/
def LineString.IsSimple.pairOK (s : LineString) (n current other : Nat) : Bool :=
  let r := hasIntersectionLineWithLine (s.LineN current) (s.LineN other)
  if !r.1 then true
  else if r.2 ≥ 1 then false
  else if abs ((current : Int) - (other : Int)) = 1 then true
  else if (current = 0 ∧ other = n - 1) ∨ (current = n - 1 ∧ other = 0) then s.IsClosed
  else false

/-- The outer loop of `IsSimple` over the segments still `unprocessed`, with
the heap `active`. -/
def LineString.IsSimple.sweep (s : LineString) (n : Nat) : List Nat → List Nat → Bool
  | [], _ => true
  | current :: unprocessed, active =>
    let currentX := minX (s.LineN current)
    let active := intHeap.popWhile (fun o => decide (maxX (s.LineN o) < currentX)) active
    if active.all (fun other => LineString.IsSimple.pairOK s n current other) then
      LineString.IsSimple.sweep s n unprocessed
        (intHeap.push (fun i j => decide (maxX (s.LineN i) < maxX (s.LineN j))) active current)
    else false

/-- IsSimple returns true iff the curve defined by the LineString does not
pass through the same point twice (with the possible exception of the two
endpoints being coincident): a sweep over the segments sorted by their min x
coordinate. -/
def LineString.IsSimple (s : LineString) : Bool :=
  let n := s.NumLines
  let unprocessed := sortSlice
    (fun data i j => decide (minX (s.LineN (data.getD i 0)) < minX (s.LineN (data.getD j 0))))
    (seq n)
  LineString.IsSimple.sweep s n unprocessed []

/-- IsRing returns true iff this LineString is both simple and closed. -/
def LineString.IsRing (s : LineString) : Bool := s.IsSimple && s.IsClosed

/-- The pairwise test that `IsSimple` is compared with: any two segments
`i < j` have no common point, or they have exactly one common point and are
adjacent (`j = i + 1`) or are the first and the last segment of a closed line
string. -/
def LineString.simpleByPairs (s : LineString) : Prop :=
  ∀ i j, i < j → j < s.NumLines →
    (∀ r, ¬ commonPoint (s.LineN i) (s.LineN j) r) ∨
    ((∃ p, ∀ r, commonPoint (s.LineN i) (s.LineN j) r ↔ r = p) ∧
      (j = i + 1 ∨ (i = 0 ∧ j = s.NumLines - 1 ∧ s.IsClosed = true)))

/-! ## Polygons -/

/-- Modelled from the spec: `NewEnvelope` is not among the sources; the
envelope of a single point. -/
def NewEnvelope (xy : XY) : Envelope := ⟨xy, xy⟩

/-- Modelled from the spec: `ExtendToIncludePoint` is not among the sources;
the smallest envelope holding the envelope and the point. -/
def Envelope.ExtendToIncludePoint (e : Envelope) (p : XY) : Envelope :=
  ⟨⟨Min.min e.min.X p.X, Min.min e.min.Y p.Y⟩, ⟨Max.max e.max.X p.X, Max.max e.max.Y p.Y⟩⟩

/-- Modelled from the spec: `Envelope.Min` is not among the sources; the
corner with the smallest coordinates. -/
def Envelope.Min (e : Envelope) : XY := e.min

/-- Modelled from the spec: `Envelope.Max` is not among the sources; the
corner with the largest coordinates. -/
def Envelope.Max (e : Envelope) : XY := e.max

/-- Envelope of a line string: the envelope of `coords[0]` extended by the
other coordinates; the second component is always true. -/
def LineString.Envelope (s : LineString) : Envelope × Bool :=
  ((s.coords.drop 1).foldl (fun env c => env.ExtendToIncludePoint c.XY)
    (NewEnvelope (s.coords.getD 0 ⟨⟨0, 0⟩⟩).XY), true)

/-- AsMultiLineString converts this LineString into a MultiLineString. -/
def LineString.AsMultiLineString (s : LineString) : MultiLineString :=
  NewMultiLineString [s]

/-- Modelled from the spec: the extension record that the three-argument
`hasIntersectionMultiLineStringWithMultiLineString` of `NewPolygon` returns is
not among the sources: whether the intersection holds more than one point, and
the point when it holds exactly one. -/
structure mlsWithMLSIntersectsExtension where
  multiplePoints : Bool
  singlePoint : XY

/-- The point of a pairwise intersection of two segments, when it is a
point. -/
def pointOfIntersection (pr : Line × Line) : Option XY :=
  match intersectLineWithLine pr.1 pr.2 with
  | .ok (.point p) => some p.XY
  | _ => none

/-- Modelled from the spec: the three-argument variant of
`hasIntersectionMultiLineStringWithMultiLineString` called by `NewPolygon` is
not among the sources. The intersection of two rings must be empty or a single
point: every pair of segments is intersected, a collinear overlap or two
different intersection points make `multiplePoints` true, and otherwise
`singlePoint` is the one intersection point. -/
def hasIntersectionMultiLineStringWithMultiLineStringExt (mls1 mls2 : MultiLineString)
    (populateExtension : Bool) : Bool × mlsWithMLSIntersectsExtension :=
  let pairs := segmentPairs mls1 mls2
  let intersects := pairs.any (fun pr => (hasIntersectionLineWithLine pr.1 pr.2).1)
  let overlap := pairs.any (fun pr => decide ((hasIntersectionLineWithLine pr.1 pr.2).2 ≥ 1))
  let pts := (pairs.filterMap pointOfIntersection).dedup
  (intersects,
    ⟨populateExtension && (overlap || decide (pts.length ≥ 2)), pts.headD ⟨0, 0⟩⟩)

/-- Modelled from the spec: `graph.hasCycle` is not among the sources; the
cycle check is a union-find over the edges: an edge whose two ends are already
in the same component closes a cycle, otherwise the two components are
merged. -/
def graph.hasCycle.go : (Nat → Nat) → List (Nat × Nat) → Bool
  | _, [] => false
  | comp, (u, v) :: rest =>
    if comp u = comp v then true
    else graph.hasCycle.go (fun x => if comp x = comp v then comp u else comp x) rest

/-- Modelled from the spec: the graph built by `newGraph` and `addEdge` is not
among the sources; it is kept as the list of the calls of `addEdge`. An edge
joins an intersection vertex and a ring, and an edge that is added more than
once is one edge of the graph, so the repeats are dropped before the check. -/
def graph.hasCycle (edges : List (Nat × Nat)) : Bool := graph.hasCycle.go id edges.dedup

/-- The ring with index `i` in `NewPolygon`: the holes come first, the outer
ring has index `len(holes)`. -/
def NewPolygon.ring (outer : LineString) (holes : List LineString) (i : Nat) : LineString :=
  if i = holes.length then outer else holes.getD i outer

/-- The loop of `NewPolygon` over the rings that checks each one: closed (a
cheap validation) and simple (an expensive one). -/
def NewPolygon.checkRings (opts : List ConstructorOption) : List LineString → Option GeomError
  | [] => none
  | r :: rest =>
    if doCheapValidations opts && !r.IsClosed then some .polygonRingNotClosed
    else if doExpensiveValidations opts && !r.IsSimple then some .polygonRingNotSimple
    else NewPolygon.checkRings opts rest

/-- The variables of the sweep over the rings: the heap `h`, `nextInterVert`,
the map `interVerts` and the edges of `graph`. -/
structure NewPolygon.state where
  h : List Nat
  nextInterVert : Nat
  interVerts : List (XY × Nat)
  graph : List (Nat × Nat)

/-- The loop of `NewPolygon` over the rings `other` in the heap, for the ring
`current`. -/
def NewPolygon.others (outer : LineString) (holes : List LineString) (current : Nat) :
    List Nat → NewPolygon.state → Outcome NewPolygon.state
  | [], st => .ok st
  | other :: rest, st =>
    let currentRing := NewPolygon.ring outer holes current
    let otherRing := NewPolygon.ring outer holes other
    let nestedFwd := decide (pointRingSide currentRing.StartPoint.XY otherRing = side.interior)
    let nestedRev := decide (pointRingSide otherRing.StartPoint.XY currentRing = side.interior)
    if current < holes.length ∧ other < holes.length ∧ (nestedFwd || nestedRev) = true then
      .error .polygonNestedRings
    else
      let r := hasIntersectionMultiLineStringWithMultiLineStringExt
        currentRing.AsMultiLineString otherRing.AsMultiLineString true
      if !r.1 then NewPolygon.others outer holes current rest st
      else if r.2.multiplePoints then .error .polygonRingsMeetInMultiplePoints
      else
        match st.interVerts.lookup r.2.singlePoint with
        | some interVert =>
          NewPolygon.others outer holes current rest
            ⟨st.h, st.nextInterVert, st.interVerts,
              st.graph ++ [(interVert, current), (interVert, other)]⟩
        | none =>
          NewPolygon.others outer holes current rest
            ⟨st.h, st.nextInterVert + 1, (r.2.singlePoint, st.nextInterVert) :: st.interVerts,
              st.graph ++ [(st.nextInterVert, current), (st.nextInterVert, other)]⟩

/-- The sweep of `NewPolygon` over the sorted `rings`, with the min and max x
of each ring in `intervals`. -/
def NewPolygon.sweep (outer : LineString) (holes : List LineString)
    (intervals : List (ℚ × ℚ)) : List Nat → NewPolygon.state → Outcome NewPolygon.state
  | [], st => .ok st
  | current :: rings, st =>
    let currentX := (intervals.getD current (0, 0)).1
    let h := intHeap.popWhile (fun o => decide ((intervals.getD o (0, 0)).2 < currentX)) st.h
    match NewPolygon.others outer holes current h ⟨h, st.nextInterVert, st.interVerts, st.graph⟩ with
    | .ok st =>
      let less := fun i j =>
        decide ((intervals.getD i (0, 0)).2 < (intervals.getD j (0, 0)).2)
      NewPolygon.sweep outer holes intervals rings
        ⟨intHeap.push less st.h current, st.nextInterVert, st.interVerts, st.graph⟩
    | .error e => .error e
    | .panic r => .panic r

/-- The body of `NewPolygon`, with the call of `sort.Slice` as the parameter
`sort`: `sort less rings` is the slice that `sort.Slice(rings, less)` leaves.
The rings are checked one by one, then pairwise by a sweep over the rings as
they are left by the sort, then the holes against the outer ring, then the
interior for connectedness. The comparison handed to `sort.Slice` reads
`intervals` at the two positions it is given. -/
def NewPolygon.withSort (sort : (List Nat → Nat → Nat → Bool) → List Nat → List Nat)
    (outer : LineString) (holes : List LineString)
    (opts : List ConstructorOption) : Outcome Polygon :=
  if !doCheapValidations opts && !doExpensiveValidations opts then .ok ⟨outer, holes⟩
  else
    let rings := seq (1 + holes.length)
    let envs := rings.map fun i => (NewPolygon.ring outer holes i).Envelope
    if envs.any (fun e => !e.2) then .error .polygonRingEmpty
    else
      let intervals := envs.map fun e => (e.1.Min.X, e.1.Max.X)
      match NewPolygon.checkRings opts (rings.map (NewPolygon.ring outer holes)) with
      | some e => .error e
      | none =>
        if !doExpensiveValidations opts then .ok ⟨outer, holes⟩
        else
          let rings := sort
            (fun _ i j => decide ((intervals.getD i (0, 0)).1 < (intervals.getD j (0, 0)).1))
            rings
          match NewPolygon.sweep outer holes intervals rings ⟨[], rings.length, [], []⟩ with
          | .error e => .error e
          | .panic r => .panic r
          | .ok st =>
            if holes.any (fun hole => (List.range hole.NumPoints).any fun i =>
                decide (pointRingSide (hole.PointN i).XY outer = side.exterior)) then
              .error .polygonHoleOutside
            else if graph.hasCycle st.graph then .error .polygonNotConnected
            else .ok ⟨outer, holes⟩

/-- NewPolygon creates a polygon given its outer and inner rings: the body
above with `sort.Slice` as the insertion sort that it is on a short slice. -/
def NewPolygon (outer : LineString) (holes : List LineString)
    (opts : List ConstructorOption) : Outcome Polygon :=
  NewPolygon.withSort sortSlice outer holes opts

/-- The outer ring of the polygon used to test the sweep of `NewPolygon`:
the triangle (0 0,12 0,0 12,0 0). -/
def sweepOuter : LineString :=
  ⟨[⟨⟨0, 0⟩⟩, ⟨⟨12, 0⟩⟩, ⟨⟨0, 12⟩⟩, ⟨⟨0, 0⟩⟩], [0, 1, 2, 3]⟩

/-- A hole well inside `sweepOuter`: the triangle (4 1,5 1,4 2,4 1). -/
def sweepHoleInside : LineString :=
  ⟨[⟨⟨4, 1⟩⟩, ⟨⟨5, 1⟩⟩, ⟨⟨4, 2⟩⟩, ⟨⟨4, 1⟩⟩], [0, 1, 2, 3]⟩

/-- A ring with a whole side on the left side of `sweepOuter`: the triangle
(0 1,1 2,0 3,0 1). -/
def sweepHoleOnSide : LineString :=
  ⟨[⟨⟨0, 1⟩⟩, ⟨⟨1, 2⟩⟩, ⟨⟨0, 3⟩⟩, ⟨⟨0, 1⟩⟩], [0, 1, 2, 3]⟩

/-! ## Boundary of a line string, and the opposite orientation -/

/-- Boundary of a line string: the start point and the end point unless the
line string is closed. -/
def LineString.Boundary (s : LineString) : MultiPoint :=
  let pts : List Point := []
  let pts := if !s.IsClosed then pts ++ [s.StartPoint, s.EndPoint] else pts
  NewMultiPoint pts

/-- The opposite of an orientation: LEFT and RIGHT are exchanged, COLLINEAR
stays. -/
def threePointOrientation.neg : threePointOrientation → threePointOrientation
  | .leftTurn => .rightTurn
  | .rightTurn => .leftTurn
  | .collinear => .collinear

/-- The four points `[a, b, c, d]` of the collinear-overlap reducer in
lexicographic (x, then y) order. -/
def sortedFour (a b c d : XY) : List XY := [a, b, c, d].insertionSort XY.notGreater

/-! ## Text form: the parser of `wkt_parser.go` and the appenders

A text is kept as the list of the tokens the tokeniser reads from it: white
space separates tokens and is no token itself. -/

/-- Modelled from the spec: `strings.ToUpper` of the Go library, applied to
the text of a token: every letter is replaced by its upper case. -/
def strings.ToUpper : Token → Token
  | .text s => .text ⟨s.data.map Char.toUpper⟩
  | .number v => .number v
  | .overflow => .overflow

/-- Modelled from the spec: `strings.ToLower` of the Go library. -/
def strings.ToLower (s : String) : String := ⟨s.data.map Char.toLower⟩

/-- Modelled from the spec: a `float64` as the parser tells them apart: a
finite number, NaN, or an infinity with its sign. -/
inductive Float64 where
  | finite (v : ℚ)
  | nan
  | inf (negative : Bool)
deriving DecidableEq

/-- Modelled from the spec: `math.IsNaN` of the Go library. -/
def math.IsNaN : Float64 → Bool
  | .nan => true
  | _ => false

/-- Modelled from the spec: `math.IsInf(f, 0)` of the Go library: `f` is an
infinity of either sign. -/
def math.IsInf : Float64 → Bool
  | .inf _ => true
  | _ => false

/-- The statement `f *= -1` on a float64. -/
def Float64.negate : Float64 → Float64
  | .finite v => .finite (v * -1)
  | .nan => .nan
  | .inf negative => .inf (!negative)

/-- The rational that a float64 stands for in a coordinate. Coordinates are
rationals here, so NaN and the infinities have no counterpart: they are read
as 0, and the parser has recorded an error whenever that happens. -/
def Float64.value : Float64 → ℚ
  | .finite v => v
  | .nan => 0
  | .inf _ => 0

/-- Modelled from the spec: `strconv.ParseFloat` of the Go library. A numeric
literal within the range of a float64 gives its number; one beyond the range
gives an infinity together with the error `value out of range` (the sign `-`
is a token of its own, so the literal itself has none). The words `nan`, `inf`
and `infinity`, in any letter case and the last two with an optional sign,
give NaN and the infinities without an error. Any other text is an error, with
0 as the number. -/
def strconv.ParseFloat : Token → Float64 × Option GeomError
  | .number v => (.finite v, none)
  | .overflow => (.inf false, some (.wktParseFloatRange .overflow))
  | .text s =>
    let l := strings.ToLower s
    if l = "nan" then (.nan, none)
    else if l = "inf" ∨ l = "infinity" ∨ l = "+inf" ∨ l = "+infinity" then (.inf false, none)
    else if l = "-inf" ∨ l = "-infinity" then (.inf true, none)
    else (.finite 0, some (.wktParseFloat (.text s)))

/-- OptionalCoordinates of the parser: coordinates, or the mark `Empty`. -/
structure OptionalCoordinates where
  Empty : Bool
  Value : Coordinates
deriving DecidableEq

/-- Modelled from the spec: `NewMultiPointOC` is not among the sources; it
builds the MultiPoint of the given members, an empty point for a member marked
`Empty`. -/
def NewMultiPointOC (coords : List OptionalCoordinates) (_opts : List ConstructorOption) :
    MultiPoint :=
  NewMultiPoint (coords.map fun c => if c.Empty then NewEmptyPoint else NewPointC c.Value)

/-- Modelled from the spec: `NewLineC` as the parser calls it, with constructor
options: the check of the two endpoints is taken to be one of the cheap checks
that the flag set can disable. -/
def NewLineC.withOptions (a b : Coordinates) (opts : List ConstructorOption) : Outcome Line :=
  if doCheapValidations opts then NewLineC a b else .ok ⟨a, b⟩

/-- The loop of `NewPolygonC` that builds the rings with `NewLineStringC` and
returns the first error. -/
def NewPolygonC.rings (opts : List ConstructorOption) :
    List (List Coordinates) → Outcome (List LineString)
  | [] => .ok []
  | c :: rest =>
    match NewLineStringC c opts with
    | .error e => .error e
    | .panic r => .panic r
    | .ok ring =>
      match NewPolygonC.rings opts rest with
      | .error e => .error e
      | .panic r => .panic r
      | .ok rings => .ok (ring :: rings)

/-- NewPolygonC creates a new polygon from its coordinates: the first list is
the outer ring, the others are the holes. -/
def NewPolygonC (coords : List (List Coordinates)) (opts : List ConstructorOption) :
    Outcome Polygon :=
  if coords.length = 0 then .error .polygonNoOuterRing
  else
    match NewPolygonC.rings opts coords with
    | .error e => .error e
    | .panic r => .panic r
    | .ok rings => NewPolygon (rings.headD ⟨[], []⟩) rings.tail opts

/-- Modelled from the spec: `NewMultiLineStringC` is not among the sources; it
builds every member with `NewLineStringC` and returns the first error. -/
def NewMultiLineStringC (coords : List (List Coordinates)) (opts : List ConstructorOption) :
    Outcome MultiLineString :=
  (NewPolygonC.rings opts coords).map NewMultiLineString

/-- The loop of `NewMultiPolygonC` over the polygons. -/
def NewMultiPolygonC.polys (opts : List ConstructorOption) :
    List (List (List Coordinates)) → Outcome (List Polygon)
  | [] => .ok []
  | c :: rest =>
    match NewPolygonC c opts with
    | .error e => .error e
    | .panic r => .panic r
    | .ok poly =>
      match NewMultiPolygonC.polys opts rest with
      | .error e => .error e
      | .panic r => .panic r
      | .ok polys => .ok (poly :: polys)

/-- Modelled from the spec: `NewMultiPolygonC` is not among the sources; it
builds every member with `NewPolygonC` and returns the first error. The checks
between the members (disjoint interiors, boundaries that touch only at
isolated points) are not part of the embedding; no theorem below reads a
MULTIPOLYGON that parses without an error. -/
def NewMultiPolygonC (coords : List (List (List Coordinates))) (opts : List ConstructorOption) :
    Outcome MultiPolygon :=
  (NewMultiPolygonC.polys opts coords).map MultiPolygon.mk

/-- Modelled from the spec: the zero value `Geometry{}`, taken to be the empty
collection. The parser returns it only together with an error. -/
def Geometry.zero : Geometry := .geometryCollection []

/-- The parser of `wkt_parser.go`: the tokens not yet read, the constructor
options and the first error. A panic raised by a constructor unwinds the Go
parser; here it is kept in `panicked` and ends `UnmarshalWKT`. -/
structure parser where
  lexer : List Token
  opts : List ConstructorOption
  err : Option GeomError
  panicked : Option PanicReason

/-- Modelled from the spec: `wktLexer.next` gives the next token and removes
it, or reports the end of the input (the flag stands for `err == io.EOF`) with
the empty string as the token. -/
def wktLexer.next : List Token → Token × Bool × List Token
  | [] => (.text "", true, [])
  | tok :: rest => (tok, false, rest)

/-- Modelled from the spec: `wktLexer.peek` gives the next token and leaves
it in place. -/
def wktLexer.peek : List Token → Token × Bool
  | [] => (.text "", true)
  | tok :: _ => (tok, false)

/-- Modelled from the spec: `newWKTLexer` is not among the sources; the
reader is given as the tokens of its text. -/
def newParser (r : List Token) (opts : List ConstructorOption) : parser :=
  ⟨r, opts, none, none⟩

/-- Only the first error is kept. -/
def parser.check (p : parser) (err : Option GeomError) : parser :=
  if err.isSome && p.err.isNone then ⟨p.lexer, p.opts, err, p.panicked⟩ else p

/-- Records the error built from a format string. -/
def parser.errorf (p : parser) (err : GeomError) : parser := p.check (some err)

/-- Keeps the first panic. -/
def parser.unwind (p : parser) (r : PanicReason) : parser :=
  if p.panicked.isNone then ⟨p.lexer, p.opts, p.err, some r⟩ else p

/-- The statements `v, err := f(...); p.check(err)`: the value of the call (the
zero value next to an error), and the parser after the check. -/
def parser.checked {α : Type} (p : parser) (zero : α) : Outcome α → α × parser
  | .ok v => (v, p)
  | .error e => (zero, p.check (some e))
  | .panic r => (zero, p.unwind r)

/-- Reads the next token; the end of the input is the error
`io.ErrUnexpectedEOF`. -/
def parser.nextToken (p : parser) : Token × parser :=
  let r := wktLexer.next p.lexer
  let err := if r.2.1 then some GeomError.wktUnexpectedEOF else none
  (r.1, (parser.mk r.2.2 p.opts p.err p.panicked).check err)

/-- Looks at the next token without reading it. -/
def parser.peekToken (p : parser) : Token × parser :=
  let r := wktLexer.peek p.lexer
  let err := if r.2 then some GeomError.wktUnexpectedEOF else none
  (r.1, p.check err)

/-- Expects the end of the input. -/
def parser.checkEOF (p : parser) : parser :=
  let r := wktLexer.next p.lexer
  let p := parser.mk r.2.2 p.opts p.err p.panicked
  if !r.2.1 then p.check (some (.wktExpectedEOF r.1)) else p

/-- Reads `EMPTY` or `(`; both are compared as written. -/
def parser.nextEmptySetOrLeftParen (p : parser) : Token × parser :=
  let r := p.nextToken
  if r.1 ≠ .text "EMPTY" ∧ r.1 ≠ .text "(" then
    (r.1, r.2.errorf (.wktExpectedEmptyOrLeftParen r.1))
  else r

/-- Reads `)`. -/
def parser.nextRightParen (p : parser) : parser :=
  let r := p.nextToken
  if r.1 ≠ .text ")" then r.2.check (some (.wktExpectedRightParen r.1)) else r.2

/-- Reads `)` or `,`. -/
def parser.nextCommaOrRightParen (p : parser) : Token × parser :=
  let r := p.nextToken
  if r.1 ≠ .text ")" ∧ r.1 ≠ .text "," then
    (r.1, r.2.check (some (.wktExpectedCommaOrRightParen r.1)))
  else r

/-- Reads a number with an optional sign token in front. NaN and the
infinities are not allowed by the grammar. -/
def parser.nextSignedNumericLiteral (p : parser) : Float64 × parser :=
  let r := p.nextToken
  let negative := decide (r.1 = .text "-")
  let r := if negative then r.2.nextToken else r
  let tok := r.1
  let f := strconv.ParseFloat tok
  let p := r.2.check f.2
  let p :=
    if math.IsNaN f.1 || math.IsInf f.1 then p.errorf (.wktInvalidSignedNumericLiteral tok)
    else p
  let f := if negative then f.1.negate else f.1
  (f, p)

/-- Reads the two ordinates of a point. -/
def parser.nextPoint (p : parser) : Coordinates × parser :=
  let x := p.nextSignedNumericLiteral
  let y := x.2.nextSignedNumericLiteral
  (⟨⟨x.1.value, y.1.value⟩⟩, y.2)

/-- The body of a POINT. -/
def parser.nextPointText (p : parser) : OptionalCoordinates × parser :=
  let r := p.nextEmptySetOrLeftParen
  if r.1 = .text "EMPTY" then (⟨true, ⟨⟨0, 0⟩⟩⟩, r.2)
  else
    let pt := r.2.nextPoint
    (⟨false, pt.1⟩, pt.2.nextRightParen)

/-- The loop `for { tok := p.nextCommaOrRightParen(); if tok == "," { xs =
append(xs, item()) } else { break } }` that the list productions of the parser
end with. Every turn that goes on reads a token, so the loop ends; the budget
`n` bounds the number of turns, and a run that uses it up is marked with the
panic `fuelExhausted`. -/
def parser.loop {α : Type} (item : parser → α × parser) : Nat → parser → List α → List α × parser
  | 0, p, xs => (xs, p.unwind .fuelExhausted)
  | n + 1, p, xs =>
    let r := p.nextCommaOrRightParen
    if r.1 = .text "," then
      let x := item r.2
      parser.loop item n x.2 (xs ++ [x.1])
    else (xs, r.2)

/-- The body of a LINESTRING: `EMPTY`, or the points between parentheses. -/
def parser.nextLineStringText (n : Nat) (p : parser) : List Coordinates × parser :=
  let r := p.nextEmptySetOrLeftParen
  if r.1 = .text "EMPTY" then ([], r.2)
  else
    let pt := r.2.nextPoint
    parser.loop parser.nextPoint n pt.2 [pt.1]

/-- The body of a POLYGON or of a MULTILINESTRING. -/
def parser.nextPolygonText (n : Nat) (p : parser) : List (List Coordinates) × parser :=
  let r := p.nextEmptySetOrLeftParen
  if r.1 = .text "EMPTY" then ([], r.2)
  else
    let line := r.2.nextLineStringText n
    parser.loop (parser.nextLineStringText n) n line.2 [line.1]

/-- A member of a MULTIPOINT: `EMPTY`, or a point with or without its
parentheses. -/
def parser.nextMultiPointStylePoint (p : parser) : OptionalCoordinates × parser :=
  let r := p.peekToken
  if r.1 = .text "EMPTY" then (⟨true, ⟨⟨0, 0⟩⟩⟩, r.2.nextToken.2)
  else
    let useParens := decide (r.1 = .text "(")
    let p := if useParens then r.2.nextToken.2 else r.2
    let pt := p.nextPoint
    let p := if useParens then pt.2.nextRightParen else pt.2
    (⟨false, pt.1⟩, p)

/-- The body of a MULTIPOINT. -/
def parser.nextMultiPointText (n : Nat) (p : parser) : List OptionalCoordinates × parser :=
  let r := p.nextEmptySetOrLeftParen
  if r.1 = .text "EMPTY" then ([], r.2)
  else
    let pt := r.2.nextMultiPointStylePoint
    parser.loop parser.nextMultiPointStylePoint n pt.2 [pt.1]

/-- The body of a MULTIPOLYGON. -/
def parser.nextMultiPolygonText (n : Nat) (p : parser) :
    List (List (List Coordinates)) × parser :=
  let r := p.nextEmptySetOrLeftParen
  if r.1 = .text "EMPTY" then ([], r.2)
  else
    let poly := r.2.nextPolygonText n
    parser.loop (parser.nextPolygonText n) n poly.2 [poly.1]

/-- The body of a GEOMETRYCOLLECTION; `next` reads one member. -/
def parser.nextGeometryCollectionText (next : parser → Geometry × parser) (n : Nat)
    (p : parser) : Geometry × parser :=
  let r := p.nextEmptySetOrLeftParen
  if r.1 = .text "EMPTY" then (NewGeometryCollection [], r.2)
  else
    let geom := next r.2
    let geoms := parser.loop next n geom.2 [geom.1]
    (NewGeometryCollection geoms.1, geoms.2)

/-- Reads a geometry: the tag, compared in upper case, then the body of that
type. The budget `n` bounds the depth of nested collections; every level reads
its tag first, so a depth beyond the number of tokens is never reached, and a
run that uses the budget up is marked with the panic `fuelExhausted`. -/
def parser.nextGeometryTaggedText : Nat → parser → Geometry × parser
  | 0, p => (Geometry.zero, p.unwind .fuelExhausted)
  | n + 1, p =>
    let r := p.nextToken
    let tok := r.1
    let p := r.2
    let tag := strings.ToUpper tok
    if tag = .text "POINT" then
      let coords := p.nextPointText
      if coords.1.Empty then (.point NewEmptyPoint, coords.2)
      else (.point (NewPointC coords.1.Value), coords.2)
    else if tag = .text "LINESTRING" then
      let coords := p.nextLineStringText n
      match coords.1 with
      | [] => (.emptyLineString, coords.2)
      | [a, b] =>
        let ln := coords.2.checked ⟨⟨⟨0, 0⟩⟩, ⟨⟨0, 0⟩⟩⟩ (NewLineC.withOptions a b p.opts)
        (.line ln.1, ln.2)
      | pts =>
        let ls := coords.2.checked ⟨[], []⟩ (NewLineStringC pts p.opts)
        (.lineString ls.1, ls.2)
    else if tag = .text "POLYGON" then
      let coords := p.nextPolygonText n
      if coords.1.length = 0 then (.emptyPolygon, coords.2)
      else
        let poly := coords.2.checked ⟨⟨[], []⟩, []⟩ (NewPolygonC coords.1 p.opts)
        (.polygon poly.1, poly.2)
    else if tag = .text "MULTIPOINT" then
      let coords := p.nextMultiPointText n
      (.multiPoint (NewMultiPointOC coords.1 p.opts), coords.2)
    else if tag = .text "MULTILINESTRING" then
      let coords := p.nextPolygonText n
      let mls := coords.2.checked ⟨[]⟩ (NewMultiLineStringC coords.1 p.opts)
      (.multiLineString mls.1, mls.2)
    else if tag = .text "MULTIPOLYGON" then
      let coords := p.nextMultiPolygonText n
      let mp := coords.2.checked ⟨[]⟩ (NewMultiPolygonC coords.1 p.opts)
      (.multiPolygon mp.1, mp.2)
    else if tag = .text "GEOMETRYCOLLECTION" then
      parser.nextGeometryCollectionText (parser.nextGeometryTaggedText n) n p
    else (Geometry.zero, p.errorf (.wktUnexpectedToken tok))

/-- UnmarshalWKT parses a Well Known Text, given as its tokens, and returns
the corresponding geometry. A text of `k` tokens gets the budget `k + 1`. -/
def UnmarshalWKT (r : List Token) (opts : List ConstructorOption) : Outcome Geometry :=
  let p := newParser r opts
  let geom := p.nextGeometryTaggedText (r.length + 1)
  let p := geom.2.checkEOF
  match p.panicked with
  | some reason => .panic reason
  | none =>
    match p.err with
    | some e => .error e
    | none => .ok geom.1

/-- Modelled from the spec: `appendFloat` is not among the sources; it writes
a number so that it reads back as the same number. The tokeniser reads the
sign of a negative number as a token of its own. -/
def appendFloat (dst : List Token) (f : ℚ) : List Token :=
  if f < 0 then dst ++ [.text "-", .number (-f)] else dst ++ [.number f]

/-- The body of the text of a line string: the points between parentheses,
with commas between them. -/
def LineString.appendWKTBody (s : LineString) (dst : List Token) : List Token :=
  let dst := dst ++ [.text "("]
  let dst := s.points.enum.foldl (fun dst ip =>
    let dst := if ip.1 > 0 then dst ++ [.text ","] else dst
    let c := s.coords.getD ip.2 ⟨⟨0, 0⟩⟩
    let dst := appendFloat dst c.XY.X
    appendFloat dst c.XY.Y) dst
  dst ++ [.text ")"]

/-- AppendWKT of a line string: the tag, then the body. -/
def LineString.AppendWKT (s : LineString) (dst : List Token) : List Token :=
  s.appendWKTBody (dst ++ [.text "LINESTRING"])

/-- AsText of a line string. -/
def LineString.AsText (s : LineString) : List Token := s.AppendWKT []

/-- The body of the text of a polygon: the bodies of the outer ring and of
the holes between parentheses, with commas between them. -/
def Polygon.appendWKTBody (p : Polygon) (dst : List Token) : List Token :=
  let dst := dst ++ [.text "("]
  let dst := p.outer.appendWKTBody dst
  let dst := p.holes.foldl (fun dst h => h.appendWKTBody (dst ++ [.text ","])) dst
  dst ++ [.text ")"]

/-- AppendWKT of a polygon: the tag, then the body. -/
def Polygon.AppendWKT (p : Polygon) (dst : List Token) : List Token :=
  p.appendWKTBody (dst ++ [.text "POLYGON"])

/-- AsText of a polygon. -/
def Polygon.AsText (p : Polygon) : List Token := p.AppendWKT []

/-- The tokens of a point of a MULTIPOINT body, with its parentheses or
without them. -/
def multiPointMember (parens : Bool) (xy : XY) : List Token :=
  if parens then [.text "("] ++ appendFloat (appendFloat [] xy.X) xy.Y ++ [.text ")"]
  else appendFloat (appendFloat [] xy.X) xy.Y

/-- The tokens of a MULTIPOINT text with the given points; the flag next to a
point tells whether the point is written with its parentheses. -/
def multiPointText : List (Bool × XY) → List Token
  | [] => [.text "MULTIPOINT", .text "EMPTY"]
  | m :: rest =>
    [.text "MULTIPOINT", .text "("] ++ multiPointMember m.1 m.2 ++
      (rest.map fun m => Token.text "," :: multiPointMember m.1 m.2).flatten ++ [.text ")"]

/-! ## Definitions used to state the theorems about the parser -/

/-- The tokens of the two ordinates of a point. -/
def xyTokens (c : Coordinates) : List Token := appendFloat (appendFloat [] c.XY.X) c.XY.Y

/-- The tokens of a list of points between parentheses, with commas between
the points. -/
def lineBody : List Coordinates → List Token
  | [] => [.text "(", .text ")"]
  | c :: cs =>
    [.text "("] ++ xyTokens c ++ (cs.map fun c => Token.text "," :: xyTokens c).flatten ++
      [.text ")"]

/-- The tokens of a list of rings between parentheses, with commas between
the rings. -/
def polygonBody : List (List Coordinates) → List Token
  | [] => [.text "(", .text ")"]
  | c :: cs =>
    [.text "("] ++ lineBody c ++ (cs.map fun c => Token.text "," :: lineBody c).flatten ++
      [.text ")"]

/-- The value that the theorems give for the text of the line string `ls`
with the points `pts`: the Line between the two points when there are exactly
two, and `ls` otherwise. -/
def lineOrLineString (pts : List Coordinates) (ls : LineString) : Geometry :=
  match pts with
  | [a, b] => .line ⟨a, b⟩
  | _ => .lineString ls

/-- A token that `strconv.ParseFloat` reads as NaN or as an infinity. -/
def Token.notFinite (tok : Token) : Bool :=
  math.IsNaN (strconv.ParseFloat tok).1 || math.IsInf (strconv.ParseFloat tok).1

/-- What every function of the parser keeps between the parser `p` it starts
from and the parser `q` it ends with: the options are the same, no panic is
raised, the tokens left are a part of the tokens there were, and if `q` holds
no error then `p` held none and every token read in between is one that
`strconv.ParseFloat` does not read as NaN or as an infinity. -/
structure parser.Step (p q : parser) : Prop where
  opts : q.opts = p.opts
  panicked : p.panicked = none → q.panicked = none
  length : q.lexer.length ≤ p.lexer.length
  read : q.err = none →
    p.err = none ∧ ∃ c, p.lexer = c ++ q.lexer ∧ ∀ t ∈ c, Token.notFinite t = false

/-! ## The pairs of the dispatch, the order of the sweep, areas and Reverse -/

/-- The pairs of variants that have a case in the type switch of
`intersection` and of `hasIntersection`, the variant of lower rank first. -/
def listedPair : Geometry → Geometry → Bool
  | .point _, .point _ => true
  | .point _, .line _ => true
  | .point _, .lineString _ => true
  | .point _, .polygon _ => true
  | .point _, .multiPoint _ => true
  | .line _, .line _ => true
  | .line _, .multiPoint _ => true
  | .lineString _, .lineString _ => true
  | .lineString _, .linearRing _ => true
  | .lineString _, .multiLineString _ => true
  | .linearRing _, .linearRing _ => true
  | .linearRing _, .multiLineString _ => true
  | .polygon _, .multiPoint _ => true
  | .multiPoint _, .multiPoint _ => true
  | .multiLineString _, .multiLineString _ => true
  | _, _ => false

/-- The slice `intervals` of `NewPolygon`: the min and the max x of the
envelope of every ring, by ring number. -/
def NewPolygon.intervals (outer : LineString) (holes : List LineString) : List (ℚ × ℚ) :=
  ((seq (1 + holes.length)).map fun i => (NewPolygon.ring outer holes i).Envelope).map
    fun e => (e.1.Min.X, e.1.Max.X)

/-- The slice `rings` of `NewPolygon` after
`sort.Slice(rings, func(i, j int) bool { return intervals[i].minX < intervals[j].minX })`:
the order in which the sweep visits the rings. -/
def NewPolygon.sorted (outer : LineString) (holes : List LineString) : List Nat :=
  sortSlice
    (fun _ i j => decide (((NewPolygon.intervals outer holes).getD i (0, 0)).1 <
      ((NewPolygon.intervals outer holes).getD j (0, 0)).1))
    (seq (1 + holes.length))

/-- A ring used to test the order of the sweep: the triangle
(x 0,x+1 0,x 1,x 0), whose min x is `x`. -/
def triangleAt (x : ℚ) : LineString :=
  ⟨[⟨⟨x, 0⟩⟩, ⟨⟨x + 1, 0⟩⟩, ⟨⟨x, 1⟩⟩, ⟨⟨x, 0⟩⟩], [0, 1, 2, 3]⟩

/-- Modelled from the spec: `math.Abs` of the Go library. -/
def math.Abs (x : ℚ) : ℚ := if x < 0 then -x else x

/-- ExteriorRing gives the exterior ring of the polygon boundary. -/
def Polygon.ExteriorRing (p : Polygon) : LineString := p.outer

/-- NumInteriorRings gives the number of interior rings. -/
def Polygon.NumInteriorRings (p : Polygon) : Nat := p.holes.length

/-- InteriorRingN gives the nth interior ring. Go panics when `n` is out of
bounds; here the zero value is read, and the loops below stay in bounds. -/
def Polygon.InteriorRingN (p : Polygon) (n : Nat) : LineString := p.holes.getD n ⟨[], []⟩

/-- The shoelace formula over the points of a ring, the last point joined to
the first. -/
def signedAreaOfLinearRing (lr : LineString) : ℚ :=
  let n := lr.NumPoints
  let sum := (List.range n).foldl (fun sum i =>
    let pt0 := (lr.PointN i).XY
    let pt1 := (lr.PointN ((i + 1) % n)).XY
    sum + (pt1.X + pt0.X) * (pt1.Y - pt0.Y)) 0
  sum / 2

/-- Area of a polygon: the area of the outer ring minus the areas of the inner
rings. -/
def Polygon.Area (p : Polygon) : ℚ :=
  let area := math.Abs (signedAreaOfLinearRing p.ExteriorRing)
  let n := p.NumInteriorRings
  (List.range n).foldl (fun area i =>
    area - math.Abs (signedAreaOfLinearRing (p.InteriorRingN i))) area

/-- The loop of `centroidAndAreaOfLinearRing`; the state holds `x`, `y` and
`area`. -/
def centroidAndAreaOfLinearRing.loop (lr : LineString) : ℚ × ℚ × ℚ :=
  let n := lr.NumPoints
  (List.range n).foldl (fun st i =>
    let pt0 := (lr.PointN i).XY
    let pt1 := (lr.PointN ((i + 1) % n)).XY
    (st.1 + (pt0.X + pt1.X) * (pt0.X * pt1.Y - pt1.X * pt0.Y),
      st.2.1 + (pt0.Y + pt1.Y) * (pt0.X * pt1.Y - pt1.X * pt0.Y),
      st.2.2 + (pt0.X * pt1.Y - pt1.X * pt0.Y))) (0, 0, 0)

/-- The centroid and the unsigned area of a ring. A division by an area of
zero gives an infinity or NaN in Go and 0 here; the theorems read only the
area. -/
def centroidAndAreaOfLinearRing (lr : LineString) : XY × ℚ :=
  let st := centroidAndAreaOfLinearRing.loop lr
  let area := st.2.2 / 2
  (⟨st.1 / 6 / area, st.2.1 / 6 / area⟩, math.Abs area)

/-- The weighted sum of the centroids and the total area of a polygon: the
outer ring counts positive, the holes negative. -/
def centroidAndAreaOfPolygon (p : Polygon) : ℚ × ℚ × ℚ :=
  let n := p.NumInteriorRings
  let first := centroidAndAreaOfLinearRing p.ExteriorRing
  let rest := (List.range n).map fun i => centroidAndAreaOfLinearRing (p.InteriorRingN i)
  let totalArea := rest.foldl (fun totalArea ca => totalArea - ca.2) first.2
  let avg := ((first :: rest).enum).foldl (fun (avg : XY) ic =>
    let c := ic.2.1.Scale ic.2.2
    let c := if ic.1 ≠ 0 then c.Scale (-1) else c
    avg.Add c) ⟨0, 0⟩
  (avg.X, avg.Y, totalArea)

/-- Modelled from the spec: `NewPointF` is not among the sources; it builds the
non-empty point with the given ordinates. -/
def NewPointF (x y : ℚ) : Point := NewPointXY ⟨x, y⟩

/-- Centroid of a polygon, and whether it is well defined: it is not when
the total area is zero, and then the zero value `Point{}` is returned. -/
def Polygon.Centroid (p : Polygon) : Point × Bool :=
  let r := centroidAndAreaOfPolygon p
  if r.2.2 = 0 then (⟨⟨⟨0, 0⟩⟩, false⟩, false)
  else (NewPointF (r.1 / r.2.2) (r.2.1 / r.2.2), true)

/-- Reverse of a line string: the coordinates in reverse order, handed to
`NewLineStringC` with the default options; an error of the constructor is a
panic. -/
def LineString.Reverse (s : LineString) : Outcome LineString :=
  match NewLineStringC s.Coordinates.reverse [] with
  | .ok s2 => .ok s2
  | .error _ => .panic .reverseFailed
  | .panic r => .panic r

/-- Two lines are the same segment when they have the same unordered pair of
endpoints: a line and its reverse are the same segment. -/
def Line.sameSegment (l m : Line) : Bool :=
  decide ((l.a.XY = m.a.XY ∧ l.b.XY = m.b.XY) ∨ (l.a.XY = m.b.XY ∧ l.b.XY = m.a.XY))

/-- The parser `q` still holds the error that the parser `p` holds, if `p`
holds one. -/
def parser.Keeps (p q : parser) : Prop := ∀ e, p.err = some e → q.err = some e

/-! ## Binary floating point

The definitions above compute with exact rationals. The sources compute with
`float64`; the definitions of this section compute the same expressions the
way a float64 does, for the statements that hold in exact arithmetic only. -/

/-- The power `2 ^ e` for an integer `e`. -/
def float64.pow2 (e : Int) : ℚ :=
  if 0 ≤ e then ((2 ^ e.toNat : Nat) : ℚ) else 1 / ((2 ^ (-e).toNat : Nat) : ℚ)

/-- The number of binary digits of `n`; the first argument bounds the number
of steps, and any bound from the number of digits on gives the same. -/
def float64.bitLength : Nat → Nat → Nat
  | 0, _ => 0
  | fuel + 1, n => if n = 0 then 0 else float64.bitLength fuel (n / 2) + 1

/-- The integer `e` with `2 ^ e ≤ q < 2 ^ (e + 1)`, for a positive `q`: the
difference of the numbers of digits of the numerator and of the denominator,
or one less. -/
def float64.exponent (q : ℚ) : Int :=
  let e := (float64.bitLength q.num.natAbs q.num.natAbs : Int) -
    (float64.bitLength q.den q.den : Int)
  if q < float64.pow2 e then e - 1 else e

/-- Modelled from the spec: all computation is in binary floating-point. A
`float64` of Go is a binary64 of IEEE 754: a significand of 53 bits and an
exponent from -1022 to 1023. A finite float64 is kept as the rational it
denotes; the two zeros, which are equal in every comparison, are one number.
`float64.round q` is the float64 nearest to `q`, the one with the even
significand when two are equally near, and `none` when that is beyond the
largest float64, where Go has an infinity. -/
def float64.round (q : ℚ) : Option ℚ :=
  if q = 0 then some 0
  else
    let a := if q < 0 then -q else q
    let e := Max.max (float64.exponent a) (-1022)
    let ulp := float64.pow2 (e - 52)
    let k := a / ulp
    let n := k.num.natAbs / k.den
    let r := k - (n : ℚ)
    let m := if r < 1 / 2 then n else if 1 / 2 < r then n + 1 else if n % 2 = 0 then n else n + 1
    let v := (m : ℚ) * ulp
    if float64.pow2 1024 ≤ v then none else some (if q < 0 then -v else v)

/-- The sum `x + y` of two float64: the exact sum, rounded. Every operation
is rounded on its own. -/
def float64.add (x y : ℚ) : Option ℚ := float64.round (x + y)

/-- The difference `x - y` of two float64. -/
def float64.sub (x y : ℚ) : Option ℚ := float64.round (x - y)

/-- The product `x * y` of two float64. -/
def float64.mul (x y : ℚ) : Option ℚ := float64.round (x * y)

/-- The quotient `x / y` of two float64; a division by zero gives an infinity
or NaN in Go and `none` here. -/
def float64.div (x y : ℚ) : Option ℚ := if y = 0 then none else float64.round (x / y)

/-- The function `orientation` computed in float64: the sign of the computed
`(q.x - p.x)(s.y - p.y) - (q.y - p.y)(s.x - p.x)`. -/
def float64.orientation (p q s : XY) : Option threePointOrientation := do
  let l ← float64.mul (← float64.sub q.X p.X) (← float64.sub s.Y p.Y)
  let r ← float64.mul (← float64.sub q.Y p.Y) (← float64.sub s.X p.X)
  let cp ← float64.sub l r
  pure (if 0 < cp then .leftTurn else if cp < 0 then .rightTurn else .collinear)

/-- The function `hasIntersectionLineWithLine` computed in float64. -/
def float64.hasIntersectionLineWithLine (n1 n2 : Line) : Option (Bool × Nat) := do
  let a := n1.a.XY
  let b := n1.b.XY
  let c := n2.a.XY
  let d := n2.b.XY
  let o1 ← float64.orientation a b c
  let o2 ← float64.orientation a b d
  let o3 ← float64.orientation c d a
  let o4 ← float64.orientation c d b
  if o1 ≠ o2 ∧ o3 ≠ o4 then pure (true, 0)
  else if o1 = .collinear ∧ o2 = .collinear then
    if (!onSegment a b c && !onSegment a b d) && (!onSegment c d a && !onSegment c d b) then
      pure (false, 0)
    else
      let pts := [a, b, c, d]
      let rth := rightmostThenHighestIndex pts
      let pts := pts.eraseIdx rth
      let ltl := leftmostThenLowestIndex pts
      let pts := pts.eraseIdx ltl
      match pts with
      | p0 :: p1 :: _ => if p0.Equals p1 then pure (true, 0) else pure (true, 1)
      | _ => pure (true, 1)
  else pure (false, 0)

/-- The statement `e := (c.Y-d.Y)*(a.X-c.X) + (d.X-c.X)*(a.Y-c.Y)` of the
crossing branch of `intersectLineWithLine`, computed in float64. -/
def float64.crossing.e (a c d : XY) : Option ℚ := do
  let e1 ← float64.mul (← float64.sub c.Y d.Y) (← float64.sub a.X c.X)
  let e2 ← float64.mul (← float64.sub d.X c.X) (← float64.sub a.Y c.Y)
  float64.add e1 e2

/-- The statement `f := (d.X-c.X)*(a.Y-b.Y) - (a.X-b.X)*(d.Y-c.Y)`, computed
in float64. -/
def float64.crossing.f (a b c d : XY) : Option ℚ := do
  let f1 ← float64.mul (← float64.sub d.X c.X) (← float64.sub a.Y b.Y)
  let f2 ← float64.mul (← float64.sub a.X b.X) (← float64.sub d.Y c.Y)
  float64.sub f1 f2

/-- The statement `p := e / f`, computed in float64. -/
def float64.crossing.p (a b c d : XY) : Option ℚ := do
  let e ← float64.crossing.e a c d
  let f ← float64.crossing.f a b c d
  float64.div e f

/-- The value `b.Sub(a).Scale(p).Add(a)` of the crossing branch, computed in
float64: componentwise `(b - a) * p + a`. -/
def float64.crossing (a b c d : XY) : Option XY := do
  let p ← float64.crossing.p a b c d
  let x ← float64.add (← float64.mul (← float64.sub b.X a.X) p) a.X
  let y ← float64.add (← float64.mul (← float64.sub b.Y a.Y) p) a.Y
  pure ⟨x, y⟩

/-- The function `intersectLineWithLine` after the four orientations have been
computed. -/
def float64.intersectLineWithLine.branches (a b c d : XY)
    (o1 o2 o3 o4 : threePointOrientation) : Option (Outcome Geometry) :=
  if o1 ≠ o2 ∧ o3 ≠ o4 then
    if o1 = .collinear then some (.ok (.point (NewPointXY c)))
    else if o2 = .collinear then some (.ok (.point (NewPointXY d)))
    else if o3 = .collinear then some (.ok (.point (NewPointXY a)))
    else if o4 = .collinear then some (.ok (.point (NewPointXY b)))
    else (float64.crossing a b c d).map fun xy => .ok (.point (NewPointXY xy))
  else if o1 = .collinear ∧ o2 = .collinear then
    if (!onSegment a b c && !onSegment a b d) && (!onSegment c d a && !onSegment c d b) then
      some (.ok (NewGeometryCollection []))
    else
      let pts := [a, b, c, d]
      let rth := rightmostThenHighestIndex pts
      let pts := pts.eraseIdx rth
      let ltl := leftmostThenLowestIndex pts
      let pts := pts.eraseIdx ltl
      match pts with
      | p0 :: p1 :: _ =>
        if p0.Equals p1 then some (.ok (.point (NewPointXY p0)))
        else some ((must (NewLineC ⟨p0⟩ ⟨p1⟩)).map Geometry.line)
      | _ => some (.panic .indexOutOfRange)
  else some (.ok (NewGeometryCollection []))

/-- The function `intersectLineWithLine` computed in float64. -/
def float64.intersectLineWithLine (n1 n2 : Line) : Option (Outcome Geometry) := do
  let o1 ← float64.orientation n1.a.XY n1.b.XY n2.a.XY
  let o2 ← float64.orientation n1.a.XY n1.b.XY n2.b.XY
  let o3 ← float64.orientation n2.a.XY n2.b.XY n1.a.XY
  let o4 ← float64.orientation n2.a.XY n2.b.XY n1.b.XY
  float64.intersectLineWithLine.branches n1.a.XY n1.b.XY n2.a.XY n2.b.XY o1 o2 o3 o4

/-- The function `hasIntersectionPointWithLine` computed in float64. -/
def float64.hasIntersectionPointWithLine (point : Point) (line : Line) : Option (Bool × Nat) :=
  let env := mustEnvelope line
  if !env.Contains point.coords.XY then pure (false, 0)
  else do
    let lhs ← float64.mul (← float64.sub point.coords.XY.X line.a.XY.X)
      (← float64.sub line.b.XY.Y line.a.XY.Y)
    let rhs ← float64.mul (← float64.sub point.coords.XY.Y line.a.XY.Y)
      (← float64.sub line.b.XY.X line.a.XY.X)
    if lhs = rhs then pure (true, 0) else pure (false, 0)

/-- The call `pt.Intersects(ln.AsGeometry())` computed in float64. -/
def float64.IntersectsLine (pt : Point) (ln : Line) : Option Bool :=
  if pt.empty then pure false
  else do
    let r ← float64.hasIntersectionPointWithLine pt ln
    pure r.1

/-- The inner loop of `canonicalPointsAndLines` over the lines, computed in
float64: whether the point is covered by a line. -/
def float64.covered (pt : Point) : List Line → Option Bool
  | [] => pure false
  | ln :: rest => do
    if ← float64.IntersectsLine pt ln then pure true else float64.covered pt rest

/-- The loop of `canonicalPointsAndLines` that removes the points covered by
lines, computed in float64. -/
def float64.removeCovered : List Point → List Line → Option (List Point)
  | [], _ => pure []
  | pt :: rest, lines => do
    let hasInter ← float64.covered pt lines
    let newPoints ← float64.removeCovered rest lines
    pure (if !hasInter then pt :: newPoints else newPoints)

/-- The function `canonicalPointsAndLines` computed in float64. -/
def float64.canonicalPointsAndLines (points : List Point) (lines : List Line) :
    Option (Outcome Geometry) := do
  let lines := dedupLines lines
  let points ← float64.removeCovered (dedupPoints points) lines
  pure (canonicalPointsAndLines.switch points lines)

/-- The body of the inner loop of `IsSimple` computed in float64: `true` when
the loop continues, `false` when it returns false. -/
def float64.pairOK (s : LineString) (n current other : Nat) : Option Bool := do
  let r ← float64.hasIntersectionLineWithLine (s.LineN current) (s.LineN other)
  pure (if !r.1 then true
    else if r.2 ≥ 1 then false
    else if abs ((current : Int) - (other : Int)) = 1 then true
    else if (current = 0 ∧ other = n - 1) ∨ (current = n - 1 ∧ other = 0) then s.IsClosed
    else false)

/-- The inner loop of `IsSimple` over the heap, computed in float64. -/
def float64.othersOK (s : LineString) (n current : Nat) : List Nat → Option Bool
  | [] => pure true
  | other :: rest => do
    if ← float64.pairOK s n current other then float64.othersOK s n current rest
    else pure false

/-- The outer loop of `IsSimple`, computed in float64. -/
def float64.sweep (s : LineString) (n : Nat) : List Nat → List Nat → Option Bool
  | [], _ => pure true
  | current :: unprocessed, active => do
    let currentX := minX (s.LineN current)
    let active := intHeap.popWhile (fun o => decide (maxX (s.LineN o) < currentX)) active
    if ← float64.othersOK s n current active then
      float64.sweep s n unprocessed
        (intHeap.push (fun i j => decide (maxX (s.LineN i) < maxX (s.LineN j))) active current)
    else pure false

/-- The function `IsSimple` computed in float64. -/
def float64.IsSimple (s : LineString) : Option Bool :=
  let n := s.NumLines
  let unprocessed := sortSlice
    (fun data i j => decide (minX (s.LineN (data.getD i 0)) < minX (s.LineN (data.getD j 0))))
    (seq n)
  float64.sweep s n unprocessed []

/-- The line string (0 0, 1.0000000000000004 1.0000000000000002, 5 0,
1.0000000000000002 1) used to compare `IsSimple` in float64 and in exact
arithmetic: its last segment ends next to the end of the first one, without
touching it. -/
def nearMiss : LineString :=
  ⟨[⟨⟨0, 0⟩⟩, ⟨⟨1 + float64.pow2 (-51), 1 + float64.pow2 (-52)⟩⟩, ⟨⟨5, 0⟩⟩,
    ⟨⟨1 + float64.pow2 (-52), 1⟩⟩], [0, 1, 2, 3]⟩

/-- The point (1.0000000000000002 1), next to the segment `nearMissLine` and
not on it. -/
def nearMissPoint : Point := NewPointXY ⟨1 + float64.pow2 (-52), 1⟩

/-- The segment from (0 0) to (1.0000000000000004 1.0000000000000002). -/
def nearMissLine : Line := ⟨⟨⟨0, 0⟩⟩, ⟨⟨1 + float64.pow2 (-51), 1 + float64.pow2 (-52)⟩⟩⟩

/-! # Theorems -/

/-! ## Empty inputs and unsupported pairs -/

/-- C2: if `g2` is empty, `intersection g1 g2` returns `g2` unchanged;
otherwise, if `g1` is empty, it returns `g1` unchanged. -/
theorem intersection_returns_empty_input (g1 g2 : Geometry) :
    (g2.IsEmpty = true → intersection g1 g2 = .ok g2) ∧
    (g2.IsEmpty = false → g1.IsEmpty = true → intersection g1 g2 = .ok g1) := by
  constructor
  · intro h
    simp [intersection, h]
  · intro h2 h1
    simp [intersection, h1, h2]

/-- Witness for C2: two empty inputs give the second one, and an empty first
input is returned with its own type. -/
theorem intersection_returns_empty_input_witness :
    intersection (.point NewEmptyPoint) .emptyLineString = .ok .emptyLineString ∧
    intersection .emptyPolygon (.point (NewPointXY ⟨2, 3⟩)) = .ok .emptyPolygon :=
  ⟨(intersection_returns_empty_input _ _).1 (by rfl),
   (intersection_returns_empty_input _ _).2 (by rfl) (by rfl)⟩

/-- C10: for Polygon with Polygon and for Polygon with LineString, in either
order, `intersection` and `hasIntersection` end in the not-implemented panic;
no error value reaches the caller. -/
theorem unsupported_pair_panics (p q : Polygon) (ls : LineString) :
    intersection (.polygon p) (.polygon q) = .panic .notImplemented ∧
    hasIntersection (.polygon p) (.polygon q) = .panic .notImplemented ∧
    intersection (.polygon p) (.lineString ls) = .panic .notImplemented ∧
    hasIntersection (.polygon p) (.lineString ls) = .panic .notImplemented ∧
    intersection (.lineString ls) (.polygon p) = .panic .notImplemented ∧
    hasIntersection (.lineString ls) (.polygon p) = .panic .notImplemented := by
  simp [intersection, hasIntersection, Geometry.IsEmpty, rank, intersectionDispatch,
    hasIntersectionDispatch]

/-! ## Two-point line strings -/

theorem NewLineStringC_line (ln : Line) (h : ln.a.XY ≠ ln.b.XY) :
    NewLineStringC ln.Coordinates [] = .ok (twoPointLineString ln) := by
  have h' : ¬ ln.b.XY = ln.a.XY := fun e => h e.symm
  simp [NewLineStringC, Line.Coordinates, NewLineStringC.step, doCheapValidations,
    twoPointLineString, h']

theorem lineStringsOfLines_ok (lines : List Line) (h : ∀ ln ∈ lines, ln.a.XY ≠ ln.b.XY) :
    lineStringsOfLines lines = .ok (lines.map twoPointLineString) := by
  induction lines with
  | nil => rfl
  | cons ln rest ih =>
    have h1 := NewLineStringC_line ln (h ln (List.mem_cons_self _ _))
    have h2 := ih (fun l hl => h l (List.mem_cons_of_mem _ hl))
    simp [lineStringsOfLines, h1, h2, Outcome.map]

theorem lineStringsOfLines_length (lines : List Line) (lss : List LineString)
    (h : lineStringsOfLines lines = .ok lss) : lss.length = lines.length := by
  induction lines generalizing lss with
  | nil => simp [lineStringsOfLines] at h; simp [← h]
  | cons ln rest ih =>
    simp only [lineStringsOfLines] at h
    split at h
    · split at h
      · rename_i lss1 h1
        injection h with h
        simp [← h, ih _ h1]
      · cases h
      · cases h
    · cases h
    · cases h

theorem twoPointLineString_lines (ln : Line) : (twoPointLineString ln).lines = [ln] := by
  simp [twoPointLineString, LineString.lines, LineString.NumLines, LineString.LineN,
    List.range_succ]

/-! ## Deduplication -/

theorem dedupPoints_loop_eq (seen : List XY) (pts : List Point) :
    dedupPoints.loop seen pts = dedupByKey Point.XY seen pts := by
  induction pts generalizing seen with
  | nil => rfl
  | cons pt rest ih => simp [dedupPoints.loop, dedupByKey, ih]

theorem dedupLines_loop_eq (seen : List (XY × XY)) (lines : List Line) :
    dedupLines.loop seen lines = dedupByKey xyxyKey seen lines := by
  induction lines generalizing seen with
  | nil => rfl
  | cons ln rest ih => simp [dedupLines.loop, dedupByKey, ih]

section DedupByKey

variable {α κ : Type} [DecidableEq κ] (key : α → κ)

theorem dedupByKey_sublist (seen : List κ) (l : List α) :
    (dedupByKey key seen l).Sublist l := by
  induction l generalizing seen with
  | nil => simp [dedupByKey]
  | cons x rest ih =>
    simp only [dedupByKey]
    split
    · exact (ih seen).trans (List.sublist_cons_self _ _)
    · exact (ih _).cons₂ _

theorem dedupByKey_key_not_seen (seen : List κ) (l : List α) (x : α)
    (hx : x ∈ dedupByKey key seen l) : key x ∉ seen := by
  induction l generalizing seen with
  | nil => simp [dedupByKey] at hx
  | cons y rest ih =>
    simp only [dedupByKey] at hx
    split at hx
    · exact ih seen hx
    · rename_i hy
      rcases List.mem_cons.1 hx with rfl | hx
      · exact hy
      · exact fun h => ih _ hx (List.mem_cons_of_mem _ h)

theorem dedupByKey_keys_nodup (seen : List κ) (l : List α) :
    ((dedupByKey key seen l).map key).Nodup := by
  induction l generalizing seen with
  | nil => simp [dedupByKey]
  | cons y rest ih =>
    simp only [dedupByKey]
    split
    · exact ih seen
    · rw [List.map_cons, List.nodup_cons]
      refine ⟨?_, ih _⟩
      intro h
      obtain ⟨x, hx, hxy⟩ := List.mem_map.1 h
      exact dedupByKey_key_not_seen key _ _ x hx (by simp [hxy])

theorem dedupByKey_key_mem (seen : List κ) (l : List α) (x : α) (hx : x ∈ l) :
    key x ∈ seen ∨ key x ∈ (dedupByKey key seen l).map key := by
  induction l generalizing seen with
  | nil => simp at hx
  | cons y rest ih =>
    simp only [dedupByKey]
    rcases List.mem_cons.1 hx with rfl | hx
    · split
      · rename_i h; exact Or.inl h
      · exact Or.inr (by simp)
    · split
      · exact ih seen hx
      · rcases ih (key y :: seen) hx with h | h
        · rcases List.mem_cons.1 h with h | h
          · exact Or.inr (by simp [h])
          · exact Or.inl h
        · exact Or.inr (by simp only [List.map_cons]; exact List.mem_cons_of_mem _ h)

theorem dedupByKey_fixed (seen : List κ) (l : List α) (hn : (l.map key).Nodup)
    (hs : ∀ x ∈ l, key x ∉ seen) : dedupByKey key seen l = l := by
  induction l generalizing seen with
  | nil => rfl
  | cons y rest ih =>
    rw [List.map_cons, List.nodup_cons] at hn
    have hy : key y ∉ seen := hs y (List.mem_cons_self _ _)
    simp only [dedupByKey, hy, if_false]
    congr 1
    apply ih _ hn.2
    intro x hx h
    rcases List.mem_cons.1 h with h | h
    · exact hn.1 (by rw [← h]; exact List.mem_map_of_mem _ hx)
    · exact hs x (List.mem_cons_of_mem _ hx) h

theorem dedupByKey_idem (l : List α) :
    dedupByKey key [] (dedupByKey key [] l) = dedupByKey key [] l :=
  dedupByKey_fixed key [] _ (dedupByKey_keys_nodup key [] l) (by simp)

end DedupByKey

theorem dedupPoints_eq (pts : List Point) : dedupPoints pts = dedupByKey Point.XY [] pts :=
  dedupPoints_loop_eq [] pts

theorem dedupLines_eq (lines : List Line) : dedupLines lines = dedupByKey xyxyKey [] lines :=
  dedupLines_loop_eq [] lines

theorem dedupLines_idem (lines : List Line) : dedupLines (dedupLines lines) = dedupLines lines := by
  simp only [dedupLines_eq]; exact dedupByKey_idem xyxyKey lines

theorem dedupLines_mem (lines : List Line) (ln : Line) (h : ln ∈ dedupLines lines) :
    ln ∈ lines := by
  rw [dedupLines_eq] at h
  exact (dedupByKey_sublist xyxyKey [] lines).subset h

theorem dedupPoints_removeCovered (pts : List Point) (lines : List Line) :
    dedupPoints (removeCovered (dedupPoints pts) lines) = removeCovered (dedupPoints pts) lines := by
  rw [dedupPoints_eq (removeCovered _ _)]
  apply dedupByKey_fixed _ _ _ _ (by simp)
  have h1 : (removeCovered (dedupPoints pts) lines).Sublist (dedupPoints pts) := by
    unfold removeCovered
    exact List.filter_sublist _
  have h2 := dedupByKey_keys_nodup Point.XY [] pts
  rw [← dedupPoints_eq] at h2
  exact (h1.map Point.XY).nodup h2

theorem removeCovered_idem (pts : List Point) (lines : List Line) :
    removeCovered (removeCovered pts lines) lines = removeCovered pts lines := by
  simp [removeCovered, List.filter_filter]

/-! ## Canonicalisation -/

theorem lineStringsOfLines_inv (lines : List Line) (lss : List LineString)
    (h : lineStringsOfLines lines = .ok lss) :
    (∀ ln ∈ lines, ln.a.XY ≠ ln.b.XY) ∧ lss = lines.map twoPointLineString := by
  induction lines generalizing lss with
  | nil => simp [lineStringsOfLines] at h; simp [← h]
  | cons ln rest ih =>
    by_cases hd : ln.a.XY = ln.b.XY
    · have : NewLineStringC ln.Coordinates [] = .error .lineStringTooShort := by
        simp [NewLineStringC, Line.Coordinates, NewLineStringC.step, doCheapValidations, hd]
      simp [lineStringsOfLines, this] at h
    · have h1 := NewLineStringC_line ln hd
      simp only [lineStringsOfLines, h1] at h
      split at h
      · rename_i lss1 h2
        obtain ⟨h3, h4⟩ := ih _ h2
        injection h with h
        refine ⟨?_, ?_⟩
        · intro l hl
          rcases List.mem_cons.1 hl with rfl | hl
          · exact hd
          · exact h3 l hl
        · simp [← h, h4]
      · cases h
      · cases h

theorem flatMap_twoPointLineString (lines : List Line) :
    (lines.map twoPointLineString).flatMap LineString.lines = lines := by
  induction lines with
  | nil => rfl
  | cons ln rest ih =>
    simp only [List.map_cons, List.flatMap_cons, twoPointLineString_lines, ih]
    rfl

theorem filterMap_points_append (ps : List Point) (ls : List Line) :
    (ps.map Geometry.point ++ ls.map Geometry.line).filterMap Geometry.asPoint = ps := by
  induction ps with
  | nil =>
    induction ls with
    | nil => rfl
    | cons l ls ih =>
      simp only [List.map_nil, List.nil_append, List.map_cons] at ih ⊢
      rw [List.filterMap_cons]
      simp [Geometry.asPoint]
  | cons p ps ih =>
    simp only [List.map_cons, List.cons_append]
    rw [List.filterMap_cons]
    simp only [Geometry.asPoint, ih]

theorem filterMap_lines_append (ps : List Point) (ls : List Line) :
    (ps.map Geometry.point ++ ls.map Geometry.line).filterMap Geometry.asLine = ls := by
  induction ps with
  | nil =>
    induction ls with
    | nil => rfl
    | cons l ls ih =>
      simp only [List.map_nil, List.nil_append, List.map_cons] at ih ⊢
      rw [List.filterMap_cons]
      simp only [Geometry.asLine, ih]
  | cons p ps ih =>
    simp only [List.map_cons, List.cons_append]
    rw [List.filterMap_cons]
    simpa [Geometry.asLine] using ih

theorem switch_members (ps : List Point) (ls : List Line) (g : Geometry)
    (h : canonicalPointsAndLines.switch ps ls = .ok g) : pointsOf g = ps ∧ linesOf g = ls := by
  rcases ps with _ | ⟨p, _ | ⟨q, ps⟩⟩ <;> rcases ls with _ | ⟨l, _ | ⟨m, ls⟩⟩ <;>
    simp only [canonicalPointsAndLines.switch] at h
  all_goals first
    | (injection h with h; subst h
       first
       | exact ⟨rfl, rfl⟩
       | exact ⟨filterMap_points_append _ _, filterMap_lines_append _ _⟩)
    | (cases hl : lineStringsOfLines (l :: m :: ls) with
       | ok lss =>
         rw [hl] at h
         simp only [Outcome.map] at h
         injection h with h; subst h
         obtain ⟨-, h2⟩ := lineStringsOfLines_inv _ _ hl
         refine ⟨rfl, ?_⟩
         simp only [linesOf, NewMultiLineString, h2]
         exact flatMap_twoPointLineString _
       | error e => rw [hl] at h; simp [Outcome.map] at h
       | panic r => rw [hl] at h; simp [Outcome.map] at h)

theorem canonicalPointsAndLines_members (points : List Point) (lines : List Line)
    (g : Geometry) (h : canonicalPointsAndLines points lines = .ok g) :
    canonicalPointsAndLines (pointsOf g) (linesOf g) = .ok g := by
  have h1 : canonicalPointsAndLines.switch
      (removeCovered (dedupPoints points) (dedupLines lines)) (dedupLines lines) = .ok g := h
  obtain ⟨hp, hl⟩ := switch_members _ _ _ h1
  rw [hp, hl]
  show canonicalPointsAndLines.switch _ _ = _
  rw [dedupLines_idem, dedupPoints_removeCovered, removeCovered_idem]
  exact h1

theorem switch_ok (ps : List Point) (ls : List Line) (hd : ∀ ln ∈ ls, ln.a.XY ≠ ln.b.XY) :
    ∃ g, canonicalPointsAndLines.switch ps ls = .ok g := by
  rcases ps with _ | ⟨p, _ | ⟨q, ps⟩⟩ <;> rcases ls with _ | ⟨l, _ | ⟨m, ls⟩⟩ <;>
    first
    | exact ⟨_, rfl⟩
    | (simp only [canonicalPointsAndLines.switch,
         lineStringsOfLines_ok (l :: m :: ls) hd, Outcome.map]
       exact ⟨_, rfl⟩)

theorem canonicalPointsAndLines_ok (points : List Point) (lines : List Line)
    (hd : ∀ ln ∈ lines, ln.a.XY ≠ ln.b.XY) :
    ∃ g, canonicalPointsAndLines points lines = .ok g :=
  switch_ok _ _ (fun ln h => hd ln (dedupLines_mem lines ln h))

/-- C9: canonicalisation is idempotent. For all lists of points and of lines
with distinct endpoints, `canonicalPointsAndLines` returns a geometry, and
applying it again to the points and lines that make up that geometry returns
the same geometry. -/
theorem canonicalPointsAndLines_idempotent (points : List Point) (lines : List Line)
    (hd : ∀ ln ∈ lines, ln.a.XY ≠ ln.b.XY) :
    ∃ g, canonicalPointsAndLines points lines = .ok g ∧
      canonicalPointsAndLines (pointsOf g) (linesOf g) = .ok g := by
  obtain ⟨g, hg⟩ := canonicalPointsAndLines_ok points lines hd
  exact ⟨g, hg, canonicalPointsAndLines_members points lines g hg⟩

theorem reducedPair_length (a b c d : XY) : ∃ p0 p1, reducedPair a b c d = [p0, p1] := by
  simp only [reducedPair, rightmostThenHighestIndex, rightmostThenHighestIndex.loop,
    leftmostThenLowestIndex, leftmostThenLowestIndex.loop, List.drop, List.getD_cons_zero,
    List.getD_cons_succ]
  split_ifs <;> simp [List.eraseIdx, leftmostThenLowestIndex.loop] <;> split_ifs <;>
    simp [List.eraseIdx]

theorem intersectLineWithLine_unfold (n1 n2 : Line) :
    intersectLineWithLine n1 n2 =
      if orientation n1.a.XY n1.b.XY n2.a.XY ≠ orientation n1.a.XY n1.b.XY n2.b.XY ∧
          orientation n2.a.XY n2.b.XY n1.a.XY ≠ orientation n2.a.XY n2.b.XY n1.b.XY then
        if orientation n1.a.XY n1.b.XY n2.a.XY = .collinear then .ok (.point (NewPointXY n2.a.XY))
        else if orientation n1.a.XY n1.b.XY n2.b.XY = .collinear then
          .ok (.point (NewPointXY n2.b.XY))
        else if orientation n2.a.XY n2.b.XY n1.a.XY = .collinear then
          .ok (.point (NewPointXY n1.a.XY))
        else if orientation n2.a.XY n2.b.XY n1.b.XY = .collinear then
          .ok (.point (NewPointXY n1.b.XY))
        else
          .ok (.point (NewPointXY (((n1.b.XY.Sub n1.a.XY).Scale
            (((n2.a.XY.Y - n2.b.XY.Y) * (n1.a.XY.X - n2.a.XY.X) +
                (n2.b.XY.X - n2.a.XY.X) * (n1.a.XY.Y - n2.a.XY.Y)) /
              ((n2.b.XY.X - n2.a.XY.X) * (n1.a.XY.Y - n1.b.XY.Y) -
                (n1.a.XY.X - n1.b.XY.X) * (n2.b.XY.Y - n2.a.XY.Y)))).Add n1.a.XY)))
      else if orientation n1.a.XY n1.b.XY n2.a.XY = .collinear ∧
          orientation n1.a.XY n1.b.XY n2.b.XY = .collinear then
        if noEndpointOnOther n1.a.XY n1.b.XY n2.a.XY n2.b.XY then
          .ok (NewGeometryCollection [])
        else
          match reducedPair n1.a.XY n1.b.XY n2.a.XY n2.b.XY with
          | p0 :: p1 :: _ =>
            if p0.Equals p1 then .ok (.point (NewPointXY p0))
            else (must (NewLineC ⟨p0⟩ ⟨p1⟩)).map Geometry.line
          | _ => .panic .indexOutOfRange
      else .ok (NewGeometryCollection []) := rfl

theorem must_NewLineC (p q : XY) (h : p ≠ q) :
    (must (NewLineC ⟨p⟩ ⟨q⟩)).map Geometry.line = .ok (.line ⟨⟨p⟩, ⟨q⟩⟩) := by
  simp [NewLineC, h, must, Outcome.map]

theorem intersectLineWithLine_forms (n1 n2 : Line) :
    (∃ p, intersectLineWithLine n1 n2 = .ok (.point (NewPointXY p))) ∨
    intersectLineWithLine n1 n2 = .ok (NewGeometryCollection []) ∨
    (∃ ln, ln.a.XY ≠ ln.b.XY ∧ intersectLineWithLine n1 n2 = .ok (.line ln)) := by
  rw [intersectLineWithLine_unfold]
  obtain ⟨p0, p1, hp⟩ := reducedPair_length n1.a.XY n1.b.XY n2.a.XY n2.b.XY
  rw [hp]
  simp only []
  split_ifs with h1 h2 h3 h4 h5 h6 h7 h8
  · exact Or.inl ⟨_, rfl⟩
  · exact Or.inl ⟨_, rfl⟩
  · exact Or.inl ⟨_, rfl⟩
  · exact Or.inl ⟨_, rfl⟩
  · exact Or.inl ⟨_, rfl⟩
  · exact Or.inr (Or.inl rfl)
  · exact Or.inl ⟨_, rfl⟩
  · have hne : p0 ≠ p1 := by simpa [XY.Equals] using h8
    exact Or.inr (Or.inr ⟨⟨⟨p0⟩, ⟨p1⟩⟩, hne, must_NewLineC p0 p1 hne⟩)
  · exact Or.inr (Or.inl rfl)

/-- C8: `canonicalPointsAndLines` chooses its result from the points `ps` and
lines `ls` left after deduplication and removal of covered points: the empty
GeometryCollection when both are empty, the Point itself for one point and no
line, a MultiPoint of the points for two or more points and no line, the Line
itself for one line and no point, a MultiLineString of two-point line strings
for two or more lines and no point, and otherwise a GeometryCollection of the
points followed by the lines; and it returns no error when every input line
has distinct endpoints. -/
theorem canonicalPointsAndLines_by_counts (points : List Point) (lines : List Line) :
    let ls := dedupLines lines
    let ps := removeCovered (dedupPoints points) ls
    (ps.length = 0 → ls.length = 0 →
      canonicalPointsAndLines points lines = .ok (NewGeometryCollection [])) ∧
    (∀ pt, ps = [pt] → ls.length = 0 →
      canonicalPointsAndLines points lines = .ok (.point pt)) ∧
    (2 ≤ ps.length → ls.length = 0 →
      canonicalPointsAndLines points lines = .ok (.multiPoint (NewMultiPoint ps))) ∧
    (∀ ln, ps.length = 0 → ls = [ln] →
      canonicalPointsAndLines points lines = .ok (.line ln)) ∧
    (ps.length = 0 → 2 ≤ ls.length → (∀ ln ∈ lines, ln.a.XY ≠ ln.b.XY) →
      canonicalPointsAndLines points lines =
        .ok (.multiLineString (NewMultiLineString (ls.map twoPointLineString)))) ∧
    (1 ≤ ps.length → 1 ≤ ls.length →
      canonicalPointsAndLines points lines =
        .ok (NewGeometryCollection (ps.map Geometry.point ++ ls.map Geometry.line))) ∧
    ((∀ ln ∈ lines, ln.a.XY ≠ ln.b.XY) →
      ∃ g, canonicalPointsAndLines points lines = .ok g) := by
  intro ls ps
  have hls : ∀ ln ∈ ls, ln ∈ lines := fun ln h => dedupLines_mem lines ln h
  have hc : canonicalPointsAndLines points lines = canonicalPointsAndLines.switch ps ls := rfl
  clear_value ls ps
  rw [hc]
  refine ⟨?_, ?_, ?_, ?_, ?_, ?_, ?_⟩
  · intro h1 h2
    rw [List.length_eq_zero] at h1 h2
    subst h1 h2; rfl
  · intro pt h1 h2
    rw [List.length_eq_zero] at h2
    subst h1 h2; rfl
  · intro h1 h2
    rw [List.length_eq_zero] at h2
    subst h2
    rcases ps with _ | ⟨p, _ | ⟨q, ps⟩⟩
    · simp at h1
    · simp at h1
    · rfl
  · intro ln h1 h2
    rw [List.length_eq_zero] at h1
    subst h1 h2; rfl
  · intro h1 h2 hd
    rw [List.length_eq_zero] at h1
    subst h1
    rcases ls with _ | ⟨l, _ | ⟨m, ls⟩⟩
    · simp at h2
    · simp at h2
    · have := lineStringsOfLines_ok (l :: m :: ls) (fun ln h => hd ln (hls ln h))
      simp only [canonicalPointsAndLines.switch, this, Outcome.map]
  · intro h1 h2
    rcases ps with _ | ⟨p, ps⟩
    · simp at h1
    rcases ls with _ | ⟨l, ls⟩
    · simp at h2
    rcases ps with _ | ⟨q, ps⟩ <;> rfl
  · intro hd
    exact switch_ok ps ls (fun ln h => hd ln (hls ln h))

theorem witness_lines_distinct :
    ∀ ln ∈ [(⟨⟨⟨0, 0⟩⟩, ⟨⟨1, 0⟩⟩⟩ : Line), ⟨⟨⟨1, 0⟩⟩, ⟨⟨0, 0⟩⟩⟩], ln.a.XY ≠ ln.b.XY := by
  intro ln h
  simp only [List.mem_cons, List.mem_singleton, List.not_mem_nil, or_false] at h
  rcases h with rfl | rfl <;> simp

theorem witness_dedupLines :
    dedupLines [(⟨⟨⟨0, 0⟩⟩, ⟨⟨1, 0⟩⟩⟩ : Line), ⟨⟨⟨1, 0⟩⟩, ⟨⟨0, 0⟩⟩⟩] = [⟨⟨⟨0, 0⟩⟩, ⟨⟨1, 0⟩⟩⟩] := by
  simp [dedupLines, dedupLines.loop, xyxyKey, XY.Less]

theorem witness_points :
    removeCovered (dedupPoints [NewPointXY ⟨0, 1⟩, NewPointXY ⟨0, 1⟩, NewPointXY ⟨1 / 2, 0⟩])
      [(⟨⟨⟨0, 0⟩⟩, ⟨⟨1, 0⟩⟩⟩ : Line)] = [NewPointXY ⟨0, 1⟩] := by
  simp [removeCovered, dedupPoints, dedupPoints.loop, Point.XY, NewPointXY, Point.IntersectsLine,
    hasIntersectionPointWithLine, mustEnvelope, Envelope.Contains, List.filter]
  norm_num

/-- Witness for C8: three points, one repeated and one covered, with a line
and its reverse, give the collection of the uncovered point and the line. -/
theorem canonicalPointsAndLines_by_counts_witness :
    canonicalPointsAndLines [NewPointXY ⟨0, 1⟩, NewPointXY ⟨0, 1⟩, NewPointXY ⟨1 / 2, 0⟩]
        [⟨⟨⟨0, 0⟩⟩, ⟨⟨1, 0⟩⟩⟩, ⟨⟨⟨1, 0⟩⟩, ⟨⟨0, 0⟩⟩⟩] =
      .ok (NewGeometryCollection
        [.point (NewPointXY ⟨0, 1⟩), .line ⟨⟨⟨0, 0⟩⟩, ⟨⟨1, 0⟩⟩⟩]) := by
  have h := (canonicalPointsAndLines_by_counts
    [NewPointXY ⟨0, 1⟩, NewPointXY ⟨0, 1⟩, NewPointXY ⟨1 / 2, 0⟩]
    [⟨⟨⟨0, 0⟩⟩, ⟨⟨1, 0⟩⟩⟩, ⟨⟨⟨1, 0⟩⟩, ⟨⟨0, 0⟩⟩⟩]).2.2.2.2.2.1
  simp only [witness_dedupLines, witness_points] at h
  exact h (by simp) (by simp)

/-- Witness for C9 on the same input. -/
theorem canonicalPointsAndLines_idempotent_witness :
    ∃ g, canonicalPointsAndLines [NewPointXY ⟨0, 1⟩, NewPointXY ⟨0, 1⟩, NewPointXY ⟨1 / 2, 0⟩]
        [⟨⟨⟨0, 0⟩⟩, ⟨⟨1, 0⟩⟩⟩, ⟨⟨⟨1, 0⟩⟩, ⟨⟨0, 0⟩⟩⟩] = .ok g ∧
      canonicalPointsAndLines (pointsOf g) (linesOf g) = .ok g :=
  canonicalPointsAndLines_idempotent _ _ witness_lines_distinct

/-! ## Shape of the results -/

theorem CanonicalShape.of_points (ps : List Point) (h : ps.length ≠ 1) :
    CanonicalShape (.multiPoint (NewMultiPoint ps)) :=
  Or.inr (Or.inr (Or.inl ⟨ps, rfl, h⟩))

theorem CanonicalShape.empty : CanonicalShape (NewGeometryCollection []) :=
  Or.inr (Or.inr (Or.inr (Or.inr ⟨[], [], rfl, by simp⟩)))

theorem CanonicalShape.point (p : Point) : CanonicalShape (.point p) := Or.inl ⟨p, rfl⟩

theorem CanonicalShape.line (l : Line) : CanonicalShape (.line l) := Or.inr (Or.inl ⟨l, rfl⟩)

theorem switch_shape (ps : List Point) (ls : List Line) (g : Geometry)
    (h : canonicalPointsAndLines.switch ps ls = .ok g) : CanonicalShape g := by
  rcases ps with _ | ⟨p, _ | ⟨q, ps⟩⟩ <;> rcases ls with _ | ⟨l, _ | ⟨m, ls⟩⟩ <;>
    simp only [canonicalPointsAndLines.switch] at h
  all_goals first
    | (injection h with h; subst h
       first
       | exact CanonicalShape.empty
       | exact CanonicalShape.point _
       | exact CanonicalShape.line _
       | exact CanonicalShape.of_points _ (by simp)
       | exact Or.inr (Or.inr (Or.inr (Or.inr ⟨_, _, rfl,
           by simp only [List.length_cons, List.length_nil]; omega⟩))))
    | (cases hl : lineStringsOfLines (l :: m :: ls) with
       | ok lss =>
         rw [hl] at h
         simp only [Outcome.map] at h
         injection h with h; subst h
         obtain ⟨-, h2⟩ := lineStringsOfLines_inv _ _ hl
         exact Or.inr (Or.inr (Or.inr (Or.inl ⟨_, by rw [h2], by simp⟩)))
       | error e => rw [hl] at h; simp [Outcome.map] at h
       | panic r => rw [hl] at h; simp [Outcome.map] at h)

theorem must_ok {α : Type} (o : Outcome α) (v : α) (h : must o = .ok v) : o = .ok v := by
  cases o <;> simp_all [must]

theorem canonicalise_shape (collection : List Geometry) (g : Geometry)
    (h : canonicalise collection = .ok g) : CanonicalShape g :=
  switch_shape _ _ g (must_ok _ _ h)

theorem intersectMultiLineStringWithMultiLineString_shape (mls1 mls2 : MultiLineString)
    (g : Geometry) (h : intersectMultiLineStringWithMultiLineString mls1 mls2 = .ok g) :
    CanonicalShape g := by
  unfold intersectMultiLineStringWithMultiLineString at h
  split at h
  · exact canonicalise_shape _ g h
  · cases h
  · cases h

theorem intersectLineWithLine_shape (n1 n2 : Line) (g : Geometry)
    (h : intersectLineWithLine n1 n2 = .ok g) : CanonicalShape g := by
  rcases intersectLineWithLine_forms n1 n2 with ⟨p, hp⟩ | hp | ⟨ln, -, hp⟩ <;>
    rw [hp] at h <;> injection h with h <;> subst h
  · exact CanonicalShape.point _
  · exact CanonicalShape.empty
  · exact CanonicalShape.line _

theorem intersectPointWithLine_point (pt : Point) (ln : Line) :
    ∃ p, intersectPointWithLine pt ln = .point p := by
  unfold intersectPointWithLine
  simp only []
  split_ifs <;> exact ⟨_, rfl⟩

theorem intersectPointWithLineString_loop_point (pt : Point) (lines : List Line) :
    ∃ p, intersectPointWithLineString.loop pt lines = .point p := by
  induction lines with
  | nil => exact ⟨_, rfl⟩
  | cons ln rest ih =>
    simp only [intersectPointWithLineString.loop]
    split_ifs
    · exact intersectPointWithLine_point pt ln
    · exact ih

theorem shape_of_list (pts : List Point) : CanonicalShape (pointOrMultiPoint pts) := by
  rcases pts with _ | ⟨p, _ | ⟨q, ps⟩⟩
  · exact CanonicalShape.of_points _ (by simp)
  · exact CanonicalShape.point _
  · exact CanonicalShape.of_points _ (by simp)

theorem intersectLineWithMultiPoint_shape (ln : Line) (mp : MultiPoint) :
    CanonicalShape (intersectLineWithMultiPoint ln mp) := shape_of_list _

theorem intersectMultiPointWithMultiPoint_shape (mp1 mp2 : MultiPoint) :
    CanonicalShape (intersectMultiPointWithMultiPoint mp1 mp2) := shape_of_list _

theorem intersectMultiPointWithPolygon_shape (mp : MultiPoint) (p : Polygon) :
    CanonicalShape (intersectMultiPointWithPolygon mp p) := by
  unfold intersectMultiPointWithPolygon
  simp only []
  rcases mp.pts.filter (keptByPolygon p) with _ | ⟨p, _ | ⟨q, ps⟩⟩
  · exact CanonicalShape.empty
  · exact CanonicalShape.point _
  · exact CanonicalShape.of_points _ (by simp)

theorem intersectPointWithMultiPoint_shape (pt : Point) (mp : MultiPoint)
    (h : mp.IsEmpty = false) : CanonicalShape (intersectPointWithMultiPoint pt mp) := by
  unfold intersectPointWithMultiPoint
  rw [h]
  simp only [Bool.false_eq_true, if_false]
  split_ifs
  · exact CanonicalShape.point _
  · exact CanonicalShape.empty

theorem intersectPointWithPoint_shape (p q : Point) :
    CanonicalShape (intersectPointWithPoint p q) := by
  unfold intersectPointWithPoint
  split_ifs
  · exact CanonicalShape.point _
  · exact CanonicalShape.empty

theorem intersectionDispatch_shape (g1 g2 r : Geometry) (h1 : g1.IsEmpty = false)
    (h2 : g2.IsEmpty = false) (h : intersectionDispatch g1 g2 = .ok r) : CanonicalShape r := by
  cases g1 <;> cases g2 <;> simp only [intersectionDispatch] at h <;>
    first
    | exact intersectMultiLineStringWithMultiLineString_shape _ _ _ h
    | exact intersectLineWithLine_shape _ _ _ h
    | (cases h; done)
    | (injection h with h; subst h
       first
       | exact intersectPointWithPoint_shape _ _
       | exact intersectMultiPointWithPolygon_shape _ _
       | exact intersectLineWithMultiPoint_shape _ _
       | exact intersectMultiPointWithMultiPoint_shape _ _
       | exact intersectPointWithMultiPoint_shape _ _ h2
       | (obtain ⟨p, hp⟩ := intersectPointWithLine_point _ _
          rw [hp]; exact CanonicalShape.point _)
       | (obtain ⟨p, hp⟩ := intersectPointWithLineString_loop_point _ _
          unfold intersectPointWithLineString
          rw [hp]; exact CanonicalShape.point _))

theorem intersection_shape (g1 g2 r : Geometry) (h1 : g1.IsEmpty = false)
    (h2 : g2.IsEmpty = false) (h : intersection g1 g2 = .ok r) : CanonicalShape r := by
  unfold intersection at h
  rw [h1, h2] at h
  simp only [Bool.false_eq_true, if_false] at h
  split_ifs at h
  · exact intersectionDispatch_shape _ _ _ h2 h1 h
  · exact intersectionDispatch_shape _ _ _ h1 h2 h

/-- C7: for non-empty inputs of a supported pair, `intersection` never returns
a MultiPoint holding exactly one point, a MultiLineString holding exactly one
line string or a GeometryCollection holding exactly one member; a result made
of a single point is that Point and a result made of a single segment is that
Line. -/
theorem intersection_never_singleton_collection (g1 g2 r : Geometry)
    (h1 : g1.IsEmpty = false) (h2 : g2.IsEmpty = false) (h : intersection g1 g2 = .ok r) :
    (∀ p, r ≠ .multiPoint (NewMultiPoint [p])) ∧
    (∀ s, r ≠ .multiLineString (NewMultiLineString [s])) ∧
    (∀ m, r ≠ NewGeometryCollection [m]) ∧
    (∀ p, pointsOf r = [p] → linesOf r = [] → r = .point p) ∧
    (∀ l, pointsOf r = [] → linesOf r = [l] → r = .line l) := by
  rcases intersection_shape g1 g2 r h1 h2 h with
    ⟨p, rfl⟩ | ⟨l, rfl⟩ | ⟨ps, rfl, hps⟩ | ⟨ls, rfl, hls⟩ | ⟨ps, ls, rfl, hpl⟩
  · refine ⟨by simp, by simp, by simp [NewGeometryCollection], ?_, ?_⟩
    · intro q hq _
      simp only [pointsOf, List.cons.injEq, and_true] at hq
      rw [hq]
    · intro l hl
      simp [pointsOf] at hl
  · refine ⟨by simp, by simp, by simp [NewGeometryCollection], ?_, ?_⟩
    · intro q hq
      simp [pointsOf] at hq
    · intro m _ hm
      simp only [linesOf, List.cons.injEq, and_true] at hm
      rw [hm]
  · refine ⟨?_, by simp, by simp [NewGeometryCollection], ?_, ?_⟩
    · intro p hp
      simp only [NewMultiPoint, Geometry.multiPoint.injEq, MultiPoint.mk.injEq] at hp
      rw [hp] at hps
      simp at hps
    · intro p hp _
      simp only [pointsOf, NewMultiPoint] at hp
      rw [hp] at hps
      simp at hps
    · intro l _ hl
      simp [linesOf] at hl
  · refine ⟨by simp, ?_, by simp [NewGeometryCollection], ?_, ?_⟩
    · intro s hs
      simp only [NewMultiLineString, Geometry.multiLineString.injEq,
        MultiLineString.mk.injEq] at hs
      have := congrArg List.length hs
      simp at this
      omega
    · intro p hp
      simp [pointsOf] at hp
    · intro l _ hl
      simp only [linesOf, NewMultiLineString, flatMap_twoPointLineString] at hl
      rw [hl] at hls
      simp at hls
  · have hp : pointsOf (NewGeometryCollection (ps.map Geometry.point ++ ls.map Geometry.line))
        = ps := filterMap_points_append ps ls
    have hl : linesOf (NewGeometryCollection (ps.map Geometry.point ++ ls.map Geometry.line))
        = ls := filterMap_lines_append ps ls
    refine ⟨by simp [NewGeometryCollection], by simp [NewGeometryCollection], ?_, ?_, ?_⟩
    · intro m hm
      simp only [NewGeometryCollection, Geometry.geometryCollection.injEq] at hm
      have := congrArg List.length hm
      simp at this
      omega
    · intro p h3 h4
      rw [hp] at h3
      rw [hl] at h4
      rw [h3, h4] at hpl
      simp at hpl
    · intro l h3 h4
      rw [hp] at h3
      rw [hl] at h4
      rw [h3, h4] at hpl
      simp at hpl

theorem eval_line_multipoint :
    intersection (.line ⟨⟨⟨0, 0⟩⟩, ⟨⟨1, 1⟩⟩⟩)
      (.multiPoint ⟨[NewPointXY ⟨1 / 2, 1 / 2⟩, NewPointXY ⟨1, 0⟩]⟩) =
    .ok (.point (NewPointXY ⟨1 / 2, 1 / 2⟩)) := by
  simp [intersection, Geometry.IsEmpty, MultiPoint.IsEmpty, rank, intersectionDispatch,
    intersectLineWithMultiPoint, pointOrMultiPoint, Point.IntersectionLine, intersectPointWithLine,
    mustEnvelope, Envelope.Contains, NewPointXY, NewMultiPoint, List.filter]
  norm_num
  simp [Geometry.IsEmpty, NewEmptyPoint]

/-- Witness for C7: a Line and a MultiPoint with one point on it give that
Point, not a MultiPoint of one point. -/
theorem intersection_never_singleton_collection_witness :
    intersection (.line ⟨⟨⟨0, 0⟩⟩, ⟨⟨1, 1⟩⟩⟩)
      (.multiPoint ⟨[NewPointXY ⟨1 / 2, 1 / 2⟩, NewPointXY ⟨1, 0⟩]⟩) =
      .ok (.point (NewPointXY ⟨1 / 2, 1 / 2⟩)) ∧
    ∀ p, Geometry.point (NewPointXY ⟨1 / 2, 1 / 2⟩) ≠ .multiPoint (NewMultiPoint [p]) :=
  ⟨eval_line_multipoint,
   (intersection_never_singleton_collection (.line ⟨⟨⟨0, 0⟩⟩, ⟨⟨1, 1⟩⟩⟩)
    (.multiPoint ⟨[NewPointXY ⟨1 / 2, 1 / 2⟩, NewPointXY ⟨1, 0⟩]⟩) _
    (by rfl) (by rfl) eval_line_multipoint).1⟩

/-! ## The method calls unfolded in the embedding -/

/-- The call `pt.Intersection(ln)` is `intersection(pt, ln)`: the helper
`Point.IntersectionLine` is what the dispatch computes. -/
theorem intersection_point_line (pt : Point) (ln : Line) :
    intersection (.point pt) (.line ln) = .ok (pt.IntersectionLine ln) := by
  cases h : pt.empty <;>
    simp [intersection, Geometry.IsEmpty, rank, intersectionDispatch, Point.IntersectionLine, h]

/-- The call `pt.Intersects(ln.AsGeometry())` is `hasIntersection(pt, ln)`: the
helper `Point.IntersectsLine` is what the dispatch computes. -/
theorem hasIntersection_point_line (pt : Point) (ln : Line) :
    (hasIntersection (.point pt) (.line ln)).map Prod.fst = .ok (pt.IntersectsLine ln) := by
  cases h : pt.empty <;>
    simp [hasIntersection, Geometry.IsEmpty, rank, hasIntersectionDispatch,
      Point.IntersectsLine, h, Outcome.map]

/-- The call `ln1.Intersection(ln2)` is `intersection(ln1, ln2)`, which is
`intersectLineWithLine`. -/
theorem intersection_line_line (ln1 ln2 : Line) :
    intersection (.line ln1) (.line ln2) = intersectLineWithLine ln1 ln2 := by
  simp [intersection, Geometry.IsEmpty, rank, intersectionDispatch]

/-! ## Evaluations on the inputs of the test table -/

theorem eval_point_off_line :
    intersection (.point (NewPointXY ⟨3, 3⟩)) (.line ⟨⟨⟨0, 0⟩⟩, ⟨⟨2, 2⟩⟩⟩) =
      .ok (.point NewEmptyPoint) := by
  simp [intersection, Geometry.IsEmpty, rank, intersectionDispatch, intersectPointWithLine,
    mustEnvelope, Envelope.Contains, NewPointXY]
  norm_num

theorem eval_line_multipoint_off :
    intersection (.line ⟨⟨⟨0, 0⟩⟩, ⟨⟨1, 1⟩⟩⟩) (.multiPoint ⟨[NewPointXY ⟨1, 0⟩]⟩) =
      .ok (.multiPoint (NewMultiPoint [])) := by
  simp [intersection, Geometry.IsEmpty, MultiPoint.IsEmpty, rank, intersectionDispatch,
    intersectLineWithMultiPoint, pointOrMultiPoint, Point.IntersectionLine, intersectPointWithLine,
    mustEnvelope, Envelope.Contains, NewPointXY, NewMultiPoint, List.filter, NewEmptyPoint]

theorem eval_multipoint_disjoint :
    intersection (.multiPoint ⟨[NewPointXY ⟨3, 4⟩, NewPointXY ⟨1, 2⟩]⟩)
        (.multiPoint ⟨[NewPointXY ⟨1, 4⟩, NewPointXY ⟨2, 2⟩]⟩) =
      .ok (.multiPoint (NewMultiPoint [])) := by
  simp [intersection, Geometry.IsEmpty, MultiPoint.IsEmpty, rank, intersectionDispatch,
    intersectMultiPointWithMultiPoint, pointOrMultiPoint, NewPointXY, NewMultiPoint, List.filter, xySetInsert]

/-- C5: on three inputs of the test table without a common point the code
does not return GEOMETRYCOLLECTION EMPTY: a Point off a Line gives the empty
Point, a Line and a MultiPoint off it give the empty MultiPoint, and two
MultiPoints without a common point give the empty MultiPoint. -/
theorem intersection_disjoint_not_empty_collection :
    intersection (.point (NewPointXY ⟨3, 3⟩)) (.line ⟨⟨⟨0, 0⟩⟩, ⟨⟨2, 2⟩⟩⟩) =
      .ok (.point NewEmptyPoint) ∧
    intersection (.line ⟨⟨⟨0, 0⟩⟩, ⟨⟨1, 1⟩⟩⟩) (.multiPoint ⟨[NewPointXY ⟨1, 0⟩]⟩) =
      .ok (.multiPoint (NewMultiPoint [])) ∧
    intersection (.multiPoint ⟨[NewPointXY ⟨3, 4⟩, NewPointXY ⟨1, 2⟩]⟩)
        (.multiPoint ⟨[NewPointXY ⟨1, 4⟩, NewPointXY ⟨2, 2⟩]⟩) =
      .ok (.multiPoint (NewMultiPoint [])) ∧
    Geometry.point NewEmptyPoint ≠ NewGeometryCollection [] ∧
    Geometry.multiPoint (NewMultiPoint []) ≠ NewGeometryCollection [] :=
  ⟨eval_point_off_line, eval_line_multipoint_off, eval_multipoint_disjoint,
    by simp [NewGeometryCollection], by simp [NewGeometryCollection]⟩

theorem lines_of_four (a b c d : Coordinates) (pts : List Nat) :
    (LineString.mk [a, b, c, d] pts).lines = [⟨a, b⟩, ⟨b, c⟩, ⟨c, d⟩] := by
  simp [LineString.lines, LineString.NumLines, LineString.LineN, List.range_succ]

theorem fuzz_kept_2_1 : keptByPolygon fuzzPolygon (NewPointXY ⟨2, 1⟩) = true := by
  simp [keptByPolygon, fuzzPolygon, pointRingSide, lines_of_four, Point.XY, NewPointXY,
    hasIntersectionPointWithLine, mustEnvelope, Envelope.Contains, rayCrosses,
    List.countP_cons]
  norm_num
  decide

theorem fuzz_kept_1_2 : keptByPolygon fuzzPolygon (NewPointXY ⟨1, 2⟩) = true := by
  simp [keptByPolygon, fuzzPolygon, pointRingSide, lines_of_four, Point.XY, NewPointXY,
    hasIntersectionPointWithLine, mustEnvelope, Envelope.Contains, rayCrosses,
    List.countP_cons]
  norm_num
  decide

theorem fuzz_kept_3_6 : keptByPolygon fuzzPolygon (NewPointXY ⟨3, 6⟩) = false := by
  simp [keptByPolygon, fuzzPolygon, pointRingSide, lines_of_four, Point.XY, NewPointXY,
    hasIntersectionPointWithLine, mustEnvelope, Envelope.Contains, rayCrosses,
    List.countP_cons]
  norm_num

/-- C6: on the two polygon inputs of the test table, and on a Line with a
MultiPoint that repeats a point of the line, the code returns the repeated
point twice: the result holds two points with the same XY. -/
theorem intersection_keeps_repeated_point :
    intersection (.polygon fuzzPolygon)
        (.multiPoint ⟨[NewPointXY ⟨2, 1⟩, NewPointXY ⟨3, 6⟩, NewPointXY ⟨2, 1⟩]⟩) =
      .ok (.multiPoint (NewMultiPoint [NewPointXY ⟨2, 1⟩, NewPointXY ⟨2, 1⟩])) ∧
    intersection (.polygon fuzzPolygon)
        (.multiPoint ⟨[NewPointXY ⟨2, 1⟩, NewPointXY ⟨1, 2⟩, NewPointXY ⟨2, 1⟩]⟩) =
      .ok (.multiPoint (NewMultiPoint
        [NewPointXY ⟨2, 1⟩, NewPointXY ⟨1, 2⟩, NewPointXY ⟨2, 1⟩])) ∧
    intersection (.line ⟨⟨⟨0, 0⟩⟩, ⟨⟨1, 1⟩⟩⟩)
        (.multiPoint ⟨[NewPointXY ⟨1 / 2, 1 / 2⟩, NewPointXY ⟨1 / 2, 1 / 2⟩]⟩) =
      .ok (.multiPoint (NewMultiPoint
        [NewPointXY ⟨1 / 2, 1 / 2⟩, NewPointXY ⟨1 / 2, 1 / 2⟩])) := by
  refine ⟨?_, ?_, ?_⟩
  · simp [intersection, Geometry.IsEmpty, MultiPoint.IsEmpty, rank, intersectionDispatch,
      intersectMultiPointWithPolygon, List.filter, fuzz_kept_2_1, fuzz_kept_3_6]
    simp [NewPointXY]
  · simp [intersection, Geometry.IsEmpty, MultiPoint.IsEmpty, rank, intersectionDispatch,
      intersectMultiPointWithPolygon, List.filter, fuzz_kept_2_1, fuzz_kept_1_2]
    simp [NewPointXY]
  · simp [intersection, Geometry.IsEmpty, MultiPoint.IsEmpty, rank, intersectionDispatch,
      intersectLineWithMultiPoint, pointOrMultiPoint, Point.IntersectionLine, intersectPointWithLine,
      mustEnvelope, Envelope.Contains, NewPointXY, NewMultiPoint, List.filter]
    norm_num
    simp [Geometry.IsEmpty]

/-- C1: for the Line from (0 0) to (1 1) and MULTIPOINT((5 5), EMPTY), both
operations are defined, `hasIntersection` reports true and `intersection`
returns an empty geometry. -/
theorem hasIntersection_disagrees_on_empty_member :
    hasIntersection (.line ⟨⟨⟨0, 0⟩⟩, ⟨⟨1, 1⟩⟩⟩)
        (.multiPoint ⟨[NewPointXY ⟨5, 5⟩, NewEmptyPoint]⟩) = .ok (true, 0) ∧
    intersection (.line ⟨⟨⟨0, 0⟩⟩, ⟨⟨1, 1⟩⟩⟩)
        (.multiPoint ⟨[NewPointXY ⟨5, 5⟩, NewEmptyPoint]⟩) =
      .ok (.multiPoint (NewMultiPoint [])) ∧
    (Geometry.multiPoint (NewMultiPoint [])).IsEmpty = true := by
  refine ⟨?_, ?_, by rfl⟩
  · simp [hasIntersection, Geometry.IsEmpty, MultiPoint.IsEmpty, rank, hasIntersectionDispatch,
      hasIntersectionLineWithMultiPoint, hasIntersectionPointWithLine, mustEnvelope,
      Envelope.Contains, NewPointXY, NewEmptyPoint]
    norm_num
  · simp [intersection, Geometry.IsEmpty, MultiPoint.IsEmpty, rank, intersectionDispatch,
      intersectLineWithMultiPoint, pointOrMultiPoint, Point.IntersectionLine, intersectPointWithLine,
      mustEnvelope, Envelope.Contains, NewPointXY, NewMultiPoint, List.filter, NewEmptyPoint]

/-! ## Plane geometry over the rationals -/

theorem orientation_collinear_iff (a b c : XY) :
    orientation a b c = .collinear ↔ cross a b c = 0 := by
  unfold orientation cross
  simp only []
  split_ifs with h1 h2
  · simp; exact ne_of_gt h1
  · simp; exact ne_of_lt h2
  · simp; exact le_antisymm (not_lt.1 h1) (not_lt.1 h2)

theorem orientation_leftTurn_iff (a b c : XY) :
    orientation a b c = .leftTurn ↔ 0 < cross a b c := by
  unfold orientation cross
  simp only []
  split_ifs with h1 h2
  · simp [h1]
  · simp [h1]
  · simp [h1]

theorem orientation_rightTurn_iff (a b c : XY) :
    orientation a b c = .rightTurn ↔ cross a b c < 0 := by
  unfold orientation cross
  simp only []
  split_ifs with h1 h2
  · exact ⟨fun h => (by cases h), fun h => absurd h (not_lt.2 (le_of_lt h1))⟩
  · simp [h2]
  · simp [h2]

/-- Two different orientations: the cross products differ and do not have the
same strict sign. -/
theorem orientation_ne (a b c d : XY) (h : orientation a b c ≠ orientation a b d) :
    cross a b c ≠ cross a b d ∧
    ((0 ≤ cross a b c ∧ cross a b d ≤ 0) ∨ (cross a b c ≤ 0 ∧ 0 ≤ cross a b d)) := by
  have hc := orientation_collinear_iff a b c
  have hl := orientation_leftTurn_iff a b c
  have hr := orientation_rightTurn_iff a b c
  have hc2 := orientation_collinear_iff a b d
  have hl2 := orientation_leftTurn_iff a b d
  have hr2 := orientation_rightTurn_iff a b d
  generalize cross a b c = s1 at *
  generalize cross a b d = s2 at *
  cases h1 : orientation a b c <;> cases h2 : orientation a b d <;>
    simp only [h1, h2, ne_eq, not_true_eq_false, reduceCtorEq, true_iff, false_iff,
      not_false_eq_true, not_lt] at h hc hl hr hc2 hl2 hr2
  all_goals first
    | exact ⟨by intro e; subst e; linarith, Or.inl ⟨by linarith, by linarith⟩⟩
    | exact ⟨by intro e; subst e; linarith, Or.inr ⟨by linarith, by linarith⟩⟩

/-- Equal orientations that are not collinear: both cross products have the
same strict sign. -/
theorem orientation_eq_not_collinear (a b c d : XY)
    (h : orientation a b c = orientation a b d) (hn : orientation a b c ≠ .collinear) :
    (0 < cross a b c ∧ 0 < cross a b d) ∨ (cross a b c < 0 ∧ cross a b d < 0) := by
  have hl := orientation_leftTurn_iff a b c
  have hr := orientation_rightTurn_iff a b c
  have hl2 := orientation_leftTurn_iff a b d
  have hr2 := orientation_rightTurn_iff a b d
  rw [← h] at hl2 hr2
  cases h1 : orientation a b c
  · exact Or.inr ⟨hr.1 h1, hr2.1 h1⟩
  · exact absurd h1 hn
  · exact Or.inl ⟨hl.1 h1, hl2.1 h1⟩

theorem cross_pointAt (a b c d : XY) (t : ℚ) :
    cross a b (pointAt c d t) = (1 - t) * cross a b c + t * cross a b d := by
  simp only [cross, pointAt]; ring

theorem cross_pointAt_self (a b : XY) (t : ℚ) : cross a b (pointAt a b t) = 0 := by
  simp only [cross, pointAt]; ring

theorem cross_self_left (a b : XY) : cross a b a = 0 := by
  simp only [cross]; ring

theorem cross_self_right (a b : XY) : cross a b b = 0 := by
  simp only [cross]; ring

theorem cross_diff (a b c d : XY) :
    cross c d a - cross c d b =
      (b.X - a.X) * (d.Y - c.Y) - (b.Y - a.Y) * (d.X - c.X) := by
  simp only [cross]; ring

/-- Two lines that are not parallel meet in at most one point. -/
theorem lines_meet_once (a b c d r s : XY)
    (hD : (b.X - a.X) * (d.Y - c.Y) - (b.Y - a.Y) * (d.X - c.X) ≠ 0)
    (h1 : cross a b r = 0) (h2 : cross a b s = 0) (h3 : cross c d r = 0)
    (h4 : cross c d s = 0) : r = s := by
  simp only [cross] at h1 h2 h3 h4
  have hx : ((b.X - a.X) * (d.Y - c.Y) - (b.Y - a.Y) * (d.X - c.X)) * (r.X - s.X) = 0 := by
    linear_combination (d.X - c.X) * (h1 - h2) - (b.X - a.X) * (h3 - h4)
  have hy : ((b.X - a.X) * (d.Y - c.Y) - (b.Y - a.Y) * (d.X - c.X)) * (r.Y - s.Y) = 0 := by
    linear_combination (d.Y - c.Y) * (h1 - h2) - (b.Y - a.Y) * (h3 - h4)
  have hx1 : r.X = s.X := by
    rcases mul_eq_zero.1 hx with h | h
    · exact absurd h hD
    · linarith
  have hy1 : r.Y = s.Y := by
    rcases mul_eq_zero.1 hy with h | h
    · exact absurd h hD
    · linarith
  cases r; cases s; simp_all

theorem onClosedSegment_cross (p q r : XY) (h : onClosedSegment p q r) : cross p q r = 0 := by
  obtain ⟨t, -, -, rfl⟩ := h
  exact cross_pointAt_self p q t

theorem onClosedSegment_left (p q : XY) : onClosedSegment p q p :=
  ⟨0, le_refl _, by norm_num, by simp [pointAt]⟩

theorem onClosedSegment_right (p q : XY) : onClosedSegment p q q :=
  ⟨1, by norm_num, le_refl _, by simp [pointAt]⟩

/-- The crossing parameter: when `a` and `b` are on different sides of the
line through `c` and `d` (or one of them is on it), the point of the segment
`ab` at `t = s3 / (s3 - s4)` is on that line. -/
theorem crossing_parameter (a b c d : XY) (hne : cross c d a ≠ cross c d b)
    (hs : (0 ≤ cross c d a ∧ cross c d b ≤ 0) ∨ (cross c d a ≤ 0 ∧ 0 ≤ cross c d b)) :
    0 ≤ cross c d a / (cross c d a - cross c d b) ∧
    cross c d a / (cross c d a - cross c d b) ≤ 1 ∧
    cross c d (pointAt a b (cross c d a / (cross c d a - cross c d b))) = 0 := by
  have hd : cross c d a - cross c d b ≠ 0 := sub_ne_zero.2 hne
  rw [cross_pointAt]
  generalize cross c d a = s3 at *
  generalize cross c d b = s4 at *
  refine ⟨?_, ?_, ?_⟩
  · rcases hs with ⟨h1, h2⟩ | ⟨h1, h2⟩
    · exact div_nonneg h1 (by linarith)
    · exact div_nonneg_of_nonpos h1 (by linarith)
  · rcases hs with ⟨h1, h2⟩ | ⟨h1, h2⟩
    · have hpos : 0 < s3 - s4 := lt_of_le_of_ne (by linarith) (Ne.symm hd)
      rw [div_le_one hpos]; linarith
    · have hneg : s3 - s4 < 0 := lt_of_le_of_ne (by linarith) hd
      rw [div_le_one_of_neg hneg]; linarith
  · field_simp
    ring
theorem XY.eq_iff (p q : XY) : p = q ↔ p.X = q.X ∧ p.Y = q.Y := by
  cases p; cases q; simp

/-- A point collinear with two distinct points is on the line through them. -/
theorem exists_param (a b c : XY) (hab : a ≠ b) (h : cross a b c = 0) :
    ∃ t, c = pointAt a b t := by
  simp only [cross] at h
  by_cases hx : b.X - a.X = 0
  · have hy : b.Y - a.Y ≠ 0 := by
      intro hy
      apply hab
      rw [XY.eq_iff]
      constructor <;> linarith
    refine ⟨(c.Y - a.Y) / (b.Y - a.Y), ?_⟩
    rw [XY.eq_iff]
    simp only [pointAt]
    rw [hx] at h
    have h' : (b.Y - a.Y) * (c.X - a.X) = 0 := by linarith
    rcases mul_eq_zero.1 h' with h1 | h1
    · exact absurd h1 hy
    · constructor
      · rw [hx]; linarith
      · field_simp
  · refine ⟨(c.X - a.X) / (b.X - a.X), ?_⟩
    rw [XY.eq_iff]
    simp only [pointAt]
    constructor
    · field_simp
    · field_simp
      linarith

theorem pointAt_zero (a b : XY) : pointAt a b 0 = a := by
  simp [pointAt]

theorem pointAt_one (a b : XY) : pointAt a b 1 = b := by
  rw [XY.eq_iff]; simp [pointAt]

theorem pointAt_pointAt (a b : XY) (s t l : ℚ) :
    pointAt (pointAt a b s) (pointAt a b t) l = pointAt a b (s + l * (t - s)) := by
  rw [XY.eq_iff]
  simp only [pointAt]
  constructor <;> ring

theorem pointAt_inj (a b : XY) (hab : a ≠ b) (s t : ℚ) (h : pointAt a b s = pointAt a b t) :
    s = t := by
  rw [XY.eq_iff] at h
  simp only [pointAt] at h
  by_contra hst
  apply hab
  rw [XY.eq_iff]
  have h1 : (s - t) * (b.X - a.X) = 0 := by linarith [h.1]
  have h2 : (s - t) * (b.Y - a.Y) = 0 := by linarith [h.2]
  have hst' : s - t ≠ 0 := sub_ne_zero.2 hst
  constructor
  · rcases mul_eq_zero.1 h1 with h | h
    · exact absurd h hst'
    · linarith
  · rcases mul_eq_zero.1 h2 with h | h
    · exact absurd h hst'
    · linarith

/-- Points collinear with `c` and `d` are collinear with each other. -/
theorem cross_of_collinear (a b c d : XY) (hcd : c ≠ d) (h3 : cross c d a = 0)
    (h4 : cross c d b = 0) : cross a b c = 0 ∧ cross a b d = 0 := by
  obtain ⟨s, rfl⟩ := exists_param c d a hcd h3
  obtain ⟨t, rfl⟩ := exists_param c d b hcd h4
  constructor <;> simp only [cross, pointAt] <;> ring

/-- In the crossing case the two segments meet in exactly one point. -/
theorem crossing_common (a b c d : XY) (h12 : orientation a b c ≠ orientation a b d)
    (h34 : orientation c d a ≠ orientation c d b) (r : XY) :
    (onClosedSegment a b r ∧ onClosedSegment c d r) ↔
      r = pointAt a b (cross c d a / (cross c d a - cross c d b)) := by
  obtain ⟨hne1, hs1⟩ := orientation_ne a b c d h12
  obtain ⟨hne3, hs3⟩ := orientation_ne c d a b h34
  obtain ⟨ht0, ht1, hX⟩ := crossing_parameter a b c d hne3 hs3
  obtain ⟨hu0, hu1, hY⟩ := crossing_parameter c d a b hne1 hs1
  have hD : (b.X - a.X) * (d.Y - c.Y) - (b.Y - a.Y) * (d.X - c.X) ≠ 0 := by
    rw [← cross_diff]; exact sub_ne_zero.2 hne3
  have hXY := lines_meet_once a b c d _ _ hD (cross_pointAt_self a b _) hY hX
    (cross_pointAt_self c d _)
  constructor
  · rintro ⟨hab, hcd⟩
    exact lines_meet_once a b c d _ _ hD (onClosedSegment_cross _ _ _ hab)
      (cross_pointAt_self a b _) (onClosedSegment_cross _ _ _ hcd) hX
  · rintro rfl
    exact ⟨⟨_, ht0, ht1, rfl⟩, ⟨_, hu0, hu1, hXY⟩⟩

/-- In the crossing case a point on both lines is the crossing point. -/
theorem crossing_point_eq (a b c d r : XY) (h34 : orientation c d a ≠ orientation c d b)
    (h1 : cross a b r = 0) (h2 : cross c d r = 0) :
    r = pointAt a b (cross c d a / (cross c d a - cross c d b)) := by
  obtain ⟨hne3, hs3⟩ := orientation_ne c d a b h34
  obtain ⟨-, -, hX⟩ := crossing_parameter a b c d hne3 hs3
  have hD : (b.X - a.X) * (d.Y - c.Y) - (b.Y - a.Y) * (d.X - c.X) ≠ 0 := by
    rw [← cross_diff]; exact sub_ne_zero.2 hne3
  exact lines_meet_once a b c d _ _ hD h1 (cross_pointAt_self a b _) h2 hX

/-- The point solved for in the crossing branch is the crossing point. -/
theorem solved_point_eq (a b c d : XY) :
    ((b.Sub a).Scale (((c.Y - d.Y) * (a.X - c.X) + (d.X - c.X) * (a.Y - c.Y)) /
        ((d.X - c.X) * (a.Y - b.Y) - (a.X - b.X) * (d.Y - c.Y)))).Add a =
      pointAt a b (cross c d a / (cross c d a - cross c d b)) := by
  have he : (c.Y - d.Y) * (a.X - c.X) + (d.X - c.X) * (a.Y - c.Y) = cross c d a := by
    simp only [cross]; ring
  have hf : (d.X - c.X) * (a.Y - b.Y) - (a.X - b.X) * (d.Y - c.Y) =
      cross c d a - cross c d b := by
    simp only [cross]; ring
  rw [he, hf, XY.eq_iff]
  simp only [pointAt, XY.Add, XY.Scale, XY.Sub]
  constructor <;> ring

/-- Two points strictly on the same side of a line: the segment between them
does not meet the line. -/
theorem same_side_no_common (a b c d r : XY)
    (h : (0 < cross a b c ∧ 0 < cross a b d) ∨ (cross a b c < 0 ∧ cross a b d < 0)) :
    ¬ (onClosedSegment a b r ∧ onClosedSegment c d r) := by
  rintro ⟨hab, ⟨t, ht0, ht1, rfl⟩⟩
  have h0 := onClosedSegment_cross _ _ _ hab
  rw [cross_pointAt] at h0
  rcases h with ⟨h1, h2⟩ | ⟨h1, h2⟩
  · have e1 : 0 ≤ (1 - t) * cross a b c := mul_nonneg (by linarith) (le_of_lt h1)
    have e2 : 0 ≤ t * cross a b d := mul_nonneg ht0 (le_of_lt h2)
    have e3 : (1 - t) * cross a b c = 0 := by linarith
    have e4 : t * cross a b d = 0 := by linarith
    rcases mul_eq_zero.1 e3 with e | e
    · rcases mul_eq_zero.1 e4 with e' | e'
      · linarith
      · linarith
    · linarith
  · have e1 : (1 - t) * cross a b c ≤ 0 :=
      mul_nonpos_of_nonneg_of_nonpos (by linarith) (le_of_lt h1)
    have e2 : t * cross a b d ≤ 0 := mul_nonpos_of_nonneg_of_nonpos ht0 (le_of_lt h2)
    have e3 : (1 - t) * cross a b c = 0 := by linarith
    have e4 : t * cross a b d = 0 := by linarith
    rcases mul_eq_zero.1 e3 with e | e
    · rcases mul_eq_zero.1 e4 with e' | e'
      · linarith
      · linarith
    · linarith
/-- On a line whose direction is lexicographically positive, the
rightmost-then-highest comparison of two points compares their parameters. -/
theorem lex_gt_param_pos (a b : XY) (h : a.X < b.X ∨ (a.X = b.X ∧ a.Y < b.Y)) (s t : ℚ) :
    ((pointAt a b s).X > (pointAt a b t).X ∨
      ((pointAt a b s).X = (pointAt a b t).X ∧ (pointAt a b s).Y > (pointAt a b t).Y)) ↔
      t < s := by
  simp only [pointAt, gt_iff_lt]
  rcases h with h | ⟨h1, h2⟩
  · have hx : 0 < b.X - a.X := by linarith
    constructor
    · rintro (h3 | ⟨h3, h6⟩)
      · by_contra hc
        have := mul_le_mul_of_nonneg_right (not_lt.1 hc) (le_of_lt hx)
        linarith
      · have h4 : (s - t) * (b.X - a.X) = 0 := by linarith
        rcases mul_eq_zero.1 h4 with h5 | h5
        · have h7 : s = t := by linarith
          rw [h7] at h6
          exact absurd h6 (lt_irrefl _)
        · linarith
    · intro hst
      left
      have := mul_lt_mul_of_pos_right hst hx
      linarith
  · have hy : 0 < b.Y - a.Y := by linarith
    have hx : b.X - a.X = 0 := by linarith
    rw [hx]
    constructor
    · rintro (h3 | ⟨-, h3⟩)
      · linarith
      · by_contra hc
        have := mul_le_mul_of_nonneg_right (not_lt.1 hc) (le_of_lt hy)
        linarith
    · intro hst
      right
      refine ⟨by ring, ?_⟩
      have := mul_lt_mul_of_pos_right hst hy
      linarith

theorem lex_lt_param_pos (a b : XY) (h : a.X < b.X ∨ (a.X = b.X ∧ a.Y < b.Y)) (s t : ℚ) :
    ((pointAt a b s).X < (pointAt a b t).X ∨
      ((pointAt a b s).X = (pointAt a b t).X ∧ (pointAt a b s).Y < (pointAt a b t).Y)) ↔
      s < t := by
  have := lex_gt_param_pos a b h t s
  simp only [gt_iff_lt] at this
  rw [← this]
  constructor
  · rintro (h1 | ⟨h1, h2⟩)
    · exact Or.inl h1
    · exact Or.inr ⟨h1.symm, h2⟩
  · rintro (h1 | ⟨h1, h2⟩)
    · exact Or.inl h1
    · exact Or.inr ⟨h1.symm, h2⟩

theorem pointAt_swap (a b : XY) (t : ℚ) : pointAt a b t = pointAt b a (1 - t) := by
  rw [XY.eq_iff]
  simp only [pointAt]
  constructor <;> ring

theorem lex_total (a b : XY) (hab : a ≠ b) :
    (a.X < b.X ∨ (a.X = b.X ∧ a.Y < b.Y)) ∨ (b.X < a.X ∨ (b.X = a.X ∧ b.Y < a.Y)) := by
  rcases lt_trichotomy a.X b.X with h | h | h
  · exact Or.inl (Or.inl h)
  · rcases lt_trichotomy a.Y b.Y with h1 | h1 | h1
    · exact Or.inl (Or.inr ⟨h, h1⟩)
    · exact absurd ((XY.eq_iff a b).2 ⟨h, h1⟩) hab
    · exact Or.inr (Or.inr ⟨h.symm, h1⟩)
  · exact Or.inr (Or.inl h)

/-! ## The collinear-overlap reducer -/

set_option maxHeartbeats 4000000 in
theorem reducedPair_param_pos (a b : XY) (h : a.X < b.X ∨ (a.X = b.X ∧ a.Y < b.Y))
    (t0 t1 t2 t3 : ℚ) :
    ∃ s0 s1, reducedPair (pointAt a b t0) (pointAt a b t1) (pointAt a b t2) (pointAt a b t3) =
        [pointAt a b s0, pointAt a b s1] ∧
      extremesRemoved t0 t1 t2 t3 s0 s1
        ([t0, t1, t2, t3].getD (rightmostThenHighestIndex
          [pointAt a b t0, pointAt a b t1, pointAt a b t2, pointAt a b t3]) 0)
        (([t0, t1, t2, t3].eraseIdx (rightmostThenHighestIndex
          [pointAt a b t0, pointAt a b t1, pointAt a b t2, pointAt a b t3])).getD
          (leftmostThenLowestIndex
            ([pointAt a b t0, pointAt a b t1, pointAt a b t2, pointAt a b t3].eraseIdx
              (rightmostThenHighestIndex
                [pointAt a b t0, pointAt a b t1, pointAt a b t2, pointAt a b t3]))) 0) := by
  simp only [reducedPair, rightmostThenHighestIndex, rightmostThenHighestIndex.loop,
    leftmostThenLowestIndex, leftmostThenLowestIndex.loop, List.drop, List.getD_cons_zero,
    List.getD_cons_succ, lex_gt_param_pos a b h, lex_lt_param_pos a b h]
  split_ifs <;>
    simp only [List.eraseIdx, leftmostThenLowestIndex.loop, List.drop, List.getD_cons_zero,
      List.getD_cons_succ, lex_lt_param_pos a b h] <;>
    split_ifs <;>
    simp only [List.eraseIdx, List.getD_cons_zero, List.getD_cons_succ] <;>
    refine ⟨_, _, rfl, ⟨?_, ?_, ?_, ?_⟩, ⟨?_, ?_, ?_, ?_⟩, ?_, ?_, ?_, ?_⟩ <;>
    first
    | linarith
    | simp

theorem extremesRemoved_reflect (t0 t1 t2 t3 s0 s1 hi lo : ℚ)
    (h : extremesRemoved (1 - t0) (1 - t1) (1 - t2) (1 - t3) s0 s1 hi lo) :
    extremesRemoved t0 t1 t2 t3 (1 - s0) (1 - s1) (1 - lo) (1 - hi) := by
  obtain ⟨⟨a0, a1, a2, a3⟩, ⟨b0, b1, b2, b3⟩, hm, hl, hsum, hsq⟩ := h
  refine ⟨⟨by linarith, by linarith, by linarith, by linarith⟩,
    ⟨by linarith, by linarith, by linarith, by linarith⟩, ?_, ?_, by linarith, ?_⟩
  · rcases hl with e | e | e | e
    · exact Or.inl (by linarith)
    · exact Or.inr (Or.inl (by linarith))
    · exact Or.inr (Or.inr (Or.inl (by linarith)))
    · exact Or.inr (Or.inr (Or.inr (by linarith)))
  · rcases hm with e | e | e | e
    · exact Or.inl (by linarith)
    · exact Or.inr (Or.inl (by linarith))
    · exact Or.inr (Or.inr (Or.inl (by linarith)))
    · exact Or.inr (Or.inr (Or.inr (by linarith)))
  · linear_combination hsq - 2 * hsum

theorem reducedPair_param (a b : XY) (hab : a ≠ b) (t0 t1 t2 t3 : ℚ) :
    ∃ s0 s1 hi lo,
      reducedPair (pointAt a b t0) (pointAt a b t1) (pointAt a b t2) (pointAt a b t3) =
        [pointAt a b s0, pointAt a b s1] ∧
      extremesRemoved t0 t1 t2 t3 s0 s1 hi lo := by
  rcases lex_total a b hab with h | h
  · obtain ⟨s0, s1, h1, h2⟩ := reducedPair_param_pos a b h t0 t1 t2 t3
    exact ⟨s0, s1, _, _, h1, h2⟩
  · obtain ⟨s0, s1, h1, h2⟩ := reducedPair_param_pos b a h (1 - t0) (1 - t1) (1 - t2) (1 - t3)
    rw [← pointAt_swap, ← pointAt_swap, ← pointAt_swap, ← pointAt_swap] at h1
    refine ⟨1 - s0, 1 - s1, _, _, ?_, extremesRemoved_reflect _ _ _ _ _ _ _ _ h2⟩
    rw [h1, pointAt_swap a b (1 - s0), pointAt_swap a b (1 - s1)]
    simp

theorem min_sq_add_max_sq (x y : ℚ) : (min x y) ^ 2 + (max x y) ^ 2 = x ^ 2 + y ^ 2 := by
  rcases le_total x y with h | h
  · rw [min_eq_left h, max_eq_right h]
  · rw [min_eq_right h, max_eq_left h]; ring

theorem pair_of_sums (s0 s1 l h : ℚ) (h1 : s0 + s1 = l + h)
    (h2 : s0 ^ 2 + s1 ^ 2 = l ^ 2 + h ^ 2) :
    (s0 = l ∧ s1 = h) ∨ (s0 = h ∧ s1 = l) := by
  have h3 : (s0 - l) * (s0 - h) = 0 := by
    have e : s1 = l + h - s0 := by linarith
    rw [e] at h2
    linear_combination h2 / 2
  rcases mul_eq_zero.1 h3 with h4 | h4
  · left; constructor <;> linarith
  · right; constructor <;> linarith

/-- Removing a largest and a smallest of four parameters leaves the ends of
the intersection of the intervals spanned by the first two and by the last
two, when the intervals meet. -/
theorem middle_of_extremes (t0 t1 t2 t3 s0 s1 hi lo : ℚ)
    (h : extremesRemoved t0 t1 t2 t3 s0 s1 hi lo)
    (hov : max (min t0 t1) (min t2 t3) ≤ min (max t0 t1) (max t2 t3)) (τ : ℚ) :
    (min t0 t1 ≤ τ ∧ τ ≤ max t0 t1 ∧ min t2 t3 ≤ τ ∧ τ ≤ max t2 t3) ↔
      (min s0 s1 ≤ τ ∧ τ ≤ max s0 s1) := by
  obtain ⟨⟨a0, a1, a2, a3⟩, ⟨b0, b1, b2, b3⟩, hm, hl, hsum, hsq⟩ := h
  have hhi : hi = max (max t0 t1) (max t2 t3) := by
    apply le_antisymm
    · rcases hm with e | e | e | e <;> rw [e] <;> simp
    · exact max_le (max_le a0 a1) (max_le a2 a3)
  have hlo : lo = min (min t0 t1) (min t2 t3) := by
    apply le_antisymm
    · exact le_min (le_min b0 b1) (le_min b2 b3)
    · rcases hl with e | e | e | e <;> rw [e] <;> simp
  have e1 := min_add_max t0 t1
  have e2 := min_add_max t2 t3
  have e3 := min_add_max (min t0 t1) (min t2 t3)
  have e4 := min_add_max (max t0 t1) (max t2 t3)
  have f1 := min_sq_add_max_sq t0 t1
  have f2 := min_sq_add_max_sq t2 t3
  have f3 := min_sq_add_max_sq (min t0 t1) (min t2 t3)
  have f4 := min_sq_add_max_sq (max t0 t1) (max t2 t3)
  rw [← hlo] at e3 f3
  rw [← hhi] at e4 f4
  have g1 : s0 + s1 = max (min t0 t1) (min t2 t3) + min (max t0 t1) (max t2 t3) := by
    linarith
  have g2 : s0 ^ 2 + s1 ^ 2 =
      (max (min t0 t1) (min t2 t3)) ^ 2 + (min (max t0 t1) (max t2 t3)) ^ 2 := by
    linarith
  have hmin : min s0 s1 = max (min t0 t1) (min t2 t3) ∧
      max s0 s1 = min (max t0 t1) (max t2 t3) := by
    rcases pair_of_sums _ _ _ _ g1 g2 with ⟨h1, h2⟩ | ⟨h1, h2⟩
    · rw [h1, h2]; exact ⟨min_eq_left hov, max_eq_right hov⟩
    · rw [h1, h2]; exact ⟨min_eq_right hov, max_eq_left hov⟩
  rw [hmin.1, hmin.2, max_le_iff, le_min_iff]
  exact ⟨fun ⟨h1, h2, h3, h4⟩ => ⟨⟨h1, h3⟩, h2, h4⟩,
    fun ⟨⟨h1, h3⟩, h2, h4⟩ => ⟨h1, h2, h3, h4⟩⟩

/-! ## Segments on a common line -/

theorem between_iff_mul_nonpos (p q x : ℚ) :
    (min p q ≤ x ∧ x ≤ max p q) ↔ (x - p) * (x - q) ≤ 0 := by
  rcases le_total p q with h | h
  · rw [min_eq_left h, max_eq_right h]
    constructor
    · rintro ⟨h1, h2⟩
      exact mul_nonpos_of_nonneg_of_nonpos (by linarith) (by linarith)
    · intro h3
      by_contra hc
      rw [not_and_or, not_le, not_le] at hc
      rcases hc with hc | hc
      · have := mul_pos_of_neg_of_neg (show x - p < 0 by linarith) (show x - q < 0 by linarith)
        linarith
      · have := mul_pos (show 0 < x - p by linarith) (show 0 < x - q by linarith)
        linarith
  · rw [min_eq_right h, max_eq_left h]
    constructor
    · rintro ⟨h1, h2⟩
      exact mul_nonpos_of_nonpos_of_nonneg (by linarith) (by linarith)
    · intro h3
      by_contra hc
      rw [not_and_or, not_le, not_le] at hc
      rcases hc with hc | hc
      · have := mul_pos_of_neg_of_neg (show x - p < 0 by linarith) (show x - q < 0 by linarith)
        linarith
      · have := mul_pos (show 0 < x - p by linarith) (show 0 < x - q by linarith)
        linarith

/-- For points on a common line, the bounding-box test of `onSegment` is
betweenness of the parameters. -/
theorem onSegment_param (a b : XY) (hab : a ≠ b) (s t x : ℚ) :
    onSegment (pointAt a b s) (pointAt a b t) (pointAt a b x) = true ↔
      (min s t ≤ x ∧ x ≤ max s t) := by
  have hX := between_iff_mul_nonpos (pointAt a b s).X (pointAt a b t).X (pointAt a b x).X
  have hY := between_iff_mul_nonpos (pointAt a b s).Y (pointAt a b t).Y (pointAt a b x).Y
  have hT := between_iff_mul_nonpos s t x
  have key : onSegment (pointAt a b s) (pointAt a b t) (pointAt a b x) = true ↔
      ((min (pointAt a b s).X (pointAt a b t).X ≤ (pointAt a b x).X ∧
        (pointAt a b x).X ≤ max (pointAt a b s).X (pointAt a b t).X) ∧
       (min (pointAt a b s).Y (pointAt a b t).Y ≤ (pointAt a b x).Y ∧
        (pointAt a b x).Y ≤ max (pointAt a b s).Y (pointAt a b t).Y)) := by
    unfold onSegment
    rw [Bool.and_eq_true, Bool.and_eq_true, Bool.and_eq_true, decide_eq_true_eq,
      decide_eq_true_eq, decide_eq_true_eq, decide_eq_true_eq]
    constructor
    · rintro ⟨⟨⟨h1, h2⟩, h3⟩, h4⟩
      exact ⟨⟨h2, h1⟩, ⟨h4, h3⟩⟩
    · rintro ⟨⟨h1, h2⟩, ⟨h3, h4⟩⟩
      exact ⟨⟨⟨h2, h1⟩, h4⟩, h3⟩
  rw [key, hX, hY, hT]
  have eX : ((pointAt a b x).X - (pointAt a b s).X) * ((pointAt a b x).X - (pointAt a b t).X) =
      ((x - s) * (x - t)) * (b.X - a.X) ^ 2 := by
    simp only [pointAt]; ring
  have eY : ((pointAt a b x).Y - (pointAt a b s).Y) * ((pointAt a b x).Y - (pointAt a b t).Y) =
      ((x - s) * (x - t)) * (b.Y - a.Y) ^ 2 := by
    simp only [pointAt]; ring
  rw [eX, eY]
  have hpos : 0 < (b.X - a.X) ^ 2 + (b.Y - a.Y) ^ 2 := by
    by_contra hc
    have h1 := sq_nonneg (b.X - a.X)
    have h2 := sq_nonneg (b.Y - a.Y)
    have h3 : (b.X - a.X) ^ 2 = 0 := by linarith
    have h4 : (b.Y - a.Y) ^ 2 = 0 := by linarith
    have h5 := pow_eq_zero_iff (two_ne_zero) |>.1 h3
    have h6 := pow_eq_zero_iff (two_ne_zero) |>.1 h4
    apply hab
    rw [XY.eq_iff]
    constructor <;> linarith
  constructor
  · rintro ⟨h1, h2⟩
    by_contra hc
    rw [not_le] at hc
    have := mul_pos hc hpos
    linarith
  · intro h
    exact ⟨mul_nonpos_of_nonpos_of_nonneg h (sq_nonneg _),
      mul_nonpos_of_nonpos_of_nonneg h (sq_nonneg _)⟩

/-- The closed segment between two points of a line, in parameters. -/
theorem onClosedSegment_param (a b : XY) (s t : ℚ) (r : XY) :
    onClosedSegment (pointAt a b s) (pointAt a b t) r ↔
      ∃ x, (min s t ≤ x ∧ x ≤ max s t) ∧ r = pointAt a b x := by
  constructor
  · rintro ⟨l, hl0, hl1, rfl⟩
    refine ⟨s + l * (t - s), ?_, pointAt_pointAt a b s t l⟩
    rw [between_iff_mul_nonpos]
    have e : (s + l * (t - s) - s) * (s + l * (t - s) - t) = -(l * (1 - l) * (t - s) ^ 2) := by
      ring
    rw [e]
    have := mul_nonneg (mul_nonneg hl0 (show 0 ≤ 1 - l by linarith)) (sq_nonneg (t - s))
    linarith
  · rintro ⟨x, ⟨hx0, hx1⟩, rfl⟩
    rcases lt_trichotomy s t with h | h | h
    · rw [min_eq_left (le_of_lt h)] at hx0
      rw [max_eq_right (le_of_lt h)] at hx1
      have hts : 0 < t - s := by linarith
      have hne : t - s ≠ 0 := ne_of_gt hts
      refine ⟨(x - s) / (t - s), div_nonneg (by linarith) (le_of_lt hts), ?_, ?_⟩
      · rw [div_le_one hts]; linarith
      · rw [pointAt_pointAt]
        congr 1
        field_simp
    · subst h
      rw [min_self] at hx0
      rw [max_self] at hx1
      have : x = s := le_antisymm hx1 hx0
      subst this
      exact onClosedSegment_left _ _
    · rw [min_eq_right (le_of_lt h)] at hx0
      rw [max_eq_left (le_of_lt h)] at hx1
      have hts : t - s < 0 := by linarith
      have hne : t - s ≠ 0 := ne_of_lt hts
      refine ⟨(x - s) / (t - s), div_nonneg_of_nonpos (by linarith) (le_of_lt hts), ?_, ?_⟩
      · rw [div_le_one_of_neg hts]; linarith
      · rw [pointAt_pointAt]
        congr 1
        field_simp

theorem onClosedSegment_self (p r : XY) : onClosedSegment p p r ↔ r = p := by
  constructor
  · rintro ⟨t, -, -, rfl⟩
    rw [XY.eq_iff]
    simp [pointAt]
  · rintro rfl
    exact onClosedSegment_left _ _

/-- Two parameter intervals meet exactly when an end of one is inside the
other. -/
theorem overlap_iff (t0 t1 t2 t3 : ℚ) :
    max (min t0 t1) (min t2 t3) ≤ min (max t0 t1) (max t2 t3) ↔
      ((min t0 t1 ≤ t2 ∧ t2 ≤ max t0 t1) ∨ (min t0 t1 ≤ t3 ∧ t3 ≤ max t0 t1) ∨
       (min t2 t3 ≤ t0 ∧ t0 ≤ max t2 t3) ∨ (min t2 t3 ≤ t1 ∧ t1 ≤ max t2 t3)) := by
  rw [max_le_iff, le_min_iff, le_min_iff]
  rcases le_total t0 t1 with h01 | h01 <;> rcases le_total t2 t3 with h23 | h23 <;>
    simp only [min_eq_left h01, min_eq_right h01, max_eq_left h01, max_eq_right h01,
      min_eq_left h23, min_eq_right h23, max_eq_left h23, max_eq_right h23]
  · constructor
    · rintro ⟨⟨-, h1⟩, ⟨h2, -⟩⟩
      rcases le_total t0 t2 with h | h
      · exact Or.inl ⟨h, h2⟩
      · exact Or.inr (Or.inr (Or.inl ⟨h, h1⟩))
    · rintro (⟨h1, h2⟩ | ⟨h1, h2⟩ | ⟨h1, h2⟩ | ⟨h1, h2⟩) <;>
        exact ⟨⟨by linarith, by linarith⟩, ⟨by linarith, by linarith⟩⟩
  · constructor
    · rintro ⟨⟨-, h1⟩, ⟨h2, -⟩⟩
      rcases le_total t0 t3 with h | h
      · exact Or.inr (Or.inl ⟨h, h2⟩)
      · exact Or.inr (Or.inr (Or.inl ⟨h, h1⟩))
    · rintro (⟨h1, h2⟩ | ⟨h1, h2⟩ | ⟨h1, h2⟩ | ⟨h1, h2⟩) <;>
        exact ⟨⟨by linarith, by linarith⟩, ⟨by linarith, by linarith⟩⟩
  · constructor
    · rintro ⟨⟨-, h1⟩, ⟨h2, -⟩⟩
      rcases le_total t1 t2 with h | h
      · exact Or.inl ⟨h, h2⟩
      · exact Or.inr (Or.inr (Or.inr ⟨h, h1⟩))
    · rintro (⟨h1, h2⟩ | ⟨h1, h2⟩ | ⟨h1, h2⟩ | ⟨h1, h2⟩) <;>
        exact ⟨⟨by linarith, by linarith⟩, ⟨by linarith, by linarith⟩⟩
  · constructor
    · rintro ⟨⟨-, h1⟩, ⟨h2, -⟩⟩
      rcases le_total t1 t3 with h | h
      · exact Or.inr (Or.inl ⟨h, h2⟩)
      · exact Or.inr (Or.inr (Or.inr ⟨h, h1⟩))
    · rintro (⟨h1, h2⟩ | ⟨h1, h2⟩ | ⟨h1, h2⟩ | ⟨h1, h2⟩) <;>
        exact ⟨⟨by linarith, by linarith⟩, ⟨by linarith, by linarith⟩⟩

/-! ## The collinear case of the Line/Line algorithms -/

theorem noEndpointOnOther_param (a b : XY) (hab : a ≠ b) (t0 t1 t2 t3 : ℚ) :
    noEndpointOnOther (pointAt a b t0) (pointAt a b t1) (pointAt a b t2) (pointAt a b t3) =
        false ↔
      max (min t0 t1) (min t2 t3) ≤ min (max t0 t1) (max t2 t3) := by
  rw [overlap_iff, ← onSegment_param a b hab t0 t1 t2, ← onSegment_param a b hab t0 t1 t3,
    ← onSegment_param a b hab t2 t3 t0, ← onSegment_param a b hab t2 t3 t1]
  unfold noEndpointOnOther
  cases onSegment (pointAt a b t0) (pointAt a b t1) (pointAt a b t2) <;>
    cases onSegment (pointAt a b t0) (pointAt a b t1) (pointAt a b t3) <;>
    cases onSegment (pointAt a b t2) (pointAt a b t3) (pointAt a b t0) <;>
    cases onSegment (pointAt a b t2) (pointAt a b t3) (pointAt a b t1) <;> simp

/-- Four points on a common line: either no endpoint is on the other segment
and the segments are disjoint, or the reducer leaves two points whose segment
is the common part. -/
theorem collinear_param (a b : XY) (hab : a ≠ b) (t0 t1 t2 t3 : ℚ) :
    (noEndpointOnOther (pointAt a b t0) (pointAt a b t1) (pointAt a b t2) (pointAt a b t3) =
        true →
      ∀ r, ¬ (onClosedSegment (pointAt a b t0) (pointAt a b t1) r ∧
        onClosedSegment (pointAt a b t2) (pointAt a b t3) r)) ∧
    (noEndpointOnOther (pointAt a b t0) (pointAt a b t1) (pointAt a b t2) (pointAt a b t3) =
        false →
      ∃ p0 p1,
        reducedPair (pointAt a b t0) (pointAt a b t1) (pointAt a b t2) (pointAt a b t3) =
          [p0, p1] ∧
        ∀ r, (onClosedSegment (pointAt a b t0) (pointAt a b t1) r ∧
          onClosedSegment (pointAt a b t2) (pointAt a b t3) r) ↔ onClosedSegment p0 p1 r) := by
  constructor
  · intro hdis r hr
    have hno : ¬ max (min t0 t1) (min t2 t3) ≤ min (max t0 t1) (max t2 t3) := by
      rw [← noEndpointOnOther_param a b hab, hdis]
      simp
    apply hno
    rw [onClosedSegment_param, onClosedSegment_param] at hr
    obtain ⟨⟨x, ⟨hx0, hx1⟩, rfl⟩, ⟨y, ⟨hy0, hy1⟩, hxy⟩⟩ := hr
    have := pointAt_inj a b hab x y hxy
    subst this
    exact le_trans (max_le hx0 hy0) (le_min hx1 hy1)
  · intro hdis
    have hov := (noEndpointOnOther_param a b hab t0 t1 t2 t3).1 hdis
    obtain ⟨s0, s1, hi, lo, hred, hex⟩ := reducedPair_param a b hab t0 t1 t2 t3
    refine ⟨_, _, hred, ?_⟩
    intro r
    rw [onClosedSegment_param, onClosedSegment_param, onClosedSegment_param]
    constructor
    · rintro ⟨⟨x, ⟨hx0, hx1⟩, rfl⟩, ⟨y, ⟨hy0, hy1⟩, hxy⟩⟩
      have := pointAt_inj a b hab x y hxy
      subst this
      exact ⟨x, (middle_of_extremes t0 t1 t2 t3 s0 s1 hi lo hex hov x).1
        ⟨hx0, hx1, hy0, hy1⟩, rfl⟩
    · rintro ⟨x, hx, rfl⟩
      obtain ⟨h1, h2, h3, h4⟩ := (middle_of_extremes t0 t1 t2 t3 s0 s1 hi lo hex hov x).2 hx
      exact ⟨⟨x, ⟨h1, h2⟩, rfl⟩, ⟨x, ⟨h3, h4⟩, rfl⟩⟩

/-- The collinear case for two segments: `c` and `d` are on the line through
the distinct points `a` and `b`. -/
theorem collinear_case (a b c d : XY) (hab : a ≠ b) (h1 : cross a b c = 0)
    (h2 : cross a b d = 0) :
    (noEndpointOnOther a b c d = true →
      ∀ r, ¬ (onClosedSegment a b r ∧ onClosedSegment c d r)) ∧
    (noEndpointOnOther a b c d = false →
      ∃ p0 p1, reducedPair a b c d = [p0, p1] ∧
        ∀ r, (onClosedSegment a b r ∧ onClosedSegment c d r) ↔ onClosedSegment p0 p1 r) := by
  obtain ⟨tc, hc⟩ := exists_param a b c hab h1
  obtain ⟨td, hd⟩ := exists_param a b d hab h2
  have h := collinear_param a b hab 0 1 tc td
  rw [pointAt_zero, pointAt_one, ← hc, ← hd] at h
  exact h
/-- For two segments with distinct endpoints, `intersectLineWithLine` returns
the empty collection and the segments share no point, or a Point that is
their only common point, or a Line with distinct endpoints whose closed
segment is the set of their common points. -/
theorem intersectLineWithLine_trichotomy (n1 n2 : Line) (h1 : n1.a.XY ≠ n1.b.XY)
    (h2 : n2.a.XY ≠ n2.b.XY) :
    (intersectLineWithLine n1 n2 = .ok (NewGeometryCollection []) ∧
      ∀ r, ¬ commonPoint n1 n2 r) ∨
    (∃ p, intersectLineWithLine n1 n2 = .ok (.point (NewPointXY p)) ∧
      ∀ r, commonPoint n1 n2 r ↔ r = p) ∨
    (∃ p q, p ≠ q ∧ intersectLineWithLine n1 n2 = .ok (.line ⟨⟨p⟩, ⟨q⟩⟩) ∧
      ∀ r, commonPoint n1 n2 r ↔ onClosedSegment p q r) := by
  rw [intersectLineWithLine_unfold]
  unfold commonPoint
  generalize n1.a.XY = a at *
  generalize n1.b.XY = b at *
  generalize n2.a.XY = c at *
  generalize n2.b.XY = d at *
  by_cases hcr : orientation a b c ≠ orientation a b d ∧ orientation c d a ≠ orientation c d b
  · rw [if_pos hcr]
    obtain ⟨h12, h34⟩ := hcr
    have hcommon := crossing_common a b c d h12 h34
    right; left
    split_ifs with o1 o2 o3 o4
    · refine ⟨c, rfl, fun r => ?_⟩
      rw [hcommon r, ← crossing_point_eq a b c d c h34 ((orientation_collinear_iff _ _ _).1 o1)
        (cross_self_left c d)]
    · refine ⟨d, rfl, fun r => ?_⟩
      rw [hcommon r, ← crossing_point_eq a b c d d h34 ((orientation_collinear_iff _ _ _).1 o2)
        (cross_self_right c d)]
    · refine ⟨a, rfl, fun r => ?_⟩
      rw [hcommon r, ← crossing_point_eq a b c d a h34 (cross_self_left a b)
        ((orientation_collinear_iff _ _ _).1 o3)]
    · refine ⟨b, rfl, fun r => ?_⟩
      rw [hcommon r, ← crossing_point_eq a b c d b h34 (cross_self_right a b)
        ((orientation_collinear_iff _ _ _).1 o4)]
    · refine ⟨_, rfl, fun r => ?_⟩
      rw [hcommon r, solved_point_eq]
  · rw [if_neg hcr]
    by_cases hco : orientation a b c = .collinear ∧ orientation a b d = .collinear
    · rw [if_pos hco]
      obtain ⟨hc1, hc2⟩ := hco
      have hcase := collinear_case a b c d h1 ((orientation_collinear_iff _ _ _).1 hc1)
        ((orientation_collinear_iff _ _ _).1 hc2)
      cases hdis : noEndpointOnOther a b c d
      · obtain ⟨p0, p1, hred, hseg⟩ := hcase.2 hdis
        rw [hred]
        simp only [Bool.false_eq_true, if_false]
        by_cases heq : p0 = p1
        · right; left
          refine ⟨p0, by simp [XY.Equals, heq], fun r => ?_⟩
          rw [hseg r, ← heq, onClosedSegment_self]
        · right; right
          refine ⟨p0, p1, heq, ?_, hseg⟩
          simp [XY.Equals, heq, must_NewLineC]
      · left
        exact ⟨by simp, hcase.1 hdis⟩
    · rw [if_neg hco]
      left
      refine ⟨rfl, fun r => ?_⟩
      rw [not_and_or, not_not, not_not] at hcr
      rcases hcr with hcr | hcr
      · by_cases hn : orientation a b c = .collinear
        · exact absurd ⟨hn, hcr ▸ hn⟩ hco
        · exact same_side_no_common a b c d r (orientation_eq_not_collinear a b c d hcr hn)
      · by_cases hn : orientation c d a = .collinear
        · have hn2 : orientation c d b = .collinear := hcr ▸ hn
          obtain ⟨e1, e2⟩ := cross_of_collinear a b c d h2
            ((orientation_collinear_iff _ _ _).1 hn) ((orientation_collinear_iff _ _ _).1 hn2)
          exact absurd ⟨(orientation_collinear_iff _ _ _).2 e1,
            (orientation_collinear_iff _ _ _).2 e2⟩ hco
        · intro hr
          exact same_side_no_common c d a b r (orientation_eq_not_collinear c d a b hcr hn)
            ⟨hr.2, hr.1⟩

theorem NewPointXY_inj (p q : XY) (h : NewPointXY p = NewPointXY q) : p = q := by
  simp only [NewPointXY, Point.mk.injEq, Coordinates.mk.injEq, and_true] at h
  exact h

/-- C4: for Lines `n1 = (a, b)` and `n2 = (c, d)` with `a ≠ b` and `c ≠ d`,
over exact arithmetic, `intersectLineWithLine` returns the set-theoretic
intersection of the two closed segments: the empty GeometryCollection iff the
segments share no point, the Point `p` iff `p` is their only common point, and
a Line iff they share more than one point, in which case the Line has distinct
endpoints and its closed segment is exactly the set of common points. -/
theorem intersectLineWithLine_is_set_intersection (n1 n2 : Line) (h1 : n1.a.XY ≠ n1.b.XY)
    (h2 : n2.a.XY ≠ n2.b.XY) :
    (intersectLineWithLine n1 n2 = .ok (NewGeometryCollection []) ↔
      ∀ r, ¬ commonPoint n1 n2 r) ∧
    (∀ p, intersectLineWithLine n1 n2 = .ok (.point (NewPointXY p)) ↔
      ∀ r, commonPoint n1 n2 r ↔ r = p) ∧
    ((∃ ln, intersectLineWithLine n1 n2 = .ok (.line ln)) ↔
      ∃ r s, r ≠ s ∧ commonPoint n1 n2 r ∧ commonPoint n1 n2 s) ∧
    (∀ ln, intersectLineWithLine n1 n2 = .ok (.line ln) →
      ln.a.XY ≠ ln.b.XY ∧ ∀ r, commonPoint n1 n2 r ↔ onClosedSegment ln.a.XY ln.b.XY r) := by
  rcases intersectLineWithLine_trichotomy n1 n2 h1 h2 with
    ⟨hres, hno⟩ | ⟨p0, hres, hone⟩ | ⟨p0, q0, hne, hres, hseg⟩
  · refine ⟨⟨fun _ => hno, fun _ => hres⟩, ?_, ?_, ?_⟩
    · intro p
      constructor
      · intro h; rw [hres] at h; simp [NewGeometryCollection] at h
      · intro h; exact absurd ((h p).2 rfl) (hno p)
    · constructor
      · rintro ⟨ln, h⟩; rw [hres] at h; simp [NewGeometryCollection] at h
      · rintro ⟨r, s, -, hr, -⟩; exact absurd hr (hno r)
    · intro ln h; rw [hres] at h; simp [NewGeometryCollection] at h
  · refine ⟨?_, ?_, ?_, ?_⟩
    · constructor
      · intro h; rw [hres] at h; simp [NewGeometryCollection] at h
      · intro h; exact absurd ((hone p0).2 rfl) (h p0)
    · intro p
      constructor
      · intro h
        rw [hres] at h
        injection h with h
        injection h with h
        have := NewPointXY_inj _ _ h
        subst this
        exact hone
      · intro h
        have : p0 = p := (h p0).1 ((hone p0).2 rfl)
        subst this
        exact hres
    · constructor
      · rintro ⟨ln, h⟩; rw [hres] at h; simp at h
      · rintro ⟨r, s, hrs, hr, hs⟩
        exact absurd (((hone r).1 hr).trans ((hone s).1 hs).symm) hrs
    · intro ln h; rw [hres] at h; simp at h
  · have hp : commonPoint n1 n2 p0 := (hseg p0).2 (onClosedSegment_left _ _)
    have hq : commonPoint n1 n2 q0 := (hseg q0).2 (onClosedSegment_right _ _)
    refine ⟨?_, ?_, ?_, ?_⟩
    · constructor
      · intro h; rw [hres] at h; simp [NewGeometryCollection] at h
      · intro h; exact absurd hp (h p0)
    · intro p
      constructor
      · intro h; rw [hres] at h; simp at h
      · intro h
        exact absurd (((h p0).1 hp).trans ((h q0).1 hq).symm) hne
    · exact ⟨fun _ => ⟨p0, q0, hne, hp, hq⟩, fun _ => ⟨_, hres⟩⟩
    · intro ln h
      rw [hres] at h
      injection h with h
      injection h with h
      subst h
      exact ⟨hne, hseg⟩

/-- Witness for C4: the two diagonals of the unit square have distinct
endpoints, so the result is the Point `(1/2, 1/2)` exactly when that is their
only common point. -/
theorem intersectLineWithLine_is_set_intersection_witness :
    (⟨0, 0⟩ : XY) ≠ ⟨1, 1⟩ ∧ (⟨1, 0⟩ : XY) ≠ ⟨0, 1⟩ ∧
    (intersectLineWithLine ⟨⟨⟨0, 0⟩⟩, ⟨⟨1, 1⟩⟩⟩ ⟨⟨⟨1, 0⟩⟩, ⟨⟨0, 1⟩⟩⟩ =
        .ok (.point (NewPointXY ⟨1 / 2, 1 / 2⟩)) ↔
      ∀ r, commonPoint ⟨⟨⟨0, 0⟩⟩, ⟨⟨1, 1⟩⟩⟩ ⟨⟨⟨1, 0⟩⟩, ⟨⟨0, 1⟩⟩⟩ r ↔ r = ⟨1 / 2, 1 / 2⟩) :=
  ⟨by simp, by simp,
    (intersectLineWithLine_is_set_intersection ⟨⟨⟨0, 0⟩⟩, ⟨⟨1, 1⟩⟩⟩ ⟨⟨⟨1, 0⟩⟩, ⟨⟨0, 1⟩⟩⟩
      (by simp) (by simp)).2.1 ⟨1 / 2, 1 / 2⟩⟩

/-! ## A segment as a point set determines its endpoints -/

theorem segment_endpoints (p q p1 q1 : XY) (hpq : p ≠ q)
    (h : ∀ r, onClosedSegment p q r ↔ onClosedSegment p1 q1 r) :
    (p1 = p ∧ q1 = q) ∨ (p1 = q ∧ q1 = p) := by
  obtain ⟨s, hs0, hs1, hp1⟩ := (h p1).2 (onClosedSegment_left _ _)
  obtain ⟨t, ht0, ht1, hq1⟩ := (h q1).2 (onClosedSegment_right _ _)
  have hp := (h p).1 (onClosedSegment_left _ _)
  have hq := (h q).1 (onClosedSegment_right _ _)
  rw [hp1, hq1, onClosedSegment_param] at hp hq
  obtain ⟨x, ⟨hx0, hx1⟩, hx⟩ := hp
  obtain ⟨y, ⟨hy0, hy1⟩, hy⟩ := hq
  have ex : x = 0 := by
    apply pointAt_inj p q hpq
    rw [← hx, pointAt_zero]
  have ey : y = 1 := by
    apply pointAt_inj p q hpq
    rw [← hy, pointAt_one]
  subst ex ey
  rcases le_total s t with hst | hst
  · rw [min_eq_left hst] at hx0
    rw [max_eq_right hst] at hy1
    have e1 : s = 0 := le_antisymm hx0 hs0
    have e2 : t = 1 := le_antisymm ht1 hy1
    left
    rw [hp1, hq1, e1, e2, pointAt_zero, pointAt_one]
    exact ⟨rfl, rfl⟩
  · rw [min_eq_right hst] at hx0
    rw [max_eq_left hst] at hy1
    have e1 : t = 0 := le_antisymm hx0 ht0
    have e2 : s = 1 := le_antisymm hs1 hy1
    right
    rw [hp1, hq1, e1, e2, pointAt_zero, pointAt_one]
    exact ⟨rfl, rfl⟩

theorem commonPoint_comm (n1 n2 : Line) (r : XY) : commonPoint n1 n2 r ↔ commonPoint n2 n1 r :=
  ⟨fun h => ⟨h.2, h.1⟩, fun h => ⟨h.2, h.1⟩⟩

/-- Exchanging the two Lines: the same Point, or the same segment up to the
order of its endpoints, or both empty. -/
theorem intersectLineWithLine_comm (n1 n2 : Line) (h1 : n1.a.XY ≠ n1.b.XY)
    (h2 : n2.a.XY ≠ n2.b.XY) :
    (intersectLineWithLine n1 n2 = .ok (NewGeometryCollection []) →
      intersectLineWithLine n2 n1 = .ok (NewGeometryCollection [])) ∧
    (∀ p, intersectLineWithLine n1 n2 = .ok (.point p) →
      intersectLineWithLine n2 n1 = .ok (.point p)) ∧
    (∀ p q, intersectLineWithLine n1 n2 = .ok (.line ⟨⟨p⟩, ⟨q⟩⟩) →
      intersectLineWithLine n2 n1 = .ok (.line ⟨⟨p⟩, ⟨q⟩⟩) ∨
      intersectLineWithLine n2 n1 = .ok (.line ⟨⟨q⟩, ⟨p⟩⟩)) := by
  rcases intersectLineWithLine_trichotomy n1 n2 h1 h2 with
    ⟨hres, hno⟩ | ⟨p0, hres, hone⟩ | ⟨p0, q0, hne, hres, hseg⟩ <;>
  rcases intersectLineWithLine_trichotomy n2 n1 h2 h1 with
    ⟨hres1, hno1⟩ | ⟨p1, hres1, hone1⟩ | ⟨p1, q1, hne1, hres1, hseg1⟩
  · refine ⟨fun _ => hres1, ?_, ?_⟩
    · intro p h; rw [hres] at h; simp [NewGeometryCollection] at h
    · intro p q h; rw [hres] at h; simp [NewGeometryCollection] at h
  · exact absurd ((commonPoint_comm _ _ _).1 ((hone1 p1).2 rfl)) (hno p1)
  · exact absurd ((commonPoint_comm _ _ _).1 ((hseg1 p1).2 (onClosedSegment_left _ _)))
      (hno p1)
  · exact absurd ((commonPoint_comm _ _ _).1 ((hone p0).2 rfl)) (hno1 p0)
  · have e : p1 = p0 := (hone p1).1 ((commonPoint_comm _ _ _).1 ((hone1 p1).2 rfl))
    subst e
    refine ⟨?_, ?_, ?_⟩
    · intro h; rw [hres] at h; simp [NewGeometryCollection] at h
    · intro p h
      rw [hres] at h
      injection h with h
      injection h with h
      rw [← h]; exact hres1
    · intro p q h; rw [hres] at h; simp at h
  · have e1 : p1 = p0 :=
      (hone p1).1 ((commonPoint_comm _ _ _).1 ((hseg1 p1).2 (onClosedSegment_left _ _)))
    have e2 : q1 = p0 :=
      (hone q1).1 ((commonPoint_comm _ _ _).1 ((hseg1 q1).2 (onClosedSegment_right _ _)))
    exact absurd (e1.trans e2.symm) hne1
  · exact absurd ((commonPoint_comm _ _ _).1 ((hseg p0).2 (onClosedSegment_left _ _)))
      (hno1 p0)
  · have e1 : p0 = p1 :=
      (hone1 p0).1 ((commonPoint_comm _ _ _).1 ((hseg p0).2 (onClosedSegment_left _ _)))
    have e2 : q0 = p1 :=
      (hone1 q0).1 ((commonPoint_comm _ _ _).1 ((hseg q0).2 (onClosedSegment_right _ _)))
    exact absurd (e1.trans e2.symm) hne
  · have hsame : ∀ r, onClosedSegment p0 q0 r ↔ onClosedSegment p1 q1 r := by
      intro r
      rw [← hseg r, ← hseg1 r]
      exact commonPoint_comm _ _ _
    refine ⟨?_, ?_, ?_⟩
    · intro h; rw [hres] at h; simp [NewGeometryCollection] at h
    · intro p h; rw [hres] at h; simp at h
    · intro p q h
      rw [hres] at h
      injection h with h
      injection h with h
      injection h with ha hb
      injection ha with ha
      injection hb with hb
      subst ha hb
      rcases segment_endpoints p0 q0 p1 q1 hne hsame with ⟨e1, e2⟩ | ⟨e1, e2⟩
      · left; rw [hres1, e1, e2]
      · right; rw [hres1, e1, e2]

/-! ## Canonicalisation does not depend on the order of its input -/

theorem Line.eq_of_XY (l m : Line) (ha : l.a.XY = m.a.XY) (hb : l.b.XY = m.b.XY) : l = m := by
  cases l with | mk la lb => cases m with | mk ma mb =>
  cases la; cases lb; cases ma; cases mb
  simp_all

theorem xyxyKey_eq (l m : Line) (h : xyxyKey l = xyxyKey m) :
    l = m ∨ (l.a.XY = m.b.XY ∧ l.b.XY = m.a.XY) := by
  unfold xyxyKey at h
  split_ifs at h <;> simp only [Prod.mk.injEq] at h
  · exact Or.inl (Line.eq_of_XY l m h.2 h.1)
  · exact Or.inr ⟨h.2, h.1⟩
  · exact Or.inr ⟨h.1, h.2⟩
  · exact Or.inl (Line.eq_of_XY l m h.1 h.2)

theorem hasIntersectionPointWithLine_flip (pt : Point) (l m : Line)
    (h : l.a.XY = m.b.XY ∧ l.b.XY = m.a.XY) :
    hasIntersectionPointWithLine pt l = hasIntersectionPointWithLine pt m := by
  unfold hasIntersectionPointWithLine mustEnvelope
  simp only [h.1, h.2]
  rw [min_comm m.b.XY.X, min_comm m.b.XY.Y, max_comm m.b.XY.X, max_comm m.b.XY.Y]
  have e : ((pt.coords.XY.X - m.b.XY.X) * (m.a.XY.Y - m.b.XY.Y) =
        (pt.coords.XY.Y - m.b.XY.Y) * (m.a.XY.X - m.b.XY.X)) ↔
      ((pt.coords.XY.X - m.a.XY.X) * (m.b.XY.Y - m.a.XY.Y) =
        (pt.coords.XY.Y - m.a.XY.Y) * (m.b.XY.X - m.a.XY.X)) := by
    constructor <;> intro h1 <;> linear_combination -h1
  simp only [e]

theorem IntersectsLine_of_key (pt : Point) (l m : Line) (h : xyxyKey l = xyxyKey m) :
    pt.IntersectsLine l = pt.IntersectsLine m := by
  rcases xyxyKey_eq l m h with rfl | h1
  · rfl
  · unfold Point.IntersectsLine
    rw [hasIntersectionPointWithLine_flip pt l m h1]

theorem any_IntersectsLine_of_keys (pt : Point) (ls ms : List Line)
    (h : ∀ k, k ∈ ls.map xyxyKey ↔ k ∈ ms.map xyxyKey) :
    ls.any (fun ln => pt.IntersectsLine ln) = ms.any (fun ln => pt.IntersectsLine ln) := by
  rw [Bool.eq_iff_iff]
  simp only [List.any_eq_true]
  constructor
  · rintro ⟨l, hl, hp⟩
    obtain ⟨m, hm, hk⟩ := List.mem_map.1 ((h _).1 (List.mem_map_of_mem xyxyKey hl))
    exact ⟨m, hm, by rw [IntersectsLine_of_key pt m l hk]; exact hp⟩
  · rintro ⟨m, hm, hp⟩
    obtain ⟨l, hl, hk⟩ := List.mem_map.1 ((h _).2 (List.mem_map_of_mem xyxyKey hm))
    exact ⟨l, hl, by rw [IntersectsLine_of_key pt l m hk]; exact hp⟩

theorem dedupByKey_keys {α κ : Type} [DecidableEq κ] (key : α → κ) (l : List α) (k : κ) :
    k ∈ (dedupByKey key [] l).map key ↔ k ∈ l.map key := by
  constructor
  · intro h
    obtain ⟨x, hx, rfl⟩ := List.mem_map.1 h
    exact List.mem_map_of_mem key ((dedupByKey_sublist key [] l).subset hx)
  · intro h
    obtain ⟨x, hx, rfl⟩ := List.mem_map.1 h
    rcases dedupByKey_key_mem key [] l x hx with h1 | h1
    · simp at h1
    · exact h1

theorem dedupByKey_keys_perm {α κ : Type} [DecidableEq κ] (key : α → κ) (l m : List α)
    (h : ∀ k, k ∈ l.map key ↔ k ∈ m.map key) :
    ((dedupByKey key [] l).map key).Perm ((dedupByKey key [] m).map key) := by
  rw [List.perm_ext_iff_of_nodup (dedupByKey_keys_nodup key [] l)
    (dedupByKey_keys_nodup key [] m)]
  intro k
  rw [dedupByKey_keys, dedupByKey_keys, h]

theorem point_of_not_empty (pt : Point) (h : pt.empty = false) : NewPointXY pt.XY = pt := by
  cases pt with | mk c e =>
  cases c
  simp only [Point.XY, NewPointXY] at *
  simp [h]

theorem map_NewPointXY (ps : List Point) (h : ∀ p ∈ ps, p.empty = false) :
    (ps.map Point.XY).map NewPointXY = ps := by
  induction ps with
  | nil => rfl
  | cons p ps ih =>
    simp only [List.map_cons]
    rw [point_of_not_empty p (h p (List.mem_cons_self _ _)),
      ih (fun q hq => h q (List.mem_cons_of_mem _ hq))]

theorem dedupPoints_perm (ps qs : List Point) (h : ∀ p, p ∈ ps ↔ p ∈ qs)
    (hne : ∀ p ∈ ps, p.empty = false) : (dedupPoints ps).Perm (dedupPoints qs) := by
  have hne2 : ∀ p ∈ qs, p.empty = false := fun p hp => hne p ((h p).2 hp)
  have hk : ∀ k, k ∈ ps.map Point.XY ↔ k ∈ qs.map Point.XY := by
    intro k
    simp only [List.mem_map]
    constructor
    · rintro ⟨p, hp, rfl⟩; exact ⟨p, (h p).1 hp, rfl⟩
    · rintro ⟨p, hp, rfl⟩; exact ⟨p, (h p).2 hp, rfl⟩
  have hperm := dedupByKey_keys_perm Point.XY ps qs hk
  rw [← dedupPoints_eq, ← dedupPoints_eq] at hperm
  have e1 := map_NewPointXY (dedupPoints ps) (fun p hp => hne p (by
    rw [dedupPoints_eq] at hp
    exact (dedupByKey_sublist Point.XY [] ps).subset hp))
  have e2 := map_NewPointXY (dedupPoints qs) (fun p hp => hne2 p (by
    rw [dedupPoints_eq] at hp
    exact (dedupByKey_sublist Point.XY [] qs).subset hp))
  rw [← e1, ← e2]
  exact hperm.map NewPointXY

theorem switch_rank (ps : List Point) (ls : List Line) (g : Geometry)
    (h : canonicalPointsAndLines.switch ps ls = .ok g) :
    rank g = switchRank ps.length ls.length := by
  rcases ps with _ | ⟨p, _ | ⟨q, ps⟩⟩ <;> rcases ls with _ | ⟨l, _ | ⟨m, ls⟩⟩ <;>
    simp only [canonicalPointsAndLines.switch] at h
  all_goals first
    | (injection h with h; subst h
       simp [rank, switchRank, NewGeometryCollection])
    | (cases hl : lineStringsOfLines (l :: m :: ls) with
       | ok lss =>
         rw [hl] at h
         simp only [Outcome.map] at h
         injection h with h; subst h
         simp [rank, switchRank]
       | error e => rw [hl] at h; simp [Outcome.map] at h
       | panic r => rw [hl] at h; simp [Outcome.map] at h)

/-- Two inputs with the same set of points and the same set of segments (up
to direction) give results that are equal up to order. -/
theorem canonicalPointsAndLines_sameUpToOrder (ps qs : List Point) (ls ms : List Line)
    (hps : ∀ p, p ∈ ps ↔ p ∈ qs) (hne : ∀ p ∈ ps, p.empty = false)
    (hls : ∀ k, k ∈ ls.map xyxyKey ↔ k ∈ ms.map xyxyKey)
    (hv : ∀ l ∈ ms, l.a.XY ≠ l.b.XY) (g : Geometry)
    (hg : canonicalPointsAndLines ps ls = .ok g) :
    ∃ g1, canonicalPointsAndLines qs ms = .ok g1 ∧ sameUpToOrder g g1 := by
  obtain ⟨g1, hg1⟩ := canonicalPointsAndLines_ok qs ms hv
  refine ⟨g1, hg1, ?_⟩
  have h1 : canonicalPointsAndLines.switch
      (removeCovered (dedupPoints ps) (dedupLines ls)) (dedupLines ls) = .ok g := hg
  have h2 : canonicalPointsAndLines.switch
      (removeCovered (dedupPoints qs) (dedupLines ms)) (dedupLines ms) = .ok g1 := hg1
  obtain ⟨hp, hl⟩ := switch_members _ _ _ h1
  obtain ⟨hp1, hl1⟩ := switch_members _ _ _ h2
  have hkeys : ((dedupLines ls).map xyxyKey).Perm ((dedupLines ms).map xyxyKey) := by
    rw [dedupLines_eq, dedupLines_eq]
    exact dedupByKey_keys_perm xyxyKey ls ms hls
  have hpts : (removeCovered (dedupPoints ps) (dedupLines ls)).Perm
      (removeCovered (dedupPoints qs) (dedupLines ms)) := by
    unfold removeCovered
    have hf : (fun pt : Point => !(dedupLines ls).any (fun ln => pt.IntersectsLine ln)) =
        (fun pt : Point => !(dedupLines ms).any (fun ln => pt.IntersectsLine ln)) := by
      funext pt
      rw [any_IntersectsLine_of_keys pt (dedupLines ls) (dedupLines ms)
        (fun k => hkeys.mem_iff)]
    rw [hf]
    exact (dedupPoints_perm ps qs hps hne).filter _
  refine ⟨?_, ?_, ?_⟩
  · rw [switch_rank _ _ _ h1, switch_rank _ _ _ h2, hpts.length_eq]
    have := hkeys.length_eq
    simp only [List.length_map] at this
    rw [this]
  · rw [hp, hp1]; exact hpts
  · rw [hl, hl1]; exact hkeys

/-! ## Exchanging the arguments of the MultiLineString algorithm -/

theorem intersectLineWithLine_ok (n1 n2 : Line) : ∃ g, intersectLineWithLine n1 n2 = .ok g := by
  rcases intersectLineWithLine_forms n1 n2 with ⟨p, h⟩ | h | ⟨ln, -, h⟩ <;> exact ⟨_, h⟩

theorem collectIntersections_spec (pairs : List (Line × Line)) :
    ∃ c, collectIntersections pairs = .ok c ∧
      ∀ g, g ∈ c ↔ (g.IsEmpty = false ∧
        ∃ pr ∈ pairs, intersectLineWithLine pr.1 pr.2 = .ok g) := by
  induction pairs with
  | nil => exact ⟨[], rfl, by simp⟩
  | cons pr rest ih =>
    obtain ⟨c, hc, hmem⟩ := ih
    obtain ⟨inter, hi⟩ := intersectLineWithLine_ok pr.1 pr.2
    simp only [collectIntersections, hi, hc, Outcome.map]
    refine ⟨_, rfl, ?_⟩
    intro g
    cases he : inter.IsEmpty
    · simp only [Bool.not_false, if_true, List.mem_cons, hmem]
      constructor
      · rintro (rfl | ⟨h1, pr1, hpr, h2⟩)
        · exact ⟨he, pr, Or.inl rfl, hi⟩
        · exact ⟨h1, pr1, Or.inr hpr, h2⟩
      · rintro ⟨h1, pr1, hpr | hpr, h2⟩
        · subst hpr
          rw [hi] at h2
          injection h2 with h2
          exact Or.inl h2.symm
        · exact Or.inr ⟨h1, pr1, hpr, h2⟩
    · simp only [Bool.not_true, Bool.false_eq_true, if_false, List.mem_cons, hmem]
      constructor
      · rintro ⟨h1, pr1, hpr, h2⟩
        exact ⟨h1, pr1, Or.inr hpr, h2⟩
      · rintro ⟨h1, pr1, hpr | hpr, h2⟩
        · subst hpr
          rw [hi] at h2
          injection h2 with h2
          rw [h2, h1] at he
          exact absurd he (by simp)
        · exact ⟨h1, pr1, hpr, h2⟩

theorem mem_segmentPairs (mls1 mls2 : MultiLineString) (l1 l2 : Line) :
    (l1, l2) ∈ segmentPairs mls1 mls2 ↔ l1 ∈ mls1.segments ∧ l2 ∈ mls2.segments := by
  simp only [segmentPairs, MultiLineString.segments, List.mem_flatMap, List.mem_map,
    Prod.mk.injEq]
  constructor
  · rintro ⟨ls1, h1, ln1, h2, ls2, h3, ln2, h4, rfl, rfl⟩
    exact ⟨⟨ls1, h1, h2⟩, ⟨ls2, h3, h4⟩⟩
  · rintro ⟨⟨ls1, h1, h2⟩, ⟨ls2, h3, h4⟩⟩
    exact ⟨ls1, h1, l1, h2, ls2, h3, l2, h4, rfl, rfl⟩

theorem mem_filterMap_point (c : List Geometry) (p : Point) :
    p ∈ c.filterMap Geometry.asPoint ↔ Geometry.point p ∈ c := by
  rw [List.mem_filterMap]
  constructor
  · rintro ⟨g, hg, h⟩
    cases g <;> simp [Geometry.asPoint] at h
    subst h
    exact hg
  · intro h
    exact ⟨_, h, rfl⟩

theorem mem_filterMap_line (c : List Geometry) (l : Line) :
    l ∈ c.filterMap Geometry.asLine ↔ Geometry.line l ∈ c := by
  rw [List.mem_filterMap]
  constructor
  · rintro ⟨g, hg, h⟩
    cases g <;> simp [Geometry.asLine] at h
    subst h
    exact hg
  · intro h
    exact ⟨_, h, rfl⟩

theorem xyxyKey_flip (p q : XY) :
    xyxyKey ⟨⟨p⟩, ⟨q⟩⟩ = xyxyKey ⟨⟨q⟩, ⟨p⟩⟩ := by
  unfold xyxyKey XY.Less
  simp only [Bool.not_eq_true', Bool.or_eq_false_iff, decide_eq_false_iff_not,
    Bool.and_eq_false_imp, decide_eq_true_eq, not_lt]
  split_ifs with h1 h2 h2
  · have hx : p.X = q.X := le_antisymm h2.1 h1.1
    have hy : p.Y = q.Y := le_antisymm (h2.2 hx.symm) (h1.2 hx)
    have : p = q := (XY.eq_iff p q).2 ⟨hx, hy⟩
    rw [this]
  · rfl
  · rfl
  · exfalso
    rw [not_and_or, not_le] at h1 h2
    rcases h1 with h1 | h1
    · rcases h2 with h2 | h2
      · exact lt_asymm h1 h2
      · push_neg at h2
        exact absurd h2.1 (ne_of_lt h1).symm
    · push_neg at h1
      rcases h2 with h2 | h2
      · exact absurd h1.1 (ne_of_lt h2).symm
      · push_neg at h2
        exact lt_asymm h1.2 h2.2

/-- One direction of the exchange: every member of the collection built for
`(mls1, mls2)` has a member with the same points and the same segment key in
the collection built for `(mls2, mls1)`. -/
theorem collection_swap (mls1 mls2 : MultiLineString)
    (hv1 : ∀ l ∈ mls1.segments, l.a.XY ≠ l.b.XY) (hv2 : ∀ l ∈ mls2.segments, l.a.XY ≠ l.b.XY)
    (c c1 : List Geometry) (hc : collectIntersections (segmentPairs mls1 mls2) = .ok c)
    (hc1 : collectIntersections (segmentPairs mls2 mls1) = .ok c1) :
    (∀ p, Geometry.point p ∈ c → Geometry.point p ∈ c1) ∧
    (∀ l, Geometry.line l ∈ c → ∃ m, Geometry.line m ∈ c1 ∧ xyxyKey m = xyxyKey l) := by
  obtain ⟨d, hd, hmem⟩ := collectIntersections_spec (segmentPairs mls1 mls2)
  obtain ⟨d1, hd1, hmem1⟩ := collectIntersections_spec (segmentPairs mls2 mls1)
  rw [hc] at hd
  rw [hc1] at hd1
  injection hd with hd
  injection hd1 with hd1
  subst hd hd1
  constructor
  · intro p hp
    obtain ⟨he, ⟨l1, l2⟩, hpr, hi⟩ := (hmem _).1 hp
    obtain ⟨h1, h2⟩ := (mem_segmentPairs _ _ _ _).1 hpr
    have hcomm := (intersectLineWithLine_comm l1 l2 (hv1 l1 h1) (hv2 l2 h2)).2.1 p hi
    exact (hmem1 _).2 ⟨he, (l2, l1), (mem_segmentPairs _ _ _ _).2 ⟨h2, h1⟩, hcomm⟩
  · intro l hl
    obtain ⟨he, ⟨l1, l2⟩, hpr, hi⟩ := (hmem _).1 hl
    obtain ⟨h1, h2⟩ := (mem_segmentPairs _ _ _ _).1 hpr
    have hmem2 := (mem_segmentPairs mls2 mls1 l2 l1).2 ⟨h2, h1⟩
    cases l with | mk la lb =>
    cases la with | mk p =>
    cases lb with | mk q =>
    rcases (intersectLineWithLine_comm l1 l2 (hv1 l1 h1) (hv2 l2 h2)).2.2 p q hi with
      hcomm | hcomm
    · exact ⟨_, (hmem1 _).2 ⟨rfl, (l2, l1), hmem2, hcomm⟩, rfl⟩
    · exact ⟨_, (hmem1 _).2 ⟨rfl, (l2, l1), hmem2, hcomm⟩, xyxyKey_flip q p⟩

theorem collection_lines_valid (pairs : List (Line × Line)) (c : List Geometry)
    (hc : collectIntersections pairs = .ok c) (l : Line) (hl : Geometry.line l ∈ c) :
    l.a.XY ≠ l.b.XY := by
  obtain ⟨d, hd, hmem⟩ := collectIntersections_spec pairs
  rw [hc] at hd
  injection hd with hd
  subst hd
  obtain ⟨-, pr, -, hi⟩ := (hmem _).1 hl
  rcases intersectLineWithLine_forms pr.1 pr.2 with ⟨p, h⟩ | h | ⟨ln, hne, h⟩
  · rw [h] at hi; simp at hi
  · rw [h] at hi; simp [NewGeometryCollection] at hi
  · rw [h] at hi
    injection hi with hi
    injection hi with hi
    rw [← hi]; exact hne

theorem collection_points_not_empty (pairs : List (Line × Line)) (c : List Geometry)
    (hc : collectIntersections pairs = .ok c) (p : Point) (hp : Geometry.point p ∈ c) :
    p.empty = false := by
  obtain ⟨d, hd, hmem⟩ := collectIntersections_spec pairs
  rw [hc] at hd
  injection hd with hd
  subst hd
  exact ((hmem _).1 hp).1

/-- Exchanging the arguments of the MultiLineString algorithm gives a result
that is equal up to order. -/
theorem intersectMultiLineStringWithMultiLineString_comm (mls1 mls2 : MultiLineString)
    (hv1 : ∀ l ∈ mls1.segments, l.a.XY ≠ l.b.XY) (hv2 : ∀ l ∈ mls2.segments, l.a.XY ≠ l.b.XY)
    (g : Geometry) (h : intersectMultiLineStringWithMultiLineString mls1 mls2 = .ok g) :
    ∃ g1, intersectMultiLineStringWithMultiLineString mls2 mls1 = .ok g1 ∧
      sameUpToOrder g g1 := by
  obtain ⟨c, hc, -⟩ := collectIntersections_spec (segmentPairs mls1 mls2)
  obtain ⟨c1, hc1, -⟩ := collectIntersections_spec (segmentPairs mls2 mls1)
  have hsw := collection_swap mls1 mls2 hv1 hv2 c c1 hc hc1
  have hsw1 := collection_swap mls2 mls1 hv2 hv1 c1 c hc1 hc
  simp only [intersectMultiLineStringWithMultiLineString, hc, hc1, canonicalise] at h ⊢
  have hg := must_ok _ _ h
  obtain ⟨g1, hg1, hsame⟩ := canonicalPointsAndLines_sameUpToOrder _
    (c1.filterMap Geometry.asPoint) _ (c1.filterMap Geometry.asLine)
    (by
      intro p
      rw [mem_filterMap_point, mem_filterMap_point]
      exact ⟨hsw.1 p, hsw1.1 p⟩)
    (by
      intro p hp
      rw [mem_filterMap_point] at hp
      exact collection_points_not_empty _ c hc p hp)
    (by
      intro k
      simp only [List.mem_map, mem_filterMap_line]
      constructor
      · rintro ⟨l, hl, rfl⟩
        obtain ⟨m, hm, hk⟩ := hsw.2 l hl
        exact ⟨m, hm, hk⟩
      · rintro ⟨l, hl, rfl⟩
        obtain ⟨m, hm, hk⟩ := hsw1.2 l hl
        exact ⟨m, hm, hk⟩)
    (by
      intro l hl
      rw [mem_filterMap_line] at hl
      exact collection_lines_valid _ c1 hc1 l hl)
    g hg
  exact ⟨g1, by rw [hg1]; rfl, hsame⟩

/-! ## Exchanging the arguments of `intersection` -/

theorem sameUpToOrder_refl (g : Geometry) : sameUpToOrder g g :=
  ⟨rfl, List.Perm.refl _, List.Perm.refl _⟩

theorem mem_foldl_xySetInsert (l init : List XY) (x : XY) :
    x ∈ l.foldl xySetInsert init ↔ x ∈ init ∨ x ∈ l := by
  induction l generalizing init with
  | nil => simp
  | cons y l ih =>
    rw [List.foldl_cons, ih]
    unfold xySetInsert
    split_ifs with h
    · constructor
      · rintro (h1 | h1)
        · exact Or.inl h1
        · exact Or.inr (List.mem_cons_of_mem _ h1)
      · rintro (h1 | h1)
        · exact Or.inl h1
        · rcases List.mem_cons.1 h1 with rfl | h2
          · exact Or.inl h
          · exact Or.inr h2
    · constructor
      · rintro (h1 | h1)
        · rcases List.mem_append.1 h1 with h2 | h2
          · exact Or.inl h2
          · exact Or.inr (by rw [List.mem_singleton.1 h2]; exact List.mem_cons_self _ _)
        · exact Or.inr (List.mem_cons_of_mem _ h1)
      · rintro (h1 | h1)
        · exact Or.inl (List.mem_append_left _ h1)
        · rcases List.mem_cons.1 h1 with rfl | h2
          · exact Or.inl (List.mem_append_right _ (List.mem_singleton.2 rfl))
          · exact Or.inr h2

theorem nodup_foldl_xySetInsert (l init : List XY) (h : init.Nodup) :
    (l.foldl xySetInsert init).Nodup := by
  induction l generalizing init with
  | nil => exact h
  | cons y l ih =>
    rw [List.foldl_cons]
    apply ih
    unfold xySetInsert
    split_ifs with h1
    · exact h
    · exact List.Nodup.append h (List.nodup_singleton y) (by simpa using h1)

theorem sameUpToOrder_of_point_lists (l m : List Point) (h : l.Perm m) :
    sameUpToOrder (pointOrMultiPoint l) (pointOrMultiPoint m) := by
  have hp : ∀ k : List Point, pointsOf (pointOrMultiPoint k) = k := by
    intro k
    rcases k with _ | ⟨p, _ | ⟨q, k⟩⟩ <;> rfl
  have hl : ∀ k : List Point, linesOf (pointOrMultiPoint k) = [] := by
    intro k
    rcases k with _ | ⟨p, _ | ⟨q, k⟩⟩ <;> rfl
  have hr : ∀ k : List Point, rank (pointOrMultiPoint k) = if k.length = 1 then 1 else 6 := by
    intro k
    rcases k with _ | ⟨p, _ | ⟨q, k⟩⟩ <;> simp [rank, pointOrMultiPoint]
  refine ⟨?_, ?_, ?_⟩
  · rw [hr, hr, h.length_eq]
  · rw [hp, hp]; exact h
  · rw [hl, hl]

theorem intersectMultiPointWithMultiPoint_comm (mp1 mp2 : MultiPoint) :
    sameUpToOrder (intersectMultiPointWithMultiPoint mp1 mp2)
      (intersectMultiPointWithMultiPoint mp2 mp1) := by
  unfold intersectMultiPointWithMultiPoint
  apply sameUpToOrder_of_point_lists
  refine (List.perm_insertionSort _ _).trans
    (List.Perm.trans ?_ (List.perm_insertionSort _ _).symm)
  apply List.Perm.map
  rw [List.perm_ext_iff_of_nodup]
  · intro x
    simp only [mem_foldl_xySetInsert, List.mem_filter, decide_eq_true_eq, List.not_mem_nil,
      false_or]
    constructor
    · rintro (⟨h1, h2⟩ | ⟨h1, h2⟩)
      · exact Or.inr ⟨h1, h2⟩
      · exact Or.inl ⟨h1, h2⟩
    · rintro (⟨h1, h2⟩ | ⟨h1, h2⟩)
      · exact Or.inr ⟨h1, h2⟩
      · exact Or.inl ⟨h1, h2⟩
  · exact nodup_foldl_xySetInsert _ _ (nodup_foldl_xySetInsert _ _ List.nodup_nil)
  · exact nodup_foldl_xySetInsert _ _ (nodup_foldl_xySetInsert _ _ List.nodup_nil)

theorem intersectPointWithPoint_comm (p q : Point) :
    intersectPointWithPoint p q = intersectPointWithPoint q p := by
  unfold intersectPointWithPoint Point.Equals XY.Equals
  by_cases h : p.coords.XY = q.coords.XY
  · simp [h]
  · have h1 : ¬ q.coords.XY = p.coords.XY := fun e => h e.symm
    simp [h, h1]

theorem segments_singleton (ls : LineString) :
    (NewMultiLineString [ls]).segments = ls.lines := by
  simp [MultiLineString.segments, NewMultiLineString]

theorem intersection_of_rank_ne (g1 g2 : Geometry) (h1 : g1.IsEmpty = false)
    (h2 : g2.IsEmpty = false) (hr : rank g1 ≠ rank g2) :
    intersection g2 g1 = intersection g1 g2 := by
  unfold intersection
  simp only [h1, h2, Bool.false_eq_true, if_false]
  rcases lt_or_gt_of_ne hr with h | h
  · rw [if_pos h, if_neg (by omega)]
  · rw [if_neg (by omega), if_pos h]

theorem intersection_of_rank_eq (g1 g2 : Geometry) (h1 : g1.IsEmpty = false)
    (h2 : g2.IsEmpty = false) (hr : rank g1 = rank g2) :
    intersection g1 g2 = intersectionDispatch g1 g2 ∧
    intersection g2 g1 = intersectionDispatch g2 g1 := by
  unfold intersection
  simp only [h1, h2, Bool.false_eq_true, if_false]
  rw [if_neg (by omega), if_neg (by omega)]
  exact ⟨rfl, rfl⟩

theorem sameUpToOrder_line_flip (p q : XY) :
    sameUpToOrder (.line ⟨⟨p⟩, ⟨q⟩⟩) (.line ⟨⟨q⟩, ⟨p⟩⟩) := by
  refine ⟨rfl, List.Perm.refl _, ?_⟩
  simp only [linesOf, List.map_cons, List.map_nil, xyxyKey_flip p q]
  exact List.Perm.refl _

theorem intersectLineWithLine_sameUpToOrder (n1 n2 : Line) (hv1 : n1.a.XY ≠ n1.b.XY)
    (hv2 : n2.a.XY ≠ n2.b.XY) (r : Geometry) (h : intersectLineWithLine n1 n2 = .ok r) :
    ∃ r1, intersectLineWithLine n2 n1 = .ok r1 ∧ sameUpToOrder r r1 := by
  have hcomm := intersectLineWithLine_comm n1 n2 hv1 hv2
  rcases intersectLineWithLine_forms n1 n2 with ⟨p, hp⟩ | hp | ⟨ln, -, hp⟩
  · rw [hp] at h; injection h with h; subst h
    exact ⟨_, hcomm.2.1 _ hp, sameUpToOrder_refl _⟩
  · rw [hp] at h; injection h with h; subst h
    exact ⟨_, hcomm.1 hp, sameUpToOrder_refl _⟩
  · rw [hp] at h; injection h with h; subst h
    cases ln with | mk la lb =>
    cases la with | mk p =>
    cases lb with | mk q =>
    rcases hcomm.2.2 p q hp with h3 | h3
    · exact ⟨_, h3, sameUpToOrder_refl _⟩
    · exact ⟨_, h3, sameUpToOrder_line_flip p q⟩

theorem segments_valid (mls : MultiLineString) (hv : ∀ ls ∈ mls.lines, ls.Valid) :
    ∀ l ∈ mls.segments, l.a.XY ≠ l.b.XY := by
  intro l hl
  obtain ⟨ls, hls, hl1⟩ := List.mem_flatMap.1 hl
  exact hv ls hls l hl1

theorem intersectionDispatch_comm (g1 g2 r : Geometry) (hv1 : g1.Valid) (hv2 : g2.Valid)
    (h1 : g1.IsEmpty = false) (h2 : g2.IsEmpty = false) (hr : rank g1 = rank g2)
    (h : intersectionDispatch g1 g2 = .ok r) :
    ∃ r1, intersectionDispatch g2 g1 = .ok r1 ∧ sameUpToOrder r r1 := by
  cases g1 with
  | point p =>
    cases g2 <;> first | (simp [rank] at hr; done) | skip
    rename_i q
    simp only [intersectionDispatch] at h ⊢
    injection h with h
    subst h
    exact ⟨_, rfl, by rw [intersectPointWithPoint_comm]; exact sameUpToOrder_refl _⟩
  | line n1 =>
    cases g2 <;> first | (simp [rank] at hr; done) | skip
    rename_i n2
    exact intersectLineWithLine_sameUpToOrder n1 n2 hv1 hv2 r h
  | lineString s1 =>
    cases g2 <;> first | (simp [rank] at hr; done) | (exact absurd h2 (by decide)) | skip
    rename_i s2
    exact intersectMultiLineStringWithMultiLineString_comm _ _
      (by rw [segments_singleton]; exact hv1) (by rw [segments_singleton]; exact hv2) r h
  | linearRing s1 =>
    cases g2 <;> first | (simp [rank] at hr; done) | skip
    rename_i s2
    exact intersectMultiLineStringWithMultiLineString_comm _ _
      (by rw [segments_singleton]; exact hv1) (by rw [segments_singleton]; exact hv2) r h
  | polygon p =>
    cases g2 <;> first | (simp [rank] at hr; done) | (exact absurd h2 (by decide)) | skip
    simp [intersectionDispatch] at h
  | multiPoint m1 =>
    cases g2 <;> first | (simp [rank] at hr; done) | skip
    rename_i m2
    simp only [intersectionDispatch] at h ⊢
    injection h with h
    subst h
    exact ⟨_, rfl, intersectMultiPointWithMultiPoint_comm m1 m2⟩
  | multiLineString m1 =>
    cases g2 <;> first | (simp [rank] at hr; done) | skip
    rename_i m2
    exact intersectMultiLineStringWithMultiLineString_comm _ _
      (segments_valid m1 hv1) (segments_valid m2 hv2) r h
  | multiPolygon m1 =>
    cases g2 <;> first | (simp [rank] at hr; done) | skip
    simp [intersectionDispatch] at h
  | geometryCollection c1 =>
    cases g2 <;> first | (simp [rank] at hr; done) | skip
    simp [intersectionDispatch] at h
  | emptyLineString => exact absurd h1 (by decide)
  | emptyPolygon => exact absurd h1 (by decide)

/-- C3: in exact arithmetic, for non-empty geometries `g1`, `g2` that satisfy
the invariants of their types and form a supported pair, `intersection g2 g1`
also returns, and the two results are equal up to the order of vertices and
members; in particular `intersectLineWithLine n1 n2` and
`intersectLineWithLine n2 n1` both return empty, or the same Point, or the
same segment up to the order of its two endpoints. -/
theorem intersection_comm_up_to_order :
    (∀ g1 g2 r : Geometry, g1.Valid → g2.Valid → g1.IsEmpty = false → g2.IsEmpty = false →
      intersection g1 g2 = .ok r →
      ∃ r1, intersection g2 g1 = .ok r1 ∧ CanonicalShape r ∧ CanonicalShape r1 ∧
        sameUpToOrder r r1) ∧
    (∀ n1 n2 : Line, n1.a.XY ≠ n1.b.XY → n2.a.XY ≠ n2.b.XY →
      (intersectLineWithLine n1 n2 = .ok (NewGeometryCollection []) →
        intersectLineWithLine n2 n1 = .ok (NewGeometryCollection [])) ∧
      (∀ p, intersectLineWithLine n1 n2 = .ok (.point p) →
        intersectLineWithLine n2 n1 = .ok (.point p)) ∧
      (∀ p q, intersectLineWithLine n1 n2 = .ok (.line ⟨⟨p⟩, ⟨q⟩⟩) →
        intersectLineWithLine n2 n1 = .ok (.line ⟨⟨p⟩, ⟨q⟩⟩) ∨
        intersectLineWithLine n2 n1 = .ok (.line ⟨⟨q⟩, ⟨p⟩⟩))) := by
  refine ⟨?_, fun n1 n2 h1 h2 => intersectLineWithLine_comm n1 n2 h1 h2⟩
  intro g1 g2 r hv1 hv2 h1 h2 h
  have hs := intersection_shape g1 g2 r h1 h2 h
  by_cases hr : rank g1 = rank g2
  · obtain ⟨e1, e2⟩ := intersection_of_rank_eq g1 g2 h1 h2 hr
    rw [e1] at h
    obtain ⟨r1, hr1, hsame⟩ := intersectionDispatch_comm g1 g2 r hv1 hv2 h1 h2 hr h
    rw [← e2] at hr1
    exact ⟨r1, hr1, hs, intersection_shape g2 g1 r1 h2 h1 hr1, hsame⟩
  · have e := intersection_of_rank_ne g1 g2 h1 h2 hr
    exact ⟨r, by rw [e]; exact h, hs, hs, sameUpToOrder_refl r⟩

theorem eval_diagonals :
    intersection (.line ⟨⟨⟨0, 0⟩⟩, ⟨⟨1, 1⟩⟩⟩) (.line ⟨⟨⟨1, 0⟩⟩, ⟨⟨0, 1⟩⟩⟩) =
      .ok (.point (NewPointXY ⟨1 / 2, 1 / 2⟩)) := by
  rw [intersection_line_line, intersectLineWithLine_unfold]
  simp [orientation, NewPointXY, XY.Sub, XY.Scale, XY.Add]
  norm_num
  simp

/-- Witness for C3: the two diagonals of the unit square, in both orders. -/
theorem intersection_comm_up_to_order_witness :
    ∃ r1, intersection (.line ⟨⟨⟨1, 0⟩⟩, ⟨⟨0, 1⟩⟩⟩) (.line ⟨⟨⟨0, 0⟩⟩, ⟨⟨1, 1⟩⟩⟩) = .ok r1 ∧
      CanonicalShape (.point (NewPointXY ⟨1 / 2, 1 / 2⟩)) ∧ CanonicalShape r1 ∧
      sameUpToOrder (.point (NewPointXY ⟨1 / 2, 1 / 2⟩)) r1 :=
  intersection_comm_up_to_order.1 (.line ⟨⟨⟨0, 0⟩⟩, ⟨⟨1, 1⟩⟩⟩) (.line ⟨⟨⟨1, 0⟩⟩, ⟨⟨0, 1⟩⟩⟩) _
    (by simp [Geometry.Valid]) (by simp [Geometry.Valid]) (by rfl) (by rfl) eval_diagonals

/-! ## Which pairs are implemented -/

theorem NewLineStringC_no_panic (pts : List Coordinates) (opts : List ConstructorOption)
    (r : PanicReason) : NewLineStringC pts opts ≠ .panic r := by
  unfold NewLineStringC
  simp only []
  split_ifs <;> simp

theorem lineStringsOfLines_no_panic (lines : List Line) (r : PanicReason) :
    lineStringsOfLines lines ≠ .panic r := by
  induction lines with
  | nil => simp [lineStringsOfLines]
  | cons ln rest ih =>
    unfold lineStringsOfLines
    cases h1 : NewLineStringC ln.Coordinates [] with
    | ok v =>
      cases h : lineStringsOfLines rest with
      | ok v => simp
      | error e => simp
      | panic r1 =>
        simp only [ne_eq, Outcome.panic.injEq]
        rintro rfl
        exact ih h
    | error e => simp
    | panic r1 => exact absurd h1 (NewLineStringC_no_panic _ _ _)

theorem switch_no_panic (ps : List Point) (ls : List Line) (r : PanicReason) :
    canonicalPointsAndLines.switch ps ls ≠ .panic r := by
  have key : ∀ lines : List Line, (lineStringsOfLines lines).map
      (fun lineStrings => Geometry.multiLineString (NewMultiLineString lineStrings)) ≠
      .panic r := by
    intro lines
    cases h : lineStringsOfLines lines with
    | ok v => simp [Outcome.map]
    | error e => simp [Outcome.map]
    | panic r1 => exact absurd h (lineStringsOfLines_no_panic _ _)
  rcases ps with _ | ⟨p, _ | ⟨q, ps⟩⟩ <;> rcases ls with _ | ⟨l, _ | ⟨m, ls⟩⟩ <;>
    simp only [canonicalPointsAndLines.switch] <;> first | exact key _ | simp

theorem intersectMultiLineStringWithMultiLineString_implemented (mls1 mls2 : MultiLineString) :
    intersectMultiLineStringWithMultiLineString mls1 mls2 ≠ .panic .notImplemented := by
  unfold intersectMultiLineStringWithMultiLineString
  obtain ⟨c, hc, -⟩ := collectIntersections_spec (segmentPairs mls1 mls2)
  rw [hc]
  simp only [canonicalise]
  cases h : canonicalPointsAndLines (List.filterMap Geometry.asPoint c)
      (List.filterMap Geometry.asLine c) with
  | ok v => simp [must]
  | error e => simp [must]
  | panic r => exact absurd h (switch_no_panic _ _ _)

theorem intersectLineWithLine_implemented (n1 n2 : Line) :
    intersectLineWithLine n1 n2 ≠ .panic .notImplemented := by
  obtain ⟨g, h⟩ := intersectLineWithLine_ok n1 n2
  rw [h]
  simp

theorem dispatch_implemented_iff (g1 g2 : Geometry) :
    intersectionDispatch g1 g2 = .panic .notImplemented ↔
      hasIntersectionDispatch g1 g2 = .panic .notImplemented := by
  cases g1 <;> cases g2 <;>
    simp only [intersectionDispatch, hasIntersectionDispatch, reduceCtorEq,
      intersectLineWithLine_implemented,
      intersectMultiLineStringWithMultiLineString_implemented]

theorem dispatch_implemented_swap (g1 g2 : Geometry) (h1 : g1.IsEmpty = false)
    (h2 : g2.IsEmpty = false) (hr : rank g1 = rank g2) :
    intersectionDispatch g1 g2 = .panic .notImplemented ↔
      intersectionDispatch g2 g1 = .panic .notImplemented := by
  cases g1 <;> cases g2 <;>
    first
    | (simp [rank] at hr; done)
    | (simp [Geometry.IsEmpty] at h1; done)
    | simp only [intersectionDispatch, reduceCtorEq,
        intersectLineWithLine_implemented,
        intersectMultiLineStringWithMultiLineString_implemented]

/-- C11: for every ordered pair of geometries, `intersection` reaches its
"not implemented" branch exactly when `hasIntersection` reaches its own, and
`intersection g1 g2` reaches it exactly when `intersection g2 g1` does (for
empty inputs neither call reaches it). -/
theorem implemented_pairs_agree :
    (∀ g1 g2 : Geometry, intersection g1 g2 = .panic .notImplemented ↔
      hasIntersection g1 g2 = .panic .notImplemented) ∧
    (∀ g1 g2 : Geometry, intersection g1 g2 = .panic .notImplemented ↔
      intersection g2 g1 = .panic .notImplemented) ∧
    (∀ g1 g2 : Geometry, hasIntersection g1 g2 = .panic .notImplemented ↔
      hasIntersection g2 g1 = .panic .notImplemented) := by
  have first : ∀ g1 g2 : Geometry, intersection g1 g2 = .panic .notImplemented ↔
      hasIntersection g1 g2 = .panic .notImplemented := by
    intro g1 g2
    unfold intersection hasIntersection
    split_ifs
    · simp
    · simp
    · exact dispatch_implemented_iff g2 g1
    · exact dispatch_implemented_iff g1 g2
  have second : ∀ g1 g2 : Geometry, intersection g1 g2 = .panic .notImplemented ↔
      intersection g2 g1 = .panic .notImplemented := by
    intro g1 g2
    cases h1 : g1.IsEmpty
    · cases h2 : g2.IsEmpty
      · by_cases hr : rank g1 = rank g2
        · obtain ⟨e1, e2⟩ := intersection_of_rank_eq g1 g2 h1 h2 hr
          rw [e1, e2]
          exact dispatch_implemented_swap g1 g2 h1 h2 hr
        · rw [intersection_of_rank_ne g1 g2 h1 h2 hr]
      · simp [intersection, h1, h2]
    · cases h2 : g2.IsEmpty <;> simp [intersection, h1, h2]
  refine ⟨first, second, ?_⟩
  intro g1 g2
  rw [← first, ← first]
  exact second g1 g2

/-! ## A point and a line -/

theorem contains_eq_onSegment (ln : Line) (r : XY) :
    (mustEnvelope ln).Contains r = onSegment ln.a.XY ln.b.XY r := by
  rw [Bool.eq_iff_iff]
  simp only [Envelope.Contains, mustEnvelope, onSegment, Bool.and_eq_true, decide_eq_true_eq,
    ge_iff_le]
  constructor
  · rintro ⟨⟨⟨h1, h2⟩, h3⟩, h4⟩
    exact ⟨⟨⟨h2, h1⟩, h4⟩, h3⟩
  · rintro ⟨⟨⟨h1, h2⟩, h3⟩, h4⟩
    exact ⟨⟨⟨h2, h1⟩, h4⟩, h3⟩

theorem on_line_iff (ln : Line) (r : XY) :
    ((mustEnvelope ln).Contains r = true ∧
      (r.X - ln.a.XY.X) * (ln.b.XY.Y - ln.a.XY.Y) =
        (r.Y - ln.a.XY.Y) * (ln.b.XY.X - ln.a.XY.X)) ↔
      onClosedSegment ln.a.XY ln.b.XY r := by
  rw [contains_eq_onSegment]
  by_cases hab : ln.a.XY = ln.b.XY
  · rw [← hab, onClosedSegment_self]
    simp only [onSegment, max_self, min_self, Bool.and_eq_true, decide_eq_true_eq, ge_iff_le,
      sub_self, mul_zero, and_true]
    constructor
    · rintro ⟨⟨⟨h1, h2⟩, h3⟩, h4⟩
      exact (XY.eq_iff _ _).2 ⟨le_antisymm h1 h2, le_antisymm h3 h4⟩
    · intro h
      rw [h]
      exact ⟨⟨⟨le_refl _, le_refl _⟩, le_refl _⟩, le_refl _⟩
  · constructor
    · rintro ⟨hs, hc⟩
      have hcr : cross ln.a.XY ln.b.XY r = 0 := by
        simp only [cross]
        linear_combination -hc
      obtain ⟨t, rfl⟩ := exists_param _ _ r hab hcr
      have h := (onSegment_param ln.a.XY ln.b.XY hab 0 1 t).1
        (by rw [pointAt_zero, pointAt_one]; exact hs)
      rw [min_eq_left (by norm_num : (0 : ℚ) ≤ 1), max_eq_right (by norm_num : (0 : ℚ) ≤ 1)] at h
      exact ⟨t, h.1, h.2, rfl⟩
    · rintro ⟨t, h0, h1, rfl⟩
      constructor
      · have h := (onSegment_param ln.a.XY ln.b.XY hab 0 1 t).2
          (by rw [min_eq_left (by norm_num : (0 : ℚ) ≤ 1),
            max_eq_right (by norm_num : (0 : ℚ) ≤ 1)]; exact ⟨h0, h1⟩)
        rw [pointAt_zero, pointAt_one] at h
        exact h
      · simp only [pointAt]
        ring

theorem hasIntersectionPointWithLine_iff (pt : Point) (ln : Line) :
    (hasIntersectionPointWithLine pt ln).1 = true ↔
      onClosedSegment ln.a.XY ln.b.XY pt.coords.XY := by
  rw [← on_line_iff]
  unfold hasIntersectionPointWithLine
  simp only []
  cases (mustEnvelope ln).Contains pt.coords.XY
  · simp
  · simp only [Bool.not_true, Bool.false_eq_true, if_false, true_and]
    split_ifs with h
    · simp [h]
    · simp [h]

/-- C12: for a non-empty Point `p` and a Line from `a` to `b` (with `a ≠ b`
or not), over exact arithmetic, `intersectPointWithLine` returns `p` exactly when `p`
is `a + t (b - a)` for some `0 ≤ t ≤ 1`, which is the case exactly when `p` is
inside the envelope of the line (inclusive) and
`(p.x - a.x)(b.y - a.y) = (p.y - a.y)(b.x - a.x)`; otherwise it returns the
empty point. -/
theorem intersectPointWithLine_on_segment (p : Point) (ln : Line) (hp : p.empty = false) :
    (intersectPointWithLine p ln = .point p ↔ onClosedSegment ln.a.XY ln.b.XY p.XY) ∧
    (onClosedSegment ln.a.XY ln.b.XY p.XY ↔
      ((mustEnvelope ln).Contains p.XY = true ∧
        (p.XY.X - ln.a.XY.X) * (ln.b.XY.Y - ln.a.XY.Y) =
          (p.XY.Y - ln.a.XY.Y) * (ln.b.XY.X - ln.a.XY.X))) ∧
    (¬ onClosedSegment ln.a.XY ln.b.XY p.XY →
      intersectPointWithLine p ln = .point NewEmptyPoint ∧
        (intersectPointWithLine p ln).IsEmpty = true) := by
  have hne : p ≠ NewEmptyPoint := by
    intro h
    rw [h] at hp
    simp [NewEmptyPoint] at hp
  have yes : onClosedSegment ln.a.XY ln.b.XY p.XY → intersectPointWithLine p ln = .point p := by
    intro h
    obtain ⟨h1, h2⟩ := (on_line_iff ln p.XY).2 h
    simp only [Point.XY] at h1 h2
    unfold intersectPointWithLine
    simp only [h1, h2, Bool.not_true, Bool.false_eq_true, if_false, if_true]
  have no : ¬ onClosedSegment ln.a.XY ln.b.XY p.XY →
      intersectPointWithLine p ln = .point NewEmptyPoint := by
    intro h
    rw [← on_line_iff] at h
    simp only [Point.XY] at h
    unfold intersectPointWithLine
    simp only []
    split_ifs with h1 h2
    · rfl
    · simp only [Bool.not_eq_true', Bool.not_eq_false] at h1
      exact absurd ⟨h1, h2⟩ h
    · rfl
  refine ⟨⟨?_, yes⟩, (on_line_iff ln p.XY).symm, fun hn => ⟨no hn, by rw [no hn]; rfl⟩⟩
  intro h
  by_contra hn
  rw [no hn] at h
  injection h with h
  exact hne h.symm

theorem on_diagonal : onClosedSegment (⟨0, 0⟩ : XY) ⟨2, 2⟩ ⟨1, 1⟩ :=
  ⟨1 / 2, by norm_num, by norm_num, by simp [pointAt]⟩

/-- Witness for C12: POINT(1 1) is on the line from (0 0) to (2 2). -/
theorem intersectPointWithLine_on_segment_witness :
    intersectPointWithLine (NewPointXY ⟨1, 1⟩) ⟨⟨⟨0, 0⟩⟩, ⟨⟨2, 2⟩⟩⟩ =
      .point (NewPointXY ⟨1, 1⟩) :=
  (intersectPointWithLine_on_segment (NewPointXY ⟨1, 1⟩) ⟨⟨⟨0, 0⟩⟩, ⟨⟨2, 2⟩⟩⟩ rfl).1.2
    on_diagonal

/-! ## A MultiPoint and a Polygon -/

theorem keptByPolygon_iff (p : Polygon) (pt : Point) :
    keptByPolygon p pt = true ↔
      pointRingSide pt.XY p.outer ≠ side.exterior ∧
        ∀ ring ∈ p.holes, pointRingSide pt.XY ring ≠ side.interior := by
  unfold keptByPolygon
  split_ifs with h
  · simp [h]
  · simp [h]

theorem intersectMultiPointWithPolygon_points (mp : MultiPoint) (p : Polygon) :
    pointsOf (intersectMultiPointWithPolygon mp p) = mp.pts.filter (keptByPolygon p) ∧
      linesOf (intersectMultiPointWithPolygon mp p) = [] := by
  unfold intersectMultiPointWithPolygon
  simp only []
  rcases mp.pts.filter (keptByPolygon p) with _ | ⟨q, _ | ⟨q1, qs⟩⟩
  · exact ⟨rfl, rfl⟩
  · exact ⟨rfl, rfl⟩
  · exact ⟨rfl, rfl⟩

theorem fuzz_kept_2_0 : keptByPolygon fuzzPolygon (NewPointXY ⟨2, 0⟩) = true := by
  simp [keptByPolygon, fuzzPolygon, pointRingSide, lines_of_four, Point.XY, NewPointXY,
    hasIntersectionPointWithLine, mustEnvelope, Envelope.Contains, rayCrosses,
    List.countP_cons]
  norm_num
  decide

theorem fuzz_kept_inside_hole :
    keptByPolygon fuzzPolygon (NewPointXY ⟨5 / 4, 5 / 4⟩) = false := by
  simp [keptByPolygon, fuzzPolygon, pointRingSide, lines_of_four, Point.XY, NewPointXY,
    hasIntersectionPointWithLine, mustEnvelope, Envelope.Contains, rayCrosses,
    List.countP_cons]
  norm_num

/-- C13: `intersectMultiPointWithPolygon` keeps a point of the MultiPoint
exactly when it is not exterior to the outer ring and not strictly interior to
any hole, and the result holds the kept points in order. On the triangle with
a triangular hole of the test table, a point on the outer ring and a point on
the boundary of the hole are kept, a point inside the hole and a point outside
the outer ring are dropped. -/
theorem intersectMultiPointWithPolygon_keeps :
    (∀ (mp : MultiPoint) (p : Polygon) (pt : Point),
      pt ∈ pointsOf (intersectMultiPointWithPolygon mp p) ↔
        pt ∈ mp.pts ∧ pointRingSide pt.XY p.outer ≠ side.exterior ∧
          ∀ ring ∈ p.holes, pointRingSide pt.XY ring ≠ side.interior) ∧
    (∀ (mp : MultiPoint) (p : Polygon),
      pointsOf (intersectMultiPointWithPolygon mp p) = mp.pts.filter (keptByPolygon p) ∧
        linesOf (intersectMultiPointWithPolygon mp p) = []) ∧
    intersectMultiPointWithPolygon
        ⟨[NewPointXY ⟨2, 0⟩, NewPointXY ⟨5 / 4, 5 / 4⟩, NewPointXY ⟨2, 1⟩, NewPointXY ⟨3, 6⟩]⟩
        fuzzPolygon =
      .multiPoint (NewMultiPoint [NewPointXY ⟨2, 0⟩, NewPointXY ⟨2, 1⟩]) := by
  refine ⟨?_, intersectMultiPointWithPolygon_points, ?_⟩
  · intro mp p pt
    rw [(intersectMultiPointWithPolygon_points mp p).1, List.mem_filter, keptByPolygon_iff]
  · unfold intersectMultiPointWithPolygon
    simp only [List.filter, fuzz_kept_2_0, fuzz_kept_inside_hole, fuzz_kept_2_1, fuzz_kept_3_6]

/-! ## Two MultiPoints -/

theorem Less_iff (a b : XY) : a.Less b = true ↔ a.X < b.X ∨ (a.X = b.X ∧ a.Y < b.Y) := by
  simp [XY.Less]

theorem notGreater_iff_lex (a b : XY) :
    XY.notGreater a b ↔ toLex (a.X, a.Y) ≤ toLex (b.X, b.Y) := by
  unfold XY.notGreater
  rw [Prod.Lex.le_iff, ← Bool.not_eq_true, Less_iff]
  simp only
  rcases lt_trichotomy a.X b.X with h | h | h
  · simp [h, not_lt.2 h.le, h.ne']
  · simp [h]
  · simp [h, not_lt.2 h.le, h.ne']

theorem Less_iff_lex (a b : XY) : a.Less b = true ↔ toLex (a.X, a.Y) < toLex (b.X, b.Y) := by
  rw [Less_iff, Prod.Lex.lt_iff]

theorem sorted_points (l : List Point) :
    (l.insertionSort (fun p q => XY.notGreater p.coords.XY q.coords.XY)).Sorted
      (fun p q => XY.notGreater p.coords.XY q.coords.XY) := by
  haveI : IsTotal Point (fun p q => XY.notGreater p.coords.XY q.coords.XY) :=
    ⟨fun p q => by simp only [notGreater_iff_lex]; exact le_total _ _⟩
  haveI : IsTrans Point (fun p q => XY.notGreater p.coords.XY q.coords.XY) :=
    ⟨fun p q r => by simp only [notGreater_iff_lex]; exact le_trans⟩
  exact List.sorted_insertionSort _ l

theorem pointsOf_pointOrMultiPoint (k : List Point) : pointsOf (pointOrMultiPoint k) = k := by
  rcases k with _ | ⟨p, _ | ⟨q, k⟩⟩ <;> rfl

/-- The list of XYs common to both inputs, as built by the three loops over
the maps of `intersectMultiPointWithMultiPoint`. -/
theorem interSet_spec (mp1 mp2 : MultiPoint) :
    ∃ interSet : List XY, interSet.Nodup ∧
      (∀ xy, xy ∈ interSet ↔
        (∃ a ∈ mp1.pts, a.coords.XY = xy) ∧ (∃ b ∈ mp2.pts, b.coords.XY = xy)) ∧
      intersectMultiPointWithMultiPoint mp1 mp2 =
        pointOrMultiPoint ((interSet.map NewPointXY).insertionSort
          (fun p q => XY.notGreater p.coords.XY q.coords.XY)) := by
  refine ⟨_, ?_, ?_, rfl⟩
  · exact nodup_foldl_xySetInsert _ _ (nodup_foldl_xySetInsert _ _ List.nodup_nil)
  · intro xy
    simp only [mem_foldl_xySetInsert, List.mem_filter, decide_eq_true_eq, List.not_mem_nil,
      false_or, List.mem_map]
    tauto

theorem intersectMultiPointWithMultiPoint_spec (mp1 mp2 : MultiPoint) :
    (pointsOf (intersectMultiPointWithMultiPoint mp1 mp2)).Pairwise
        (fun p q => p.coords.XY.Less q.coords.XY = true) ∧
      (∀ p, p ∈ pointsOf (intersectMultiPointWithMultiPoint mp1 mp2) ↔
        p.empty = false ∧ (∃ a ∈ mp1.pts, a.coords.XY = p.coords.XY) ∧
          (∃ b ∈ mp2.pts, b.coords.XY = p.coords.XY)) ∧
      (∀ p, pointsOf (intersectMultiPointWithMultiPoint mp1 mp2) = [p] →
        intersectMultiPointWithMultiPoint mp1 mp2 = .point p) := by
  obtain ⟨interSet, hnd, hmem, hres⟩ := interSet_spec mp1 mp2
  rw [hres, pointsOf_pointOrMultiPoint]
  have hperm := List.perm_insertionSort (fun p q : Point => XY.notGreater p.coords.XY q.coords.XY)
    (interSet.map NewPointXY)
  have hm : ∀ p, p ∈ (interSet.map NewPointXY).insertionSort
      (fun p q => XY.notGreater p.coords.XY q.coords.XY) ↔
      p.empty = false ∧ p.coords.XY ∈ interSet := by
    intro p
    rw [hperm.mem_iff, List.mem_map]
    constructor
    · rintro ⟨xy, hxy, rfl⟩
      exact ⟨rfl, hxy⟩
    · rintro ⟨h1, h2⟩
      exact ⟨_, h2, point_of_not_empty p h1⟩
  refine ⟨?_, ?_, ?_⟩
  · have hnd2 : ((interSet.map NewPointXY).insertionSort
        (fun p q => XY.notGreater p.coords.XY q.coords.XY)).Nodup :=
      hperm.nodup_iff.2 (hnd.map (fun p q h => NewPointXY_inj p q h))
    have hs := sorted_points (interSet.map NewPointXY)
    refine (List.Pairwise.and hs hnd2).imp_of_mem ?_
    intro p q hp hq h
    rw [Less_iff_lex]
    refine lt_of_le_of_ne ((notGreater_iff_lex _ _).1 h.1) ?_
    intro he
    apply h.2
    have hxy : p.coords.XY = q.coords.XY := by
      have h1 := congrArg (fun z => (ofLex z).1) he
      have h2 := congrArg (fun z => (ofLex z).2) he
      exact (XY.eq_iff _ _).2 ⟨h1, h2⟩
    rw [← point_of_not_empty p ((hm p).1 hp).1, ← point_of_not_empty q ((hm q).1 hq).1]
    simp only [Point.XY, hxy]
  · intro p
    rw [hm, hmem]
  · intro p hp
    rw [hp]
    rfl

theorem eval_empty_member :
    intersectMultiPointWithMultiPoint ⟨[NewEmptyPoint, NewPointXY ⟨5, 5⟩]⟩
        ⟨[NewPointXY ⟨0, 0⟩, NewPointXY ⟨7, 7⟩]⟩ = .point (NewPointXY ⟨0, 0⟩) := by
  simp [intersectMultiPointWithMultiPoint, pointOrMultiPoint, NewPointXY, NewEmptyPoint,
    List.filter, xySetInsert]

/-- C14: `intersectMultiPointWithMultiPoint` returns the XYs stored in the
points of both inputs, each once, as non-empty points in strictly increasing
XY order, and a single common XY as that Point. The XY stored in an empty
member point counts like any other: MULTIPOINT(EMPTY,(5 5)) with
MULTIPOINT((0 0),(7 7)) gives POINT(0 0), although the non-empty points of the
two inputs have no XY in common. -/
theorem intersectMultiPointWithMultiPoint_counts_empty_member :
    (∀ mp1 mp2 : MultiPoint,
      (pointsOf (intersectMultiPointWithMultiPoint mp1 mp2)).Pairwise
          (fun p q => p.coords.XY.Less q.coords.XY = true) ∧
        (∀ p, p ∈ pointsOf (intersectMultiPointWithMultiPoint mp1 mp2) ↔
          p.empty = false ∧ (∃ a ∈ mp1.pts, a.coords.XY = p.coords.XY) ∧
            (∃ b ∈ mp2.pts, b.coords.XY = p.coords.XY)) ∧
        (∀ p, pointsOf (intersectMultiPointWithMultiPoint mp1 mp2) = [p] →
          intersectMultiPointWithMultiPoint mp1 mp2 = .point p)) ∧
    intersectMultiPointWithMultiPoint ⟨[NewEmptyPoint, NewPointXY ⟨5, 5⟩]⟩
        ⟨[NewPointXY ⟨0, 0⟩, NewPointXY ⟨7, 7⟩]⟩ = .point (NewPointXY ⟨0, 0⟩) ∧
    (∀ a ∈ [NewEmptyPoint, NewPointXY ⟨5, 5⟩], ∀ b ∈ [NewPointXY ⟨0, 0⟩, NewPointXY ⟨7, 7⟩],
      a.empty = false → b.empty = false → a.coords.XY ≠ b.coords.XY) :=
  ⟨intersectMultiPointWithMultiPoint_spec, eval_empty_member, by
    simp [NewEmptyPoint, NewPointXY]⟩

/-! ## The constructor of a line string -/

theorem coordinates_eq_of_XY (c d : Coordinates) (h : c.XY = d.XY) : c = d := by
  cases c; cases d; simp only [Coordinates.mk.injEq]; exact h

theorem foldl_step_append (pts : List Coordinates) (p : Coordinates) :
    (pts ++ [p]).foldl NewLineStringC.step ([], []) =
      NewLineStringC.step (pts.foldl NewLineStringC.step ([], [])) p := by
  rw [List.foldl_append]
  rfl

/-- The coordinates kept after one more point: unchanged when the point
repeats the last kept one, extended by the point otherwise. -/
theorem step_coords (st : List Coordinates × List Nat) (p : Coordinates) :
    ((NewLineStringC.step st p).1 = st.1 ∧ ∃ c, st.1.getLast? = some c ∧ p = c) ∨
    ((NewLineStringC.step st p).1 = st.1 ++ [p] ∧ ∀ c, st.1.getLast? = some c → p.XY ≠ c.XY) := by
  unfold NewLineStringC.step
  cases h : st.1.getLast? with
  | none => right; simp
  | some c =>
    by_cases hp : p.XY = c.XY
    · left
      simp only [hp, ne_eq, not_true_eq_false, if_false]
      exact ⟨trivial, c, rfl, coordinates_eq_of_XY _ _ hp⟩
    · right
      simp only [hp, ne_eq, not_false_eq_true, if_true, Option.some.injEq, true_and]
      intro c1 h1
      rw [← h1]
      exact hp

theorem step_points (st : List Coordinates × List Nat) (p : Coordinates) :
    (NewLineStringC.step st p).2 = st.2 ++ [(NewLineStringC.step st p).1.length - 1] := by
  unfold NewLineStringC.step
  rfl

theorem getD_last (l : List Coordinates) (c d : Coordinates) (h : l.getLast? = some c) :
    l.getD (l.length - 1) d = c := by
  rcases List.eq_nil_or_concat l with rfl | ⟨l1, x, rfl⟩
  · simp at h
  · simp only [List.concat_eq_append, List.getLast?_append, List.getLast?_singleton] at h
    have h : x = c := by simpa using h
    subst h
    simp [List.getD_append_right]

/-- What the loop of `NewLineStringC` has built after the points `pts`. -/
theorem fold_invariant (pts : List Coordinates) (st : List Coordinates × List Nat)
    (hst : st = pts.foldl NewLineStringC.step ([], [])) :
    st.2.map (fun idx => st.1.getD idx ⟨⟨0, 0⟩⟩) = pts ∧
    (∀ idx ∈ st.2, idx < st.1.length) ∧
    st.1.getLast? = pts.getLast? ∧
    (∀ c ∈ st.1, c ∈ pts) ∧
    st.1.Chain' (fun a b => a.XY ≠ b.XY) ∧
    st.2.head? = (if pts = [] then none else some 0) ∧
    st.2.getLast? = (if pts = [] then none else some (st.1.length - 1)) := by
  induction pts using List.reverseRecOn generalizing st with
  | nil =>
    subst hst
    simp
  | append_singleton pts p ih =>
    rw [foldl_step_append] at hst
    obtain ⟨h1, h2, h3, h4, h5, h6, h7⟩ := ih _ rfl
    generalize pts.foldl NewLineStringC.step ([], []) = st0 at hst h1 h2 h3 h4 h5 h6 h7
    have hp := step_points st0 p
    rw [← hst] at hp
    have hne : pts ++ [p] ≠ [] := by simp
    rcases step_coords st0 p with ⟨hc, c, hlast, hpc⟩ | ⟨hc, hdiff⟩
    · rw [← hst] at hc
      have hpos : 0 < st0.1.length := by
        rcases hl : st0.1 with _ | ⟨x, xs⟩
        · rw [hl] at hlast; simp at hlast
        · simp
      have hpts : pts ≠ [] := by
        intro h
        rw [h] at h3
        rw [h3] at hlast
        simp at hlast
      rw [hp, hc]
      refine ⟨?_, ?_, ?_, ?_, h5, ?_, ?_⟩
      · rw [List.map_append, h1, List.map_singleton, getD_last _ _ _ hlast, hpc]
      · intro idx hidx
        rcases List.mem_append.1 hidx with h | h
        · exact h2 idx h
        · simp only [List.mem_singleton] at h
          omega
      · rw [hlast, hpc]; simp
      · intro c1 hc1
        exact List.mem_append_left _ (h4 c1 hc1)
      · rw [if_neg hne]
        rw [if_neg hpts] at h6
        rw [List.head?_append, h6]
        rfl
      · rw [if_neg hne]; simp
    · rw [← hst] at hc
      rw [hp, hc]
      refine ⟨?_, ?_, ?_, ?_, ?_, ?_, ?_⟩
      · rw [List.map_append, List.map_singleton]
        congr 1
        · rw [← h1]
          conv_rhs => rw [h1]
          rw [← h1]
          apply List.map_congr_left
          intro idx hidx
          rw [List.getD_append _ _ _ _ (h2 idx hidx)]
        · simp [List.getD_append_right]
      · intro idx hidx
        rcases List.mem_append.1 hidx with h | h
        · have := h2 idx h
          simp only [List.length_append, List.length_singleton]
          omega
        · simp only [List.mem_singleton] at h
          simp only [List.length_append, List.length_singleton] at h ⊢
          omega
      · simp
      · intro c1 hc1
        rcases List.mem_append.1 hc1 with h | h
        · exact List.mem_append_left _ (h4 c1 h)
        · exact List.mem_append_right _ h
      · refine List.Chain'.append h5 (List.chain'_singleton p) ?_
        intro x hx y hy
        simp only [List.head?_cons, Option.mem_def, Option.some.injEq] at hy
        subst hy
        exact fun e => hdiff x hx e.symm
      · rw [if_neg hne]
        by_cases hpts : pts = []
        · subst hpts
          simp only [List.map_eq_nil_iff] at h1
          simp only [List.getLast?_nil, List.getLast?_eq_none_iff] at h3
          rw [h1, h3]
          simp
        · rw [if_neg hpts] at h6
          rw [List.head?_append, h6]
          rfl
      · rw [if_neg hne]; simp

theorem NewLineStringC_eq (pts : List Coordinates) (opts : List ConstructorOption) :
    NewLineStringC pts opts =
      if doCheapValidations opts = true ∧
          (pts.foldl NewLineStringC.step ([], [])).1.length ≤ 1 then
        .error .lineStringTooShort
      else .ok ⟨(pts.foldl NewLineStringC.step ([], [])).1,
        (pts.foldl NewLineStringC.step ([], [])).2⟩ := by
  unfold NewLineStringC
  simp only [Bool.and_eq_true, decide_eq_true_eq]

theorem coords_short_iff (pts : List Coordinates) :
    (pts.foldl NewLineStringC.step ([], [])).1.length ≤ 1 ↔
      ∀ p ∈ pts, ∀ q ∈ pts, p.XY = q.XY := by
  obtain ⟨h1, h2, -, h4, h5, -, -⟩ := fold_invariant pts _ rfl
  generalize pts.foldl NewLineStringC.step ([], []) = st at h1 h2 h4 h5
  have hmem : ∀ p ∈ pts, p ∈ st.1 := by
    intro p hp
    rw [← h1, List.mem_map] at hp
    obtain ⟨idx, hidx, rfl⟩ := hp
    rw [List.getD_eq_getElem _ _ (h2 idx hidx)]
    exact List.getElem_mem _
  constructor
  · intro hlen p hp q hq
    have hp1 := hmem p hp
    have hq1 := hmem q hq
    rcases hl : st.1 with _ | ⟨c, _ | ⟨c1, cs⟩⟩
    · rw [hl] at hp1; simp at hp1
    · rw [hl] at hp1 hq1
      simp only [List.mem_singleton] at hp1 hq1
      rw [hp1, hq1]
    · rw [hl] at hlen; simp at hlen
  · intro hall
    rcases hl : st.1 with _ | ⟨c, _ | ⟨c1, cs⟩⟩
    · simp
    · simp
    · rw [hl] at h5 h4
      have hne : c.XY ≠ c1.XY := (List.chain'_cons.1 h5).1
      exact absurd (hall c (h4 c (by simp)) c1 (h4 c1 (by simp))) hne

theorem dedup_short_iff {α : Type} [DecidableEq α] (l : List α) :
    l.dedup.length < 2 ↔ ∀ x ∈ l, ∀ y ∈ l, x = y := by
  have hnd := List.nodup_dedup l
  constructor
  · intro h x hx y hy
    rw [← List.mem_dedup] at hx hy
    rcases hl : l.dedup with _ | ⟨a, _ | ⟨b, r⟩⟩
    · rw [hl] at hx; simp at hx
    · rw [hl] at hx hy
      simp only [List.mem_singleton] at hx hy
      rw [hx, hy]
    · rw [hl] at h
      simp only [List.length_cons] at h
      omega
  · intro h
    rcases hl : l.dedup with _ | ⟨a, _ | ⟨b, r⟩⟩
    · simp
    · simp
    · rw [hl] at hnd
      have ha : a ∈ l := List.mem_dedup.1 (by rw [hl]; simp)
      have hb : b ∈ l := List.mem_dedup.1 (by rw [hl]; simp)
      have hab : a ≠ b := by
        intro e
        rw [e] at hnd
        simp at hnd
      exact absurd (h a ha b hb) hab

/-- C19: with default options, `NewLineStringC pts` returns an error exactly
when `pts` holds fewer than two distinct XYs, that is when `pts` is empty or
all its points have the same XY; otherwise it returns a LineString with at
least two coords. -/
theorem NewLineStringC_error_iff (pts : List Coordinates) :
    ((∃ e, NewLineStringC pts [] = .error e) ↔ ∀ p ∈ pts, ∀ q ∈ pts, p.XY = q.XY) ∧
    ((∃ e, NewLineStringC pts [] = .error e) ↔
      (pts.map Coordinates.XY).dedup.length < 2) ∧
    ((∃ p ∈ pts, ∃ q ∈ pts, p.XY ≠ q.XY) →
      ∃ ls, NewLineStringC pts [] = .ok ls ∧ 2 ≤ ls.coords.length) := by
  have herr : (∃ e, NewLineStringC pts [] = .error e) ↔
      (pts.foldl NewLineStringC.step ([], [])).1.length ≤ 1 := by
    rw [NewLineStringC_eq]
    split_ifs with h
    · simp only [Outcome.error.injEq, exists_eq', true_iff]
      exact h.2
    · simp only [reduceCtorEq, exists_false, false_iff]
      intro hlen
      exact h ⟨rfl, hlen⟩
  refine ⟨herr.trans (coords_short_iff pts), ?_, ?_⟩
  · rw [herr, coords_short_iff, dedup_short_iff]
    simp only [List.mem_map, forall_exists_index, and_imp, forall_apply_eq_imp_iff₂]
  · rintro ⟨p, hp, q, hq, hne⟩
    have hlen : ¬ (pts.foldl NewLineStringC.step ([], [])).1.length ≤ 1 := by
      rw [coords_short_iff]
      intro h
      exact hne (h p hp q hq)
    rw [NewLineStringC_eq, if_neg (fun h => hlen h.2)]
    exact ⟨_, rfl, by simp only; omega⟩

/-- Witness for C19: two points with different XYs are accepted. -/
theorem NewLineStringC_error_iff_witness :
    ∃ ls, NewLineStringC [⟨⟨0, 0⟩⟩, ⟨⟨1, 0⟩⟩] [] = .ok ls ∧ 2 ≤ ls.coords.length :=
  (NewLineStringC_error_iff [⟨⟨0, 0⟩⟩, ⟨⟨1, 0⟩⟩]).2.2
    ⟨⟨⟨0, 0⟩⟩, by simp, ⟨⟨1, 0⟩⟩, by simp, by simp⟩

theorem range_map_getD {β : Type} (l : List Nat) (f : Nat → β) :
    (List.range l.length).map (fun i => f (l.getD i 0)) = l.map f := by
  apply List.ext_getElem
  · simp
  · intro i h1 h2
    simp only [List.length_map, List.length_range] at h1
    simp [List.getElem?_eq_getElem h1]

/-- C20: a LineString returned by `NewLineStringC pts` retains the original
points: it has `len(pts)` points, `PointN(i)` has the coordinates of `pts[i]`
for every index of `pts`, `Coordinates()` returns `pts` (consecutive repeats
included), and every index stored in `points` is a valid index into
`coords`. -/
theorem NewLineStringC_retains_points (pts : List Coordinates)
    (opts : List ConstructorOption) (ls : LineString)
    (h : NewLineStringC pts opts = .ok ls) :
    ls.NumPoints = pts.length ∧
    (∀ i, i < pts.length → pts[i]? = some (ls.PointN i).Coordinates) ∧
    ls.Coordinates = pts ∧
    (∀ idx ∈ ls.points, idx < ls.coords.length) := by
  obtain ⟨h1, h2, -, -, -, -, -⟩ := fold_invariant pts _ rfl
  rw [NewLineStringC_eq] at h
  split_ifs at h
  injection h with h
  subst h
  generalize pts.foldl NewLineStringC.step ([], []) = st at h1 h2
  have hlen : st.2.length = pts.length := by
    rw [← h1, List.length_map]
  have hc : (LineString.mk st.1 st.2).Coordinates = pts := by
    simp only [LineString.Coordinates, LineString.NumPoints, LineString.PointN,
      Point.Coordinates, NewPointC]
    rw [range_map_getD st.2 (fun idx => st.1.getD idx ⟨⟨0, 0⟩⟩), h1]
  refine ⟨hlen, ?_, hc, h2⟩
  intro i hi
  have : pts[i]? = (st.2.map (fun idx => st.1.getD idx ⟨⟨0, 0⟩⟩))[i]? := by rw [h1]
  rw [this, List.getElem?_map, List.getElem?_eq_getElem (by omega)]
  simp only [Option.map_some', LineString.PointN, Point.Coordinates, NewPointC]
  rw [List.getD_eq_getElem _ _ (by omega : i < st.2.length)]

theorem eval_repeat :
    NewLineStringC [⟨⟨0, 0⟩⟩, ⟨⟨0, 0⟩⟩, ⟨⟨1, 0⟩⟩] [] =
      .ok ⟨[⟨⟨0, 0⟩⟩, ⟨⟨1, 0⟩⟩], [0, 0, 1]⟩ := by
  simp [NewLineStringC, NewLineStringC.step, doCheapValidations]

/-- Witness for C20: LINESTRING(0 0,0 0,1 0) keeps its repeated first
point. -/
theorem NewLineStringC_retains_points_witness :
    (LineString.mk [⟨⟨0, 0⟩⟩, ⟨⟨1, 0⟩⟩] [0, 0, 1]).Coordinates =
      [⟨⟨0, 0⟩⟩, ⟨⟨0, 0⟩⟩, ⟨⟨1, 0⟩⟩] :=
  (NewLineStringC_retains_points _ [] _ eval_repeat).2.2.1

/-! ## Intersects and Intersection of two lines agree -/

theorem hasIntersectionLineWithLine_unfold (n1 n2 : Line) :
    hasIntersectionLineWithLine n1 n2 =
      if orientation n1.a.XY n1.b.XY n2.a.XY ≠ orientation n1.a.XY n1.b.XY n2.b.XY ∧
          orientation n2.a.XY n2.b.XY n1.a.XY ≠ orientation n2.a.XY n2.b.XY n1.b.XY then
        (true, 0)
      else if orientation n1.a.XY n1.b.XY n2.a.XY = .collinear ∧
          orientation n1.a.XY n1.b.XY n2.b.XY = .collinear then
        if noEndpointOnOther n1.a.XY n1.b.XY n2.a.XY n2.b.XY then (false, 0)
        else
          match reducedPair n1.a.XY n1.b.XY n2.a.XY n2.b.XY with
          | p0 :: p1 :: _ => if p0.Equals p1 then (true, 0) else (true, 1)
          | _ => (true, 1)
      else (false, 0) := rfl

/-- The answer of `hasIntersectionLineWithLine` read off the result of
`intersectLineWithLine`: a Point gives `(true, 0)`, a Line `(true, 1)` and the
empty collection `(false, 0)`. -/
theorem hasIntersectionLineWithLine_of_intersect (n1 n2 : Line) :
    (∀ p, intersectLineWithLine n1 n2 = .ok (.point p) →
      hasIntersectionLineWithLine n1 n2 = (true, 0)) ∧
    (intersectLineWithLine n1 n2 = .ok (NewGeometryCollection []) →
      hasIntersectionLineWithLine n1 n2 = (false, 0)) ∧
    (∀ ln, intersectLineWithLine n1 n2 = .ok (.line ln) →
      hasIntersectionLineWithLine n1 n2 = (true, 1)) := by
  rw [intersectLineWithLine_unfold, hasIntersectionLineWithLine_unfold]
  obtain ⟨p0, p1, hred⟩ := reducedPair_length n1.a.XY n1.b.XY n2.a.XY n2.b.XY
  rw [hred]
  simp only []
  split_ifs <;> simp_all [NewGeometryCollection, must, NewLineC, Outcome.map, XY.Equals]

/-! ## The insertion sort -/

theorem sortSlice_inner_perm {α : Type} (less : List α → Nat → Nat → Bool)
    (left : List α) (x : α) (right : List α) :
    (sortSlice.inner less left x right).Perm (left.reverse ++ x :: right) := by
  induction left generalizing right with
  | nil => simp [sortSlice.inner]
  | cons y left ih =>
    unfold sortSlice.inner
    split_ifs
    · refine (ih (y :: right)).trans ?_
      simp only [List.reverse_cons, List.append_assoc, List.singleton_append]
      exact List.Perm.append_left _ (List.Perm.swap y x right)
    · exact List.Perm.refl _

theorem sortSlice_round_perm {α : Type} (less : List α → Nat → Nat → Bool)
    (data : List α) (i : Nat) : (sortSlice.round less data i).Perm data := by
  unfold sortSlice.round
  cases h : data.drop i with
  | nil => exact List.Perm.refl _
  | cons x right =>
    simp only
    refine (sortSlice_inner_perm less _ x right).trans ?_
    rw [List.reverse_reverse, ← h, List.take_append_drop]

theorem sortSlice_perm {α : Type} (less : List α → Nat → Nat → Bool) (data : List α) :
    (sortSlice less data).Perm data := by
  unfold sortSlice
  generalize List.range' 1 (data.length - 1) = rounds
  induction rounds generalizing data with
  | nil => exact List.Perm.refl _
  | cons i rounds ih =>
    rw [List.foldl_cons]
    exact (ih _).trans (sortSlice_round_perm less data i)

theorem sortSlice_inner_sorted {α : Type} (key : α → ℚ) (d : α)
    (less : List α → Nat → Nat → Bool)
    (hless : ∀ data i j, less data i j = decide (key (data.getD i d) < key (data.getD j d)))
    (left : List α) (x : α) (right : List α)
    (hl : left.Pairwise (fun a b => key b ≤ key a)) :
    ∃ l1, sortSlice.inner less left x right = l1 ++ right ∧
      l1.Pairwise (fun a b => key a ≤ key b) ∧ l1.length = left.length + 1 := by
  induction left generalizing right with
  | nil => exact ⟨[x], rfl, List.pairwise_singleton _ _, rfl⟩
  | cons y left ih =>
    have hx : ((y :: left).reverse ++ x :: right).getD (left.length + 1) d = x := by
      rw [List.getD_append_right _ _ _ _ (by simp)]
      simp
    have hy : ((y :: left).reverse ++ x :: right).getD left.length d = y := by
      rw [List.getD_append _ _ _ _ (by simp), List.reverse_cons,
        List.getD_append_right _ _ _ _ (by simp)]
      simp
    unfold sortSlice.inner
    rw [hless, hx, hy]
    obtain ⟨hy1, hl1⟩ := List.pairwise_cons.1 hl
    by_cases hlt : key x < key y
    · rw [if_pos (by simpa using hlt)]
      obtain ⟨l1, h1, h2, h3⟩ := ih (y :: right) hl1
      have hperm := sortSlice_inner_perm less left x (y :: right)
      rw [h1] at hperm
      have hmem : ∀ a ∈ l1, a = x ∨ a ∈ left := by
        intro a ha
        have hlen : (l1 ++ y :: right).Perm ((left.reverse ++ [x]) ++ y :: right) := by
          simpa using hperm
        have := (List.perm_append_right_iff (y :: right)).1 hlen
        have ha2 := this.mem_iff.1 ha
        simp only [List.mem_append, List.mem_reverse, List.mem_singleton] at ha2
        tauto
      refine ⟨l1 ++ [y], by simp [h1], ?_, by simp [h3]⟩
      rw [List.pairwise_append]
      refine ⟨h2, List.pairwise_singleton _ _, ?_⟩
      intro a ha b hb
      simp only [List.mem_singleton] at hb
      subst hb
      rcases hmem a ha with rfl | h
      · exact hlt.le
      · exact hy1 a h
    · rw [if_neg (by simpa using hlt)]
      refine ⟨(y :: left).reverse ++ [x], by simp, ?_, by simp⟩
      rw [List.pairwise_append]
      refine ⟨List.pairwise_reverse.2 hl, List.pairwise_singleton _ _, ?_⟩
      intro a ha b hb
      simp only [List.mem_singleton] at hb
      subst hb
      simp only [List.mem_reverse, List.mem_cons] at ha
      rcases ha with rfl | h
      · exact not_lt.1 hlt
      · exact (hy1 a h).trans (not_lt.1 hlt)

theorem sortSlice_round_sorted {α : Type} (key : α → ℚ) (d : α)
    (less : List α → Nat → Nat → Bool)
    (hless : ∀ data i j, less data i j = decide (key (data.getD i d) < key (data.getD j d)))
    (data : List α) (i : Nat) (hi : i < data.length)
    (hs : (data.take i).Pairwise (fun a b => key a ≤ key b)) :
    ((sortSlice.round less data i).take (i + 1)).Pairwise (fun a b => key a ≤ key b) := by
  unfold sortSlice.round
  cases h : data.drop i with
  | nil =>
    have := List.drop_eq_nil_iff.1 h
    omega
  | cons x right =>
    simp only
    obtain ⟨l1, h1, h2, h3⟩ := sortSlice_inner_sorted key d less hless (data.take i).reverse x
      right (List.pairwise_reverse.2 hs)
    rw [h1]
    have hlen : l1.length = i + 1 := by
      rw [h3, List.length_reverse, List.length_take]
      omega
    rw [← hlen, List.take_left']
    · exact h2
    · rfl

theorem sortSlice_rounds_sorted {α : Type} (key : α → ℚ) (d : α)
    (less : List α → Nat → Nat → Bool)
    (hless : ∀ data i j, less data i j = decide (key (data.getD i d) < key (data.getD j d)))
    (m k : Nat) (data : List α) (hk : k + m = data.length)
    (hs : (data.take k).Pairwise (fun a b => key a ≤ key b)) :
    ((List.range' k m).foldl (sortSlice.round less) data).Pairwise
      (fun a b => key a ≤ key b) := by
  induction m generalizing k data with
  | zero =>
    simp only [List.range'_zero, List.foldl_nil]
    rw [show k = data.length by omega, List.take_length] at hs
    exact hs
  | succ m ih =>
    rw [List.range'_succ, List.foldl_cons]
    apply ih (k + 1)
    · rw [(sortSlice_round_perm less data k).length_eq]
      omega
    · exact sortSlice_round_sorted key d less hless data k (by omega) hs

/-- The insertion sort with a comparison of the elements by a key returns a
sorted slice. -/
theorem sortSlice_sorted {α : Type} (key : α → ℚ) (d : α)
    (less : List α → Nat → Nat → Bool)
    (hless : ∀ data i j, less data i j = decide (key (data.getD i d) < key (data.getD j d)))
    (data : List α) :
    (sortSlice less data).Pairwise (fun a b => key a ≤ key b) := by
  unfold sortSlice
  rcases data with _ | ⟨x, data⟩
  · simp
  · apply sortSlice_rounds_sorted key d less hless
    · simp only [List.length_cons]
      omega
    · simp

/-! ## The heap and the sweep -/

theorem intHeap_push_mem (less : Nat → Nat → Bool) (data : List Nat) (x o : Nat) :
    o ∈ intHeap.push less data x ↔ o = x ∨ o ∈ data := by
  induction data with
  | nil => simp [intHeap.push]
  | cons y data ih =>
    unfold intHeap.push
    split_ifs
    · simp
    · simp only [List.mem_cons, ih]
      tauto

theorem intHeap_push_sorted (key : Nat → ℚ) (less : Nat → Nat → Bool)
    (hless : ∀ i j, less i j = decide (key i < key j)) (data : List Nat) (x : Nat)
    (hs : data.Pairwise (fun a b => key a ≤ key b)) :
    (intHeap.push less data x).Pairwise (fun a b => key a ≤ key b) := by
  induction data with
  | nil => simp [intHeap.push]
  | cons y data ih =>
    obtain ⟨hy, hd⟩ := List.pairwise_cons.1 hs
    unfold intHeap.push
    rw [hless]
    by_cases h : key x < key y
    · rw [if_pos (by simpa using h)]
      refine List.pairwise_cons.2 ⟨?_, hs⟩
      intro a ha
      rcases List.mem_cons.1 ha with rfl | ha
      · exact h.le
      · exact h.le.trans (hy a ha)
    · rw [if_neg (by simpa using h)]
      refine List.pairwise_cons.2 ⟨?_, ih hd⟩
      intro a ha
      rcases (intHeap_push_mem less data x a).1 ha with rfl | ha
      · exact not_lt.1 h
      · exact hy a ha

theorem intHeap_popWhile_sorted (key : Nat → ℚ) (p : Nat → Bool) (data : List Nat)
    (hs : data.Pairwise (fun a b => key a ≤ key b)) :
    (intHeap.popWhile p data).Pairwise (fun a b => key a ≤ key b) := by
  induction data with
  | nil => simp [intHeap.popWhile]
  | cons y data ih =>
    unfold intHeap.popWhile
    split_ifs
    · exact ih (List.pairwise_cons.1 hs).2
    · exact hs

theorem intHeap_popWhile_mem (key : Nat → ℚ) (c : ℚ) (data : List Nat)
    (hs : data.Pairwise (fun a b => key a ≤ key b)) (o : Nat) :
    o ∈ intHeap.popWhile (fun o => decide (key o < c)) data ↔ o ∈ data ∧ c ≤ key o := by
  induction data with
  | nil => simp [intHeap.popWhile]
  | cons y data ih =>
    obtain ⟨hy, hd⟩ := List.pairwise_cons.1 hs
    unfold intHeap.popWhile
    by_cases h : key y < c
    · rw [if_pos (by simpa using h), ih hd, List.mem_cons]
      constructor
      · rintro ⟨h1, h2⟩
        exact ⟨Or.inr h1, h2⟩
      · rintro ⟨rfl | h1, h2⟩
        · exact absurd h (not_lt.2 h2)
        · exact ⟨h1, h2⟩
    · rw [if_neg (by simpa using h)]
      constructor
      · intro h1
        refine ⟨h1, ?_⟩
        rcases List.mem_cons.1 h1 with rfl | h2
        · exact not_lt.1 h
        · exact (not_lt.1 h).trans (hy o h2)
      · exact fun h1 => h1.1

/-- The sweep answers true exactly when every pair it is presented with
passes the test: a segment `c` is tested against the earlier segments `o`
whose largest x is not below the smallest x of `c`. -/
theorem sweep_iff (s : LineString) (n : Nat) (unprocessed active : List Nat)
    (hu : unprocessed.Pairwise (fun a b => minX (s.LineN a) ≤ minX (s.LineN b)))
    (ha : active.Pairwise (fun a b => maxX (s.LineN a) ≤ maxX (s.LineN b))) :
    LineString.IsSimple.sweep s n unprocessed active = true ↔
      (∀ c ∈ unprocessed, ∀ o ∈ active, minX (s.LineN c) ≤ maxX (s.LineN o) →
        LineString.IsSimple.pairOK s n c o = true) ∧
      unprocessed.Pairwise (fun o c => minX (s.LineN c) ≤ maxX (s.LineN o) →
        LineString.IsSimple.pairOK s n c o = true) := by
  induction unprocessed generalizing active with
  | nil => simp [LineString.IsSimple.sweep]
  | cons c rest ih =>
    obtain ⟨hc, hrest⟩ := List.pairwise_cons.1 hu
    have hpop := intHeap_popWhile_mem (fun o => maxX (s.LineN o)) (minX (s.LineN c)) active ha
    have hsorted := intHeap_popWhile_sorted (fun o => maxX (s.LineN o))
      (fun o => decide (maxX (s.LineN o) < minX (s.LineN c))) active ha
    have hpush := intHeap_push_sorted (fun o => maxX (s.LineN o))
      (fun i j => decide (maxX (s.LineN i) < maxX (s.LineN j))) (fun _ _ => rfl) _ c hsorted
    unfold LineString.IsSimple.sweep
    simp only []
    split_ifs with hall
    · rw [ih _ hrest hpush]
      rw [List.all_eq_true] at hall
      simp only [hpop] at hall
      simp only [intHeap_push_mem, hpop, List.mem_cons, List.pairwise_cons]
      constructor
      · rintro ⟨h1, h2⟩
        refine ⟨?_, ?_, h2⟩
        · rintro c1 (rfl | hc1) o ho hle
          · exact hall o ⟨ho, hle⟩
          · exact h1 c1 hc1 o (Or.inr ⟨ho, (hc c1 hc1).trans hle⟩) hle
        · intro c1 hc1 hle
          exact h1 c1 hc1 c (Or.inl rfl) hle
      · rintro ⟨h1, h2, h3⟩
        refine ⟨?_, h3⟩
        rintro c1 hc1 o (rfl | ⟨ho, _⟩) hle
        · exact h2 c1 hc1 hle
        · exact h1 c1 (Or.inr hc1) o ho hle
    · simp only [Bool.false_eq_true, false_iff, not_and]
      intro h1
      exfalso
      apply hall
      rw [List.all_eq_true]
      intro o ho
      obtain ⟨ho1, ho2⟩ := (hpop o).1 ho
      exact h1 c (List.mem_cons_self _ _) o ho1 ho2

theorem hasIntersectionLineWithLine_cases (n1 n2 : Line) (h1 : n1.a.XY ≠ n1.b.XY)
    (h2 : n2.a.XY ≠ n2.b.XY) :
    (hasIntersectionLineWithLine n1 n2 = (false, 0) ∧ ∀ r, ¬ commonPoint n1 n2 r) ∨
    (hasIntersectionLineWithLine n1 n2 = (true, 0) ∧
      ∃ p, ∀ r, commonPoint n1 n2 r ↔ r = p) ∨
    (hasIntersectionLineWithLine n1 n2 = (true, 1) ∧
      ∃ p q, p ≠ q ∧ commonPoint n1 n2 p ∧ commonPoint n1 n2 q) := by
  obtain ⟨hp, he, hl⟩ := hasIntersectionLineWithLine_of_intersect n1 n2
  rcases intersectLineWithLine_trichotomy n1 n2 h1 h2 with
    ⟨hres, hno⟩ | ⟨p, hres, hone⟩ | ⟨p, q, hne, hres, hseg⟩
  · exact Or.inl ⟨he hres, hno⟩
  · exact Or.inr (Or.inl ⟨hp _ hres, p, hone⟩)
  · exact Or.inr (Or.inr ⟨hl _ hres, p, q, hne, (hseg p).2 (onClosedSegment_left _ _),
      (hseg q).2 (onClosedSegment_right _ _)⟩)

theorem onClosedSegment_X (p q r : XY) (h : onClosedSegment p q r) :
    min p.X q.X ≤ r.X ∧ r.X ≤ max p.X q.X := by
  have := ((on_line_iff ⟨⟨p⟩, ⟨q⟩⟩ r).2 h).1
  simp only [Envelope.Contains, mustEnvelope, Bool.and_eq_true, decide_eq_true_eq] at this
  exact ⟨this.1.1.1, this.1.1.2⟩

/-- Two segments with a common point overlap in x. -/
theorem commonPoint_X (n1 n2 : Line) (r : XY) (h : commonPoint n1 n2 r) :
    minX n1 ≤ maxX n2 := by
  have h1 := onClosedSegment_X _ _ _ h.1
  have h2 := onClosedSegment_X _ _ _ h.2
  exact h1.1.trans h2.2

theorem abs_eq_one (c o : Nat) : abs ((c : Int) - (o : Int)) = 1 ↔ c = o + 1 ∨ o = c + 1 := by
  unfold abs
  split_ifs <;> omega

/-- The test of the inner loop of `IsSimple` in terms of common points. -/
theorem pairOK_iff (s : LineString) (n c o : Nat) (hc : (s.LineN c).a.XY ≠ (s.LineN c).b.XY)
    (ho : (s.LineN o).a.XY ≠ (s.LineN o).b.XY) :
    LineString.IsSimple.pairOK s n c o = true ↔
      ((∀ r, ¬ commonPoint (s.LineN c) (s.LineN o) r) ∨
        ((∃ p, ∀ r, commonPoint (s.LineN c) (s.LineN o) r ↔ r = p) ∧
          ((c = o + 1 ∨ o = c + 1) ∨
            (((c = 0 ∧ o = n - 1) ∨ (c = n - 1 ∧ o = 0)) ∧ s.IsClosed = true)))) := by
  unfold LineString.IsSimple.pairOK
  simp only [abs_eq_one]
  rcases hasIntersectionLineWithLine_cases _ _ hc ho with
    ⟨hres, hno⟩ | ⟨hres, p, hone⟩ | ⟨hres, p, q, hne, hp, hq⟩
  · rw [hres]
    simp only [Bool.not_false, if_true, true_iff]
    exact Or.inl hno
  · rw [hres]
    have hnot : ¬ ∀ r, ¬ commonPoint (s.LineN c) (s.LineN o) r :=
      fun h => h p ((hone p).2 rfl)
    have hex : ∃ p, ∀ r, commonPoint (s.LineN c) (s.LineN o) r ↔ r = p := ⟨p, hone⟩
    simp only [Bool.not_true, Bool.false_eq_true, if_false, ge_iff_le, nonpos_iff_eq_zero,
      one_ne_zero, hnot, hex, true_and, false_or]
    split_ifs with h1 h2
    · simp [h1]
    · simp [h1, h2]
    · simp [h1, h2]
  · rw [hres]
    have hnot : ¬ ∀ r, ¬ commonPoint (s.LineN c) (s.LineN o) r := fun h => h p hp
    have hex : ¬ ∃ p, ∀ r, commonPoint (s.LineN c) (s.LineN o) r ↔ r = p := by
      rintro ⟨x, hx⟩
      exact hne (((hx p).1 hp).trans ((hx q).1 hq).symm)
    simp [hnot, hex]

theorem pairwise_range (R : Nat → Nat → Prop) (n : Nat) :
    (List.range n).Pairwise R ↔ ∀ i j, i < j → j < n → R i j := by
  induction n with
  | zero => simp
  | succ n ih =>
    rw [List.range_succ, List.pairwise_append, ih]
    simp only [List.pairwise_singleton, List.mem_range, List.mem_singleton, true_and]
    constructor
    · rintro ⟨h1, h2⟩ i j hij hj
      rcases Nat.lt_succ_iff_lt_or_eq.1 hj with h | h
      · exact h1 i j hij h
      · exact h2 i (by omega) j h
    · intro h
      refine ⟨fun i j hij hj => h i j hij (by omega), ?_⟩
      rintro a ha b rfl
      exact h a b ha (by omega)

theorem LineN_valid (s : LineString) (hv : s.Valid) (i : Nat) (hi : i < s.NumLines) :
    (s.LineN i).a.XY ≠ (s.LineN i).b.XY :=
  hv _ (List.mem_map.2 ⟨i, List.mem_range.2 hi, rfl⟩)

/-- The sweep over any ordering of the segments by their min x coordinate
answers the pairwise test. -/
theorem sweep_iff_pairs (s : LineString) (hv : s.Valid) (unprocessed : List Nat)
    (hp : unprocessed.Perm (seq s.NumLines))
    (hs : unprocessed.Pairwise (fun a b => minX (s.LineN a) ≤ minX (s.LineN b))) :
    LineString.IsSimple.sweep s s.NumLines unprocessed [] = true ↔ s.simpleByPairs := by
  rw [sweep_iff s s.NumLines unprocessed [] hs List.Pairwise.nil]
  simp only [List.not_mem_nil, false_imp_iff, implies_true, true_and]
  have hlt : ∀ a ∈ unprocessed, a < s.NumLines := by
    intro a ha
    exact List.mem_range.1 (hp.mem_iff.1 ha)
  have step1 : unprocessed.Pairwise (fun o c => minX (s.LineN c) ≤ maxX (s.LineN o) →
      LineString.IsSimple.pairOK s s.NumLines c o = true) ↔
      unprocessed.Pairwise (fun o c =>
        ((∀ r, ¬ commonPoint (s.LineN c) (s.LineN o) r) ∨
        ((∃ p, ∀ r, commonPoint (s.LineN c) (s.LineN o) r ↔ r = p) ∧
          ((c = o + 1 ∨ o = c + 1) ∨
            (((c = 0 ∧ o = s.NumLines - 1) ∨ (c = s.NumLines - 1 ∧ o = 0)) ∧
              s.IsClosed = true))))) := by
    apply List.Pairwise.iff_of_mem
    intro o c ho hc
    have hvo := LineN_valid s hv o (hlt o ho)
    have hvc := LineN_valid s hv c (hlt c hc)
    rw [← pairOK_iff s s.NumLines c o hvc hvo]
    constructor
    · intro h
      by_cases hle : minX (s.LineN c) ≤ maxX (s.LineN o)
      · exact h hle
      · rw [pairOK_iff s s.NumLines c o hvc hvo]
        exact Or.inl (fun r hr => hle (commonPoint_X _ _ r hr))
    · exact fun h _ => h
  rw [step1]
  have hsymm : Symmetric (fun o c : Nat =>
        ((∀ r, ¬ commonPoint (s.LineN c) (s.LineN o) r) ∨
        ((∃ p, ∀ r, commonPoint (s.LineN c) (s.LineN o) r ↔ r = p) ∧
          ((c = o + 1 ∨ o = c + 1) ∨
            (((c = 0 ∧ o = s.NumLines - 1) ∨ (c = s.NumLines - 1 ∧ o = 0)) ∧
              s.IsClosed = true))))) := by
    intro o c h
    simp only [commonPoint_comm (s.LineN o) (s.LineN c)]
    rcases h with h | ⟨h1, h2⟩
    · exact Or.inl h
    · refine Or.inr ⟨h1, ?_⟩
      tauto
  rw [List.Perm.pairwise_iff (fun {x y} h => hsymm h) hp]
  unfold seq
  rw [pairwise_range]
  unfold LineString.simpleByPairs
  refine forall_congr' (fun i => forall_congr' (fun j => forall_congr' (fun hij =>
    forall_congr' (fun hj => ?_))))
  simp only [commonPoint_comm (s.LineN j) (s.LineN i)]
  constructor
  · rintro (h | ⟨h1, h2⟩)
    · exact Or.inl h
    · refine Or.inr ⟨h1, ?_⟩
      rcases h2 with (h | h) | ⟨(⟨h3, h4⟩ | ⟨h3, h4⟩), h5⟩
      · exact Or.inl h
      · omega
      · omega
      · exact Or.inr ⟨h4, h3, h5⟩
  · rintro (h | ⟨h1, h2⟩)
    · exact Or.inl h
    · refine Or.inr ⟨h1, ?_⟩
      rcases h2 with h | ⟨h3, h4, h5⟩
      · exact Or.inl (Or.inl h)
      · exact Or.inr ⟨Or.inr ⟨h4, h3⟩, h5⟩

theorem IsSimple_pairs (s : LineString) (hv : s.Valid) :
    s.IsSimple = true ↔ s.simpleByPairs := by
  unfold LineString.IsSimple
  simp only []
  apply sweep_iff_pairs s hv
  · exact sortSlice_perm _ _
  · exact sortSlice_sorted (fun i => minX (s.LineN i)) 0 _ (fun _ _ _ => rfl) _

/-- C15: in exact arithmetic, for a LineString whose consecutive coordinates
are distinct, `IsSimple` returns true exactly when every pair of segments
`i < j` has no common point, or has a single common point with `j = i + 1`,
or has a single common point and consists of the first and the last segment
of a closed line string; the same holds for the sweep over any other ordering
of the segments by their min x coordinate, so the answer does not depend on
how the sort breaks ties. -/
theorem IsSimple_iff_pairs (s : LineString) (hv : s.Valid) :
    (s.IsSimple = true ↔ s.simpleByPairs) ∧
    (∀ unprocessed : List Nat, unprocessed.Perm (seq s.NumLines) →
      unprocessed.Pairwise (fun a b => minX (s.LineN a) ≤ minX (s.LineN b)) →
      (LineString.IsSimple.sweep s s.NumLines unprocessed [] = true ↔ s.simpleByPairs)) := by
  refine ⟨?_, sweep_iff_pairs s hv⟩
  unfold LineString.IsSimple
  simp only []
  apply sweep_iff_pairs s hv
  · exact sortSlice_perm _ _
  · exact sortSlice_sorted (fun i => minX (s.LineN i)) 0 _ (fun _ _ _ => rfl) _

/-! ## Rings -/

/-- A line string returned by the constructor has distinct consecutive
coordinates, its first point is `coords[0]` and its last point is the last
entry of `coords`. -/
theorem NewLineStringC_valid (pts : List Coordinates) (opts : List ConstructorOption)
    (s : LineString) (h : NewLineStringC pts opts = .ok s) :
    s.Valid ∧ (pts ≠ [] → s.points.getD 0 0 = 0 ∧
      s.points.getD (s.points.length - 1) 0 = s.coords.length - 1) := by
  obtain ⟨-, -, -, -, h5, h6, h7⟩ := fold_invariant pts _ rfl
  rw [NewLineStringC_eq] at h
  split_ifs at h
  injection h with h
  subst h
  generalize pts.foldl NewLineStringC.step ([], []) = st at h5 h6 h7
  constructor
  · intro ln hln
    simp only [LineString.lines, LineString.NumLines, List.mem_map, List.mem_range] at hln
    obtain ⟨i, hi, rfl⟩ := hln
    have := List.chain'_iff_get.1 h5 i hi
    simp only [LineString.LineN]
    rw [List.getD_eq_getElem _ _ (by omega : i < st.1.length),
      List.getD_eq_getElem _ _ (by omega : i + 1 < st.1.length)]
    exact this
  · intro hne
    rw [if_neg hne] at h6 h7
    simp only []
    constructor
    · rw [List.head?_eq_getElem?] at h6
      rw [List.getD_eq_getElem?_getD, h6]
      rfl
    · rw [List.getLast?_eq_getElem?] at h7
      rw [List.getD_eq_getElem?_getD, h7]
      rfl

/-- C16: for a LineString built by the constructor for which `IsRing` is
true, any two distinct segments have no common point, or are adjacent and
share only their common endpoint, or are the first and the last segment and
share only the closing vertex (exact arithmetic). -/
theorem IsRing_segments (pts : List Coordinates) (opts : List ConstructorOption)
    (s : LineString) (hs : NewLineStringC pts opts = .ok s) (hr : s.IsRing = true) :
    ∀ i j, i < j → j < s.NumLines →
      (∀ r, ¬ commonPoint (s.LineN i) (s.LineN j) r) ∨
      (j = i + 1 ∧ ∀ r, commonPoint (s.LineN i) (s.LineN j) r ↔ r = (s.LineN i).b.XY) ∨
      (i = 0 ∧ j = s.NumLines - 1 ∧
        ∀ r, commonPoint (s.LineN i) (s.LineN j) r ↔ r = s.StartPoint.XY) := by
  obtain ⟨hv, hpts⟩ := NewLineStringC_valid pts opts s hs
  simp only [LineString.IsRing, Bool.and_eq_true] at hr
  have hpairs := (IsSimple_pairs s hv).1 hr.1
  intro i j hij hj
  rcases hpairs i j hij hj with h | ⟨⟨p, hp⟩, h | ⟨h0, hn, -⟩⟩
  · exact Or.inl h
  · right; left
    refine ⟨h, ?_⟩
    subst h
    have hc : commonPoint (s.LineN i) (s.LineN (i + 1)) (s.LineN i).b.XY :=
      ⟨onClosedSegment_right _ _, onClosedSegment_left _ _⟩
    have := (hp _).1 hc
    rw [this]
    exact hp
  · right; right
    refine ⟨h0, hn, ?_⟩
    have hne : pts ≠ [] := by
      rintro rfl
      rw [NewLineStringC_eq] at hs
      split_ifs at hs
      injection hs with hs
      subst hs
      simp [LineString.NumLines] at hj
    obtain ⟨hfirst, hlast⟩ := hpts hne
    have hclosed : s.StartPoint.XY = s.EndPoint.XY := by
      simpa [LineString.IsClosed] using hr.2
    have hstart : s.StartPoint.XY = (s.LineN i).a.XY := by
      simp only [LineString.StartPoint, LineString.LineN, NewPointC, Point.XY, hfirst, h0]
    have hend : s.EndPoint.XY = (s.LineN j).b.XY := by
      simp only [LineString.StartPoint, LineString.EndPoint, LineString.LineN, NewPointC,
        Point.XY, hlast, hn]
      simp only [LineString.NumLines] at hj ⊢
      rw [show s.coords.length - 1 - 1 + 1 = s.coords.length - 1 by omega]
    have hc : commonPoint (s.LineN i) (s.LineN j) s.StartPoint.XY := by
      constructor
      · rw [hstart]; exact onClosedSegment_left _ _
      · rw [hclosed, hend]; exact onClosedSegment_right _ _
    have := (hp _).1 hc
    rw [this]
    exact hp

theorem eval_triangle :
    NewLineStringC [⟨⟨0, 0⟩⟩, ⟨⟨1, 0⟩⟩, ⟨⟨0, 1⟩⟩, ⟨⟨0, 0⟩⟩] [] =
      .ok ⟨[⟨⟨0, 0⟩⟩, ⟨⟨1, 0⟩⟩, ⟨⟨0, 1⟩⟩, ⟨⟨0, 0⟩⟩], [0, 1, 2, 3]⟩ := by
  simp [NewLineStringC, NewLineStringC.step, doCheapValidations]

theorem eval_triangle_ring :
    (LineString.mk [⟨⟨0, 0⟩⟩, ⟨⟨1, 0⟩⟩, ⟨⟨0, 1⟩⟩, ⟨⟨0, 0⟩⟩] [0, 1, 2, 3]).IsRing = true := by
  decide!

/-- Witness for C15: the triangle (0 0,1 0,0 1,0 0) has distinct consecutive
coordinates. -/
theorem IsSimple_iff_pairs_witness :
    (LineString.mk [⟨⟨0, 0⟩⟩, ⟨⟨1, 0⟩⟩, ⟨⟨0, 1⟩⟩, ⟨⟨0, 0⟩⟩] [0, 1, 2, 3]).IsSimple = true ↔
      (LineString.mk [⟨⟨0, 0⟩⟩, ⟨⟨1, 0⟩⟩, ⟨⟨0, 1⟩⟩, ⟨⟨0, 0⟩⟩] [0, 1, 2, 3]).simpleByPairs :=
  (IsSimple_iff_pairs _ (NewLineStringC_valid _ _ _ eval_triangle).1).1

/-- Witness for C16: the triangle (0 0,1 0,0 1,0 0) is a ring; its first and
its last segment share only the closing vertex (0 0). -/
theorem IsRing_segments_witness :
    (∀ r, ¬ commonPoint ⟨⟨⟨0, 0⟩⟩, ⟨⟨1, 0⟩⟩⟩ ⟨⟨⟨0, 1⟩⟩, ⟨⟨0, 0⟩⟩⟩ r) ∨
    ((2 : Nat) = 0 + 1 ∧
      ∀ r, commonPoint ⟨⟨⟨0, 0⟩⟩, ⟨⟨1, 0⟩⟩⟩ ⟨⟨⟨0, 1⟩⟩, ⟨⟨0, 0⟩⟩⟩ r ↔ r = ⟨1, 0⟩) ∨
    ((0 : Nat) = 0 ∧ (2 : Nat) = 3 - 1 ∧
      ∀ r, commonPoint ⟨⟨⟨0, 0⟩⟩, ⟨⟨1, 0⟩⟩⟩ ⟨⟨⟨0, 1⟩⟩, ⟨⟨0, 0⟩⟩⟩ r ↔ r = ⟨0, 0⟩) :=
  IsRing_segments _ [] _ eval_triangle eval_triangle_ring 0 2 (by decide) (by decide)

/-! ## The constructor of a polygon -/

theorem eval_sweep_rings :
    NewLineStringC [⟨⟨0, 0⟩⟩, ⟨⟨12, 0⟩⟩, ⟨⟨0, 12⟩⟩, ⟨⟨0, 0⟩⟩] [] = .ok sweepOuter ∧
    NewLineStringC [⟨⟨4, 1⟩⟩, ⟨⟨5, 1⟩⟩, ⟨⟨4, 2⟩⟩, ⟨⟨4, 1⟩⟩] [] = .ok sweepHoleInside ∧
    NewLineStringC [⟨⟨0, 1⟩⟩, ⟨⟨1, 2⟩⟩, ⟨⟨0, 3⟩⟩, ⟨⟨0, 1⟩⟩] [] = .ok sweepHoleOnSide := by
  decide!

theorem sweep_common_points :
    commonPoint ⟨⟨⟨0, 12⟩⟩, ⟨⟨0, 0⟩⟩⟩ ⟨⟨⟨0, 3⟩⟩, ⟨⟨0, 1⟩⟩⟩ ⟨0, 1⟩ ∧
    commonPoint ⟨⟨⟨0, 12⟩⟩, ⟨⟨0, 0⟩⟩⟩ ⟨⟨⟨0, 3⟩⟩, ⟨⟨0, 1⟩⟩⟩ ⟨0, 3⟩ := by
  refine ⟨⟨⟨11 / 12, ?_, ?_, ?_⟩, ⟨1, ?_, ?_, ?_⟩⟩, ⟨⟨3 / 4, ?_, ?_, ?_⟩, ⟨0, ?_, ?_, ?_⟩⟩⟩ <;>
    first
    | (simp only [pointAt, XY.mk.injEq]; norm_num)
    | norm_num

/-- C17: `NewPolygon` with default options accepts the outer ring
(0 0,12 0,0 12,0 0) with the holes (4 1,5 1,4 2,4 1) and (0 1,1 2,0 3,0 1),
although the second hole and the outer ring share the whole segment from
(0 1) to (0 3); with the two holes in the other order, and with the second
hole alone, it returns the error for rings that intersect at multiple
points. -/
theorem NewPolygon_misses_ring_pair :
    NewPolygon sweepOuter [sweepHoleInside, sweepHoleOnSide] [] =
      .ok ⟨sweepOuter, [sweepHoleInside, sweepHoleOnSide]⟩ ∧
    (⟨⟨⟨0, 12⟩⟩, ⟨⟨0, 0⟩⟩⟩ ∈ sweepOuter.lines ∧ ⟨⟨⟨0, 3⟩⟩, ⟨⟨0, 1⟩⟩⟩ ∈ sweepHoleOnSide.lines ∧
      (⟨0, 1⟩ : XY) ≠ ⟨0, 3⟩ ∧
      commonPoint ⟨⟨⟨0, 12⟩⟩, ⟨⟨0, 0⟩⟩⟩ ⟨⟨⟨0, 3⟩⟩, ⟨⟨0, 1⟩⟩⟩ ⟨0, 1⟩ ∧
      commonPoint ⟨⟨⟨0, 12⟩⟩, ⟨⟨0, 0⟩⟩⟩ ⟨⟨⟨0, 3⟩⟩, ⟨⟨0, 1⟩⟩⟩ ⟨0, 3⟩) ∧
    NewPolygon sweepOuter [sweepHoleOnSide, sweepHoleInside] [] =
      .error .polygonRingsMeetInMultiplePoints ∧
    NewPolygon sweepOuter [sweepHoleOnSide] [] = .error .polygonRingsMeetInMultiplePoints :=
  ⟨by decide!, ⟨by decide!, by decide!, by decide!, sweep_common_points.1,
    sweep_common_points.2⟩, by decide!, by decide!⟩

theorem NewPolygon_rings (outer : LineString) (holes : List LineString) :
    (seq (1 + holes.length)).map (NewPolygon.ring outer holes) = holes ++ [outer] := by
  apply List.ext_getElem
  · simp [seq, Nat.add_comm]
  · intro i h1 h2
    simp only [seq, List.getElem_map, List.getElem_range, NewPolygon.ring]
    simp only [List.length_append, List.length_singleton] at h2
    split_ifs with h
    · rw [List.getElem_append_right (by omega)]
      simp [h]
    · rw [List.getElem_append_left (by omega), List.getD_eq_getElem _ _ (by omega)]

theorem checkRings_none (rings : List LineString) :
    NewPolygon.checkRings [] rings = none ↔
      ∀ r ∈ rings, r.IsClosed = true ∧ r.IsSimple = true := by
  induction rings with
  | nil => simp [NewPolygon.checkRings]
  | cons r rest ih =>
    unfold NewPolygon.checkRings
    simp only [doCheapValidations, doExpensiveValidations, List.contains_nil, Bool.not_false,
      Bool.true_and, Bool.not_eq_true', List.mem_cons, forall_eq_or_imp]
    cases hc : r.IsClosed
    · simp
    · cases hs : r.IsSimple
      · simp
      · simp [ih]

theorem others_no_panic (outer : LineString) (holes : List LineString) (current : Nat)
    (rest : List Nat) (st : NewPolygon.state) (r : PanicReason) :
    NewPolygon.others outer holes current rest st ≠ .panic r := by
  induction rest generalizing st with
  | nil => simp [NewPolygon.others]
  | cons other rest ih =>
    unfold NewPolygon.others
    simp only []
    split_ifs
    · simp
    · exact ih _
    · simp
    · split
      · exact ih _
      · exact ih _

theorem sweep_no_panic (outer : LineString) (holes : List LineString)
    (intervals : List (ℚ × ℚ)) (rings : List Nat) (st : NewPolygon.state) (r : PanicReason) :
    NewPolygon.sweep outer holes intervals rings st ≠ .panic r := by
  induction rings generalizing st with
  | nil => simp [NewPolygon.sweep]
  | cons current rings ih =>
    unfold NewPolygon.sweep
    simp only []
    split
    · exact ih _
    · simp
    · rename_i r1 h
      exact absurd h (others_no_panic _ _ _ _ _ _)

/-- The constructor returns a polygon or an error, and a returned polygon is
made of the given rings. -/
theorem withSort_result (sort : (List Nat → Nat → Nat → Bool) → List Nat → List Nat)
    (outer : LineString) (holes : List LineString) (opts : List ConstructorOption) :
    NewPolygon.withSort sort outer holes opts = .ok ⟨outer, holes⟩ ∨
      ∃ e, NewPolygon.withSort sort outer holes opts = .error e := by
  unfold NewPolygon.withSort
  simp only []
  repeat' first
    | exact Or.inl rfl
    | exact Or.inr ⟨_, rfl⟩
    | (exfalso; exact sweep_no_panic _ _ _ _ _ _ ‹_›)
    | split

/-- The constructor returns a polygon or an error, and a returned polygon is
made of the given rings. -/
theorem NewPolygon_result (outer : LineString) (holes : List LineString)
    (opts : List ConstructorOption) :
    NewPolygon outer holes opts = .ok ⟨outer, holes⟩ ∨
      ∃ e, NewPolygon outer holes opts = .error e :=
  withSort_result sortSlice outer holes opts

theorem withSort_ok (sort : (List Nat → Nat → Nat → Bool) → List Nat → List Nat)
    (outer : LineString) (holes : List LineString) (p : Polygon)
    (h : NewPolygon.withSort sort outer holes [] = .ok p) :
    (∀ r ∈ outer :: holes, r.IsClosed = true ∧ r.IsSimple = true) ∧
    (∀ hole ∈ holes, ∀ i, i < hole.NumPoints →
      pointRingSide (hole.PointN i).XY outer ≠ side.exterior) := by
  unfold NewPolygon.withSort at h
  simp only [doCheapValidations, doExpensiveValidations, List.contains_nil, Bool.not_false,
    Bool.not_true, Bool.and_self, Bool.false_eq_true, if_false] at h
  split at h
  · cases h
  · split at h
    · cases h
    · rename_i hcheck
      rw [NewPolygon_rings, checkRings_none] at hcheck
      constructor
      · intro r hr
        apply hcheck
        simp only [List.mem_cons] at hr
        simp only [List.mem_append, List.mem_singleton]
        tauto
      · split at h
        · cases h
        · cases h
        · split at h
          · cases h
          · rename_i hout
            intro hole hh i hi hext
            apply hout
            rw [List.any_eq_true]
            refine ⟨hole, hh, ?_⟩
            rw [List.any_eq_true]
            exact ⟨i, List.mem_range.2 hi, by simpa using hext⟩

theorem constructed_in_range (pts : List Coordinates) (opts : List ConstructorOption)
    (r : LineString) (hne : pts ≠ []) (h : NewLineStringC pts opts = .ok r) :
    r.coords ≠ [] ∧ ∀ idx ∈ r.points, idx < r.coords.length := by
  obtain ⟨-, h2, h3, -, -, -, -⟩ := fold_invariant pts _ rfl
  rw [NewLineStringC_eq] at h
  split_ifs at h
  injection h with h
  subst h
  refine ⟨?_, h2⟩
  intro hnil
  simp only [] at hnil
  rw [hnil] at h3
  simp only [List.getLast?_nil] at h3
  exact hne (List.getLast?_eq_none_iff.1 h3.symm)

/-- C18: for rings built by `NewLineStringC` from at least one point (every
index that the accessors read is then in range), and for whatever order
`sort.Slice` leaves the rings in: if `NewPolygon` succeeds with default
options, every ring (the outer ring and the holes) is closed and simple and no
point of a hole is exterior to the outer ring; conversely, when a ring is not
closed or not simple, or a point of a hole is exterior to the outer ring,
`NewPolygon` returns an error. `NewPolygon` itself is the case of the
insertion sort. -/
theorem NewPolygon_checks_rings
    (sort : (List Nat → Nat → Nat → Bool) → List Nat → List Nat)
    (outer : LineString) (holes : List LineString)
    (hrings : ∀ r ∈ outer :: holes,
      ∃ pts opts, pts ≠ [] ∧ NewLineStringC pts opts = .ok r) :
    (∀ r ∈ outer :: holes, r.coords ≠ [] ∧ ∀ idx ∈ r.points, idx < r.coords.length) ∧
    (∀ p, NewPolygon.withSort sort outer holes [] = .ok p →
      p = ⟨outer, holes⟩ ∧
      (∀ r ∈ outer :: holes, r.IsClosed = true ∧ r.IsSimple = true) ∧
      (∀ hole ∈ holes, ∀ i, i < hole.NumPoints →
        pointRingSide (hole.PointN i).XY outer ≠ side.exterior)) ∧
    (((∃ r ∈ outer :: holes, r.IsClosed = false ∨ r.IsSimple = false) ∨
      (∃ hole ∈ holes, ∃ i, i < hole.NumPoints ∧
        pointRingSide (hole.PointN i).XY outer = side.exterior)) →
      ∃ e, NewPolygon.withSort sort outer holes [] = .error e) ∧
    NewPolygon outer holes [] = NewPolygon.withSort sortSlice outer holes [] := by
  refine ⟨?_, ?_, ?_, rfl⟩
  · intro r hr
    obtain ⟨pts, opts, hne, hc⟩ := hrings r hr
    exact constructed_in_range pts opts r hne hc
  · intro p h
    refine ⟨?_, withSort_ok sort outer holes p h⟩
    rcases withSort_result sort outer holes [] with h1 | ⟨e, h1⟩
    · rw [h1] at h
      injection h with h
      exact h.symm
    · rw [h1] at h
      cases h
  · intro hbad
    rcases withSort_result sort outer holes [] with h1 | h1
    · exfalso
      obtain ⟨hr, hh⟩ := withSort_ok sort outer holes _ h1
      rcases hbad with ⟨r, hmem, hc | hs⟩ | ⟨hole, hmem, i, hi, hext⟩
      · rw [(hr r hmem).1] at hc
        cases hc
      · rw [(hr r hmem).2] at hs
        cases hs
      · exact hh hole hmem i hi hext
    · exact h1

theorem eval_polygon_ok :
    NewPolygon sweepOuter [sweepHoleInside] [] = .ok ⟨sweepOuter, [sweepHoleInside]⟩ := by
  decide!

theorem eval_three_rings_touch :
    NewPolygon ⟨[⟨⟨0, 0⟩⟩, ⟨⟨12, 0⟩⟩, ⟨⟨0, 12⟩⟩, ⟨⟨0, 0⟩⟩], [0, 1, 2, 3]⟩
      [⟨[⟨⟨0, 4⟩⟩, ⟨⟨2, 3⟩⟩, ⟨⟨2, 4⟩⟩, ⟨⟨0, 4⟩⟩], [0, 1, 2, 3]⟩,
        ⟨[⟨⟨0, 4⟩⟩, ⟨⟨2, 5⟩⟩, ⟨⟨1, 5⟩⟩, ⟨⟨0, 4⟩⟩], [0, 1, 2, 3]⟩] [] =
      .ok ⟨⟨[⟨⟨0, 0⟩⟩, ⟨⟨12, 0⟩⟩, ⟨⟨0, 12⟩⟩, ⟨⟨0, 0⟩⟩], [0, 1, 2, 3]⟩,
        [⟨[⟨⟨0, 4⟩⟩, ⟨⟨2, 3⟩⟩, ⟨⟨2, 4⟩⟩, ⟨⟨0, 4⟩⟩], [0, 1, 2, 3]⟩,
          ⟨[⟨⟨0, 4⟩⟩, ⟨⟨2, 5⟩⟩, ⟨⟨1, 5⟩⟩, ⟨⟨0, 4⟩⟩], [0, 1, 2, 3]⟩]⟩ := by
  decide!

theorem eval_sweep_constructed :
    NewLineStringC [⟨⟨0, 0⟩⟩, ⟨⟨12, 0⟩⟩, ⟨⟨0, 12⟩⟩, ⟨⟨0, 0⟩⟩] [] = .ok sweepOuter ∧
    NewLineStringC [⟨⟨4, 1⟩⟩, ⟨⟨5, 1⟩⟩, ⟨⟨4, 2⟩⟩, ⟨⟨4, 1⟩⟩] [] = .ok sweepHoleInside := by
  decide!

/-- Witness for C18: the triangle (0 0,12 0,0 12,0 0) with the hole
(4 1,5 1,4 2,4 1), both built by `NewLineStringC`, is accepted. -/
theorem NewPolygon_checks_rings_witness :
    (∀ r ∈ [sweepOuter, sweepHoleInside], r.IsClosed = true ∧ r.IsSimple = true) ∧
    (∀ hole ∈ [sweepHoleInside], ∀ i, i < hole.NumPoints →
      pointRingSide (hole.PointN i).XY sweepOuter ≠ side.exterior) :=
  ((NewPolygon_checks_rings sortSlice sweepOuter [sweepHoleInside]
    (by
      intro r hr
      simp only [List.mem_cons, List.mem_singleton, List.not_mem_nil, or_false] at hr
      rcases hr with rfl | rfl
      · exact ⟨_, [], by simp, eval_sweep_constructed.1⟩
      · exact ⟨_, [], by simp, eval_sweep_constructed.2⟩)).2.1 _ eval_polygon_ok).2

/-- Witness for C11: a Polygon with itself is implemented by neither
operation. -/
theorem implemented_pairs_agree_witness :
    intersection (.polygon fuzzPolygon) (.polygon fuzzPolygon) = .panic .notImplemented ↔
      hasIntersection (.polygon fuzzPolygon) (.polygon fuzzPolygon) =
        .panic .notImplemented :=
  implemented_pairs_agree.1 _ _

/-- Witness for C13: the point (2 0) on the outer ring of the triangle with a
triangular hole. -/
theorem intersectMultiPointWithPolygon_keeps_witness :
    NewPointXY ⟨2, 0⟩ ∈
        pointsOf (intersectMultiPointWithPolygon ⟨[NewPointXY ⟨2, 0⟩]⟩ fuzzPolygon) ↔
      NewPointXY ⟨2, 0⟩ ∈ [NewPointXY ⟨2, 0⟩] ∧
        pointRingSide (NewPointXY ⟨2, 0⟩).XY fuzzPolygon.outer ≠ side.exterior ∧
        ∀ ring ∈ fuzzPolygon.holes,
          pointRingSide (NewPointXY ⟨2, 0⟩).XY ring ≠ side.interior :=
  intersectMultiPointWithPolygon_keeps.1 _ _ _

/-! ## Constructors with validations disabled -/

/-- C21: when both the cheap and the expensive validations are disabled,
`NewPolygon` returns, for every input, the Polygon holding exactly the given
outer ring and holes and no error; `NewLineStringC` with the cheap validations
disabled never returns an error. -/
theorem constructors_skip_validations :
    (∀ (outer : LineString) (holes : List LineString) (opts : List ConstructorOption),
      doCheapValidations opts = false → doExpensiveValidations opts = false →
      NewPolygon outer holes opts = .ok ⟨outer, holes⟩) ∧
    (∀ (pts : List Coordinates) (opts : List ConstructorOption),
      doCheapValidations opts = false →
      ∃ ls, NewLineStringC pts opts = .ok ls ∧ ∀ e, NewLineStringC pts opts ≠ .error e) := by
  constructor
  · intro outer holes opts h1 h2
    unfold NewPolygon NewPolygon.withSort
    simp [h1, h2]
  · intro pts opts h1
    rw [NewLineStringC_eq]
    simp [h1]

/-- Witness for C21: with both validations disabled an unclosed ring is
accepted as the outer ring of a polygon. -/
theorem constructors_skip_validations_witness :
    NewPolygon ⟨[⟨⟨0, 0⟩⟩, ⟨⟨1, 0⟩⟩], [0, 1]⟩ []
        [.disableCheapValidations, .disableExpensiveValidations] =
      .ok ⟨⟨[⟨⟨0, 0⟩⟩, ⟨⟨1, 0⟩⟩], [0, 1]⟩, []⟩ :=
  constructors_skip_validations.1 _ _ _ (by decide) (by decide)

/-! ## Boundary -/

theorem constructed_points (pts : List Coordinates) (opts : List ConstructorOption)
    (ls : LineString) (h : NewLineStringC pts opts = .ok ls) :
    ls.NumPoints = pts.length ∧
    (∀ i, i < pts.length → pts[i]? = some (ls.PointN i).Coordinates) := by
  obtain ⟨h1, h2, -, -, -, -, -⟩ := fold_invariant pts _ rfl
  rw [NewLineStringC_eq] at h
  split_ifs at h
  injection h with h
  subst h
  generalize pts.foldl NewLineStringC.step ([], []) = st at h1 h2
  have hlen : st.2.length = pts.length := by
    rw [← h1, List.length_map]
  refine ⟨hlen, ?_⟩
  intro i hi
  have : pts[i]? = (st.2.map (fun idx => st.1.getD idx ⟨⟨0, 0⟩⟩))[i]? := by rw [h1]
  rw [this, List.getElem?_map, List.getElem?_eq_getElem (by omega)]
  simp only [Option.map_some', LineString.PointN, Point.Coordinates, NewPointC]
  rw [List.getD_eq_getElem _ _ (by omega : i < st.2.length)]

theorem constructed_ends (pts : List Coordinates) (opts : List ConstructorOption)
    (s : LineString) (h : NewLineStringC pts opts = .ok s) (hne : pts ≠ []) :
    some s.StartPoint = pts.head?.map NewPointC ∧
      some s.EndPoint = pts.getLast?.map NewPointC := by
  obtain ⟨hn, hp⟩ := constructed_points pts opts s h
  have hlen : 0 < pts.length := List.length_pos.2 hne
  have h0 := hp 0 hlen
  have h1 := hp (pts.length - 1) (by omega)
  rw [List.head?_eq_getElem?, List.getLast?_eq_getElem?, h0, h1]
  simp only [LineString.NumPoints] at hn
  simp only [Option.map_some', LineString.StartPoint, LineString.EndPoint, LineString.PointN,
    Point.Coordinates, NewPointC, hn, and_self]

/-- C27: `LineString.Boundary` is the empty MultiPoint when the line string is
closed, that is when its start point and its end point have the same XY, and
otherwise the MultiPoint made of its start point and its end point, in that
order; for a line string built by the constructor these are the first and the
last of the given points. -/
theorem Boundary_of_lineString (s : LineString) :
    (s.IsClosed = true ↔ s.StartPoint.XY = s.EndPoint.XY) ∧
    (s.IsClosed = true → s.Boundary = NewMultiPoint []) ∧
    (s.IsClosed = false → s.Boundary = NewMultiPoint [s.StartPoint, s.EndPoint]) ∧
    (∀ (pts : List Coordinates) (opts : List ConstructorOption),
      NewLineStringC pts opts = .ok s → pts ≠ [] →
      some s.StartPoint = pts.head?.map NewPointC ∧
        some s.EndPoint = pts.getLast?.map NewPointC) := by
  refine ⟨by simp [LineString.IsClosed], ?_, ?_, fun pts opts h hne =>
    constructed_ends pts opts s h hne⟩
  · intro h
    simp [LineString.Boundary, h]
  · intro h
    simp [LineString.Boundary, h]

/-- Witness for C27: the open line string (0 0,0 0,1 0) has the boundary
MULTIPOINT((0 0),(1 0)). -/
theorem Boundary_of_lineString_witness :
    (LineString.mk [⟨⟨0, 0⟩⟩, ⟨⟨1, 0⟩⟩] [0, 0, 1]).Boundary =
      NewMultiPoint [(LineString.mk [⟨⟨0, 0⟩⟩, ⟨⟨1, 0⟩⟩] [0, 0, 1]).StartPoint,
        (LineString.mk [⟨⟨0, 0⟩⟩, ⟨⟨1, 0⟩⟩] [0, 0, 1]).EndPoint] :=
  (Boundary_of_lineString _).2.2.1 (by decide!)

/-! ## Orientation -/

theorem orientation_eq_cross (a b c : XY) :
    orientation a b c =
      if 0 < cross a b c then .leftTurn
      else if cross a b c < 0 then .rightTurn else .collinear := rfl

theorem orientation_neg_of_cross (a b c p q r : XY) (h : cross p q r = -cross a b c) :
    orientation p q r = (orientation a b c).neg := by
  rw [orientation_eq_cross, orientation_eq_cross, h]
  rcases lt_trichotomy (cross a b c) 0 with h1 | h1 | h1
  · rw [if_pos (by linarith), if_neg (by linarith), if_pos h1]
    rfl
  · rw [h1]
    simp [threePointOrientation.neg]
  · rw [if_neg (by linarith), if_pos (by linarith), if_pos h1]
    rfl

/-- C28: for all points `a`, `b`, `c`, exchanging any two of the three
arguments of `orientation` gives the opposite result (LEFT and RIGHT are
exchanged, COLLINEAR stays), where `orientation a b c` is the sign of
`(b.x - a.x)(c.y - a.y) - (b.y - a.y)(c.x - a.x)` over exact arithmetic. -/
theorem orientation_swap (a b c : XY) :
    orientation b a c = (orientation a b c).neg ∧
    orientation a c b = (orientation a b c).neg ∧
    orientation c b a = (orientation a b c).neg ∧
    (orientation a b c = .leftTurn ↔
      0 < (b.X - a.X) * (c.Y - a.Y) - (b.Y - a.Y) * (c.X - a.X)) ∧
    (orientation a b c = .rightTurn ↔
      (b.X - a.X) * (c.Y - a.Y) - (b.Y - a.Y) * (c.X - a.X) < 0) ∧
    (orientation a b c = .collinear ↔
      (b.X - a.X) * (c.Y - a.Y) - (b.Y - a.Y) * (c.X - a.X) = 0) := by
  refine ⟨?_, ?_, ?_, ?_, ?_, ?_⟩
  · exact orientation_neg_of_cross a b c b a c (by simp only [cross]; ring)
  · exact orientation_neg_of_cross a b c a c b (by simp only [cross]; ring)
  · exact orientation_neg_of_cross a b c c b a (by simp only [cross]; ring)
  · exact orientation_leftTurn_iff a b c
  · exact orientation_rightTurn_iff a b c
  · exact orientation_collinear_iff a b c

/-! ## Intersects of two MultiLineStrings -/

theorem hasIntersectionLineWithLine_values (n1 n2 : Line) :
    hasIntersectionLineWithLine n1 n2 = (false, 0) ∨
      hasIntersectionLineWithLine n1 n2 = (true, 0) ∨
      hasIntersectionLineWithLine n1 n2 = (true, 1) := by
  rw [hasIntersectionLineWithLine_unfold]
  obtain ⟨p0, p1, hred⟩ := reducedPair_length n1.a.XY n1.b.XY n2.a.XY n2.b.XY
  rw [hred]
  simp only []
  split_ifs <;> simp

/-- The loop of `hasIntersectionMultiLineStringWithMultiLineString` from the
values `acc` over the pairs: it answers true when it started from true or a
pair intersects, and its dimension is the largest among the start value and
the dimensions of the intersecting pairs. -/
theorem hasIntersection_fold (pairs : List (Line × Line)) (acc : Bool × Nat) :
    ((pairs.foldl (fun acc pr =>
        let r := hasIntersectionLineWithLine pr.1 pr.2
        if r.1 then (true, if r.2 > acc.2 then r.2 else acc.2) else acc) acc).1 = true ↔
      acc.1 = true ∨ ∃ pr ∈ pairs, (hasIntersectionLineWithLine pr.1 pr.2).1 = true) ∧
    (acc.2 ≤ (pairs.foldl (fun acc pr =>
        let r := hasIntersectionLineWithLine pr.1 pr.2
        if r.1 then (true, if r.2 > acc.2 then r.2 else acc.2) else acc) acc).2) ∧
    (∀ pr ∈ pairs, (hasIntersectionLineWithLine pr.1 pr.2).1 = true →
      (hasIntersectionLineWithLine pr.1 pr.2).2 ≤ (pairs.foldl (fun acc pr =>
        let r := hasIntersectionLineWithLine pr.1 pr.2
        if r.1 then (true, if r.2 > acc.2 then r.2 else acc.2) else acc) acc).2) ∧
    ((pairs.foldl (fun acc pr =>
        let r := hasIntersectionLineWithLine pr.1 pr.2
        if r.1 then (true, if r.2 > acc.2 then r.2 else acc.2) else acc) acc).2 = acc.2 ∨
      ∃ pr ∈ pairs, (hasIntersectionLineWithLine pr.1 pr.2).1 = true ∧
        (hasIntersectionLineWithLine pr.1 pr.2).2 = (pairs.foldl (fun acc pr =>
          let r := hasIntersectionLineWithLine pr.1 pr.2
          if r.1 then (true, if r.2 > acc.2 then r.2 else acc.2) else acc) acc).2) := by
  induction pairs generalizing acc with
  | nil => simp
  | cons pr rest ih =>
    rw [List.foldl_cons]
    obtain ⟨h1, h2, h3, h4⟩ := ih
      (if (hasIntersectionLineWithLine pr.1 pr.2).1 then
        (true, if (hasIntersectionLineWithLine pr.1 pr.2).2 > acc.2 then
          (hasIntersectionLineWithLine pr.1 pr.2).2 else acc.2) else acc)
    simp only [] at h1 h2 h3 h4 ⊢
    cases hi : (hasIntersectionLineWithLine pr.1 pr.2).1
    · simp only [hi, Bool.false_eq_true, if_false] at h1 h2 h3 h4 ⊢
      refine ⟨?_, h2, ?_, ?_⟩
      · rw [h1]
        simp only [List.mem_cons, exists_eq_or_imp, hi, Bool.false_eq_true, false_or]
      · intro pr1 hpr1 hint
        rcases List.mem_cons.1 hpr1 with rfl | hmem
        · rw [hi] at hint; cases hint
        · exact h3 pr1 hmem hint
      · rcases h4 with h | ⟨pr1, hmem, h5, h6⟩
        · exact Or.inl h
        · exact Or.inr ⟨pr1, List.mem_cons_of_mem _ hmem, h5, h6⟩
    · simp only [hi, if_true] at h1 h2 h3 h4 ⊢
      refine ⟨?_, ?_, ?_, ?_⟩
      · rw [h1]
        simp only [true_or, List.mem_cons, exists_eq_or_imp, hi, or_true]
      · refine le_trans ?_ h2
        split_ifs with hgt
        · exact hgt.le
        · exact le_refl _
      · intro pr1 hpr1 hint
        rcases List.mem_cons.1 hpr1 with rfl | hmem
        · refine le_trans ?_ h2
          split_ifs with hgt
          · exact le_refl _
          · exact not_lt.1 hgt
        · exact h3 pr1 hmem hint
      · rcases h4 with h | ⟨pr1, hmem, h5, h6⟩
        · by_cases hgt : (hasIntersectionLineWithLine pr.1 pr.2).2 > acc.2
          · simp only [if_pos hgt] at h ⊢
            exact Or.inr ⟨pr, List.mem_cons_self _ _, hi, h.symm⟩
          · simp only [if_neg hgt] at h ⊢
            exact Or.inl h
        · exact Or.inr ⟨pr1, List.mem_cons_of_mem _ hmem, h5, h6⟩

/-- C29: `hasIntersectionMultiLineStringWithMultiLineString` reports
`intersects = true` exactly when some segment of the first input intersects
some segment of the second, and its dimension is the largest dimension that
`hasIntersectionLineWithLine` reports over these pairs: 1 exactly when some
pair is reported with dimension 1, and 0 otherwise. For inputs whose segments
have distinct endpoints, the answer is true exactly when two segments have a
common point, and the dimension is 1 exactly when two segments have more than
one common point. -/
theorem hasIntersectionMultiLineStringWithMultiLineString_max (mls1 mls2 : MultiLineString) :
    ((hasIntersectionMultiLineStringWithMultiLineString mls1 mls2).1 = true ↔
      ∃ l1 ∈ mls1.segments, ∃ l2 ∈ mls2.segments,
        (hasIntersectionLineWithLine l1 l2).1 = true) ∧
    (∀ l1 ∈ mls1.segments, ∀ l2 ∈ mls2.segments,
      (hasIntersectionLineWithLine l1 l2).1 = true →
      (hasIntersectionLineWithLine l1 l2).2 ≤
        (hasIntersectionMultiLineStringWithMultiLineString mls1 mls2).2) ∧
    ((hasIntersectionMultiLineStringWithMultiLineString mls1 mls2).2 = 0 ∨
      ∃ l1 ∈ mls1.segments, ∃ l2 ∈ mls2.segments,
        hasIntersectionLineWithLine l1 l2 =
          (true, (hasIntersectionMultiLineStringWithMultiLineString mls1 mls2).2)) ∧
    ((hasIntersectionMultiLineStringWithMultiLineString mls1 mls2).2 = 1 ↔
      ∃ l1 ∈ mls1.segments, ∃ l2 ∈ mls2.segments,
        hasIntersectionLineWithLine l1 l2 = (true, 1)) ∧
    ((hasIntersectionMultiLineStringWithMultiLineString mls1 mls2).2 = 0 ∨
      (hasIntersectionMultiLineStringWithMultiLineString mls1 mls2).2 = 1) ∧
    ((∀ ls ∈ mls1.lines, ls.Valid) → (∀ ls ∈ mls2.lines, ls.Valid) →
      ((hasIntersectionMultiLineStringWithMultiLineString mls1 mls2).1 = true ↔
        ∃ l1 ∈ mls1.segments, ∃ l2 ∈ mls2.segments, ∃ r, commonPoint l1 l2 r) ∧
      ((hasIntersectionMultiLineStringWithMultiLineString mls1 mls2).2 = 1 ↔
        ∃ l1 ∈ mls1.segments, ∃ l2 ∈ mls2.segments, ∃ p q, p ≠ q ∧
          commonPoint l1 l2 p ∧ commonPoint l1 l2 q)) := by
  obtain ⟨h1, -, h3, h4⟩ := hasIntersection_fold (segmentPairs mls1 mls2) (false, 0)
  have hdef : hasIntersectionMultiLineStringWithMultiLineString mls1 mls2 =
      (segmentPairs mls1 mls2).foldl (fun acc pr =>
        let r := hasIntersectionLineWithLine pr.1 pr.2
        if r.1 then (true, if r.2 > acc.2 then r.2 else acc.2) else acc) (false, 0) := rfl
  rw [← hdef] at h1 h3 h4
  generalize hasIntersectionMultiLineStringWithMultiLineString mls1 mls2 = res at h1 h3 h4
  have c1 : res.1 = true ↔ ∃ l1 ∈ mls1.segments, ∃ l2 ∈ mls2.segments,
      (hasIntersectionLineWithLine l1 l2).1 = true := by
    rw [h1]
    simp only [Bool.false_eq_true, false_or, Prod.exists, mem_segmentPairs]
    constructor
    · rintro ⟨l1, l2, ⟨ha, hb⟩, h⟩
      exact ⟨l1, ha, l2, hb, h⟩
    · rintro ⟨l1, ha, l2, hb, h⟩
      exact ⟨l1, l2, ⟨ha, hb⟩, h⟩
  have c2 : ∀ l1 ∈ mls1.segments, ∀ l2 ∈ mls2.segments,
      (hasIntersectionLineWithLine l1 l2).1 = true →
      (hasIntersectionLineWithLine l1 l2).2 ≤ res.2 :=
    fun l1 ha l2 hb h => h3 (l1, l2) ((mem_segmentPairs _ _ _ _).2 ⟨ha, hb⟩) h
  have c3 : res.2 = 0 ∨ ∃ l1 ∈ mls1.segments, ∃ l2 ∈ mls2.segments,
      hasIntersectionLineWithLine l1 l2 = (true, res.2) := by
    rcases h4 with h | ⟨⟨l1, l2⟩, hmem, h5, h6⟩
    · exact Or.inl h
    · obtain ⟨ha, hb⟩ := (mem_segmentPairs _ _ _ _).1 hmem
      exact Or.inr ⟨l1, ha, l2, hb, Prod.ext h5 h6⟩
  have c4 : res.2 = 1 ↔ ∃ l1 ∈ mls1.segments, ∃ l2 ∈ mls2.segments,
      hasIntersectionLineWithLine l1 l2 = (true, 1) := by
    constructor
    · intro h
      rcases c3 with h0 | ⟨l1, ha, l2, hb, he⟩
      · omega
      · exact ⟨l1, ha, l2, hb, by rw [he, h]⟩
    · rintro ⟨l1, ha, l2, hb, he⟩
      have hle := c2 l1 ha l2 hb (by rw [he])
      rw [he] at hle
      rcases c3 with h0 | ⟨m1, hc, m2, hd, hf⟩
      · simp only at hle; omega
      · rcases hasIntersectionLineWithLine_values m1 m2 with h | h | h
        · rw [h] at hf; cases hf
        · rw [h] at hf
          have := congrArg Prod.snd hf
          simp only at this hle
          omega
        · rw [h] at hf
          exact (congrArg Prod.snd hf).symm
  have c5 : res.2 = 0 ∨ res.2 = 1 := by
    rcases c3 with h0 | ⟨m1, hc, m2, hd, hf⟩
    · exact Or.inl h0
    · rcases hasIntersectionLineWithLine_values m1 m2 with h | h | h
      · rw [h] at hf; cases hf
      · rw [h] at hf
        exact Or.inl (congrArg Prod.snd hf).symm
      · rw [h] at hf
        exact Or.inr (congrArg Prod.snd hf).symm
  refine ⟨c1, c2, c3, c4, c5, ?_⟩
  intro hv1 hv2
  have v1 := segments_valid mls1 hv1
  have v2 := segments_valid mls2 hv2
  constructor
  · rw [c1]
    constructor
    · rintro ⟨l1, ha, l2, hb, h⟩
      rcases hasIntersectionLineWithLine_cases l1 l2 (v1 l1 ha) (v2 l2 hb) with
        ⟨hres, -⟩ | ⟨-, p, hp⟩ | ⟨-, p, q, -, hp, -⟩
      · rw [hres] at h; cases h
      · exact ⟨l1, ha, l2, hb, p, (hp p).2 rfl⟩
      · exact ⟨l1, ha, l2, hb, p, hp⟩
    · rintro ⟨l1, ha, l2, hb, r, hr⟩
      refine ⟨l1, ha, l2, hb, ?_⟩
      rcases hasIntersectionLineWithLine_cases l1 l2 (v1 l1 ha) (v2 l2 hb) with
        ⟨-, hno⟩ | ⟨hres, -⟩ | ⟨hres, -⟩
      · exact absurd hr (hno r)
      · rw [hres]
      · rw [hres]
  · rw [c4]
    constructor
    · rintro ⟨l1, ha, l2, hb, h⟩
      rcases hasIntersectionLineWithLine_cases l1 l2 (v1 l1 ha) (v2 l2 hb) with
        ⟨hres, -⟩ | ⟨hres, -⟩ | ⟨-, p, q, hne, hp, hq⟩
      · rw [hres] at h; cases h
      · rw [hres] at h; cases h
      · exact ⟨l1, ha, l2, hb, p, q, hne, hp, hq⟩
    · rintro ⟨l1, ha, l2, hb, p, q, hne, hp, hq⟩
      refine ⟨l1, ha, l2, hb, ?_⟩
      rcases hasIntersectionLineWithLine_cases l1 l2 (v1 l1 ha) (v2 l2 hb) with
        ⟨-, hno⟩ | ⟨-, x, hx⟩ | ⟨hres, -⟩
      · exact absurd hp (hno p)
      · exact absurd (((hx p).1 hp).trans ((hx q).1 hq).symm) hne
      · exact hres

/-! ## The collinear-overlap reducer keeps the middle two points -/

theorem perm_eraseIdx {α : Type} (l : List α) (i : Nat) (d : α) (h : i < l.length) :
    l.Perm (l.getD i d :: l.eraseIdx i) := by
  induction l generalizing i with
  | nil => simp at h
  | cons x l ih =>
    cases i with
    | zero => simp
    | succ i =>
      simp only [List.length_cons, Nat.add_lt_add_iff_right] at h
      simp only [List.getD_cons_succ, List.eraseIdx_cons_succ]
      exact ((ih i h).cons x).trans (List.Perm.swap _ _ _)

theorem rightmost_cond (p cur : XY) :
    (p.X > cur.X ∨ (p.X = cur.X ∧ p.Y > cur.Y)) ↔ cur.Less p = true := by
  rw [Less_iff]
  constructor
  · rintro (h | ⟨h1, h2⟩)
    · exact Or.inl h
    · exact Or.inr ⟨h1.symm, h2⟩
  · rintro (h | ⟨h1, h2⟩)
    · exact Or.inl h
    · exact Or.inr ⟨h1.symm, h2⟩

theorem leftmost_cond (p cur : XY) :
    (p.X < cur.X ∨ (p.X = cur.X ∧ p.Y < cur.Y)) ↔ p.Less cur = true := by
  rw [Less_iff]

theorem notGreater_trans (a b c : XY) (h1 : XY.notGreater a b) (h2 : XY.notGreater b c) :
    XY.notGreater a c := by
  rw [notGreater_iff_lex] at *
  exact le_trans h1 h2

theorem notGreater_refl (a : XY) : XY.notGreater a a := by
  rw [notGreater_iff_lex]

theorem notGreater_of_Less (a b : XY) (h : a.Less b = true) : XY.notGreater a b := by
  rw [notGreater_iff_lex]
  rw [Less_iff_lex] at h
  exact h.le

theorem notGreater_of_not_Less (a b : XY) (h : ¬ a.Less b = true) : XY.notGreater b a := by
  unfold XY.notGreater
  simpa using h

theorem rightmost_loop (ps rest pre : List XY) (i rpi : Nat) (hps : ps = pre ++ rest)
    (hi : i = pre.length) (hr : rpi < ps.length)
    (hmax : ∀ x ∈ pre, XY.notGreater x (ps.getD rpi ⟨0, 0⟩)) :
    rightmostThenHighestIndex.loop ps rest i rpi < ps.length ∧
      ∀ x ∈ ps, XY.notGreater x
        (ps.getD (rightmostThenHighestIndex.loop ps rest i rpi) ⟨0, 0⟩) := by
  induction rest generalizing pre i rpi with
  | nil =>
    simp only [rightmostThenHighestIndex.loop]
    refine ⟨hr, ?_⟩
    intro x hx
    apply hmax
    rw [hps, List.append_nil] at hx
    exact hx
  | cons p rest ih =>
    have hpi : ps.getD i ⟨0, 0⟩ = p := by
      rw [hps, hi, List.getD_append_right _ _ _ _ (le_refl _)]
      simp
    have hlt : i < ps.length := by
      rw [hps, hi]; simp
    unfold rightmostThenHighestIndex.loop
    simp only [rightmost_cond]
    split_ifs with hc
    · apply ih (pre ++ [p]) (i + 1) i (by rw [hps]; simp) (by rw [hi]; simp) hlt
      intro x hx
      rw [hpi]
      rcases List.mem_append.1 hx with h | h
      · exact notGreater_trans _ _ _ (hmax x h) (notGreater_of_Less _ _ hc)
      · simp only [List.mem_singleton] at h
        rw [h]
        exact notGreater_refl p
    · apply ih (pre ++ [p]) (i + 1) rpi (by rw [hps]; simp) (by rw [hi]; simp) hr
      intro x hx
      rcases List.mem_append.1 hx with h | h
      · exact hmax x h
      · simp only [List.mem_singleton] at h
        rw [h]
        exact notGreater_of_not_Less _ _ hc

theorem leftmost_loop (ps rest pre : List XY) (i rpi : Nat) (hps : ps = pre ++ rest)
    (hi : i = pre.length) (hr : rpi < ps.length)
    (hmin : ∀ x ∈ pre, XY.notGreater (ps.getD rpi ⟨0, 0⟩) x) :
    leftmostThenLowestIndex.loop ps rest i rpi < ps.length ∧
      ∀ x ∈ ps, XY.notGreater
        (ps.getD (leftmostThenLowestIndex.loop ps rest i rpi) ⟨0, 0⟩) x := by
  induction rest generalizing pre i rpi with
  | nil =>
    simp only [leftmostThenLowestIndex.loop]
    refine ⟨hr, ?_⟩
    intro x hx
    apply hmin
    rw [hps, List.append_nil] at hx
    exact hx
  | cons p rest ih =>
    have hpi : ps.getD i ⟨0, 0⟩ = p := by
      rw [hps, hi, List.getD_append_right _ _ _ _ (le_refl _)]
      simp
    have hlt : i < ps.length := by
      rw [hps, hi]; simp
    unfold leftmostThenLowestIndex.loop
    simp only [leftmost_cond]
    split_ifs with hc
    · apply ih (pre ++ [p]) (i + 1) i (by rw [hps]; simp) (by rw [hi]; simp) hlt
      intro x hx
      rw [hpi]
      rcases List.mem_append.1 hx with h | h
      · exact notGreater_trans _ _ _ (notGreater_of_Less _ _ hc) (hmin x h)
      · simp only [List.mem_singleton] at h
        rw [h]
        exact notGreater_refl p
    · apply ih (pre ++ [p]) (i + 1) rpi (by rw [hps]; simp) (by rw [hi]; simp) hr
      intro x hx
      rcases List.mem_append.1 hx with h | h
      · exact hmin x h
      · simp only [List.mem_singleton] at h
        rw [h]
        exact notGreater_of_not_Less _ _ hc

/-- The index found by `rightmostThenHighestIndex` is in range and its point
is not below any point of the list. -/
theorem rightmostThenHighestIndex_max (ps : List XY) (h : ps ≠ []) :
    rightmostThenHighestIndex ps < ps.length ∧
      ∀ x ∈ ps, XY.notGreater x (ps.getD (rightmostThenHighestIndex ps) ⟨0, 0⟩) := by
  rcases ps with _ | ⟨p, ps⟩
  · exact absurd rfl h
  · unfold rightmostThenHighestIndex
    apply rightmost_loop (p :: ps) ((p :: ps).drop 1) [p] 1 0 (by simp) rfl (by simp)
    intro x hx
    simp only [List.mem_singleton] at hx
    rw [hx]
    exact notGreater_refl p

/-- The index found by `leftmostThenLowestIndex` is in range and its point is
not above any point of the list. -/
theorem leftmostThenLowestIndex_min (ps : List XY) (h : ps ≠ []) :
    leftmostThenLowestIndex ps < ps.length ∧
      ∀ x ∈ ps, XY.notGreater (ps.getD (leftmostThenLowestIndex ps) ⟨0, 0⟩) x := by
  rcases ps with _ | ⟨p, ps⟩
  · exact absurd rfl h
  · unfold leftmostThenLowestIndex
    apply leftmost_loop (p :: ps) ((p :: ps).drop 1) [p] 1 0 (by simp) rfl (by simp)
    intro x hx
    simp only [List.mem_singleton] at hx
    rw [hx]
    exact notGreater_refl p

theorem sorted_XY (l : List XY) : (l.insertionSort XY.notGreater).Sorted XY.notGreater := by
  haveI : IsTotal XY XY.notGreater :=
    ⟨fun p q => by simp only [notGreater_iff_lex]; exact le_total _ _⟩
  haveI : IsTrans XY XY.notGreater := ⟨notGreater_trans⟩
  exact List.sorted_insertionSort _ l

theorem notGreater_antisymm (a b : XY) (h1 : XY.notGreater a b) (h2 : XY.notGreater b a) :
    a = b := by
  rw [notGreater_iff_lex] at h1 h2
  have he := le_antisymm h1 h2
  have hx := congrArg (fun z => (ofLex z).1) he
  have hy := congrArg (fun z => (ofLex z).2) he
  exact (XY.eq_iff _ _).2 ⟨hx, hy⟩

/-- The four points in lexicographic order are the smallest point that the
reducer removes, the two points it keeps in order, and the largest point that
it removes. -/
theorem sortedFour_eq (a b c d : XY) :
    ∃ lo hi, sortedFour a b c d =
      lo :: (reducedPair a b c d).insertionSort XY.notGreater ++ [hi] := by
  obtain ⟨hi1, hmax⟩ := rightmostThenHighestIndex_max [a, b, c, d] (by simp)
  have hlen : ([a, b, c, d].eraseIdx (rightmostThenHighestIndex [a, b, c, d])).length = 3 := by
    rw [List.length_eraseIdx, if_pos hi1]
    rfl
  have hne : [a, b, c, d].eraseIdx (rightmostThenHighestIndex [a, b, c, d]) ≠ [] := by
    intro h
    rw [h] at hlen
    simp at hlen
  obtain ⟨hj, hmin⟩ := leftmostThenLowestIndex_min _ hne
  have perm1 := perm_eraseIdx [a, b, c, d] _ ⟨0, 0⟩ hi1
  have perm2 := perm_eraseIdx _ _ ⟨0, 0⟩ hj
  have hR : reducedPair a b c d =
      ([a, b, c, d].eraseIdx (rightmostThenHighestIndex [a, b, c, d])).eraseIdx
        (leftmostThenLowestIndex
          ([a, b, c, d].eraseIdx (rightmostThenHighestIndex [a, b, c, d]))) := rfl
  rw [← hR] at perm2
  generalize hM : [a, b, c, d].getD (rightmostThenHighestIndex [a, b, c, d]) ⟨0, 0⟩ = M
    at perm1 hmax
  generalize hL : [a, b, c, d].eraseIdx (rightmostThenHighestIndex [a, b, c, d]) = L1
    at perm1 perm2 hmin
  generalize hm : L1.getD (leftmostThenLowestIndex L1) ⟨0, 0⟩ = m at perm2 hmin
  generalize reducedPair a b c d = R at perm2
  have hsR := List.perm_insertionSort XY.notGreater R
  have hRL1 : ∀ x ∈ R, x ∈ L1 := fun x hx => perm2.mem_iff.2 (List.mem_cons_of_mem _ hx)
  have hL1L : ∀ x ∈ L1, x ∈ [a, b, c, d] :=
    fun x hx => perm1.mem_iff.2 (List.mem_cons_of_mem _ hx)
  have hmL1 : m ∈ L1 := perm2.mem_iff.2 (List.mem_cons_self _ _)
  refine ⟨m, M, ?_⟩
  haveI : IsAntisymm XY XY.notGreater := ⟨notGreater_antisymm⟩
  apply List.eq_of_perm_of_sorted _ (sorted_XY _)
  · rw [show m :: List.insertionSort XY.notGreater R ++ [M] =
      m :: (List.insertionSort XY.notGreater R ++ [M]) from rfl]
    refine List.pairwise_cons.2 ⟨?_, ?_⟩
    · intro x hx
      rcases List.mem_append.1 hx with h | h
      · exact hmin x (hRL1 x (hsR.mem_iff.1 h))
      · simp only [List.mem_singleton] at h
        rw [h]
        exact hmax m (hL1L m hmL1)
    · rw [List.pairwise_append]
      refine ⟨sorted_XY R, List.pairwise_singleton _ _, ?_⟩
      intro x hx y hy
      simp only [List.mem_singleton] at hy
      rw [hy]
      exact hmax x (hL1L x (hRL1 x (hsR.mem_iff.1 hx)))
  · refine (List.perm_insertionSort _ _).trans ?_
    refine perm1.trans ?_
    refine (List.Perm.cons M perm2).trans ?_
    refine (List.Perm.swap m M R).trans ?_
    refine List.Perm.cons m ?_
    refine (@List.perm_append_comm _ [M] R).trans ?_
    exact List.Perm.append_right [M] hsR.symm

theorem sort_two (p0 p1 : XY) :
    [p0, p1].insertionSort XY.notGreater = [p0, p1] ∨
      [p0, p1].insertionSort XY.notGreater = [p1, p0] := by
  simp only [List.insertionSort, List.orderedInsert]
  split_ifs
  · exact Or.inl rfl
  · exact Or.inr rfl

/-- C30: in the collinear case of `intersectLineWithLine` in which the
segments touch or overlap, the two points left after removing the
rightmost-then-highest and then the leftmost-then-lowest of `[a, b, c, d]` are
the second and the third of the four points in lexicographic (x, then y)
order; the result is that Point when the two are equal and otherwise the Line
from the first to the second of the two. -/
theorem collinear_reducer_keeps_middle (n1 n2 : Line)
    (h1 : orientation n1.a.XY n1.b.XY n2.a.XY = .collinear)
    (h2 : orientation n1.a.XY n1.b.XY n2.b.XY = .collinear)
    (ht : noEndpointOnOther n1.a.XY n1.b.XY n2.a.XY n2.b.XY = false) :
    ∃ lo s1 s2 hi p0 p1,
      sortedFour n1.a.XY n1.b.XY n2.a.XY n2.b.XY = [lo, s1, s2, hi] ∧
      reducedPair n1.a.XY n1.b.XY n2.a.XY n2.b.XY = [p0, p1] ∧
      ((p0 = s1 ∧ p1 = s2) ∨ (p0 = s2 ∧ p1 = s1)) ∧
      (p0 = p1 → intersectLineWithLine n1 n2 = .ok (.point (NewPointXY p0))) ∧
      (p0 ≠ p1 → intersectLineWithLine n1 n2 = .ok (.line ⟨⟨p0⟩, ⟨p1⟩⟩)) := by
  obtain ⟨lo, hi, hs⟩ := sortedFour_eq n1.a.XY n1.b.XY n2.a.XY n2.b.XY
  obtain ⟨p0, p1, hred⟩ := reducedPair_length n1.a.XY n1.b.XY n2.a.XY n2.b.XY
  rw [hred] at hs
  have hres : intersectLineWithLine n1 n2 =
      if p0.Equals p1 then .ok (.point (NewPointXY p0))
      else (must (NewLineC ⟨p0⟩ ⟨p1⟩)).map Geometry.line := by
    rw [intersectLineWithLine_unfold, hred]
    simp only [h1, h2, ht, ne_eq, not_true_eq_false, false_and, if_false, and_self, if_true,
      Bool.false_eq_true]
  have hpoint : p0 = p1 → intersectLineWithLine n1 n2 = .ok (.point (NewPointXY p0)) := by
    intro h
    rw [hres, if_pos (by simp [XY.Equals, h])]
  have hline : p0 ≠ p1 → intersectLineWithLine n1 n2 = .ok (.line ⟨⟨p0⟩, ⟨p1⟩⟩) := by
    intro h
    rw [hres, if_neg (by simp [XY.Equals, h]), must_NewLineC p0 p1 h]
  rcases sort_two p0 p1 with h | h
  · rw [h] at hs
    exact ⟨lo, p0, p1, hi, p0, p1, hs, hred, Or.inl ⟨rfl, rfl⟩, hpoint, hline⟩
  · rw [h] at hs
    exact ⟨lo, p1, p0, hi, p0, p1, hs, hred, Or.inr ⟨rfl, rfl⟩, hpoint, hline⟩

/-- Witness for C30: the segments from (0 0) to (2 0) and from (1 0) to (3 0)
overlap. -/
theorem collinear_reducer_keeps_middle_witness :
    ∃ lo s1 s2 hi p0 p1,
      sortedFour ⟨0, 0⟩ ⟨2, 0⟩ ⟨1, 0⟩ ⟨3, 0⟩ = [lo, s1, s2, hi] ∧
      reducedPair ⟨0, 0⟩ ⟨2, 0⟩ ⟨1, 0⟩ ⟨3, 0⟩ = [p0, p1] ∧
      ((p0 = s1 ∧ p1 = s2) ∨ (p0 = s2 ∧ p1 = s1)) ∧
      (p0 = p1 → intersectLineWithLine ⟨⟨⟨0, 0⟩⟩, ⟨⟨2, 0⟩⟩⟩ ⟨⟨⟨1, 0⟩⟩, ⟨⟨3, 0⟩⟩⟩ =
        .ok (.point (NewPointXY p0))) ∧
      (p0 ≠ p1 → intersectLineWithLine ⟨⟨⟨0, 0⟩⟩, ⟨⟨2, 0⟩⟩⟩ ⟨⟨⟨1, 0⟩⟩, ⟨⟨3, 0⟩⟩⟩ =
        .ok (.line ⟨⟨p0⟩, ⟨p1⟩⟩)) :=
  collinear_reducer_keeps_middle ⟨⟨⟨0, 0⟩⟩, ⟨⟨2, 0⟩⟩⟩ ⟨⟨⟨1, 0⟩⟩, ⟨⟨3, 0⟩⟩⟩
    (by decide!) (by decide!) (by decide!)

/-- Witness for C28: the three points (0 0), (1 0), (0 1), with the first two
exchanged. -/
theorem orientation_swap_witness :
    orientation ⟨1, 0⟩ ⟨0, 0⟩ ⟨0, 1⟩ = (orientation ⟨0, 0⟩ ⟨1, 0⟩ ⟨0, 1⟩).neg :=
  (orientation_swap ⟨0, 0⟩ ⟨1, 0⟩ ⟨0, 1⟩).1

/-- Witness for C29: the triangle (0 0,12 0,0 12,0 0) and the triangle
(0 1,1 2,0 3,0 1) with a side on it. -/
theorem hasIntersectionMultiLineStringWithMultiLineString_max_witness :
    (hasIntersectionMultiLineStringWithMultiLineString ⟨[sweepOuter]⟩
        ⟨[sweepHoleOnSide]⟩).2 = 1 ↔
      ∃ l1 ∈ (MultiLineString.mk [sweepOuter]).segments,
        ∃ l2 ∈ (MultiLineString.mk [sweepHoleOnSide]).segments, ∃ p q, p ≠ q ∧
          commonPoint l1 l2 p ∧ commonPoint l1 l2 q :=
  ((hasIntersectionMultiLineStringWithMultiLineString_max ⟨[sweepOuter]⟩
    ⟨[sweepHoleOnSide]⟩).2.2.2.2.2
    (fun ls h => by
      rw [List.mem_singleton.1 h]
      exact (NewLineStringC_valid _ _ _ eval_sweep_rings.1).1)
    (fun ls h => by
      rw [List.mem_singleton.1 h]
      exact (NewLineStringC_valid _ _ _ eval_sweep_rings.2.2).1)).2

/-! ## The text parser on the text of a geometry -/

theorem check_none (p : parser) : p.check none = p := by
  simp [parser.check]

theorem nextToken_cons (t : Token) (rest : List Token) (o : List ConstructorOption)
    (e : Option GeomError) (k : Option PanicReason) :
    (parser.mk (t :: rest) o e k).nextToken = (t, ⟨rest, o, e, k⟩) := by
  simp [parser.nextToken, wktLexer.next, parser.check]

theorem peekToken_cons (t : Token) (rest : List Token) (o : List ConstructorOption)
    (e : Option GeomError) (k : Option PanicReason) :
    (parser.mk (t :: rest) o e k).peekToken = (t, ⟨t :: rest, o, e, k⟩) := by
  simp [parser.peekToken, wktLexer.peek, parser.check]

theorem nextCommaOrRightParen_comma (rest : List Token) (o : List ConstructorOption)
    (e : Option GeomError) (k : Option PanicReason) :
    (parser.mk (.text "," :: rest) o e k).nextCommaOrRightParen =
      (.text ",", ⟨rest, o, e, k⟩) := by
  simp [parser.nextCommaOrRightParen, nextToken_cons]

theorem nextCommaOrRightParen_paren (rest : List Token) (o : List ConstructorOption)
    (e : Option GeomError) (k : Option PanicReason) :
    (parser.mk (.text ")" :: rest) o e k).nextCommaOrRightParen =
      (.text ")", ⟨rest, o, e, k⟩) := by
  simp [parser.nextCommaOrRightParen, nextToken_cons]

theorem nextEmptySetOrLeftParen_paren (rest : List Token) (o : List ConstructorOption)
    (e : Option GeomError) (k : Option PanicReason) :
    (parser.mk (.text "(" :: rest) o e k).nextEmptySetOrLeftParen =
      (.text "(", ⟨rest, o, e, k⟩) := by
  simp [parser.nextEmptySetOrLeftParen, nextToken_cons]

theorem nextRightParen_paren (rest : List Token) (o : List ConstructorOption)
    (e : Option GeomError) (k : Option PanicReason) :
    (parser.mk (.text ")" :: rest) o e k).nextRightParen = ⟨rest, o, e, k⟩ := by
  simp [parser.nextRightParen, nextToken_cons]

theorem appendFloat_eq (dst : List Token) (f : ℚ) :
    appendFloat dst f = dst ++ appendFloat [] f := by
  unfold appendFloat
  split_ifs <;> simp

theorem nextSignedNumericLiteral_appendFloat (x : ℚ) (rest : List Token)
    (o : List ConstructorOption) (e : Option GeomError) (k : Option PanicReason) :
    (parser.mk (appendFloat [] x ++ rest) o e k).nextSignedNumericLiteral =
      (.finite x, ⟨rest, o, e, k⟩) := by
  unfold appendFloat
  split_ifs with h
  · simp [parser.nextSignedNumericLiteral, nextToken_cons, strconv.ParseFloat, check_none,
      math.IsNaN, math.IsInf, Float64.negate]
  · simp [parser.nextSignedNumericLiteral, nextToken_cons, strconv.ParseFloat, check_none,
      math.IsNaN, math.IsInf]

theorem nextPoint_xyTokens (c : Coordinates) (rest : List Token)
    (o : List ConstructorOption) (e : Option GeomError) (k : Option PanicReason) :
    (parser.mk (xyTokens c ++ rest) o e k).nextPoint = (c, ⟨rest, o, e, k⟩) := by
  unfold xyTokens
  rw [appendFloat_eq, List.append_assoc]
  simp only [parser.nextPoint, nextSignedNumericLiteral_appendFloat, Float64.value]

theorem loop_reads {α β : Type} (item : parser → α × parser) (enc : β → List Token)
    (dec : β → α) (o : List ConstructorOption) (e : Option GeomError) (k : Option PanicReason)
    (xs : List β)
    (hitem : ∀ x ∈ xs, ∀ rest, item ⟨enc x ++ rest, o, e, k⟩ = (dec x, ⟨rest, o, e, k⟩))
    (n : Nat) (acc : List α) (rest : List Token) (hn : xs.length < n) :
    parser.loop item n
        ⟨(xs.map fun x => Token.text "," :: enc x).flatten ++ Token.text ")" :: rest, o, e, k⟩
        acc =
      (acc ++ xs.map dec, ⟨rest, o, e, k⟩) := by
  induction xs generalizing n acc with
  | nil =>
    obtain ⟨m, rfl⟩ : ∃ m, n = m + 1 := ⟨n - 1, by simp at hn; omega⟩
    simp [parser.loop, nextCommaOrRightParen_paren]
  | cons x xs ih =>
    obtain ⟨m, rfl⟩ : ∃ m, n = m + 1 := ⟨n - 1, by simp at hn; omega⟩
    simp only [List.map_cons, List.flatten_cons, List.cons_append, List.append_assoc]
    unfold parser.loop
    simp only [nextCommaOrRightParen_comma, if_true]
    rw [hitem x (List.mem_cons_self _ _)]
    simp only []
    rw [ih (fun y hy => hitem y (List.mem_cons_of_mem _ hy)) m _ (by simp at hn; omega)]
    simp

theorem nextLineStringText_lineBody (c : Coordinates) (cs : List Coordinates)
    (rest : List Token) (o : List ConstructorOption) (e : Option GeomError)
    (k : Option PanicReason) (n : Nat) (hn : cs.length < n) :
    (parser.mk (lineBody (c :: cs) ++ rest) o e k).nextLineStringText n =
      (c :: cs, ⟨rest, o, e, k⟩) := by
  simp only [lineBody, List.cons_append, List.append_assoc, List.nil_append, List.singleton_append,
    parser.nextLineStringText, nextEmptySetOrLeftParen_paren]
  rw [if_neg (by decide), nextPoint_xyTokens]
  simp only []
  rw [loop_reads parser.nextPoint xyTokens id o e k cs
    (fun x _ rest => nextPoint_xyTokens x rest o e k) n _ rest hn]
  simp

theorem foldl_enumFrom_body (coords : List Coordinates) (l : List Nat) (k : Nat) (hk : 0 < k)
    (dst : List Token) :
    (l.enumFrom k).foldl (fun dst ip =>
        let dst := if ip.1 > 0 then dst ++ [Token.text ","] else dst
        let c := coords.getD ip.2 ⟨⟨0, 0⟩⟩
        let dst := appendFloat dst c.XY.X
        appendFloat dst c.XY.Y) dst =
      dst ++ (l.map fun i => Token.text "," :: xyTokens (coords.getD i ⟨⟨0, 0⟩⟩)).flatten := by
  induction l generalizing k dst with
  | nil => simp
  | cons i l ih =>
    simp only [List.enumFrom_cons, List.foldl_cons, List.map_cons, List.flatten_cons]
    rw [ih (k + 1) (by omega)]
    simp only [gt_iff_lt, hk, if_true]
    rw [appendFloat_eq _ (coords.getD i ⟨⟨0, 0⟩⟩).XY.Y, appendFloat_eq _ (coords.getD i ⟨⟨0, 0⟩⟩).XY.X]
    unfold xyTokens
    rw [appendFloat_eq (appendFloat [] _) _]
    simp

theorem appendWKTBody_eq (s : LineString) (dst : List Token) :
    s.appendWKTBody dst = dst ++ lineBody (s.points.map fun i => s.coords.getD i ⟨⟨0, 0⟩⟩) := by
  unfold LineString.appendWKTBody
  simp only []
  cases hpts : s.points with
  | nil => simp [lineBody, List.enum]
  | cons i l =>
    simp only [List.enum, List.enumFrom_cons, List.foldl_cons, List.map_cons, lineBody]
    rw [foldl_enumFrom_body _ _ _ (by omega)]
    simp only [gt_iff_lt, lt_self_iff_false, if_false]
    rw [appendFloat_eq _ (s.coords.getD i ⟨⟨0, 0⟩⟩).XY.Y, appendFloat_eq _ (s.coords.getD i ⟨⟨0, 0⟩⟩).XY.X]
    unfold xyTokens
    rw [appendFloat_eq (appendFloat [] _) _]
    simp [Function.comp_def]

theorem NewLineStringC_points (pts : List Coordinates) (opts : List ConstructorOption)
    (ls : LineString) (h : NewLineStringC pts opts = .ok ls) :
    ls.points.map (fun i => ls.coords.getD i ⟨⟨0, 0⟩⟩) = pts := by
  obtain ⟨h1, -⟩ := fold_invariant pts _ rfl
  rw [NewLineStringC_eq] at h
  split_ifs at h
  injection h with h
  subst h
  exact h1

theorem NewLineStringC_two (pts : List Coordinates) (ls : LineString)
    (h : NewLineStringC pts [] = .ok ls) :
    ∃ a b rest, pts = a :: b :: rest ∧ (rest = [] → a.XY ≠ b.XY) := by
  match pts, h with
  | [], h => simp [NewLineStringC, doCheapValidations] at h
  | [a], h => simp [NewLineStringC, NewLineStringC.step, doCheapValidations] at h
  | a :: b :: rest, h =>
    refine ⟨a, b, rest, rfl, ?_⟩
    rintro rfl hab
    simp [NewLineStringC, NewLineStringC.step, doCheapValidations, hab] at h

theorem LineString_AsText (pts : List Coordinates) (opts : List ConstructorOption)
    (ls : LineString) (h : NewLineStringC pts opts = .ok ls) :
    ls.AsText = Token.text "LINESTRING" :: lineBody pts := by
  rw [LineString.AsText, LineString.AppendWKT, appendWKTBody_eq,
    NewLineStringC_points pts opts ls h]
  rfl

theorem nextGeometryTaggedText_lineString (n : Nat) (l : List Token)
    (o : List ConstructorOption) (e : Option GeomError) (k : Option PanicReason) :
    parser.nextGeometryTaggedText (n + 1) ⟨.text "LINESTRING" :: l, o, e, k⟩ =
      match ((parser.mk l o e k).nextLineStringText n).1 with
      | [] => (.emptyLineString, ((parser.mk l o e k).nextLineStringText n).2)
      | [a, b] =>
        (.line (((parser.mk l o e k).nextLineStringText n).2.checked ⟨⟨⟨0, 0⟩⟩, ⟨⟨0, 0⟩⟩⟩
            (NewLineC.withOptions a b o)).1,
          (((parser.mk l o e k).nextLineStringText n).2.checked ⟨⟨⟨0, 0⟩⟩, ⟨⟨0, 0⟩⟩⟩
            (NewLineC.withOptions a b o)).2)
      | pts =>
        (.lineString (((parser.mk l o e k).nextLineStringText n).2.checked ⟨[], []⟩
            (NewLineStringC pts o)).1,
          (((parser.mk l o e k).nextLineStringText n).2.checked ⟨[], []⟩
            (NewLineStringC pts o)).2) := by
  rfl

theorem nextGeometryTaggedText_polygon (n : Nat) (l : List Token)
    (o : List ConstructorOption) (e : Option GeomError) (k : Option PanicReason) :
    parser.nextGeometryTaggedText (n + 1) ⟨.text "POLYGON" :: l, o, e, k⟩ =
      if ((parser.mk l o e k).nextPolygonText n).1.length = 0 then
        (.emptyPolygon, ((parser.mk l o e k).nextPolygonText n).2)
      else
        (.polygon (((parser.mk l o e k).nextPolygonText n).2.checked ⟨⟨[], []⟩, []⟩
            (NewPolygonC ((parser.mk l o e k).nextPolygonText n).1 o)).1,
          (((parser.mk l o e k).nextPolygonText n).2.checked ⟨⟨[], []⟩, []⟩
            (NewPolygonC ((parser.mk l o e k).nextPolygonText n).1 o)).2) := by
  rfl

theorem nextGeometryTaggedText_multiPoint (n : Nat) (l : List Token)
    (o : List ConstructorOption) (e : Option GeomError) (k : Option PanicReason) :
    parser.nextGeometryTaggedText (n + 1) ⟨.text "MULTIPOINT" :: l, o, e, k⟩ =
      (.multiPoint (NewMultiPointOC ((parser.mk l o e k).nextMultiPointText n).1 o),
        ((parser.mk l o e k).nextMultiPointText n).2) := by
  rfl

theorem length_appendFloat (x : ℚ) : 1 ≤ (appendFloat [] x).length := by
  unfold appendFloat
  split_ifs <;> simp

theorem length_xyTokens (c : Coordinates) : 1 ≤ (xyTokens c).length := by
  unfold xyTokens
  rw [appendFloat_eq, List.length_append]
  have := length_appendFloat c.XY.X
  omega

theorem length_flatten_commas {β : Type} (enc : β → List Token) (xs : List β) :
    xs.length ≤ (xs.map fun x => Token.text "," :: enc x).flatten.length := by
  induction xs with
  | nil => simp
  | cons x xs ih =>
    simp only [List.map_cons, List.flatten_cons, List.length_append, List.length_cons]
    omega

theorem length_lineBody (c : List Coordinates) : c.length < (lineBody c).length := by
  cases c with
  | nil => simp [lineBody]
  | cons a cs =>
    simp only [lineBody, List.length_append, List.length_cons, List.length_nil]
    have h1 := length_xyTokens a
    have h2 := length_flatten_commas xyTokens cs
    omega

theorem checkEOF_nil (o : List ConstructorOption) (e : Option GeomError)
    (k : Option PanicReason) : (parser.mk [] o e k).checkEOF = ⟨[], o, e, k⟩ := by
  simp [parser.checkEOF, wktLexer.next]

theorem parse_lineString (pts : List Coordinates) (ls : LineString)
    (h : NewLineStringC pts [] = .ok ls) :
    UnmarshalWKT ls.AsText [] = .ok (lineOrLineString pts ls) := by
  obtain ⟨a, b, rest, rfl, hab⟩ := NewLineStringC_two pts ls h
  rw [LineString_AsText _ _ _ h]
  unfold UnmarshalWKT
  simp only [newParser]
  rw [List.length_cons, nextGeometryTaggedText_lineString]
  have hb := nextLineStringText_lineBody a (b :: rest) [] [] none none
    ((lineBody (a :: b :: rest)).length + 1)
    (by have := length_lineBody (a :: b :: rest); simp only [List.length_cons] at this ⊢; omega)
  rw [List.append_nil] at hb
  rw [hb]
  cases rest with
  | nil =>
    have hne : a.XY ≠ b.XY := hab rfl
    simp [parser.checked, NewLineC.withOptions, doCheapValidations, NewLineC, hne, checkEOF_nil,
      lineOrLineString]
  | cons c rest =>
    simp only [h, parser.checked, checkEOF_nil, lineOrLineString]

theorem foldl_holes (holes : List LineString) (dst : List Token) :
    holes.foldl (fun dst h => h.appendWKTBody (dst ++ [Token.text ","])) dst =
      dst ++ (holes.map fun h =>
        Token.text "," :: lineBody (h.points.map fun i => h.coords.getD i ⟨⟨0, 0⟩⟩)).flatten := by
  induction holes generalizing dst with
  | nil => simp
  | cons h holes ih =>
    simp only [List.foldl_cons, List.map_cons, List.flatten_cons]
    rw [ih, appendWKTBody_eq]
    simp

theorem rings_forall (opts : List ConstructorOption) (coords : List (List Coordinates))
    (rings : List LineString) :
    NewPolygonC.rings opts coords = .ok rings ↔
      List.Forall₂ (fun c r => NewLineStringC c opts = .ok r) coords rings := by
  induction coords generalizing rings with
  | nil =>
    cases rings <;> simp [NewPolygonC.rings]
  | cons c cs ih =>
    unfold NewPolygonC.rings
    constructor
    · intro h
      split at h
      · cases h
      · cases h
      · rename_i ring hring
        split at h
        · cases h
        · cases h
        · rename_i rs hrs
          injection h with h
          subst h
          exact List.Forall₂.cons hring ((ih rs).1 hrs)
    · intro h
      cases h with
      | cons hring hrest =>
        rw [hring]
        simp only []
        rw [(ih _).2 hrest]

theorem Polygon_AsText (opts : List ConstructorOption) (coords : List (List Coordinates))
    (outer : LineString) (holes : List LineString)
    (hr : List.Forall₂ (fun c r => NewLineStringC c opts = .ok r) coords (outer :: holes)) :
    (Polygon.mk outer holes).AsText = Token.text "POLYGON" :: polygonBody coords := by
  cases hr with
  | cons h0 hrest =>
    rename_i c0 cs
    simp only [Polygon.AsText, Polygon.AppendWKT, Polygon.appendWKTBody]
    rw [foldl_holes, appendWKTBody_eq, NewLineStringC_points _ _ _ h0]
    simp only [polygonBody]
    have : (holes.map fun h =>
        Token.text "," :: lineBody (h.points.map fun i => h.coords.getD i ⟨⟨0, 0⟩⟩)) =
        cs.map fun c => Token.text "," :: lineBody c := by
      clear h0
      induction hrest with
      | nil => rfl
      | cons h _ ih => simp only [List.map_cons, NewLineStringC_points _ _ _ h, ih]
    rw [this]
    simp

theorem nextPolygonText_polygonBody (c0 : List Coordinates) (cs : List (List Coordinates))
    (rest : List Token) (o : List ConstructorOption) (e : Option GeomError)
    (k : Option PanicReason) (n : Nat)
    (hc : ∀ c ∈ c0 :: cs, c ≠ [] ∧ c.length ≤ n) (hn : cs.length < n) :
    (parser.mk (polygonBody (c0 :: cs) ++ rest) o e k).nextPolygonText n =
      (c0 :: cs, ⟨rest, o, e, k⟩) := by
  have hitem : ∀ c ∈ c0 :: cs, ∀ rest,
      parser.nextLineStringText n ⟨lineBody c ++ rest, o, e, k⟩ = (c, ⟨rest, o, e, k⟩) := by
    intro c hmem rest
    obtain ⟨hne, hlen⟩ := hc c hmem
    cases c with
    | nil => exact absurd rfl hne
    | cons a t =>
      exact nextLineStringText_lineBody a t rest o e k n
        (by simp only [List.length_cons] at hlen; omega)
  simp only [polygonBody, List.cons_append, List.append_assoc, List.nil_append,
    List.singleton_append, parser.nextPolygonText, nextEmptySetOrLeftParen_paren]
  rw [if_neg (by decide), hitem c0 (List.mem_cons_self _ _)]
  simp only []
  rw [loop_reads (parser.nextLineStringText n) lineBody id o e k cs
    (fun x hx rest => hitem x (List.mem_cons_of_mem _ hx) rest) n _ rest hn]
  simp

theorem length_flatten_mem {β : Type} (enc : β → List Token) (xs : List β) (x : β)
    (hx : x ∈ xs) :
    (enc x).length < (xs.map fun x => Token.text "," :: enc x).flatten.length := by
  induction xs with
  | nil => cases hx
  | cons y ys ih =>
    simp only [List.map_cons, List.flatten_cons, List.length_append, List.length_cons]
    rcases List.mem_cons.1 hx with rfl | h
    · omega
    · have := ih h
      omega

theorem length_polygonBody (coords : List (List Coordinates)) :
    (∀ c ∈ coords, c.length ≤ (polygonBody coords).length) ∧
      coords.length ≤ (polygonBody coords).length := by
  cases coords with
  | nil => simp [polygonBody]
  | cons c0 cs =>
    simp only [polygonBody, List.length_append, List.length_cons, List.length_nil,
      List.mem_cons, forall_eq_or_imp]
    have h0 := length_lineBody c0
    have h1 := length_flatten_commas lineBody cs
    refine ⟨⟨by omega, ?_⟩, by omega⟩
    intro c hc
    have h2 := length_flatten_mem lineBody cs c hc
    have h3 := length_lineBody c
    omega

theorem rings_ne_nil (coords : List (List Coordinates)) (rings : List LineString)
    (hr : List.Forall₂ (fun c r => NewLineStringC c [] = .ok r) coords rings) :
    ∀ c ∈ coords, c ≠ [] := by
  induction hr with
  | nil => simp
  | cons h _ ih =>
    intro c hc
    rcases List.mem_cons.1 hc with rfl | hc
    · rintro rfl
      simp [NewLineStringC, doCheapValidations] at h
    · exact ih c hc

theorem parse_polygon (coords : List (List Coordinates)) (outer : LineString)
    (holes : List LineString) (poly : Polygon)
    (hr : List.Forall₂ (fun c r => NewLineStringC c [] = .ok r) coords (outer :: holes))
    (hp : NewPolygon outer holes [] = .ok poly) :
    UnmarshalWKT poly.AsText [] = .ok (.polygon poly) := by
  have hpoly : poly = ⟨outer, holes⟩ := by
    rcases NewPolygon_result outer holes [] with h | ⟨e, h⟩
    · rw [h] at hp
      injection hp with hp
      exact hp.symm
    · rw [h] at hp
      cases hp
  have hC : NewPolygonC coords [] = .ok poly := by
    have hrings := (rings_forall [] coords (outer :: holes)).2 hr
    unfold NewPolygonC
    have hlen : coords.length ≠ 0 := by
      have := hr.length_eq
      simp only [List.length_cons] at this
      omega
    rw [if_neg hlen, hrings]
    exact hp
  have hne : ∀ c ∈ coords, c ≠ [] := rings_ne_nil coords (outer :: holes) hr
  subst hpoly
  rw [Polygon_AsText [] coords outer holes hr]
  obtain ⟨hl1, hl2⟩ := length_polygonBody coords
  cases coords with
  | nil => cases hr
  | cons c0 cs =>
    unfold UnmarshalWKT
    simp only [newParser]
    rw [List.length_cons, nextGeometryTaggedText_polygon]
    have hb := nextPolygonText_polygonBody c0 cs [] [] none none
      ((polygonBody (c0 :: cs)).length + 1)
      (fun c hc => ⟨hne c hc, by have := hl1 c hc; omega⟩)
      (by simp only [List.length_cons] at hl2; omega)
    rw [List.append_nil] at hb
    rw [hb]
    simp [hC, parser.checked, checkEOF_nil]

/-! ## The two styles of the points of a MULTIPOINT -/

theorem xyTokens_head (c : Coordinates) :
    ∃ t l, xyTokens c = t :: l ∧ t ≠ Token.text "EMPTY" ∧ t ≠ Token.text "(" := by
  unfold xyTokens
  rw [appendFloat_eq]
  unfold appendFloat
  split_ifs <;>
    first
    | exact ⟨_, _, rfl, by decide, by decide⟩
    | exact ⟨_, _, rfl, by simp, by simp⟩

theorem nextMultiPointStylePoint_member (parens : Bool) (xy : XY) (rest : List Token)
    (o : List ConstructorOption) (e : Option GeomError) (k : Option PanicReason) :
    (parser.mk (multiPointMember parens xy ++ rest) o e k).nextMultiPointStylePoint =
      (⟨false, ⟨xy⟩⟩, ⟨rest, o, e, k⟩) := by
  have hxy : appendFloat (appendFloat [] xy.X) xy.Y = xyTokens ⟨xy⟩ := rfl
  cases parens with
  | true =>
    simp only [multiPointMember, if_true, hxy, List.cons_append, List.append_assoc,
      List.nil_append, List.singleton_append, parser.nextMultiPointStylePoint, peekToken_cons]
    rw [if_neg (by decide)]
    simp only [decide_True, if_true, nextToken_cons, nextPoint_xyTokens, nextRightParen_paren]
  | false =>
    simp only [multiPointMember, hxy, Bool.false_eq_true, if_false]
    obtain ⟨t, l, htl, h1, h2⟩ := xyTokens_head ⟨xy⟩
    have hp := nextPoint_xyTokens ⟨xy⟩ rest o e k
    rw [htl] at hp ⊢
    simp only [List.cons_append, parser.nextMultiPointStylePoint, peekToken_cons] at hp ⊢
    rw [if_neg h1]
    simp only [h2, decide_False, Bool.false_eq_true, if_false, hp]

theorem nextMultiPointText_members (m : Bool × XY) (ms : List (Bool × XY))
    (rest : List Token) (o : List ConstructorOption) (e : Option GeomError)
    (k : Option PanicReason) (n : Nat) (hn : ms.length < n) :
    (parser.mk (Token.text "(" :: (multiPointMember m.1 m.2 ++
        ((ms.map fun m => Token.text "," :: multiPointMember m.1 m.2).flatten ++
          Token.text ")" :: rest))) o e k).nextMultiPointText n =
      ((m :: ms).map fun m => ⟨false, ⟨m.2⟩⟩, ⟨rest, o, e, k⟩) := by
  simp only [parser.nextMultiPointText, nextEmptySetOrLeftParen_paren]
  rw [if_neg (by decide), nextMultiPointStylePoint_member]
  simp only []
  rw [loop_reads parser.nextMultiPointStylePoint (fun m => multiPointMember m.1 m.2)
    (fun m => ⟨false, ⟨m.2⟩⟩) o e k ms
    (fun x _ rest => nextMultiPointStylePoint_member x.1 x.2 rest o e k) n _ rest hn]
  simp

theorem parse_multiPoint (ms : List (Bool × XY)) (opts : List ConstructorOption)
    (h : ms ≠ []) :
    UnmarshalWKT (multiPointText ms) opts =
      .ok (.multiPoint (NewMultiPoint (ms.map fun m => NewPointXY m.2))) := by
  cases ms with
  | nil => exact absurd rfl h
  | cons m ms =>
    unfold UnmarshalWKT
    simp only [newParser, multiPointText, List.cons_append, List.nil_append, List.append_assoc,
      List.singleton_append, List.length_cons]
    rw [nextGeometryTaggedText_multiPoint]
    rw [nextMultiPointText_members m ms [] opts none none _
      (by
        have := length_flatten_commas (fun m : Bool × XY => multiPointMember m.1 m.2) ms
        simp only [List.length_append, List.length_cons]
        omega)]
    simp [checkEOF_nil, NewMultiPointOC, NewMultiPoint, NewPointC, NewPointXY]

/-! ## What every function of the parser keeps -/

theorem Step_refl (p : parser) : parser.Step p p :=
  ⟨rfl, id, le_refl _, fun h => ⟨h, [], rfl, by simp⟩⟩

theorem Step_trans {p q r : parser} (h1 : parser.Step p q) (h2 : parser.Step q r) :
    parser.Step p r := by
  refine ⟨h2.opts.trans h1.opts, fun h => h2.panicked (h1.panicked h),
    le_trans h2.length h1.length, fun h => ?_⟩
  obtain ⟨hq, c2, hc2, hf2⟩ := h2.read h
  obtain ⟨hp, c1, hc1, hf1⟩ := h1.read hq
  refine ⟨hp, c1 ++ c2, by rw [hc1, hc2, List.append_assoc], ?_⟩
  intro t ht
  rcases List.mem_append.1 ht with ht | ht
  · exact hf1 t ht
  · exact hf2 t ht

theorem Step_check (p : parser) (x : Option GeomError) : parser.Step p (p.check x) := by
  rcases p with ⟨l, o, e, k⟩
  unfold parser.check
  split_ifs with h
  · refine ⟨rfl, id, le_refl _, fun h' => ?_⟩
    simp only [Bool.and_eq_true] at h
    simp only at h'
    rw [h'] at h
    simp at h
  · exact Step_refl _

theorem Step_take (t : Token) (l : List Token) (o : List ConstructorOption)
    (e : Option GeomError) (k : Option PanicReason) (ht : Token.notFinite t = false) :
    parser.Step ⟨t :: l, o, e, k⟩ ⟨l, o, e, k⟩ :=
  ⟨rfl, id, by simp, fun h => ⟨h, [t], rfl, by simpa using ht⟩⟩

theorem Step_fail (p q : parser) (ho : q.opts = p.opts) (hk : q.panicked = p.panicked)
    (hl : q.lexer.length ≤ p.lexer.length) (he : q.err ≠ none) : parser.Step p q :=
  ⟨ho, fun h => by rw [hk]; exact h, hl, fun h => absurd h he⟩

theorem check_lexer (p : parser) (x : Option GeomError) : (p.check x).lexer = p.lexer := by
  unfold parser.check
  split_ifs <;> rfl

theorem check_opts (p : parser) (x : Option GeomError) : (p.check x).opts = p.opts := by
  unfold parser.check
  split_ifs <;> rfl

theorem check_panicked (p : parser) (x : Option GeomError) :
    (p.check x).panicked = p.panicked := by
  unfold parser.check
  split_ifs <;> rfl

theorem check_err (p : parser) (e : GeomError) : (p.check (some e)).err ≠ none := by
  unfold parser.check
  split_ifs with h
  · simp
  · simpa using h

theorem check_err_of (p : parser) (x : Option GeomError) (h : p.err ≠ none) :
    (p.check x).err ≠ none := by
  unfold parser.check
  split_ifs
  · simp only [Bool.and_eq_true, Option.isNone_iff_eq_none] at *
    tauto
  · exact h

theorem nextToken_nil (o : List ConstructorOption) (e : Option GeomError)
    (k : Option PanicReason) :
    (parser.mk [] o e k).nextToken =
      (.text "", (parser.mk [] o e k).check (some .wktUnexpectedEOF)) := by
  simp [parser.nextToken, wktLexer.next]

theorem Step_eof (o : List ConstructorOption) (e : Option GeomError) (k : Option PanicReason)
    (x : Option GeomError) :
    parser.Step ⟨[], o, e, k⟩ (((parser.mk [] o e k).check (some .wktUnexpectedEOF)).check x) :=
  Step_fail _ _ (by simp [check_opts]) (by simp [check_panicked]) (by simp [check_lexer])
    (check_err_of _ _ (check_err _ _))

theorem Step_nextEmptySetOrLeftParen (p : parser) :
    parser.Step p p.nextEmptySetOrLeftParen.2 := by
  rcases p with ⟨l, o, e, k⟩
  cases l with
  | nil =>
    simp only [parser.nextEmptySetOrLeftParen, nextToken_nil, parser.errorf]
    rw [if_pos (by decide)]
    exact Step_eof o e k _
  | cons t l =>
    simp only [parser.nextEmptySetOrLeftParen, nextToken_cons, parser.errorf]
    split_ifs with h
    · exact Step_fail _ _ (by simp [check_opts]) (by simp [check_panicked])
        (by simp [check_lexer]) (check_err _ _)
    · apply Step_take
      have : t = .text "EMPTY" ∨ t = .text "(" := by tauto
      rcases this with rfl | rfl <;> decide

theorem Step_nextRightParen (p : parser) : parser.Step p p.nextRightParen := by
  rcases p with ⟨l, o, e, k⟩
  cases l with
  | nil =>
    simp only [parser.nextRightParen, nextToken_nil]
    rw [if_pos (by decide)]
    exact Step_eof o e k _
  | cons t l =>
    simp only [parser.nextRightParen, nextToken_cons]
    split_ifs with h
    · exact Step_fail _ _ (by simp [check_opts]) (by simp [check_panicked])
        (by simp [check_lexer]) (check_err _ _)
    · apply Step_take
      have : t = .text ")" := by tauto
      subst this
      decide

theorem Step_nextCommaOrRightParen (p : parser) :
    parser.Step p p.nextCommaOrRightParen.2 ∧
      (p.nextCommaOrRightParen.1 = .text "," →
        p.nextCommaOrRightParen.2.lexer.length < p.lexer.length) := by
  rcases p with ⟨l, o, e, k⟩
  cases l with
  | nil =>
    simp only [parser.nextCommaOrRightParen, nextToken_nil]
    rw [if_pos (by decide)]
    exact ⟨Step_eof o e k _, fun h => absurd (show Token.text "" = Token.text "," from h)
      (by decide)⟩
  | cons t l =>
    simp only [parser.nextCommaOrRightParen, nextToken_cons]
    split_ifs with h
    · refine ⟨Step_fail _ _ (by simp [check_opts]) (by simp [check_panicked])
        (by simp [check_lexer]) (check_err _ _), fun _ => by simp [check_lexer]⟩
    · refine ⟨?_, fun _ => by simp⟩
      apply Step_take
      have : t = .text ")" ∨ t = .text "," := by tauto
      rcases this with rfl | rfl <;> decide

theorem Step_parse (t : Token) (l : List Token) (o : List ConstructorOption)
    (e : Option GeomError) (k : Option PanicReason) :
    parser.Step ⟨t :: l, o, e, k⟩
      (if (math.IsNaN (strconv.ParseFloat t).1 || math.IsInf (strconv.ParseFloat t).1) = true then
        ((parser.mk l o e k).check (strconv.ParseFloat t).2).errorf
          (.wktInvalidSignedNumericLiteral t)
      else (parser.mk l o e k).check (strconv.ParseFloat t).2) := by
  split_ifs with h
  · exact Step_fail _ _ (by simp [parser.errorf, check_opts])
      (by simp [parser.errorf, check_panicked]) (by simp [parser.errorf, check_lexer])
      (check_err _ _)
  · exact Step_trans (Step_take t l o e k (by simpa [Token.notFinite] using h)) (Step_check _ _)

theorem Step_nextSignedNumericLiteral (p : parser) :
    parser.Step p p.nextSignedNumericLiteral.2 := by
  rcases p with ⟨l, o, e, k⟩
  cases l with
  | nil =>
    simp only [parser.nextSignedNumericLiteral, nextToken_nil]
    rw [show decide (Token.text "" = Token.text "-") = false by decide]
    simp only [Bool.false_eq_true, if_false]
    apply Step_fail
    · split_ifs <;> simp [parser.errorf, check_opts]
    · split_ifs <;> simp [parser.errorf, check_panicked]
    · split_ifs <;> simp [parser.errorf, check_lexer]
    · split_ifs
      · exact check_err _ _
      · exact check_err_of _ _ (check_err _ _)
  | cons t l =>
    by_cases ht : t = .text "-"
    · subst ht
      have h1 : parser.Step ⟨Token.text "-" :: l, o, e, k⟩ ⟨l, o, e, k⟩ :=
        Step_take _ l o e k (by decide)
      refine Step_trans h1 ?_
      simp only [parser.nextSignedNumericLiteral, nextToken_cons, decide_True, if_true]
      cases l with
      | nil =>
        simp only [nextToken_nil]
        apply Step_fail
        · split_ifs <;> simp [parser.errorf, check_opts]
        · split_ifs <;> simp [parser.errorf, check_panicked]
        · split_ifs <;> simp [parser.errorf, check_lexer]
        · split_ifs
          · exact check_err _ _
          · exact check_err_of _ _ (check_err _ _)
      | cons t2 l =>
        simp only [nextToken_cons]
        exact Step_parse t2 l o e k
    · simp only [parser.nextSignedNumericLiteral, nextToken_cons, ht, decide_False,
        Bool.false_eq_true, if_false]
      exact Step_parse t l o e k

theorem Step_nextPoint (p : parser) : parser.Step p p.nextPoint.2 :=
  Step_trans (Step_nextSignedNumericLiteral p) (Step_nextSignedNumericLiteral _)

theorem Step_nextPointText (p : parser) : parser.Step p p.nextPointText.2 := by
  unfold parser.nextPointText
  simp only []
  split_ifs
  · exact Step_nextEmptySetOrLeftParen p
  · exact Step_trans (Step_nextEmptySetOrLeftParen p)
      (Step_trans (Step_nextPoint _) (Step_nextRightParen _))

theorem Step_loop {α : Type} (item : parser → α × parser) (n : Nat)
    (hitem : ∀ q, q.lexer.length < n → parser.Step q (item q).2) :
    ∀ m p xs, p.lexer.length < m → p.lexer.length < n →
      parser.Step p (parser.loop item m p xs).2 := by
  intro m
  induction m with
  | zero => intro p xs h; omega
  | succ m ih =>
    intro p xs hm hn
    unfold parser.loop
    simp only []
    obtain ⟨hs, hlt⟩ := Step_nextCommaOrRightParen p
    split_ifs with h
    · have h1 := hlt h
      have h2 := hitem p.nextCommaOrRightParen.2 (by omega)
      exact Step_trans hs (Step_trans h2 (ih _ _ (by have := h2.length; omega)
        (by have := h2.length; omega)))
    · exact hs

theorem Step_nextLineStringText (n : Nat) (p : parser) (h : p.lexer.length < n) :
    parser.Step p (p.nextLineStringText n).2 := by
  unfold parser.nextLineStringText
  simp only []
  have h1 := Step_nextEmptySetOrLeftParen p
  split_ifs
  · exact h1
  · have h2 := Step_nextPoint p.nextEmptySetOrLeftParen.2
    have hl1 := h1.length
    have hl2 := h2.length
    exact Step_trans h1 (Step_trans h2
      (Step_loop parser.nextPoint n (fun q _ => Step_nextPoint q) n _ _ (by omega) (by omega)))

theorem Step_nextPolygonText (n : Nat) (p : parser) (h : p.lexer.length < n) :
    parser.Step p (p.nextPolygonText n).2 := by
  unfold parser.nextPolygonText
  simp only []
  have h1 := Step_nextEmptySetOrLeftParen p
  split_ifs
  · exact h1
  · have hl1 := h1.length
    have h2 := Step_nextLineStringText n p.nextEmptySetOrLeftParen.2 (by omega)
    have hl2 := h2.length
    exact Step_trans h1 (Step_trans h2
      (Step_loop (parser.nextLineStringText n) n (fun q hq => Step_nextLineStringText n q hq)
        n _ _ (by omega) (by omega)))

theorem Step_nextMultiPolygonText (n : Nat) (p : parser) (h : p.lexer.length < n) :
    parser.Step p (p.nextMultiPolygonText n).2 := by
  unfold parser.nextMultiPolygonText
  simp only []
  have h1 := Step_nextEmptySetOrLeftParen p
  split_ifs
  · exact h1
  · have hl1 := h1.length
    have h2 := Step_nextPolygonText n p.nextEmptySetOrLeftParen.2 (by omega)
    have hl2 := h2.length
    exact Step_trans h1 (Step_trans h2
      (Step_loop (parser.nextPolygonText n) n (fun q hq => Step_nextPolygonText n q hq)
        n _ _ (by omega) (by omega)))

theorem peekToken_nil (o : List ConstructorOption) (e : Option GeomError)
    (k : Option PanicReason) :
    (parser.mk [] o e k).peekToken =
      (.text "", (parser.mk [] o e k).check (some .wktUnexpectedEOF)) := by
  simp [parser.peekToken, wktLexer.peek]

theorem Step_nextMultiPointStylePoint (p : parser) :
    parser.Step p p.nextMultiPointStylePoint.2 := by
  rcases p with ⟨l, o, e, k⟩
  cases l with
  | nil =>
    simp only [parser.nextMultiPointStylePoint, peekToken_nil]
    rw [if_neg (by decide), show decide (Token.text "" = Token.text "(") = false by decide]
    simp only [Bool.false_eq_true, if_false]
    exact Step_trans (Step_check _ _) (Step_nextPoint _)
  | cons t l =>
    by_cases h1 : t = .text "EMPTY"
    · subst h1
      simp only [parser.nextMultiPointStylePoint, peekToken_cons, if_true, nextToken_cons]
      exact Step_take _ l o e k (by decide)
    · by_cases h2 : t = .text "("
      · subst h2
        simp only [parser.nextMultiPointStylePoint, peekToken_cons]
        rw [if_neg (by decide)]
        simp only [decide_True, if_true, nextToken_cons]
        exact Step_trans (Step_take _ l o e k (by decide))
          (Step_trans (Step_nextPoint _) (Step_nextRightParen _))
      · simp only [parser.nextMultiPointStylePoint, peekToken_cons, h1, h2, decide_False,
          Bool.false_eq_true, if_false]
        exact Step_nextPoint _

theorem Step_nextMultiPointText (n : Nat) (p : parser) (h : p.lexer.length < n) :
    parser.Step p (p.nextMultiPointText n).2 := by
  unfold parser.nextMultiPointText
  simp only []
  have h1 := Step_nextEmptySetOrLeftParen p
  split_ifs
  · exact h1
  · have h2 := Step_nextMultiPointStylePoint p.nextEmptySetOrLeftParen.2
    have hl1 := h1.length
    have hl2 := h2.length
    exact Step_trans h1 (Step_trans h2
      (Step_loop parser.nextMultiPointStylePoint n (fun q _ => Step_nextMultiPointStylePoint q)
        n _ _ (by omega) (by omega)))

theorem Step_nextGeometryCollectionText (next : parser → Geometry × parser) (n : Nat)
    (hnext : ∀ q, q.lexer.length < n → parser.Step q (next q).2)
    (p : parser) (h : p.lexer.length < n) :
    parser.Step p (parser.nextGeometryCollectionText next n p).2 := by
  unfold parser.nextGeometryCollectionText
  simp only []
  have h1 := Step_nextEmptySetOrLeftParen p
  split_ifs
  · exact h1
  · have hl1 := h1.length
    have h2 := hnext p.nextEmptySetOrLeftParen.2 (by omega)
    have hl2 := h2.length
    exact Step_trans h1 (Step_trans h2
      (Step_loop next n hnext n _ _ (by omega) (by omega)))

theorem Step_checked {α : Type} (p : parser) (zero : α) (out : Outcome α)
    (h : ∀ r, out ≠ .panic r) : parser.Step p (p.checked zero out).2 := by
  cases out with
  | ok v => exact Step_refl p
  | error e => exact Step_check p _
  | panic r => exact absurd rfl (h r)

theorem NewLineC_withOptions_no_panic (a b : Coordinates) (opts : List ConstructorOption)
    (r : PanicReason) : NewLineC.withOptions a b opts ≠ .panic r := by
  unfold NewLineC.withOptions NewLineC
  split_ifs <;> simp

theorem rings_no_panic (opts : List ConstructorOption) (coords : List (List Coordinates))
    (r : PanicReason) : NewPolygonC.rings opts coords ≠ .panic r := by
  induction coords generalizing r with
  | nil => simp [NewPolygonC.rings]
  | cons c cs ih =>
    unfold NewPolygonC.rings
    split
    · simp
    · rename_i r2 h
      exact absurd h (NewLineStringC_no_panic _ _ _)
    · split
      · simp
      · rename_i r2 h
        exact absurd h (ih _)
      · simp

theorem NewPolygonC_no_panic (coords : List (List Coordinates)) (opts : List ConstructorOption)
    (r : PanicReason) : NewPolygonC coords opts ≠ .panic r := by
  unfold NewPolygonC
  split_ifs
  · simp
  · split
    · simp
    · rename_i r2 h
      exact absurd h (rings_no_panic _ _ _)
    · rename_i rings _
      rcases NewPolygon_result (rings.headD ⟨[], []⟩) rings.tail opts with h | ⟨e, h⟩ <;>
        rw [h] <;> simp

theorem NewMultiLineStringC_no_panic (coords : List (List Coordinates))
    (opts : List ConstructorOption) (r : PanicReason) :
    NewMultiLineStringC coords opts ≠ .panic r := by
  unfold NewMultiLineStringC
  have := rings_no_panic opts coords
  cases h : NewPolygonC.rings opts coords with
  | ok v => simp [Outcome.map]
  | error e => simp [Outcome.map]
  | panic r2 => exact absurd h (this r2)

theorem polys_no_panic (opts : List ConstructorOption)
    (coords : List (List (List Coordinates))) (r : PanicReason) :
    NewMultiPolygonC.polys opts coords ≠ .panic r := by
  induction coords generalizing r with
  | nil => simp [NewMultiPolygonC.polys]
  | cons c cs ih =>
    unfold NewMultiPolygonC.polys
    split
    · simp
    · rename_i r2 h
      exact absurd h (NewPolygonC_no_panic _ _ _)
    · split
      · simp
      · rename_i r2 h
        exact absurd h (ih _)
      · simp

theorem NewMultiPolygonC_no_panic (coords : List (List (List Coordinates)))
    (opts : List ConstructorOption) (r : PanicReason) :
    NewMultiPolygonC coords opts ≠ .panic r := by
  unfold NewMultiPolygonC
  have := polys_no_panic opts coords
  cases h : NewMultiPolygonC.polys opts coords with
  | ok v => simp [Outcome.map]
  | error e => simp [Outcome.map]
  | panic r2 => exact absurd h (this r2)

theorem notFinite_length (t : Token) (h : Token.notFinite t = true) :
    t = .overflow ∨ ∃ s, t = .text s ∧
      (s.data.length = 3 ∨ s.data.length = 4 ∨ s.data.length = 8 ∨ s.data.length = 9) := by
  cases t with
  | number v => simp [Token.notFinite, strconv.ParseFloat, math.IsNaN, math.IsInf] at h
  | overflow => exact Or.inl rfl
  | text s =>
    refine Or.inr ⟨s, rfl, ?_⟩
    have key : ∀ w : String, strings.ToLower s = w → s.data.length = w.data.length := by
      intro w hw
      have := congrArg (fun x : String => x.data.length) hw
      simpa [strings.ToLower] using this
    simp only [Token.notFinite, strconv.ParseFloat] at h
    split_ifs at h with h1 h2 h3
    · exact Or.inl (key _ h1)
    · rcases h2 with h2 | h2 | h2 | h2
      · exact Or.inl (key _ h2)
      · exact Or.inr (Or.inr (Or.inl (key _ h2)))
      · exact Or.inr (Or.inl (key _ h2))
      · exact Or.inr (Or.inr (Or.inr (key _ h2)))
    · rcases h3 with h3 | h3
      · exact Or.inr (Or.inl (key _ h3))
      · exact Or.inr (Or.inr (Or.inr (key _ h3)))
    · simp [math.IsNaN, math.IsInf] at h

theorem finite_of_tag (t : Token) (w : String) (h : strings.ToUpper t = .text w)
    (hw : w.data.length ≠ 3 ∧ w.data.length ≠ 4 ∧ w.data.length ≠ 8 ∧ w.data.length ≠ 9) :
    Token.notFinite t = false := by
  by_contra hne
  have hne : Token.notFinite t = true := by simpa using hne
  rcases notFinite_length t hne with rfl | ⟨s, rfl, hs⟩
  · cases h
  simp only [strings.ToUpper, Token.text.injEq] at h
  have := congrArg (fun x : String => x.data.length) h
  simp only [List.length_map] at this
  omega

theorem Step_nextGeometryTaggedText :
    ∀ n p, p.lexer.length < n → parser.Step p (parser.nextGeometryTaggedText n p).2 := by
  intro n
  induction n with
  | zero => intro p h; omega
  | succ n ih =>
    intro p hp
    rcases p with ⟨l, o, e, k⟩
    cases l with
    | nil =>
      simp only [parser.nextGeometryTaggedText, nextToken_nil]
      rw [if_neg (by decide), if_neg (by decide), if_neg (by decide), if_neg (by decide),
        if_neg (by decide), if_neg (by decide), if_neg (by decide)]
      exact Step_trans (Step_check _ _) (Step_check _ _)
    | cons t l =>
      have hl : (parser.mk l o e k).lexer.length < n := by
        simp only [List.length_cons] at hp ⊢
        omega
      have htake : ∀ w : String, strings.ToUpper t = .text w →
          (w.data.length ≠ 3 ∧ w.data.length ≠ 4 ∧ w.data.length ≠ 8 ∧ w.data.length ≠ 9) →
          parser.Step ⟨t :: l, o, e, k⟩ ⟨l, o, e, k⟩ :=
        fun w hw hlen => Step_take t l o e k (finite_of_tag t w hw hlen)
      simp only [parser.nextGeometryTaggedText, nextToken_cons]
      by_cases h1 : strings.ToUpper t = .text "POINT"
      · rw [if_pos h1]
        refine Step_trans (htake _ h1 (by decide)) ?_
        split_ifs <;> exact Step_nextPointText _
      rw [if_neg h1]
      by_cases h2 : strings.ToUpper t = .text "LINESTRING"
      · rw [if_pos h2]
        refine Step_trans (htake _ h2 (by decide)) ?_
        have hs := Step_nextLineStringText n ⟨l, o, e, k⟩ hl
        split
        · exact hs
        · exact Step_trans hs (Step_checked _ _ _ (NewLineC_withOptions_no_panic _ _ _))
        · exact Step_trans hs (Step_checked _ _ _ (NewLineStringC_no_panic _ _))
      rw [if_neg h2]
      by_cases h3 : strings.ToUpper t = .text "POLYGON"
      · rw [if_pos h3]
        refine Step_trans (htake _ h3 (by decide)) ?_
        have hs := Step_nextPolygonText n ⟨l, o, e, k⟩ hl
        split_ifs
        · exact hs
        · exact Step_trans hs (Step_checked _ _ _ (NewPolygonC_no_panic _ _))
      rw [if_neg h3]
      by_cases h4 : strings.ToUpper t = .text "MULTIPOINT"
      · rw [if_pos h4]
        exact Step_trans (htake _ h4 (by decide)) (Step_nextMultiPointText n ⟨l, o, e, k⟩ hl)
      rw [if_neg h4]
      by_cases h5 : strings.ToUpper t = .text "MULTILINESTRING"
      · rw [if_pos h5]
        exact Step_trans (htake _ h5 (by decide))
          (Step_trans (Step_nextPolygonText n ⟨l, o, e, k⟩ hl)
            (Step_checked _ _ _ (NewMultiLineStringC_no_panic _ _)))
      rw [if_neg h5]
      by_cases h6 : strings.ToUpper t = .text "MULTIPOLYGON"
      · rw [if_pos h6]
        exact Step_trans (htake _ h6 (by decide))
          (Step_trans (Step_nextMultiPolygonText n ⟨l, o, e, k⟩ hl)
            (Step_checked _ _ _ (NewMultiPolygonC_no_panic _ _)))
      rw [if_neg h6]
      by_cases h7 : strings.ToUpper t = .text "GEOMETRYCOLLECTION"
      · rw [if_pos h7]
        exact Step_trans (htake _ h7 (by decide))
          (Step_nextGeometryCollectionText _ n ih ⟨l, o, e, k⟩ hl)
      rw [if_neg h7]
      exact Step_fail _ _ (by simp [parser.errorf, check_opts])
        (by simp [parser.errorf, check_panicked]) (by simp [parser.errorf, check_lexer])
        (check_err _ _)

theorem checkEOF_spec (p : parser) :
    p.checkEOF.panicked = p.panicked ∧
      (p.checkEOF.err = none → p.err = none ∧ p.lexer = []) := by
  rcases p with ⟨l, o, e, k⟩
  cases l with
  | nil => simp [parser.checkEOF, wktLexer.next]
  | cons t l =>
    simp only [parser.checkEOF, wktLexer.next, Bool.not_false, if_true]
    exact ⟨check_panicked _ _, fun h => absurd h (check_err _ _)⟩

/-- UnmarshalWKT never panics. In particular the budget of the embedded
parser, the number of tokens plus one, is never used up: the marker
`fuelExhausted` is never reached. -/
theorem UnmarshalWKT_no_panic (r : List Token) (opts : List ConstructorOption)
    (reason : PanicReason) : UnmarshalWKT r opts ≠ .panic reason := by
  have hs := Step_nextGeometryTaggedText (r.length + 1) (newParser r opts)
    (by simp [newParser])
  have hk := hs.panicked rfl
  have hc := (checkEOF_spec (parser.nextGeometryTaggedText (r.length + 1)
    (newParser r opts)).2).1
  unfold UnmarshalWKT
  simp only []
  rw [hc, hk]
  simp only []
  split <;> simp

theorem UnmarshalWKT_ok_tokens (r : List Token) (opts : List ConstructorOption) (g : Geometry)
    (h : UnmarshalWKT r opts = .ok g) : ∀ t ∈ r, Token.notFinite t = false := by
  have hs := Step_nextGeometryTaggedText (r.length + 1) (newParser r opts)
    (by simp [newParser])
  have hc := checkEOF_spec (parser.nextGeometryTaggedText (r.length + 1) (newParser r opts)).2
  unfold UnmarshalWKT at h
  simp only [] at h
  split at h
  · cases h
  · split at h
    · cases h
    · rename_i herr
      obtain ⟨he, hnil⟩ := hc.2 herr
      obtain ⟨-, c, hcons, hfin⟩ := hs.read he
      rw [hnil, List.append_nil] at hcons
      simp only [newParser] at hcons
      rw [hcons]
      exact hfin

theorem UnmarshalWKT_not_finite (r : List Token) (opts : List ConstructorOption) (t : Token)
    (ht : t ∈ r) (hbad : Token.notFinite t = true) : ∃ e, UnmarshalWKT r opts = .error e := by
  cases h : UnmarshalWKT r opts with
  | ok g =>
    have := UnmarshalWKT_ok_tokens r opts g h t ht
    rw [this] at hbad
    cases hbad
  | error e => exact ⟨e, rfl⟩
  | panic reason => exact absurd h (UnmarshalWKT_no_panic r opts reason)

/-! ## Text round trip -/

theorem eval_two_points :
    NewLineStringC [⟨⟨0, 0⟩⟩, ⟨⟨1, 1⟩⟩] [] = .ok ⟨[⟨⟨0, 0⟩⟩, ⟨⟨1, 1⟩⟩], [0, 1]⟩ := by
  decide!

theorem eval_triangle_polygon :
    NewPolygonC [[⟨⟨0, 0⟩⟩, ⟨⟨1, 0⟩⟩, ⟨⟨0, 1⟩⟩, ⟨⟨0, 0⟩⟩]] [] =
      .ok ⟨⟨[⟨⟨0, 0⟩⟩, ⟨⟨1, 0⟩⟩, ⟨⟨0, 1⟩⟩, ⟨⟨0, 0⟩⟩], [0, 1, 2, 3]⟩, []⟩ := by
  decide!

/-- C22 as worded fails: the line string built by `NewLineStringC` from the
two points (0 0) and (1 1) has the text LINESTRING(0 0,1 1), and `UnmarshalWKT`
reads that text as a Line, which is another variant than the LineString. -/
theorem AsText_two_points_gives_line :
    NewLineStringC [⟨⟨0, 0⟩⟩, ⟨⟨1, 1⟩⟩] [] = .ok ⟨[⟨⟨0, 0⟩⟩, ⟨⟨1, 1⟩⟩], [0, 1]⟩ ∧
    (LineString.mk [⟨⟨0, 0⟩⟩, ⟨⟨1, 1⟩⟩] [0, 1]).AsText =
      [.text "LINESTRING", .text "(", .number 0, .number 0, .text ",", .number 1, .number 1,
        .text ")"] ∧
    UnmarshalWKT (LineString.mk [⟨⟨0, 0⟩⟩, ⟨⟨1, 1⟩⟩] [0, 1]).AsText [] =
      .ok (.line ⟨⟨⟨0, 0⟩⟩, ⟨⟨1, 1⟩⟩⟩) ∧
    UnmarshalWKT (LineString.mk [⟨⟨0, 0⟩⟩, ⟨⟨1, 1⟩⟩] [0, 1]).AsText [] ≠
      .ok (.lineString ⟨[⟨⟨0, 0⟩⟩, ⟨⟨1, 1⟩⟩], [0, 1]⟩) := by
  have h : UnmarshalWKT (LineString.mk [⟨⟨0, 0⟩⟩, ⟨⟨1, 1⟩⟩] [0, 1]).AsText [] =
      .ok (.line ⟨⟨⟨0, 0⟩⟩, ⟨⟨1, 1⟩⟩⟩) := parse_lineString _ _ eval_two_points
  refine ⟨eval_two_points, by decide!, h, ?_⟩
  rw [h]
  simp

/-- C22, amended: for every line string `ls` that `NewLineStringC` builds from
the points `pts` with the default options, `UnmarshalWKT` of the text of `ls`
succeeds; it returns `ls` itself, with the same points in the same order,
repeated points included, unless `pts` has exactly two points, and then it
returns the Line between these two points. For every polygon that `NewPolygon`
builds with the default options from rings built by `NewLineStringC`, and for
every polygon built by `NewPolygonC`, `UnmarshalWKT` of its text returns that
polygon, with the same rings in the same order. -/
theorem AsText_round_trip :
    (∀ (pts : List Coordinates) (ls : LineString), NewLineStringC pts [] = .ok ls →
      UnmarshalWKT ls.AsText [] = .ok (lineOrLineString pts ls)) ∧
    (∀ (coords : List (List Coordinates)) (outer : LineString) (holes : List LineString)
        (poly : Polygon),
      List.Forall₂ (fun c r => NewLineStringC c [] = .ok r) coords (outer :: holes) →
      NewPolygon outer holes [] = .ok poly →
      UnmarshalWKT poly.AsText [] = .ok (.polygon poly)) ∧
    (∀ (coords : List (List Coordinates)) (poly : Polygon),
      NewPolygonC coords [] = .ok poly →
      UnmarshalWKT poly.AsText [] = .ok (.polygon poly)) := by
  refine ⟨parse_lineString, parse_polygon, ?_⟩
  intro coords poly h
  unfold NewPolygonC at h
  split_ifs at h with hlen
  split at h
  · cases h
  · cases h
  · rename_i rings hrings
    have hr := (rings_forall [] coords rings).1 hrings
    cases hr with
    | nil => exact absurd rfl hlen
    | cons h0 hrest =>
      exact parse_polygon _ _ _ poly (List.Forall₂.cons h0 hrest) h

/-- Witness for C22: LINESTRING(0 0,0 0,1 0), with its repeated first point,
and the triangle POLYGON((0 0,1 0,0 1,0 0)) are read back as they are. -/
theorem AsText_round_trip_witness :
    UnmarshalWKT (LineString.mk [⟨⟨0, 0⟩⟩, ⟨⟨1, 0⟩⟩] [0, 0, 1]).AsText [] =
      .ok (.lineString ⟨[⟨⟨0, 0⟩⟩, ⟨⟨1, 0⟩⟩], [0, 0, 1]⟩) ∧
    UnmarshalWKT
        (Polygon.mk ⟨[⟨⟨0, 0⟩⟩, ⟨⟨1, 0⟩⟩, ⟨⟨0, 1⟩⟩, ⟨⟨0, 0⟩⟩], [0, 1, 2, 3]⟩ []).AsText [] =
      .ok (.polygon ⟨⟨[⟨⟨0, 0⟩⟩, ⟨⟨1, 0⟩⟩, ⟨⟨0, 1⟩⟩, ⟨⟨0, 0⟩⟩], [0, 1, 2, 3]⟩, []⟩) :=
  ⟨AsText_round_trip.1 _ _ eval_repeat, AsText_round_trip.2.2 _ _ eval_triangle_polygon⟩

/-! ## The text parser: MULTIPOINT styles, keywords, markers and numbers -/

/-- C23: for every non-empty list of points and every choice, point by point,
between the style with parentheses and the style without, `UnmarshalWKT`
accepts the MULTIPOINT text and returns the MultiPoint of these points, the
same value as for the text with parentheses around every point. -/
theorem UnmarshalWKT_multiPoint_styles (ms : List (Bool × XY))
    (opts : List ConstructorOption) (h : ms ≠ []) :
    UnmarshalWKT (multiPointText ms) opts =
      .ok (.multiPoint (NewMultiPoint (ms.map fun m => NewPointXY m.2))) ∧
    UnmarshalWKT (multiPointText ms) opts =
      UnmarshalWKT (multiPointText (ms.map fun m => (true, m.2))) opts := by
  have h1 := parse_multiPoint ms opts h
  have h2 := parse_multiPoint (ms.map fun m => (true, m.2)) opts (by simpa using h)
  refine ⟨h1, ?_⟩
  rw [h1, h2]
  simp [Function.comp_def]

/-- Witness for C23: MULTIPOINT(1 2,3 4) and MULTIPOINT((1 2),(3 4)). -/
theorem UnmarshalWKT_multiPoint_styles_witness :
    multiPointText [(false, ⟨1, 2⟩), (false, ⟨3, 4⟩)] =
      [.text "MULTIPOINT", .text "(", .number 1, .number 2, .text ",", .number 3, .number 4,
        .text ")"] ∧
    multiPointText [(true, ⟨1, 2⟩), (true, ⟨3, 4⟩)] =
      [.text "MULTIPOINT", .text "(", .text "(", .number 1, .number 2, .text ")", .text ",",
        .text "(", .number 3, .number 4, .text ")", .text ")"] ∧
    UnmarshalWKT (multiPointText [(false, ⟨1, 2⟩), (false, ⟨3, 4⟩)]) [] =
      .ok (.multiPoint (NewMultiPoint [NewPointXY ⟨1, 2⟩, NewPointXY ⟨3, 4⟩])) ∧
    UnmarshalWKT (multiPointText [(false, ⟨1, 2⟩), (false, ⟨3, 4⟩)]) [] =
      UnmarshalWKT (multiPointText [(true, ⟨1, 2⟩), (true, ⟨3, 4⟩)]) [] :=
  ⟨by decide!, by decide!,
    UnmarshalWKT_multiPoint_styles [(false, ⟨1, 2⟩), (false, ⟨3, 4⟩)] [] (by simp)⟩

/-- C24: the geometry tag is read in any letter case, the keyword EMPTY is
not. `POINT EMPTY` and `point EMPTY` give the empty point, but `point empty`,
`Point Empty` and `POINT empty` are errors, and so is `MULTIPOINT(empty)`
while `MULTIPOINT(EMPTY)` is read. -/
theorem UnmarshalWKT_EMPTY_case_sensitive :
    UnmarshalWKT [.text "POINT", .text "EMPTY"] [] = .ok (.point NewEmptyPoint) ∧
    UnmarshalWKT [.text "point", .text "EMPTY"] [] = .ok (.point NewEmptyPoint) ∧
    UnmarshalWKT [.text "point", .text "empty"] [] =
      .error (.wktExpectedEmptyOrLeftParen (.text "empty")) ∧
    UnmarshalWKT [.text "Point", .text "Empty"] [] =
      .error (.wktExpectedEmptyOrLeftParen (.text "Empty")) ∧
    UnmarshalWKT [.text "POINT", .text "empty"] [] =
      .error (.wktExpectedEmptyOrLeftParen (.text "empty")) ∧
    UnmarshalWKT [.text "MULTIPOINT", .text "(", .text "EMPTY", .text ")"] [] =
      .ok (.multiPoint (NewMultiPoint [NewEmptyPoint])) ∧
    UnmarshalWKT [.text "MULTIPOINT", .text "(", .text "empty", .text ")"] [] =
      .error (.wktParseFloat (.text "empty")) :=
  ⟨rfl, rfl, rfl, rfl, rfl, rfl, rfl⟩

/-- C25: a Z, M or ZM marker after the geometry tag is not accepted, and
neither is a third ordinate: `POINT Z (30 10 20)`, `POINT ZM (30 10 20 40)`,
`POINT M (30 10 20)` and `LINESTRING ZM EMPTY` are errors at the marker, and
`POINT(30 10 20)` is an error at the third ordinate. -/
theorem UnmarshalWKT_rejects_markers :
    UnmarshalWKT [.text "POINT", .text "Z", .text "(", .number 30, .number 10, .number 20,
        .text ")"] [] = .error (.wktExpectedEmptyOrLeftParen (.text "Z")) ∧
    UnmarshalWKT [.text "POINT", .text "ZM", .text "(", .number 30, .number 10, .number 20,
        .number 40, .text ")"] [] = .error (.wktExpectedEmptyOrLeftParen (.text "ZM")) ∧
    UnmarshalWKT [.text "POINT", .text "M", .text "(", .number 30, .number 10, .number 20,
        .text ")"] [] = .error (.wktExpectedEmptyOrLeftParen (.text "M")) ∧
    UnmarshalWKT [.text "LINESTRING", .text "ZM", .text "EMPTY"] [] =
      .error (.wktExpectedEmptyOrLeftParen (.text "ZM")) ∧
    UnmarshalWKT [.text "POINT", .text "(", .number 30, .number 10, .number 20, .text ")"] [] =
      .error (.wktExpectedRightParen (.number 20)) :=
  ⟨rfl, rfl, rfl, rfl, rfl⟩

theorem ParseFloat_not_finite (t : Token) (h : Token.notFinite t = true) :
    t ≠ .text "-" := by
  rintro rfl
  exact absurd h (by decide)

theorem IsNaN_negate (f : Float64) : math.IsNaN f.negate = math.IsNaN f := by
  cases f <;> rfl

theorem IsInf_negate (f : Float64) : math.IsInf f.negate = math.IsInf f := by
  cases f <;> rfl

theorem errorf_err (p : parser) (e : GeomError) : (p.errorf e).err ≠ none :=
  check_err p e

theorem nextSignedNumericLiteral_finite (p : parser)
    (h : p.nextSignedNumericLiteral.2.err = none) :
    math.IsNaN p.nextSignedNumericLiteral.1 = false ∧
      math.IsInf p.nextSignedNumericLiteral.1 = false := by
  unfold parser.nextSignedNumericLiteral at h ⊢
  simp only [] at h ⊢
  generalize decide (p.nextToken.1 = Token.text "-") = neg at h ⊢
  generalize (if neg = true then p.nextToken.2.nextToken else p.nextToken) = r at h ⊢
  by_cases hb : (math.IsNaN (strconv.ParseFloat r.1).1 ||
      math.IsInf (strconv.ParseFloat r.1).1) = true
  · rw [if_pos hb] at h
    exact absurd h (errorf_err _ _)
  · simp only [Bool.or_eq_true, not_or, Bool.not_eq_true] at hb
    cases neg
    · simpa using hb
    · simpa [IsNaN_negate, IsInf_negate] using hb

theorem nextSignedNumericLiteral_bad (t : Token) (hbad : Token.notFinite t = true)
    (l : List Token) (o : List ConstructorOption) (k : Option PanicReason) :
    (parser.mk (t :: l) o none k).nextSignedNumericLiteral.2.err =
      some ((strconv.ParseFloat t).2.getD (.wktInvalidSignedNumericLiteral t)) ∧
    (parser.mk (.text "-" :: t :: l) o none k).nextSignedNumericLiteral.2.err =
      some ((strconv.ParseFloat t).2.getD (.wktInvalidSignedNumericLiteral t)) := by
  have hminus := ParseFloat_not_finite t hbad
  have hbad2 : (math.IsNaN (strconv.ParseFloat t).1 || math.IsInf (strconv.ParseFloat t).1) =
      true := hbad
  constructor
  · simp only [parser.nextSignedNumericLiteral, nextToken_cons, hminus, decide_False,
      Bool.false_eq_true, if_false, hbad2, if_true]
    cases (strconv.ParseFloat t).2 <;> simp [parser.errorf, parser.check]
  · simp only [parser.nextSignedNumericLiteral, nextToken_cons, decide_True, if_true, hbad2]
    cases (strconv.ParseFloat t).2 <;> simp [parser.errorf, parser.check]

/-! ## The divisor of the crossing branch -/

theorem divisor_eq_cross (a b c d : XY) :
    (d.X - c.X) * (a.Y - b.Y) - (a.X - b.X) * (d.Y - c.Y) = cross a b d - cross a b c := by
  simp only [cross]
  ring

/-- C31: when the two endpoints of the second segment have different
orientations with respect to the first (`o1 ≠ o2`), the divisor
`f = (d.x - c.x)(a.y - b.y) - (a.x - b.x)(d.y - c.y)` is not zero, and then
`a ≠ b` and `c ≠ d`; so in the crossing branch, where moreover `o3 ≠ o4` and
no orientation is collinear, `e / f` divides by a non-zero number, and the
result is the point `a + (e / f)(b - a)` (exact arithmetic). -/
theorem crossing_divisor_ne_zero (n1 n2 : Line)
    (h12 : orientation n1.a.XY n1.b.XY n2.a.XY ≠ orientation n1.a.XY n1.b.XY n2.b.XY) :
    (n2.b.XY.X - n2.a.XY.X) * (n1.a.XY.Y - n1.b.XY.Y) -
        (n1.a.XY.X - n1.b.XY.X) * (n2.b.XY.Y - n2.a.XY.Y) ≠ 0 ∧
    n1.a.XY ≠ n1.b.XY ∧ n2.a.XY ≠ n2.b.XY ∧
    (orientation n2.a.XY n2.b.XY n1.a.XY ≠ orientation n2.a.XY n2.b.XY n1.b.XY →
      orientation n1.a.XY n1.b.XY n2.a.XY ≠ .collinear →
      orientation n1.a.XY n1.b.XY n2.b.XY ≠ .collinear →
      orientation n2.a.XY n2.b.XY n1.a.XY ≠ .collinear →
      orientation n2.a.XY n2.b.XY n1.b.XY ≠ .collinear →
      intersectLineWithLine n1 n2 =
        .ok (.point (NewPointXY (((n1.b.XY.Sub n1.a.XY).Scale
          (((n2.a.XY.Y - n2.b.XY.Y) * (n1.a.XY.X - n2.a.XY.X) +
              (n2.b.XY.X - n2.a.XY.X) * (n1.a.XY.Y - n2.a.XY.Y)) /
            ((n2.b.XY.X - n2.a.XY.X) * (n1.a.XY.Y - n1.b.XY.Y) -
              (n1.a.XY.X - n1.b.XY.X) * (n2.b.XY.Y - n2.a.XY.Y)))).Add n1.a.XY)))) := by
  have hne := (orientation_ne _ _ _ _ h12).1
  have hf : (n2.b.XY.X - n2.a.XY.X) * (n1.a.XY.Y - n1.b.XY.Y) -
      (n1.a.XY.X - n1.b.XY.X) * (n2.b.XY.Y - n2.a.XY.Y) ≠ 0 := by
    rw [divisor_eq_cross]
    intro h
    exact hne (by linarith)
  refine ⟨hf, ?_, ?_, ?_⟩
  · intro hab
    apply hf
    rw [hab]
    ring
  · intro hcd
    apply hf
    rw [hcd]
    ring
  · intro h34 h1 h2 h3 h4
    rw [intersectLineWithLine_unfold, if_pos ⟨h12, h34⟩, if_neg h1, if_neg h2, if_neg h3,
      if_neg h4]

/-- Witness for C31: the two diagonals of the unit square. -/
theorem crossing_divisor_ne_zero_witness :
    ((1 : ℚ) - 0) * (0 - 1) - (0 - 1) * (0 - 1) ≠ 0 ∧
    (⟨0, 0⟩ : XY) ≠ ⟨1, 1⟩ ∧ (⟨0, 1⟩ : XY) ≠ ⟨1, 0⟩ :=
  ⟨(crossing_divisor_ne_zero ⟨⟨⟨0, 0⟩⟩, ⟨⟨1, 1⟩⟩⟩ ⟨⟨⟨0, 1⟩⟩, ⟨⟨1, 0⟩⟩⟩ (by decide!)).1,
    (crossing_divisor_ne_zero ⟨⟨⟨0, 0⟩⟩, ⟨⟨1, 1⟩⟩⟩ ⟨⟨⟨0, 1⟩⟩, ⟨⟨1, 0⟩⟩⟩ (by decide!)).2.1,
    (crossing_divisor_ne_zero ⟨⟨⟨0, 0⟩⟩, ⟨⟨1, 1⟩⟩⟩ ⟨⟨⟨0, 1⟩⟩, ⟨⟨1, 0⟩⟩⟩ (by decide!)).2.2.1⟩

/-! ## The pairs of the dispatch return -/

theorem listedPair_rank (g1 g2 : Geometry) (h : listedPair g1 g2 = true) :
    rank g1 ≤ rank g2 := by
  cases g1 <;> cases g2 <;> simp [listedPair] at h <;> simp [rank]

theorem listedPair_symm (g1 g2 : Geometry) (h : listedPair g2 g1 = true)
    (hr : rank g1 = rank g2) : listedPair g1 g2 = true := by
  cases g1 <;> cases g2 <;> simp [listedPair] at h <;> simp [rank] at hr <;> rfl

theorem intersectMultiLineStringWithMultiLineString_ok (mls1 mls2 : MultiLineString) :
    ∃ g, intersectMultiLineStringWithMultiLineString mls1 mls2 = .ok g := by
  obtain ⟨c, hc, -⟩ := collectIntersections_spec (segmentPairs mls1 mls2)
  obtain ⟨g, hg⟩ := canonicalPointsAndLines_ok (c.filterMap Geometry.asPoint)
    (c.filterMap Geometry.asLine) (by
      intro l hl
      rw [mem_filterMap_line] at hl
      exact collection_lines_valid _ c hc l hl)
  exact ⟨g, by simp [intersectMultiLineStringWithMultiLineString, hc, canonicalise, hg, must]⟩

theorem dispatch_listed (g1 g2 : Geometry) :
    (listedPair g1 g2 = true →
      (∃ r, intersectionDispatch g1 g2 = .ok r) ∧ ∃ b, hasIntersectionDispatch g1 g2 = .ok b) ∧
    (listedPair g1 g2 = false →
      intersectionDispatch g1 g2 = .panic .notImplemented ∧
        hasIntersectionDispatch g1 g2 = .panic .notImplemented) := by
  cases g1 <;> cases g2 <;>
    simp only [listedPair, intersectionDispatch, hasIntersectionDispatch, Outcome.ok.injEq,
      exists_eq', and_self, reduceCtorEq, exists_false, true_implies, false_implies, and_true,
      implies_true, true_and, intersectLineWithLine_ok,
      intersectMultiLineStringWithMultiLineString_ok]

/-- C32: for every pair of geometries whose variants have a case in the type
switch, in either argument order, `intersection` and `hasIntersection` return
a value: they reach neither the `not implemented` panic nor any other one.
`intersectLineWithLine` never panics, and the call `must(NewLineC(...))` of
its collinear branch is reached only with two points that `Equals` tells
apart, for which it returns the Line between them. -/
theorem listed_pairs_return (g1 g2 : Geometry)
    (h : listedPair g1 g2 = true ∨ listedPair g2 g1 = true) :
    (∃ r, intersection g1 g2 = .ok r) ∧ (∃ b, hasIntersection g1 g2 = .ok b) ∧
    (∀ (n1 n2 : Line) (reason : PanicReason), intersectLineWithLine n1 n2 ≠ .panic reason) ∧
    (∀ p0 p1 : XY, p0.Equals p1 = false →
      must (NewLineC ⟨p0⟩ ⟨p1⟩) = .ok ⟨⟨p0⟩, ⟨p1⟩⟩) := by
  have key : ∀ a b : Geometry, listedPair a b = true ∨ listedPair b a = true →
      ¬ rank a > rank b → listedPair a b = true := by
    intro a b hab hr
    rcases hab with hab | hab
    · exact hab
    · have := listedPair_rank b a hab
      exact listedPair_symm a b hab (by omega)
  refine ⟨?_, ?_, ?_, ?_⟩
  · unfold intersection
    split_ifs with h1 h2 h3
    · exact ⟨_, rfl⟩
    · exact ⟨_, rfl⟩
    · exact ((dispatch_listed g2 g1).1 (key g2 g1 h.symm (by omega))).1
    · exact ((dispatch_listed g1 g2).1 (key g1 g2 h h3)).1
  · unfold hasIntersection
    split_ifs with h1 h2 h3
    · exact ⟨_, rfl⟩
    · exact ⟨_, rfl⟩
    · exact ((dispatch_listed g2 g1).1 (key g2 g1 h.symm (by omega))).2
    · exact ((dispatch_listed g1 g2).1 (key g1 g2 h h3)).2
  · intro n1 n2 reason
    obtain ⟨g, hg⟩ := intersectLineWithLine_ok n1 n2
    rw [hg]
    simp
  · intro p0 p1 hne
    have : p0 ≠ p1 := by simpa [XY.Equals] using hne
    simp [NewLineC, this, must]

/-- Witness for C32: a MultiPoint and a Line, in the order that the dispatch
has to exchange. -/
theorem listed_pairs_return_witness :
    (∃ r, intersection (.multiPoint ⟨[NewPointXY ⟨1, 1⟩]⟩)
      (.line ⟨⟨⟨0, 0⟩⟩, ⟨⟨2, 2⟩⟩⟩) = .ok r) ∧
    ∃ b, hasIntersection (.multiPoint ⟨[NewPointXY ⟨1, 1⟩]⟩)
      (.line ⟨⟨⟨0, 0⟩⟩, ⟨⟨2, 2⟩⟩⟩) = .ok b :=
  ⟨(listed_pairs_return (.multiPoint ⟨[NewPointXY ⟨1, 1⟩]⟩) (.line ⟨⟨⟨0, 0⟩⟩, ⟨⟨2, 2⟩⟩⟩)
      (Or.inr rfl)).1,
    (listed_pairs_return (.multiPoint ⟨[NewPointXY ⟨1, 1⟩]⟩) (.line ⟨⟨⟨0, 0⟩⟩, ⟨⟨2, 2⟩⟩⟩)
      (Or.inr rfl)).2.1⟩

/-! ## The segments of a constructed line string -/

/-- C36: in every LineString built by `NewLineStringC`, with any options, no
two consecutive entries of `coords` have the same XY, and `LineN(n)`, the
segment from `coords[n]` to `coords[n+1]`, has two distinct endpoints for
every `n < NumLines()`. -/
theorem NewLineStringC_segments_distinct (pts : List Coordinates)
    (opts : List ConstructorOption) (s : LineString) (h : NewLineStringC pts opts = .ok s) :
    s.coords.Chain' (fun a b => a.XY ≠ b.XY) ∧
    ∀ n, n < s.NumLines →
      (s.LineN n).a.XY ≠ (s.LineN n).b.XY ∧
      s.coords[n]? = some (s.LineN n).a ∧ s.coords[n + 1]? = some (s.LineN n).b := by
  have hv := (NewLineStringC_valid pts opts s h).1
  obtain ⟨-, -, -, -, h5, -, -⟩ := fold_invariant pts _ rfl
  rw [NewLineStringC_eq] at h
  split_ifs at h
  injection h with h
  subst h
  refine ⟨h5, ?_⟩
  intro n hn
  refine ⟨LineN_valid _ hv n hn, ?_, ?_⟩
  · simp only [LineString.NumLines] at hn
    simp only [LineString.LineN]
    rw [List.getD_eq_getElem _ _ (by omega), List.getElem?_eq_getElem (by omega)]
  · simp only [LineString.NumLines] at hn
    simp only [LineString.LineN]
    rw [List.getD_eq_getElem _ _ (by omega), List.getElem?_eq_getElem (by omega)]

/-- Witness for C36: the line string (0 0,0 0,1 0) has one segment, from (0 0)
to (1 0). -/
theorem NewLineStringC_segments_distinct_witness :
    ((LineString.mk [⟨⟨0, 0⟩⟩, ⟨⟨1, 0⟩⟩] [0, 0, 1]).LineN 0).a.XY ≠
      ((LineString.mk [⟨⟨0, 0⟩⟩, ⟨⟨1, 0⟩⟩] [0, 0, 1]).LineN 0).b.XY :=
  ((NewLineStringC_segments_distinct _ [] _ eval_repeat).2 0 (by decide)).1

/-! ## Deduplication keeps first occurrences -/

theorem dedupByKey_first {α κ : Type} [DecidableEq κ] (key : α → κ) (seen : List κ)
    (l : List α) (x : α) (hx : x ∈ dedupByKey key seen l) :
    l.find? (fun y => decide (key y = key x)) = some x := by
  induction l generalizing seen with
  | nil => simp [dedupByKey] at hx
  | cons y rest ih =>
    simp only [dedupByKey] at hx
    split at hx
    · rename_i hy
      have hns := dedupByKey_key_not_seen key seen rest x hx
      have hne : key y ≠ key x := fun h => hns (h ▸ hy)
      rw [List.find?_cons_of_neg _ (by simpa using hne)]
      exact ih seen hx
    · rcases List.mem_cons.1 hx with rfl | hx
      · simp
      · have hns := dedupByKey_key_not_seen key _ rest x hx
        have hne : key y ≠ key x := fun h => hns (by rw [← h]; exact List.mem_cons_self _ _)
        rw [List.find?_cons_of_neg _ (by simpa using hne)]
        exact ih _ hx

theorem xyxyKey_of_XY (l m : Line) (ha : l.a.XY = m.a.XY) (hb : l.b.XY = m.b.XY) :
    xyxyKey l = xyxyKey m := by
  rw [Line.eq_of_XY l m ha hb]

theorem xyxyKey_iff (l m : Line) : xyxyKey l = xyxyKey m ↔ l.sameSegment m = true := by
  simp only [Line.sameSegment, decide_eq_true_eq]
  constructor
  · intro h
    rcases xyxyKey_eq l m h with rfl | h1
    · exact Or.inl ⟨rfl, rfl⟩
    · exact Or.inr h1
  · rintro (⟨ha, hb⟩ | ⟨ha, hb⟩)
    · exact xyxyKey_of_XY l m ha hb
    · have h1 : xyxyKey l = xyxyKey ⟨⟨l.a.XY⟩, ⟨l.b.XY⟩⟩ := xyxyKey_of_XY _ _ rfl rfl
      have h2 : xyxyKey m = xyxyKey ⟨⟨l.b.XY⟩, ⟨l.a.XY⟩⟩ := xyxyKey_of_XY _ _ hb.symm ha.symm
      rw [h1, h2]
      exact xyxyKey_flip _ _

/-- C34: `dedupPoints` keeps, in the order of the input, exactly the first
point of each XY: the result is a sublist of the input, its XYs are pairwise
distinct, every XY of the input occurs in it, and each of its points is the
first point of the input with that XY. `dedupLines` does the same for the
unordered pairs of endpoints, so that a line and its reverse count as the same
segment. Both are idempotent. -/
theorem dedup_keeps_first_occurrences (pts : List Point) (lines : List Line) :
    ((dedupPoints pts).Sublist pts ∧
      ((dedupPoints pts).map Point.XY).Nodup ∧
      (∀ pt ∈ pts, ∃ q ∈ dedupPoints pts, q.XY = pt.XY) ∧
      (∀ q ∈ dedupPoints pts, pts.find? (fun pt => decide (pt.XY = q.XY)) = some q) ∧
      dedupPoints (dedupPoints pts) = dedupPoints pts) ∧
    ((dedupLines lines).Sublist lines ∧
      (dedupLines lines).Pairwise (fun l m => l.sameSegment m = false) ∧
      (∀ l ∈ lines, ∃ m ∈ dedupLines lines, l.sameSegment m = true) ∧
      (∀ m ∈ dedupLines lines, lines.find? (fun l => l.sameSegment m) = some m) ∧
      dedupLines (dedupLines lines) = dedupLines lines) := by
  constructor
  · rw [dedupPoints_eq]
    refine ⟨dedupByKey_sublist _ _ _, dedupByKey_keys_nodup _ _ _, ?_,
      fun q hq => dedupByKey_first Point.XY [] pts q hq, ?_⟩
    · intro pt hpt
      have := (dedupByKey_keys Point.XY pts pt.XY).2 (List.mem_map_of_mem _ hpt)
      obtain ⟨q, hq, hk⟩ := List.mem_map.1 this
      exact ⟨q, hq, hk⟩
    · rw [dedupPoints_eq]
      exact dedupByKey_idem Point.XY pts
  · refine ⟨?_, ?_, ?_, ?_, dedupLines_idem lines⟩
    · rw [dedupLines_eq]
      exact dedupByKey_sublist _ _ _
    · have h := dedupByKey_keys_nodup xyxyKey [] lines
      rw [← dedupLines_eq] at h
      rw [List.Nodup, List.pairwise_map] at h
      refine h.imp ?_
      intro l m hne
      rw [← Bool.not_eq_true, ← xyxyKey_iff]
      exact hne
    · intro l hl
      have := (dedupByKey_keys xyxyKey lines (xyxyKey l)).2 (List.mem_map_of_mem _ hl)
      rw [← dedupLines_eq] at this
      obtain ⟨m, hm, hk⟩ := List.mem_map.1 this
      exact ⟨m, hm, (xyxyKey_iff l m).1 hk.symm⟩
    · intro m hm
      rw [dedupLines_eq] at hm
      have h := dedupByKey_first xyxyKey [] lines m hm
      rw [← h]
      congr 1
      funext l
      rw [Bool.eq_iff_iff, decide_eq_true_eq, xyxyKey_iff]

/-! ## Covered points -/

theorem IntersectsLine_iff (pt : Point) (ln : Line) :
    pt.IntersectsLine ln = true ↔
      (pt.empty = false ∧ onClosedSegment ln.a.XY ln.b.XY pt.XY) := by
  unfold Point.IntersectsLine
  cases h : pt.empty
  · simp only [Bool.false_eq_true, if_false, true_and]
    exact hasIntersectionPointWithLine_iff pt ln
  · simp

/-- C35: in the result of `canonicalPointsAndLines` the lines are the
deduplicated input lines, and the points are exactly the deduplicated input
points for which the test of the code, `pt.Intersects(ln)`, fails against
every one of these lines; this part holds in every arithmetic. In exact
arithmetic the test holds exactly when the point is not empty and lies on the
segment, that is when it is `a + t (b - a)` for some `0 ≤ t ≤ 1`; so the
points returned are exactly the deduplicated input points that lie on none of
the input lines, and no returned point lies on a returned line. -/
theorem canonicalPointsAndLines_uncovered (points : List Point) (lines : List Line)
    (g : Geometry) (h : canonicalPointsAndLines points lines = .ok g) :
    linesOf g = dedupLines lines ∧
    (∀ pt, pt ∈ pointsOf g ↔
      (pt ∈ dedupPoints points ∧ ∀ ln ∈ linesOf g, pt.IntersectsLine ln = false)) ∧
    (∀ (pt : Point) (ln : Line), pt.IntersectsLine ln = true ↔
      (pt.empty = false ∧ onClosedSegment ln.a.XY ln.b.XY pt.XY)) ∧
    (∀ pt, pt ∈ pointsOf g ↔
      (pt ∈ dedupPoints points ∧
        ∀ ln ∈ lines, ¬ (pt.empty = false ∧ onClosedSegment ln.a.XY ln.b.XY pt.XY))) ∧
    (∀ pt ∈ pointsOf g, ∀ ln ∈ linesOf g,
      ¬ (pt.empty = false ∧ onClosedSegment ln.a.XY ln.b.XY pt.XY)) := by
  have h1 : canonicalPointsAndLines.switch
      (removeCovered (dedupPoints points) (dedupLines lines)) (dedupLines lines) = .ok g := h
  obtain ⟨hp, hl⟩ := switch_members _ _ _ h1
  have hmem : ∀ pt, pt ∈ pointsOf g ↔
      (pt ∈ dedupPoints points ∧
        ∀ ln ∈ lines, ¬ (pt.empty = false ∧ onClosedSegment ln.a.XY ln.b.XY pt.XY)) := by
    intro pt
    rw [hp, removeCovered, List.mem_filter,
      any_IntersectsLine_of_keys pt (dedupLines lines) lines
        (by intro k; rw [dedupLines_eq]; exact dedupByKey_keys xyxyKey lines k)]
    simp only [Bool.not_eq_true', List.any_eq_false, IntersectsLine_iff]
  refine ⟨hl, ?_, IntersectsLine_iff, hmem, ?_⟩
  · intro pt
    rw [hp, hl, removeCovered, List.mem_filter]
    simp only [Bool.not_eq_true', List.any_eq_false, Bool.not_eq_true]
  · intro pt hpt ln hln
    rw [hl] at hln
    exact ((hmem pt).1 hpt).2 ln (dedupLines_mem lines ln hln)

theorem eval_uncovered :
    canonicalPointsAndLines [NewPointXY ⟨1, 1⟩, NewPointXY ⟨5, 5⟩, NewPointXY ⟨5, 5⟩]
        [⟨⟨⟨0, 0⟩⟩, ⟨⟨2, 2⟩⟩⟩, ⟨⟨⟨2, 2⟩⟩, ⟨⟨0, 0⟩⟩⟩] =
      .ok (.geometryCollection [.point (NewPointXY ⟨5, 5⟩), .line ⟨⟨⟨0, 0⟩⟩, ⟨⟨2, 2⟩⟩⟩]) := by
  have h1 : dedupLines [⟨⟨⟨0, 0⟩⟩, ⟨⟨2, 2⟩⟩⟩, ⟨⟨⟨2, 2⟩⟩, ⟨⟨0, 0⟩⟩⟩] =
      [⟨⟨⟨0, 0⟩⟩, ⟨⟨2, 2⟩⟩⟩] := by decide!
  have h2 : removeCovered
      (dedupPoints [NewPointXY ⟨1, 1⟩, NewPointXY ⟨5, 5⟩, NewPointXY ⟨5, 5⟩])
      [⟨⟨⟨0, 0⟩⟩, ⟨⟨2, 2⟩⟩⟩] = [NewPointXY ⟨5, 5⟩] := by decide!
  unfold canonicalPointsAndLines
  simp only []
  rw [h1, h2]
  rfl

/-- Witness for C35: of the points (1 1), (5 5), (5 5) and the segment from
(0 0) to (2 2), given twice in opposite directions, the point (5 5) and the
segment are returned, each once. -/
theorem canonicalPointsAndLines_uncovered_witness :
    linesOf (.geometryCollection [.point (NewPointXY ⟨5, 5⟩), .line ⟨⟨⟨0, 0⟩⟩, ⟨⟨2, 2⟩⟩⟩]) =
      dedupLines [⟨⟨⟨0, 0⟩⟩, ⟨⟨2, 2⟩⟩⟩, ⟨⟨⟨2, 2⟩⟩, ⟨⟨0, 0⟩⟩⟩] :=
  (canonicalPointsAndLines_uncovered _ _ _ eval_uncovered).1

/-! ## The order in which the sweep of `NewPolygon` visits the rings -/

/-- When the expensive validations run and every ring passes its own checks,
`NewPolygon` is the sweep over `NewPolygon.sorted`, followed by the checks of
the holes against the outer ring and of the interior. -/
theorem NewPolygon_sweep_order (outer : LineString) (holes : List LineString)
    (opts : List ConstructorOption) (hexp : doExpensiveValidations opts = true)
    (henv : (((seq (1 + holes.length)).map fun i =>
      (NewPolygon.ring outer holes i).Envelope).any fun e => !e.2) = false)
    (hchk : NewPolygon.checkRings opts
      ((seq (1 + holes.length)).map (NewPolygon.ring outer holes)) = none) :
    NewPolygon outer holes opts =
      match NewPolygon.sweep outer holes (NewPolygon.intervals outer holes)
          (NewPolygon.sorted outer holes)
          ⟨[], (NewPolygon.sorted outer holes).length, [], []⟩ with
      | .error e => .error e
      | .panic r => .panic r
      | .ok st =>
        if holes.any (fun hole => (List.range hole.NumPoints).any fun i =>
            decide (pointRingSide (hole.PointN i).XY outer = side.exterior)) then
          .error .polygonHoleOutside
        else if graph.hasCycle st.graph then .error .polygonNotConnected
        else .ok ⟨outer, holes⟩ := by
  unfold NewPolygon NewPolygon.withSort
  simp only [hexp, henv, hchk, Bool.not_true, Bool.and_false, Bool.false_eq_true, if_false]
  rfl

/-- C33: the sweep of `NewPolygon` does not visit the rings in the order of
their min x. For the rings with min x 5, 1 and 3 by ring number (the holes
are the rings 0 and 1, the outer ring is ring 2) the rings are left in the
order 1, 0, 2 by the sort, so the sweep meets the min x values 1, 5, 3; for
the polygon with outer ring (0 0,12 0,0 12,0 0) and the holes
(4 1,5 1,4 2,4 1) and (0 1,1 2,0 3,0 1) it meets 0, 4, 0. The comparison
handed to `sort.Slice` reads `intervals` at the two positions of the slice
that it is given, not at the ring numbers stored there. -/
theorem NewPolygon_sweep_not_by_min_x :
    (NewPolygon.intervals (triangleAt 3) [triangleAt 5, triangleAt 1] =
        [(5, 6), (1, 2), (3, 4)] ∧
      NewPolygon.sorted (triangleAt 3) [triangleAt 5, triangleAt 1] = [1, 0, 2] ∧
      ((NewPolygon.sorted (triangleAt 3) [triangleAt 5, triangleAt 1]).map fun i =>
        ((NewPolygon.intervals (triangleAt 3) [triangleAt 5, triangleAt 1]).getD i
          (0, 0)).1) = [1, 5, 3] ∧
      ¬ ([1, 5, 3] : List ℚ).Pairwise (fun x y => x ≤ y)) ∧
    (NewPolygon.intervals sweepOuter [sweepHoleInside, sweepHoleOnSide] =
        [(4, 5), (0, 1), (0, 12)] ∧
      NewPolygon.sorted sweepOuter [sweepHoleInside, sweepHoleOnSide] = [1, 0, 2] ∧
      ((NewPolygon.sorted sweepOuter [sweepHoleInside, sweepHoleOnSide]).map fun i =>
        ((NewPolygon.intervals sweepOuter [sweepHoleInside, sweepHoleOnSide]).getD i
          (0, 0)).1) = [0, 4, 0] ∧
      ¬ ([0, 4, 0] : List ℚ).Pairwise (fun x y => x ≤ y)) ∧
    NewPolygon sweepOuter [sweepHoleInside, sweepHoleOnSide] [] =
      (match NewPolygon.sweep sweepOuter [sweepHoleInside, sweepHoleOnSide]
          (NewPolygon.intervals sweepOuter [sweepHoleInside, sweepHoleOnSide]) [1, 0, 2]
          ⟨[], 3, [], []⟩ with
      | .error e => .error e
      | .panic r => .panic r
      | .ok st =>
        if [sweepHoleInside, sweepHoleOnSide].any (fun hole =>
            (List.range hole.NumPoints).any fun i =>
              decide (pointRingSide (hole.PointN i).XY sweepOuter = side.exterior)) then
          .error .polygonHoleOutside
        else if graph.hasCycle st.graph then .error .polygonNotConnected
        else .ok ⟨sweepOuter, [sweepHoleInside, sweepHoleOnSide]⟩) := by
  have hs : NewPolygon.sorted sweepOuter [sweepHoleInside, sweepHoleOnSide] = [1, 0, 2] := by
    decide!
  refine ⟨⟨by decide!, by decide!, by decide!, by decide!⟩,
    ⟨by decide!, hs, by decide!, by decide!⟩, ?_⟩
  rw [NewPolygon_sweep_order sweepOuter [sweepHoleInside, sweepHoleOnSide] [] (by decide!)
    (by decide!) (by decide!), hs]
  rfl

/-! ## Reverse of a line string -/

theorem Coordinates_of_constructed (pts : List Coordinates) (opts : List ConstructorOption)
    (s : LineString) (h : NewLineStringC pts opts = .ok s) : s.Coordinates = pts := by
  simp only [LineString.Coordinates, LineString.NumPoints, LineString.PointN,
    Point.Coordinates, NewPointC]
  rw [range_map_getD s.points (fun idx => s.coords.getD idx ⟨⟨0, 0⟩⟩),
    NewLineStringC_points pts opts s h]

theorem NewLineStringC_reverse_ok (pts : List Coordinates) (s : LineString)
    (h : NewLineStringC pts [] = .ok s) : ∃ r, NewLineStringC pts.reverse [] = .ok r := by
  rw [NewLineStringC_eq] at h ⊢
  split_ifs at h with h1
  rw [if_neg]
  · exact ⟨_, rfl⟩
  · rintro ⟨hc, hlen⟩
    apply h1
    refine ⟨hc, ?_⟩
    rw [coords_short_iff] at hlen ⊢
    intro p hp q hq
    exact hlen p (List.mem_reverse.2 hp) q (List.mem_reverse.2 hq)

/-- C38: for every LineString `s` built by `NewLineStringC` with the default
options, `s.Reverse()` does not panic, its points are the points of `s` in
reverse order, and `s.Reverse().Reverse()` is `s` itself, with the same
`coords` and the same `points`. -/
theorem Reverse_of_constructed (pts : List Coordinates) (s : LineString)
    (h : NewLineStringC pts [] = .ok s) :
    ∃ r, s.Reverse = .ok r ∧ r.Coordinates = s.Coordinates.reverse ∧
      r.NumPoints = s.NumPoints ∧ r.Reverse = .ok s := by
  have hc := Coordinates_of_constructed pts [] s h
  obtain ⟨r, hr⟩ := NewLineStringC_reverse_ok pts s h
  have hrc := Coordinates_of_constructed pts.reverse [] r hr
  refine ⟨r, ?_, ?_, ?_, ?_⟩
  · simp only [LineString.Reverse, hc, hr]
  · rw [hrc, hc]
  · have h1 : r.Coordinates.length = s.Coordinates.length := by
      rw [hrc, hc, List.length_reverse]
    simpa [LineString.Coordinates] using h1
  · simp only [LineString.Reverse, hrc, List.reverse_reverse, h]

/-- Witness for C38: the line string (0 0,0 0,1 0) and its reverse
(1 0,0 0,0 0). -/
theorem Reverse_of_constructed_witness :
    ∃ r, (LineString.mk [⟨⟨0, 0⟩⟩, ⟨⟨1, 0⟩⟩] [0, 0, 1]).Reverse = .ok r ∧
      r.Coordinates = (LineString.mk [⟨⟨0, 0⟩⟩, ⟨⟨1, 0⟩⟩] [0, 0, 1]).Coordinates.reverse ∧
      r.NumPoints = (LineString.mk [⟨⟨0, 0⟩⟩, ⟨⟨1, 0⟩⟩] [0, 0, 1]).NumPoints ∧
      r.Reverse = .ok ⟨[⟨⟨0, 0⟩⟩, ⟨⟨1, 0⟩⟩], [0, 0, 1]⟩ :=
  Reverse_of_constructed _ _ eval_repeat

/-! ## Area and centroid of a polygon -/

theorem foldl_add_eq_sum (f : ℕ → ℚ) (n : ℕ) (a : ℚ) :
    (List.range n).foldl (fun s i => s + f i) a = a + ∑ i in Finset.range n, f i := by
  induction n with
  | zero => simp
  | succ n ih =>
    rw [List.range_succ, List.foldl_append, ih, Finset.sum_range_succ]
    simp only [List.foldl_cons, List.foldl_nil]
    ring

theorem sum_cyclic (g : ℕ → ℚ) (n : ℕ) :
    ∑ i in Finset.range n, g ((i + 1) % n) = ∑ i in Finset.range n, g i := by
  cases n with
  | zero => simp
  | succ m =>
    rw [Finset.sum_range_succ, Finset.sum_range_succ']
    simp only [Nat.mod_self]
    congr 1
    apply Finset.sum_congr rfl
    intro i hi
    rw [Nat.mod_eq_of_lt (by have := Finset.mem_range.1 hi; omega)]

theorem loop_area (lr : LineString) :
    (centroidAndAreaOfLinearRing.loop lr).2.2 =
      ∑ i in Finset.range lr.NumPoints,
        ((lr.PointN i).XY.X * (lr.PointN ((i + 1) % lr.NumPoints)).XY.Y -
          (lr.PointN ((i + 1) % lr.NumPoints)).XY.X * (lr.PointN i).XY.Y) := by
  have key : ∀ (l : List ℕ) (st : ℚ × ℚ × ℚ),
      (l.foldl (fun st i =>
        ((st.1 + ((lr.PointN i).XY.X + (lr.PointN ((i + 1) % lr.NumPoints)).XY.X) *
            ((lr.PointN i).XY.X * (lr.PointN ((i + 1) % lr.NumPoints)).XY.Y -
              (lr.PointN ((i + 1) % lr.NumPoints)).XY.X * (lr.PointN i).XY.Y),
          st.2.1 + ((lr.PointN i).XY.Y + (lr.PointN ((i + 1) % lr.NumPoints)).XY.Y) *
            ((lr.PointN i).XY.X * (lr.PointN ((i + 1) % lr.NumPoints)).XY.Y -
              (lr.PointN ((i + 1) % lr.NumPoints)).XY.X * (lr.PointN i).XY.Y),
          st.2.2 + ((lr.PointN i).XY.X * (lr.PointN ((i + 1) % lr.NumPoints)).XY.Y -
            (lr.PointN ((i + 1) % lr.NumPoints)).XY.X * (lr.PointN i).XY.Y)) : ℚ × ℚ × ℚ))
        st).2.2 =
      l.foldl (fun s i => s + ((lr.PointN i).XY.X * (lr.PointN ((i + 1) % lr.NumPoints)).XY.Y -
        (lr.PointN ((i + 1) % lr.NumPoints)).XY.X * (lr.PointN i).XY.Y)) st.2.2 := by
    intro l
    induction l with
    | nil => intro st; rfl
    | cons i l ih => intro st; simp only [List.foldl_cons]; rw [ih]
  unfold centroidAndAreaOfLinearRing.loop
  simp only []
  rw [key, foldl_add_eq_sum]
  simp

theorem signedArea_eq_loop (lr : LineString) :
    signedAreaOfLinearRing lr = (centroidAndAreaOfLinearRing.loop lr).2.2 / 2 := by
  unfold signedAreaOfLinearRing
  simp only []
  rw [foldl_add_eq_sum, loop_area, zero_add]
  congr 1
  have h := sum_cyclic (fun i => (lr.PointN i).XY.X * (lr.PointN i).XY.Y) lr.NumPoints
  simp only [] at h
  rw [← sub_eq_zero, ← Finset.sum_sub_distrib]
  rw [← sub_eq_zero, ← Finset.sum_sub_distrib] at h
  rw [← h]
  apply Finset.sum_congr rfl
  intro i _
  ring

theorem ring_area_eq (lr : LineString) :
    (centroidAndAreaOfLinearRing lr).2 = math.Abs (signedAreaOfLinearRing lr) := by
  rw [signedArea_eq_loop]
  rfl

theorem polygon_area_eq (p : Polygon) : (centroidAndAreaOfPolygon p).2.2 = p.Area := by
  unfold centroidAndAreaOfPolygon Polygon.Area
  simp only [List.foldl_map, ring_area_eq]

/-- C37: over exact arithmetic, the unsigned area that
`centroidAndAreaOfLinearRing` computes for a ring is the absolute value of
`signedAreaOfLinearRing`, for every line string; the total area used by
`Polygon.Centroid` is `Polygon.Area()`; and `Centroid` returns true exactly
when `Area()` is not zero. -/
theorem Centroid_defined_iff_area :
    (∀ lr : LineString,
      (centroidAndAreaOfLinearRing lr).2 = math.Abs (signedAreaOfLinearRing lr)) ∧
    (∀ p : Polygon, (centroidAndAreaOfPolygon p).2.2 = p.Area) ∧
    (∀ p : Polygon, p.Centroid.2 = true ↔ p.Area ≠ 0) := by
  refine ⟨ring_area_eq, polygon_area_eq, ?_⟩
  intro p
  unfold Polygon.Centroid
  simp only []
  rw [polygon_area_eq]
  split_ifs with h
  · simp [h]
  · simp [h]

theorem eval_triangle_area :
    (Polygon.mk ⟨[⟨⟨0, 0⟩⟩, ⟨⟨1, 0⟩⟩, ⟨⟨0, 1⟩⟩, ⟨⟨0, 0⟩⟩], [0, 1, 2, 3]⟩ []).Area = 1 / 2 ∧
    (Polygon.mk ⟨[⟨⟨0, 0⟩⟩, ⟨⟨1, 0⟩⟩, ⟨⟨0, 1⟩⟩, ⟨⟨0, 0⟩⟩], [0, 1, 2, 3]⟩ []).Centroid =
      (NewPointXY ⟨1 / 3, 1 / 3⟩, true) := by
  decide!

/-! ## The first error of the parser is kept -/

theorem Keeps_refl (p : parser) : parser.Keeps p p := fun _ h => h

theorem Keeps_trans {p q r : parser} (h1 : parser.Keeps p q) (h2 : parser.Keeps q r) :
    parser.Keeps p r := fun e h => h2 e (h1 e h)

theorem Keeps_of_err (p q : parser) (h : q.err = p.err) : parser.Keeps p q :=
  fun e he => by rw [h]; exact he

theorem Keeps_check (p : parser) (x : Option GeomError) : parser.Keeps p (p.check x) := by
  intro e he
  unfold parser.check
  split_ifs with h
  · rw [he] at h
    simp at h
  · exact he

theorem Keeps_unwind (p : parser) (r : PanicReason) : parser.Keeps p (p.unwind r) := by
  unfold parser.unwind
  split_ifs
  · exact Keeps_of_err _ _ rfl
  · exact Keeps_refl p

theorem Keeps_errorf (p : parser) (x : GeomError) : parser.Keeps p (p.errorf x) :=
  Keeps_check p _

theorem Keeps_mk_check (p : parser) (l : List Token) (x : Option GeomError) :
    parser.Keeps p ((parser.mk l p.opts p.err p.panicked).check x) :=
  fun e h => Keeps_check (parser.mk l p.opts p.err p.panicked) x e h

theorem Keeps_nextToken (p : parser) : parser.Keeps p p.nextToken.2 := by
  unfold parser.nextToken
  exact Keeps_mk_check _ _ _

theorem Keeps_peekToken (p : parser) : parser.Keeps p p.peekToken.2 := by
  unfold parser.peekToken
  exact Keeps_check _ _

theorem Keeps_checkEOF (p : parser) : parser.Keeps p p.checkEOF := by
  unfold parser.checkEOF
  simp only []
  split_ifs
  · exact Keeps_mk_check _ _ _
  · exact Keeps_of_err p _ rfl

theorem Keeps_nextEmptySetOrLeftParen (p : parser) :
    parser.Keeps p p.nextEmptySetOrLeftParen.2 := by
  unfold parser.nextEmptySetOrLeftParen
  simp only []
  split_ifs
  · exact Keeps_trans (Keeps_nextToken p) (Keeps_errorf _ _)
  · exact Keeps_nextToken p

theorem Keeps_nextRightParen (p : parser) : parser.Keeps p p.nextRightParen := by
  unfold parser.nextRightParen
  simp only []
  split_ifs
  · exact Keeps_trans (Keeps_nextToken p) (Keeps_check _ _)
  · exact Keeps_nextToken p

theorem Keeps_nextCommaOrRightParen (p : parser) :
    parser.Keeps p p.nextCommaOrRightParen.2 := by
  unfold parser.nextCommaOrRightParen
  simp only []
  split_ifs
  · exact Keeps_trans (Keeps_nextToken p) (Keeps_check _ _)
  · exact Keeps_nextToken p

theorem Keeps_nextSignedNumericLiteral (p : parser) :
    parser.Keeps p p.nextSignedNumericLiteral.2 := by
  unfold parser.nextSignedNumericLiteral
  simp only []
  split_ifs
  · exact Keeps_trans (Keeps_nextToken p) (Keeps_trans (Keeps_nextToken _)
      (Keeps_trans (Keeps_check _ _) (Keeps_errorf _ _)))
  · exact Keeps_trans (Keeps_nextToken p) (Keeps_trans (Keeps_nextToken _) (Keeps_check _ _))
  · exact Keeps_trans (Keeps_nextToken p) (Keeps_trans (Keeps_check _ _) (Keeps_errorf _ _))
  · exact Keeps_trans (Keeps_nextToken p) (Keeps_check _ _)

theorem Keeps_nextPoint (p : parser) : parser.Keeps p p.nextPoint.2 :=
  Keeps_trans (Keeps_nextSignedNumericLiteral p) (Keeps_nextSignedNumericLiteral _)

theorem Keeps_nextPointText (p : parser) : parser.Keeps p p.nextPointText.2 := by
  unfold parser.nextPointText
  simp only []
  split_ifs
  · exact Keeps_nextEmptySetOrLeftParen p
  · exact Keeps_trans (Keeps_nextEmptySetOrLeftParen p)
      (Keeps_trans (Keeps_nextPoint _) (Keeps_nextRightParen _))

theorem Keeps_loop {α : Type} (item : parser → α × parser)
    (hitem : ∀ q, parser.Keeps q (item q).2) :
    ∀ n p xs, parser.Keeps p (parser.loop item n p xs).2 := by
  intro n
  induction n with
  | zero => intro p xs; exact Keeps_unwind p _
  | succ n ih =>
    intro p xs
    unfold parser.loop
    simp only []
    split_ifs
    · exact Keeps_trans (Keeps_nextCommaOrRightParen p) (Keeps_trans (hitem _) (ih _ _))
    · exact Keeps_nextCommaOrRightParen p

theorem Keeps_nextLineStringText (n : Nat) (p : parser) :
    parser.Keeps p (p.nextLineStringText n).2 := by
  unfold parser.nextLineStringText
  simp only []
  split_ifs
  · exact Keeps_nextEmptySetOrLeftParen p
  · exact Keeps_trans (Keeps_nextEmptySetOrLeftParen p)
      (Keeps_trans (Keeps_nextPoint _) (Keeps_loop _ Keeps_nextPoint _ _ _))

theorem Keeps_nextPolygonText (n : Nat) (p : parser) :
    parser.Keeps p (p.nextPolygonText n).2 := by
  unfold parser.nextPolygonText
  simp only []
  split_ifs
  · exact Keeps_nextEmptySetOrLeftParen p
  · exact Keeps_trans (Keeps_nextEmptySetOrLeftParen p)
      (Keeps_trans (Keeps_nextLineStringText n _)
        (Keeps_loop _ (Keeps_nextLineStringText n) _ _ _))

theorem Keeps_nextMultiPolygonText (n : Nat) (p : parser) :
    parser.Keeps p (p.nextMultiPolygonText n).2 := by
  unfold parser.nextMultiPolygonText
  simp only []
  split_ifs
  · exact Keeps_nextEmptySetOrLeftParen p
  · exact Keeps_trans (Keeps_nextEmptySetOrLeftParen p)
      (Keeps_trans (Keeps_nextPolygonText n _)
        (Keeps_loop _ (Keeps_nextPolygonText n) _ _ _))

theorem Keeps_nextMultiPointStylePoint (p : parser) :
    parser.Keeps p p.nextMultiPointStylePoint.2 := by
  unfold parser.nextMultiPointStylePoint
  simp only []
  split_ifs
  · exact Keeps_trans (Keeps_peekToken p) (Keeps_nextToken _)
  · exact Keeps_trans (Keeps_peekToken p) (Keeps_trans (Keeps_nextToken _)
      (Keeps_trans (Keeps_nextPoint _) (Keeps_nextRightParen _)))
  · exact Keeps_trans (Keeps_peekToken p) (Keeps_nextPoint _)

theorem Keeps_nextMultiPointText (n : Nat) (p : parser) :
    parser.Keeps p (p.nextMultiPointText n).2 := by
  unfold parser.nextMultiPointText
  simp only []
  split_ifs
  · exact Keeps_nextEmptySetOrLeftParen p
  · exact Keeps_trans (Keeps_nextEmptySetOrLeftParen p)
      (Keeps_trans (Keeps_nextMultiPointStylePoint _)
        (Keeps_loop _ Keeps_nextMultiPointStylePoint _ _ _))

theorem Keeps_checked {α : Type} (p : parser) (zero : α) (out : Outcome α) :
    parser.Keeps p (p.checked zero out).2 := by
  cases out with
  | ok v => exact Keeps_refl p
  | error e => exact Keeps_check p _
  | panic r => exact Keeps_unwind p r

theorem Keeps_nextGeometryCollectionText (next : parser → Geometry × parser) (n : Nat)
    (hnext : ∀ q, parser.Keeps q (next q).2) (p : parser) :
    parser.Keeps p (parser.nextGeometryCollectionText next n p).2 := by
  unfold parser.nextGeometryCollectionText
  simp only []
  split_ifs
  · exact Keeps_nextEmptySetOrLeftParen p
  · exact Keeps_trans (Keeps_nextEmptySetOrLeftParen p)
      (Keeps_trans (hnext _) (Keeps_loop _ hnext _ _ _))

theorem Keeps_nextGeometryTaggedText :
    ∀ n p, parser.Keeps p (parser.nextGeometryTaggedText n p).2 := by
  intro n
  induction n with
  | zero => intro p; exact Keeps_unwind p _
  | succ n ih =>
    intro p
    have ht := Keeps_nextToken p
    unfold parser.nextGeometryTaggedText
    simp only []
    split_ifs
    · exact Keeps_trans ht (Keeps_nextPointText _)
    · exact Keeps_trans ht (Keeps_nextPointText _)
    · split
      · exact Keeps_trans ht (Keeps_nextLineStringText n _)
      · exact Keeps_trans ht (Keeps_trans (Keeps_nextLineStringText n _) (Keeps_checked _ _ _))
      · exact Keeps_trans ht (Keeps_trans (Keeps_nextLineStringText n _) (Keeps_checked _ _ _))
    · exact Keeps_trans ht (Keeps_nextPolygonText n _)
    · exact Keeps_trans ht (Keeps_trans (Keeps_nextPolygonText n _) (Keeps_checked _ _ _))
    · exact Keeps_trans ht (Keeps_nextMultiPointText n _)
    · exact Keeps_trans ht (Keeps_trans (Keeps_nextPolygonText n _) (Keeps_checked _ _ _))
    · exact Keeps_trans ht (Keeps_trans (Keeps_nextMultiPolygonText n _) (Keeps_checked _ _ _))
    · exact Keeps_trans ht (Keeps_nextGeometryCollectionText _ n ih _)
    · exact Keeps_trans ht (Keeps_errorf _ _)

theorem UnmarshalWKT_eq (r : List Token) (opts : List ConstructorOption) :
    UnmarshalWKT r opts =
      match (parser.nextGeometryTaggedText (r.length + 1) (newParser r opts)).2.checkEOF.err
        with
      | some e => .error e
      | none => .ok (parser.nextGeometryTaggedText (r.length + 1) (newParser r opts)).1 := by
  have hs := Step_nextGeometryTaggedText (r.length + 1) (newParser r opts)
    (by simp [newParser])
  have hk := hs.panicked rfl
  have hc := (checkEOF_spec (parser.nextGeometryTaggedText (r.length + 1)
    (newParser r opts)).2).1
  unfold UnmarshalWKT
  simp only []
  rw [hc, hk]

theorem checkEOF_cons (t : Token) (l : List Token) (o : List ConstructorOption)
    (e : Option GeomError) (k : Option PanicReason) :
    (parser.mk (t :: l) o e k).checkEOF.err = some (e.getD (.wktExpectedEOF t)) := by
  cases e <;> simp [parser.checkEOF, wktLexer.next, parser.check]

/-- C39: when a token is left after `nextGeometryTaggedText` has read one
geometry, `UnmarshalWKT` returns an error: the error that the parser holds
already, or else `expected EOF` with that token. In general `UnmarshalWKT`
returns the error held by the parser at the end, and an error that the parser
holds is never replaced: not by `check`, not by reading a geometry, not by
`checkEOF`. -/
theorem UnmarshalWKT_first_error (r : List Token) (opts : List ConstructorOption)
    (t : Token) (rest : List Token)
    (h : (parser.nextGeometryTaggedText (r.length + 1) (newParser r opts)).2.lexer =
      t :: rest) :
    UnmarshalWKT r opts =
      .error (((parser.nextGeometryTaggedText (r.length + 1) (newParser r opts)).2.err).getD
        (.wktExpectedEOF t)) ∧
    (UnmarshalWKT r opts =
      match (parser.nextGeometryTaggedText (r.length + 1) (newParser r opts)).2.checkEOF.err
        with
      | some e => .error e
      | none => .ok (parser.nextGeometryTaggedText (r.length + 1) (newParser r opts)).1) ∧
    (∀ (p : parser) (x : Option GeomError) (e : GeomError),
      p.err = some e → (p.check x).err = some e) ∧
    (∀ (n : Nat) (p : parser) (e : GeomError),
      p.err = some e → (parser.nextGeometryTaggedText n p).2.err = some e) ∧
    (∀ (p : parser) (e : GeomError), p.err = some e → p.checkEOF.err = some e) := by
  refine ⟨?_, UnmarshalWKT_eq r opts, fun p x e => Keeps_check p x e,
    fun n p e => Keeps_nextGeometryTaggedText n p e, fun p e => Keeps_checkEOF p e⟩
  rw [UnmarshalWKT_eq]
  generalize (parser.nextGeometryTaggedText (r.length + 1) (newParser r opts)) = res at h
  rcases res with ⟨g, ⟨l, o, e, k⟩⟩
  simp only at h
  subst h
  rw [checkEOF_cons]

/-- Witness for C39: in `POINT(1 2) POINT EMPTY` the second POINT is left
over. -/
theorem UnmarshalWKT_first_error_witness :
    UnmarshalWKT [.text "POINT", .text "(", .number 1, .number 2, .text ")", .text "POINT",
      .text "EMPTY"] [] = .error (.wktExpectedEOF (.text "POINT")) :=
  (UnmarshalWKT_first_error
    [.text "POINT", .text "(", .number 1, .number 2, .text ")", .text "POINT", .text "EMPTY"]
    [] (.text "POINT") [.text "EMPTY"] rfl).1

/-! ## The budget of the parser -/

theorem loop_fuel {α : Type} (item1 item2 : parser → α × parser) (B : Nat)
    (hitem : ∀ q, q.lexer.length < B → item1 q = item2 q)
    (hlen : ∀ q, q.lexer.length < B → (item1 q).2.lexer.length ≤ q.lexer.length) :
    ∀ n m p xs, p.lexer.length < n → p.lexer.length < m → p.lexer.length ≤ B →
      parser.loop item1 n p xs = parser.loop item2 m p xs := by
  intro n
  induction n with
  | zero => intro m p xs h; omega
  | succ n ih =>
    intro m p xs hn hm hB
    cases m with
    | zero => omega
    | succ m =>
      obtain ⟨_, hlt⟩ := Step_nextCommaOrRightParen p
      simp only [parser.loop]
      split_ifs with h
      · have h1 := hlt h
        have h2 := hlen _ (show p.nextCommaOrRightParen.2.lexer.length < B by omega)
        rw [← hitem _ (by omega)]
        exact ih _ _ _ (by omega) (by omega) (by omega)
      · rfl

theorem nextLineStringText_fuel (n m : Nat) (p : parser) (hn : p.lexer.length < n)
    (hm : p.lexer.length < m) : p.nextLineStringText n = p.nextLineStringText m := by
  unfold parser.nextLineStringText
  simp only []
  have h1 := (Step_nextEmptySetOrLeftParen p).length
  have h2 := (Step_nextPoint p.nextEmptySetOrLeftParen.2).length
  split_ifs
  · rfl
  · exact loop_fuel parser.nextPoint parser.nextPoint p.lexer.length (fun _ _ => rfl)
      (fun q _ => (Step_nextPoint q).length) n m _ _ (by omega) (by omega) (by omega)

theorem nextMultiPointText_fuel (n m : Nat) (p : parser) (hn : p.lexer.length < n)
    (hm : p.lexer.length < m) : p.nextMultiPointText n = p.nextMultiPointText m := by
  unfold parser.nextMultiPointText
  simp only []
  have h1 := (Step_nextEmptySetOrLeftParen p).length
  have h2 := (Step_nextMultiPointStylePoint p.nextEmptySetOrLeftParen.2).length
  split_ifs
  · rfl
  · exact loop_fuel parser.nextMultiPointStylePoint parser.nextMultiPointStylePoint
      p.lexer.length (fun _ _ => rfl)
      (fun q _ => (Step_nextMultiPointStylePoint q).length) n m _ _ (by omega) (by omega)
      (by omega)

theorem nextPolygonText_fuel (n m : Nat) (p : parser) (hn : p.lexer.length < n)
    (hm : p.lexer.length < m) : p.nextPolygonText n = p.nextPolygonText m := by
  unfold parser.nextPolygonText
  simp only []
  have h1 := (Step_nextEmptySetOrLeftParen p).length
  have h2 := (Step_nextLineStringText n p.nextEmptySetOrLeftParen.2 (by omega)).length
  split_ifs
  · rfl
  · rw [← nextLineStringText_fuel n m p.nextEmptySetOrLeftParen.2 (by omega) (by omega)]
    exact loop_fuel (parser.nextLineStringText n) (parser.nextLineStringText m)
      p.lexer.length (fun q hq => nextLineStringText_fuel n m q (by omega) (by omega))
      (fun q hq => (Step_nextLineStringText n q (by omega)).length) n m _ _ (by omega)
      (by omega) (by omega)

theorem nextMultiPolygonText_fuel (n m : Nat) (p : parser) (hn : p.lexer.length < n)
    (hm : p.lexer.length < m) : p.nextMultiPolygonText n = p.nextMultiPolygonText m := by
  unfold parser.nextMultiPolygonText
  simp only []
  have h1 := (Step_nextEmptySetOrLeftParen p).length
  have h2 := (Step_nextPolygonText n p.nextEmptySetOrLeftParen.2 (by omega)).length
  split_ifs
  · rfl
  · rw [← nextPolygonText_fuel n m p.nextEmptySetOrLeftParen.2 (by omega) (by omega)]
    exact loop_fuel (parser.nextPolygonText n) (parser.nextPolygonText m)
      p.lexer.length (fun q hq => nextPolygonText_fuel n m q (by omega) (by omega))
      (fun q hq => (Step_nextPolygonText n q (by omega)).length) n m _ _ (by omega)
      (by omega) (by omega)

theorem nextGeometryCollectionText_fuel (next1 next2 : parser → Geometry × parser)
    (n m : Nat) (p : parser)
    (hnext : ∀ q, q.lexer.length ≤ p.lexer.length → next1 q = next2 q)
    (hlen : ∀ q, q.lexer.length ≤ p.lexer.length → (next1 q).2.lexer.length ≤ q.lexer.length)
    (hn : p.lexer.length < n) (hm : p.lexer.length < m) :
    parser.nextGeometryCollectionText next1 n p =
      parser.nextGeometryCollectionText next2 m p := by
  unfold parser.nextGeometryCollectionText
  simp only []
  have h1 := (Step_nextEmptySetOrLeftParen p).length
  have h2 := hlen p.nextEmptySetOrLeftParen.2 h1
  split_ifs
  · rfl
  · rw [← hnext p.nextEmptySetOrLeftParen.2 h1,
      loop_fuel next1 next2 p.lexer.length (fun q hq => hnext q (by omega))
        (fun q hq => hlen q (by omega)) n m _ _ (by omega) (by omega) (by omega)]

theorem nextGeometryTaggedText_nil (n : Nat) (o : List ConstructorOption)
    (e : Option GeomError) (k : Option PanicReason) :
    parser.nextGeometryTaggedText (n + 1) ⟨[], o, e, k⟩ =
      (Geometry.zero, ((parser.mk [] o e k).check (some .wktUnexpectedEOF)).errorf
        (.wktUnexpectedToken (.text ""))) := by
  simp only [parser.nextGeometryTaggedText, nextToken_nil]
  rw [if_neg (by decide), if_neg (by decide), if_neg (by decide), if_neg (by decide),
    if_neg (by decide), if_neg (by decide), if_neg (by decide)]

theorem nextGeometryTaggedText_fuel :
    ∀ n m p, p.lexer.length < n → p.lexer.length < m →
      parser.nextGeometryTaggedText n p = parser.nextGeometryTaggedText m p := by
  intro n
  induction n with
  | zero => intro m p h; omega
  | succ n ih =>
    intro m p hn hm
    cases m with
    | zero => omega
    | succ m =>
      rcases p with ⟨l, o, e, k⟩
      cases l with
      | nil => rw [nextGeometryTaggedText_nil, nextGeometryTaggedText_nil]
      | cons t l =>
        have hl : (parser.mk l o e k).lexer.length < n := by
          simp only [List.length_cons] at hn ⊢
          omega
        have hl2 : (parser.mk l o e k).lexer.length < m := by
          simp only [List.length_cons] at hm ⊢
          omega
        have e1 := nextLineStringText_fuel n m ⟨l, o, e, k⟩ hl hl2
        have e2 := nextPolygonText_fuel n m ⟨l, o, e, k⟩ hl hl2
        have e3 := nextMultiPointText_fuel n m ⟨l, o, e, k⟩ hl hl2
        have e4 := nextMultiPolygonText_fuel n m ⟨l, o, e, k⟩ hl hl2
        have e5 := nextGeometryCollectionText_fuel (parser.nextGeometryTaggedText n)
          (parser.nextGeometryTaggedText m) n m ⟨l, o, e, k⟩
          (fun q hq => ih m q (by omega) (by omega))
          (fun q hq => (Step_nextGeometryTaggedText n q (by omega)).length) hl hl2
        simp only [parser.nextGeometryTaggedText, nextToken_cons, e1, e2, e3, e4, e5]

theorem checked_lexer {α : Type} (p : parser) (zero : α) (out : Outcome α) :
    (p.checked zero out).2.lexer = p.lexer := by
  cases out with
  | ok v => rfl
  | error e => exact check_lexer p _
  | panic r =>
    simp only [parser.checked, parser.unwind]
    split_ifs <;> rfl

theorem nextGeometryTaggedText_cons_length (n : Nat) (t : Token) (l : List Token)
    (o : List ConstructorOption) (e : Option GeomError) (k : Option PanicReason)
    (hl : l.length < n) :
    (parser.nextGeometryTaggedText (n + 1) ⟨t :: l, o, e, k⟩).2.lexer.length ≤ l.length := by
  have hl2 : (parser.mk l o e k).lexer.length < n := hl
  simp only [parser.nextGeometryTaggedText, nextToken_cons]
  by_cases h1 : strings.ToUpper t = .text "POINT"
  · rw [if_pos h1]
    split_ifs <;> exact (Step_nextPointText ⟨l, o, e, k⟩).length
  rw [if_neg h1]
  by_cases h2 : strings.ToUpper t = .text "LINESTRING"
  · rw [if_pos h2]
    have hs := (Step_nextLineStringText n ⟨l, o, e, k⟩ hl2).length
    split
    · exact hs
    · simp only [checked_lexer]
      exact hs
    · simp only [checked_lexer]
      exact hs
  rw [if_neg h2]
  by_cases h3 : strings.ToUpper t = .text "POLYGON"
  · rw [if_pos h3]
    have hs := (Step_nextPolygonText n ⟨l, o, e, k⟩ hl2).length
    split_ifs
    · exact hs
    · simp only [checked_lexer]
      exact hs
  rw [if_neg h3]
  by_cases h4 : strings.ToUpper t = .text "MULTIPOINT"
  · rw [if_pos h4]
    exact (Step_nextMultiPointText n ⟨l, o, e, k⟩ hl2).length
  rw [if_neg h4]
  by_cases h5 : strings.ToUpper t = .text "MULTILINESTRING"
  · rw [if_pos h5]
    simp only [checked_lexer]
    exact (Step_nextPolygonText n ⟨l, o, e, k⟩ hl2).length
  rw [if_neg h5]
  by_cases h6 : strings.ToUpper t = .text "MULTIPOLYGON"
  · rw [if_pos h6]
    simp only [checked_lexer]
    exact (Step_nextMultiPolygonText n ⟨l, o, e, k⟩ hl2).length
  rw [if_neg h6]
  by_cases h7 : strings.ToUpper t = .text "GEOMETRYCOLLECTION"
  · rw [if_pos h7]
    exact (Step_nextGeometryCollectionText _ n
      (fun q hq => Step_nextGeometryTaggedText n q hq) ⟨l, o, e, k⟩ hl2).length
  rw [if_neg h7]
  simp [parser.errorf, check_lexer]

theorem nextGeometryTaggedText_consumes (n : Nat) (p : parser) (hne : p.lexer ≠ [])
    (hn : p.lexer.length < n) :
    (parser.nextGeometryTaggedText n p).2.lexer.length < p.lexer.length := by
  rcases p with ⟨l, o, e, k⟩
  cases l with
  | nil => exact absurd rfl hne
  | cons t l =>
    cases n with
    | zero => simp at hn
    | succ n =>
      simp only [List.length_cons] at hn ⊢
      have := nextGeometryTaggedText_cons_length n t l o e k (by omega)
      omega

theorem check_EOF_err (l : List Token) (o : List ConstructorOption) (e : Option GeomError)
    (k : Option PanicReason) (x : GeomError) :
    ((parser.mk l o e k).check (some x)).err = some (e.getD x) := by
  cases e <;> simp [parser.check]

theorem loop_at_end {α : Type} (item : parser → α × parser) (n : Nat) (p : parser)
    (xs : List α) (h : p.lexer = []) :
    parser.loop item (n + 1) p xs = (xs, p.nextCommaOrRightParen.2) ∧
      p.nextCommaOrRightParen.1 = .text "" ∧
      p.nextCommaOrRightParen.2.lexer = [] ∧
      p.nextCommaOrRightParen.2.err = some (p.err.getD .wktUnexpectedEOF) := by
  rcases p with ⟨l, o, e, k⟩
  simp only at h
  subst h
  have h1 : (parser.mk [] o e k).nextCommaOrRightParen =
      (.text "", (((parser.mk [] o e k).check (some .wktUnexpectedEOF)).check
        (some (.wktExpectedCommaOrRightParen (.text ""))))) := by
    simp only [parser.nextCommaOrRightParen, nextToken_nil]
    rw [if_pos (by decide)]
  refine ⟨?_, ?_, ?_, ?_⟩
  · simp only [parser.loop]
    rw [h1]
    exact if_neg (show ¬ Token.text "" = Token.text "," by decide)
  · rw [h1]
  · rw [h1]
    simp [check_lexer]
  · rw [h1]
    cases e <;> simp [parser.check]

theorem nextToken_at_end (p : parser) (h : p.lexer = []) :
    p.nextToken = (.text "", p.check (some .wktUnexpectedEOF)) ∧
      p.nextToken.2.err = some (p.err.getD .wktUnexpectedEOF) := by
  rcases p with ⟨l, o, e, k⟩
  simp only at h
  subst h
  rw [nextToken_nil]
  exact ⟨rfl, check_EOF_err _ _ _ _ _⟩

theorem nextGeometryTaggedText_at_end (n : Nat) (p : parser) (h : p.lexer = []) :
    (parser.nextGeometryTaggedText (n + 1) p).1 = Geometry.zero ∧
      (parser.nextGeometryTaggedText (n + 1) p).2.lexer = [] ∧
      (parser.nextGeometryTaggedText (n + 1) p).2.err =
        some (p.err.getD .wktUnexpectedEOF) := by
  rcases p with ⟨l, o, e, k⟩
  simp only at h
  subst h
  rw [nextGeometryTaggedText_nil]
  refine ⟨rfl, ?_, ?_⟩
  · simp [parser.errorf, check_lexer]
  · cases e <;> simp [parser.errorf, parser.check]

theorem eval_nested_collection :
    UnmarshalWKT [.text "GEOMETRYCOLLECTION", .text "(", .text "GEOMETRYCOLLECTION",
      .text "(", .text "POINT", .text "(", .number 1, .number 2, .text ")", .text ")",
      .text ")"] [] =
      .ok (NewGeometryCollection [NewGeometryCollection [.point (NewPointC ⟨⟨1, 2⟩⟩)]]) ∧
    UnmarshalWKT [.text "GEOMETRYCOLLECTION", .text "(", .text "POINT", .text "(", .number 1,
      .number 2, .text ")", .text ","] [] = .error .wktUnexpectedEOF :=
  ⟨rfl, rfl⟩

/-- C40: `UnmarshalWKT` returns a geometry or an error for every list of
tokens, and the budget of the embedded parser is never used up; any larger
budget gives the same run. A turn of a list loop that goes on has read a token,
and reading a geometry from tokens that are not used up reads at least one. At
the end of the input the token returned is the empty string, which is neither
`,` nor a tag: a list loop stops there and a geometry read there is the zero
geometry, in both cases with the error `unexpected EOF` held by the parser
unless it held an error before. -/
theorem UnmarshalWKT_terminates (r : List Token) (opts : List ConstructorOption) :
    ((∃ g, UnmarshalWKT r opts = .ok g) ∨ (∃ e, UnmarshalWKT r opts = .error e)) ∧
    UnmarshalWKT r opts ≠ .panic .fuelExhausted ∧
    (∀ n, r.length < n →
      parser.nextGeometryTaggedText n (newParser r opts) =
        parser.nextGeometryTaggedText (r.length + 1) (newParser r opts)) ∧
    (∀ p : parser, p.nextCommaOrRightParen.1 = .text "," →
      p.nextCommaOrRightParen.2.lexer.length < p.lexer.length) ∧
    (∀ (n : Nat) (p : parser), p.lexer ≠ [] → p.lexer.length < n →
      (parser.nextGeometryTaggedText n p).2.lexer.length < p.lexer.length) ∧
    (∀ p : parser, p.lexer = [] →
      p.nextToken = (.text "", p.check (some .wktUnexpectedEOF)) ∧
        p.nextToken.2.err = some (p.err.getD .wktUnexpectedEOF)) ∧
    (Token.text "" ≠ .text "," ∧
      strings.ToUpper (.text "") ∉ [Token.text "POINT", .text "LINESTRING", .text "POLYGON",
        .text "MULTIPOINT", .text "MULTILINESTRING", .text "MULTIPOLYGON",
        .text "GEOMETRYCOLLECTION"]) ∧
    (∀ (α : Type) (item : parser → α × parser) (n : Nat) (p : parser) (xs : List α),
      p.lexer = [] →
        parser.loop item (n + 1) p xs = (xs, p.nextCommaOrRightParen.2) ∧
          p.nextCommaOrRightParen.2.err = some (p.err.getD .wktUnexpectedEOF)) ∧
    (∀ (n : Nat) (p : parser), p.lexer = [] →
      (parser.nextGeometryTaggedText (n + 1) p).1 = Geometry.zero ∧
        (parser.nextGeometryTaggedText (n + 1) p).2.err =
          some (p.err.getD .wktUnexpectedEOF)) := by
  refine ⟨?_, UnmarshalWKT_no_panic r opts _, ?_, fun p => (Step_nextCommaOrRightParen p).2,
    nextGeometryTaggedText_consumes, nextToken_at_end, ⟨by decide, by decide⟩, ?_, ?_⟩
  · have h := UnmarshalWKT_no_panic r opts
    cases hu : UnmarshalWKT r opts with
    | ok g => exact Or.inl ⟨g, rfl⟩
    | error e => exact Or.inr ⟨e, rfl⟩
    | panic k => exact absurd hu (h k)
  · intro n hn
    exact nextGeometryTaggedText_fuel n (r.length + 1) (newParser r opts) hn
      (Nat.lt_succ_self _)
  · intro α item n p xs h
    have := loop_at_end item n p xs h
    exact ⟨this.1, this.2.2.2⟩
  · intro n p h
    have := nextGeometryTaggedText_at_end n p h
    exact ⟨this.1, this.2.2⟩

/-! ## Float64: where exact arithmetic is needed -/

theorem eval_round :
    float64.round (1 / 3) = some (6004799503160661 * float64.pow2 (-54)) ∧
    float64.round (2 / 3) = some (6004799503160661 * float64.pow2 (-53)) ∧
    float64.round (1 / 10) = some (3602879701896397 * float64.pow2 (-55)) ∧
    float64.round (1 + float64.pow2 (-53)) = some 1 ∧
    float64.round (1 + 3 * float64.pow2 (-53)) = some (1 + float64.pow2 (-51)) ∧
    float64.round (-(1 + 3 * float64.pow2 (-53))) = some (-(1 + float64.pow2 (-51))) ∧
    float64.round (float64.pow2 (-1075)) = some 0 ∧
    float64.round (3 * float64.pow2 (-1075)) = some (float64.pow2 (-1073)) ∧
    float64.round (float64.pow2 1024 - float64.pow2 971) =
      some (float64.pow2 1024 - float64.pow2 971) ∧
    float64.round (float64.pow2 1024 - float64.pow2 970) = none ∧
    float64.round (float64.pow2 1024) = none ∧
    float64.round (3 / 2) = some (3 / 2) := by
  decide!

theorem eval_float_orientations :
    float64.orientation ⟨0, 0⟩ ⟨1, 1⟩ ⟨0, 1⟩ = some .leftTurn ∧
    float64.orientation ⟨0, 0⟩ ⟨1, 1⟩ ⟨1 / 2, 0⟩ = some .rightTurn ∧
    float64.orientation ⟨0, 1⟩ ⟨1 / 2, 0⟩ ⟨0, 0⟩ = some .rightTurn ∧
    float64.orientation ⟨0, 1⟩ ⟨1 / 2, 0⟩ ⟨1, 1⟩ = some .leftTurn := by
  decide!

theorem eval_float_crossing :
    float64.crossing ⟨0, 0⟩ ⟨1, 1⟩ ⟨0, 1⟩ ⟨1 / 2, 0⟩ =
      some ⟨6004799503160661 * float64.pow2 (-54), 6004799503160661 * float64.pow2 (-54)⟩ ∧
    float64.crossing ⟨0, 1⟩ ⟨1 / 2, 0⟩ ⟨0, 0⟩ ⟨1, 1⟩ =
      some ⟨6004799503160661 * float64.pow2 (-54), 3002399751580331 * float64.pow2 (-53)⟩ := by
  decide!

theorem eval_exact_crossing :
    intersection (.line ⟨⟨⟨0, 0⟩⟩, ⟨⟨1, 1⟩⟩⟩) (.line ⟨⟨⟨0, 1⟩⟩, ⟨⟨1 / 2, 0⟩⟩⟩) =
      .ok (.point (NewPointXY ⟨1 / 3, 1 / 3⟩)) ∧
    intersection (.line ⟨⟨⟨0, 1⟩⟩, ⟨⟨1 / 2, 0⟩⟩⟩) (.line ⟨⟨⟨0, 0⟩⟩, ⟨⟨1, 1⟩⟩⟩) =
      .ok (.point (NewPointXY ⟨1 / 3, 1 / 3⟩)) := by
  constructor
  · rw [intersection_line_line, intersectLineWithLine_unfold]
    simp [orientation, NewPointXY, XY.Sub, XY.Scale, XY.Add]
    norm_num
    simp
  · rw [intersection_line_line, intersectLineWithLine_unfold]
    simp [orientation, NewPointXY, XY.Sub, XY.Scale, XY.Add]
    norm_num
    simp

/-- Counterexample for C3: computed in float64, `intersectLineWithLine` (which
is `intersection` for two Lines) gives POINT(0.3333333333333333
0.3333333333333333) for LINESTRING(0 0,1 1) with LINESTRING(0 1,0.5 0), and
POINT(0.3333333333333333 0.33333333333333337) for the two lines in the other
order: `p = e / f` is 1/3 rounded in one order and 2/3 rounded in the other,
and `1 - p` is rounded once more. The two results are not equal up to order.
In exact arithmetic both are POINT(1/3 1/3). -/
theorem intersectLineWithLine_float64_order :
    float64.intersectLineWithLine ⟨⟨⟨0, 0⟩⟩, ⟨⟨1, 1⟩⟩⟩ ⟨⟨⟨0, 1⟩⟩, ⟨⟨1 / 2, 0⟩⟩⟩ =
      some (.ok (.point (NewPointXY
        ⟨6004799503160661 * float64.pow2 (-54), 6004799503160661 * float64.pow2 (-54)⟩))) ∧
    float64.intersectLineWithLine ⟨⟨⟨0, 1⟩⟩, ⟨⟨1 / 2, 0⟩⟩⟩ ⟨⟨⟨0, 0⟩⟩, ⟨⟨1, 1⟩⟩⟩ =
      some (.ok (.point (NewPointXY
        ⟨6004799503160661 * float64.pow2 (-54), 3002399751580331 * float64.pow2 (-53)⟩))) ∧
    ¬ sameUpToOrder
      (.point (NewPointXY
        ⟨6004799503160661 * float64.pow2 (-54), 6004799503160661 * float64.pow2 (-54)⟩))
      (.point (NewPointXY
        ⟨6004799503160661 * float64.pow2 (-54), 3002399751580331 * float64.pow2 (-53)⟩)) ∧
    intersection (.line ⟨⟨⟨0, 0⟩⟩, ⟨⟨1, 1⟩⟩⟩) (.line ⟨⟨⟨0, 1⟩⟩, ⟨⟨1 / 2, 0⟩⟩⟩) =
      .ok (.point (NewPointXY ⟨1 / 3, 1 / 3⟩)) ∧
    intersection (.line ⟨⟨⟨0, 1⟩⟩, ⟨⟨1 / 2, 0⟩⟩⟩) (.line ⟨⟨⟨0, 0⟩⟩, ⟨⟨1, 1⟩⟩⟩) =
      .ok (.point (NewPointXY ⟨1 / 3, 1 / 3⟩)) := by
  obtain ⟨o1, o2, o3, o4⟩ := eval_float_orientations
  obtain ⟨c1, c2⟩ := eval_float_crossing
  refine ⟨?_, ?_, ?_, eval_exact_crossing.1, eval_exact_crossing.2⟩
  · simp only [float64.intersectLineWithLine, o1, o2, o3, o4, Option.bind_eq_bind,
      Option.some_bind, float64.intersectLineWithLine.branches, c1]
    rfl
  · simp only [float64.intersectLineWithLine, o1, o2, o3, o4, Option.bind_eq_bind,
      Option.some_bind, float64.intersectLineWithLine.branches, c2]
    rfl
  · rintro ⟨-, hp, -⟩
    simp only [pointsOf, List.perm_singleton, List.cons.injEq, and_true] at hp
    have : (6004799503160661 * float64.pow2 (-54) : ℚ) = 3002399751580331 * float64.pow2 (-53) :=
      congrArg (fun p : Point => p.coords.XY.Y) hp
    exact absurd this (by decide!)

theorem eval_nearMiss :
    NewLineStringC nearMiss.coords [] = .ok nearMiss ∧
    float64.IsSimple nearMiss = some false ∧
    LineString.IsSimple nearMiss = true ∧
    (∀ ln ∈ nearMiss.lines, ln.a.XY ≠ ln.b.XY) := by
  decide!

/-- Counterexample for C15: computed in float64, `IsSimple` returns false for
the line string (0 0, 1.0000000000000004 1.0000000000000002, 5 0,
1.0000000000000002 1), built by `NewLineStringC`, although the curve passes
through no point twice: no two of its segments have a common point other than
the shared endpoint of two adjacent ones. The rounded orientations of the
first and the last segment put the ends of each on the two sides of the other.
In exact arithmetic `IsSimple` returns true. -/
theorem IsSimple_float64_not_pairs :
    NewLineStringC nearMiss.coords [] = .ok nearMiss ∧
    float64.IsSimple nearMiss = some false ∧
    nearMiss.simpleByPairs ∧
    nearMiss.IsSimple = true :=
  ⟨eval_nearMiss.1, eval_nearMiss.2.1,
    (IsSimple_pairs nearMiss eval_nearMiss.2.2.2).1 eval_nearMiss.2.2.1, eval_nearMiss.2.2.1⟩

theorem eval_nearMissPoint :
    float64.removeCovered (dedupPoints [nearMissPoint]) (dedupLines [nearMissLine]) = some [] ∧
    dedupLines [nearMissLine] = [nearMissLine] ∧
    dedupPoints [nearMissPoint] = [nearMissPoint] ∧
    removeCovered (dedupPoints [nearMissPoint]) (dedupLines [nearMissLine]) = [nearMissPoint] ∧
    nearMissPoint.IntersectsLine nearMissLine = false ∧
    float64.IntersectsLine nearMissPoint nearMissLine = some true := by
  decide!

/-- Counterexample for C35: computed in float64, `canonicalPointsAndLines`
drops the point (1.0000000000000002 1) next to the segment from (0 0) to
(1.0000000000000004 1.0000000000000002) and returns the segment alone,
although the point does not lie on the segment: the two products of the
on-line test are rounded to the same float64. In exact arithmetic the point is
returned together with the segment. -/
theorem canonicalPointsAndLines_float64_drops :
    float64.canonicalPointsAndLines [nearMissPoint] [nearMissLine] =
      some (.ok (.line nearMissLine)) ∧
    nearMissPoint ∈ dedupPoints [nearMissPoint] ∧
    nearMissPoint.empty = false ∧
    ¬ onClosedSegment nearMissLine.a.XY nearMissLine.b.XY nearMissPoint.XY ∧
    canonicalPointsAndLines [nearMissPoint] [nearMissLine] =
      .ok (NewGeometryCollection [.point nearMissPoint, .line nearMissLine]) := by
  obtain ⟨h1, h2, h3, h4, h5, -⟩ := eval_nearMissPoint
  refine ⟨?_, ?_, rfl, ?_, ?_⟩
  · unfold float64.canonicalPointsAndLines
    simp only []
    rw [h1, h2]
    rfl
  · rw [h3]
    exact List.mem_singleton.2 rfl
  · intro hon
    have := (IntersectsLine_iff nearMissPoint nearMissLine).2 ⟨rfl, hon⟩
    rw [h5] at this
    cases this
  · unfold canonicalPointsAndLines
    simp only []
    rw [h4, h2]
    rfl

/-! ## Every ordinate that is read is finite -/

theorem finite_of_not_NaN_Inf (f : Float64) (h1 : math.IsNaN f = false)
    (h2 : math.IsInf f = false) : ∃ v, f = .finite v ∧ f.value = v := by
  cases f with
  | finite v => exact ⟨v, rfl, rfl⟩
  | nan => cases h1
  | inf n => cases h2

theorem nextPoint_finite (p : parser) (h : p.nextPoint.2.err = none) :
    ∃ vx vy, p.nextSignedNumericLiteral.1 = .finite vx ∧
      p.nextSignedNumericLiteral.2.nextSignedNumericLiteral.1 = .finite vy ∧
      p.nextPoint.1 = ⟨⟨vx, vy⟩⟩ := by
  have hy : p.nextSignedNumericLiteral.2.nextSignedNumericLiteral.2.err = none := h
  have hx : p.nextSignedNumericLiteral.2.err = none := by
    cases he : p.nextSignedNumericLiteral.2.err with
    | none => rfl
    | some e =>
      have := Keeps_nextSignedNumericLiteral p.nextSignedNumericLiteral.2 e he
      rw [hy] at this
      cases this
  obtain ⟨a1, a2⟩ := nextSignedNumericLiteral_finite p hx
  obtain ⟨b1, b2⟩ := nextSignedNumericLiteral_finite p.nextSignedNumericLiteral.2 hy
  obtain ⟨vx, ex, fx⟩ := finite_of_not_NaN_Inf _ a1 a2
  obtain ⟨vy, ey, fy⟩ := finite_of_not_NaN_Inf _ b1 b2
  refine ⟨vx, vy, ex, ey, ?_⟩
  unfold parser.nextPoint
  simp only []
  rw [fx, fy]

/-- C26: a token that `strconv.ParseFloat` reads as NaN or as an infinity is
rejected: the words for NaN and the infinities, and a numeric literal too
large for a float64, which is read as an infinity. `UnmarshalWKT` returns an
error for every text in which such a token occurs. Read as a number, with or
without the sign `-` in front, the token leaves an error in a parser that held
none: the error of `ParseFloat` if it reports one, else `invalid signed
numeric literal`. Every ordinate is finite: when `nextSignedNumericLiteral`
leaves no error in the parser, the float64 it returns is neither NaN nor an
infinity; when `nextPoint` leaves no error, the two ordinates of the point it
returns are the values of two finite float64; and a text that is read without
an error holds no token that `ParseFloat` reads as NaN or as an infinity. -/
theorem UnmarshalWKT_rejects_NaN_Inf (r : List Token) (opts : List ConstructorOption)
    (t : Token) (ht : t ∈ r) (hbad : Token.notFinite t = true) :
    (∃ e, UnmarshalWKT r opts = .error e) ∧
    (∀ l o k, (parser.mk (t :: l) o none k).nextSignedNumericLiteral.2.err =
      some ((strconv.ParseFloat t).2.getD (.wktInvalidSignedNumericLiteral t))) ∧
    (∀ l o k, (parser.mk (.text "-" :: t :: l) o none k).nextSignedNumericLiteral.2.err =
      some ((strconv.ParseFloat t).2.getD (.wktInvalidSignedNumericLiteral t))) ∧
    (∀ p : parser, p.nextSignedNumericLiteral.2.err = none →
      math.IsNaN p.nextSignedNumericLiteral.1 = false ∧
        math.IsInf p.nextSignedNumericLiteral.1 = false) ∧
    (∀ p : parser, p.nextPoint.2.err = none →
      ∃ vx vy, p.nextSignedNumericLiteral.1 = .finite vx ∧
        p.nextSignedNumericLiteral.2.nextSignedNumericLiteral.1 = .finite vy ∧
        p.nextPoint.1 = ⟨⟨vx, vy⟩⟩) ∧
    (∀ (r2 : List Token) (opts2 : List ConstructorOption) (g : Geometry),
      UnmarshalWKT r2 opts2 = .ok g →
        ∀ t2 ∈ r2, math.IsNaN (strconv.ParseFloat t2).1 = false ∧
          math.IsInf (strconv.ParseFloat t2).1 = false) ∧
    (strconv.ParseFloat .overflow =
        (.inf false, some (.wktParseFloatRange .overflow)) ∧
      Token.notFinite .overflow = true) := by
  refine ⟨UnmarshalWKT_not_finite r opts t ht hbad,
    fun l o k => (nextSignedNumericLiteral_bad t hbad l o k).1,
    fun l o k => (nextSignedNumericLiteral_bad t hbad l o k).2,
    nextSignedNumericLiteral_finite, nextPoint_finite, ?_, rfl, rfl⟩
  intro r2 opts2 g h t2 ht2
  have := UnmarshalWKT_ok_tokens r2 opts2 g h t2 ht2
  simpa [Token.notFinite] using this

/-- Witness for C26: POINT(NaN 1), POINT(- Infinity 1) and POINT(1e999 0) are
errors. -/
theorem UnmarshalWKT_rejects_NaN_Inf_witness :
    (∃ e, UnmarshalWKT [.text "POINT", .text "(", .text "NaN", .number 1, .text ")"] [] =
      .error e) ∧
    UnmarshalWKT [.text "POINT", .text "(", .text "NaN", .number 1, .text ")"] [] =
      .error (.wktInvalidSignedNumericLiteral (.text "NaN")) ∧
    UnmarshalWKT [.text "POINT", .text "(", .text "-", .text "Infinity", .number 1, .text ")"]
      [] = .error (.wktInvalidSignedNumericLiteral (.text "Infinity")) ∧
    UnmarshalWKT [.text "POINT", .text "(", .overflow, .number 0, .text ")"] [] =
      .error (.wktParseFloatRange .overflow) ∧
    UnmarshalWKT [.text "POINT", .text "(", .text "-", .overflow, .number 0, .text ")"] [] =
      .error (.wktParseFloatRange .overflow) :=
  ⟨(UnmarshalWKT_rejects_NaN_Inf
      [.text "POINT", .text "(", .text "NaN", .number 1, .text ")"] [] (.text "NaN")
      (by simp) (by decide)).1, rfl, rfl, rfl, rfl⟩

end Geom
